import Mathlib

/-!
# CU data container of the encoder (`source/common/cudata.cpp`)

A shallow embedding of the coding-unit data container: its per-partition
attribute arrays laid out back to back in one slab of bytes, the
size-specialised bulk copy / broadcast primitives, and the lifecycle and
copy operations built from them.

Conventions of the embedding

* a byte is a number below 256 (`Byte`); a block of bytes is a total map
  from addresses to bytes (`Mem`); pointers are addresses;
* every container carries its own image of the pool it points into: the
  pools are partitioned so that distinct containers never share bytes;
* `uint32_t` arithmetic is written on `Nat` with an explicit `% 2 ^ 32`;
* a call through a null function pointer, a null dereference and a division
  by zero make the operation return `none`;
* `X265_CHECK` is a debug-only assertion and is compiled out.
-/

namespace X265

/-! ## Bytes and memory blocks -/

/-- A byte (`uint8_t`). -/
abbrev Byte := Fin 256

/-- A block of bytes addressed from zero. -/
abbrev Mem := Nat → Byte

/-- Conversion `(uint8_t)n` of an unsigned value. -/
def u8 (n : Nat) : Byte := ⟨n % 256, Nat.mod_lt n (by decide)⟩

/-- Conversion `(uint8_t)v` of a signed `int` value. -/
def u8i (v : Int) : Byte := u8 (v % 256).toNat

/-- Value of a byte read through a `char*` (signed 8-bit). -/
def asChar (b : Byte) : Int := if b.val < 128 then (b.val : Int) else (b.val : Int) - 256

/-- Conversion to `uint32_t`. -/
def u32 (n : Nat) : Nat := n % 2 ^ 32

/-- Library `memcpy` over `n` elements: `dst[d .. d+n) := src[s .. s+n)`. -/
def memcpy {α : Type} (dst : Nat → α) (d : Nat) (src : Nat → α) (s n : Nat) : Nat → α :=
  fun x => if d ≤ x ∧ x < d + n then src (s + (x - d)) else dst x

/-- Library `memset` over `n` elements: `dst[d .. d+n) := val`. -/
def memset {α : Type} (dst : Nat → α) (d : Nat) (val : α) (n : Nat) : Nat → α :=
  fun x => if d ≤ x ∧ x < d + n then val else dst x

/-- Byte `k` of a machine word. -/
def byteOf (w k : Nat) : Byte := u8 (w / 256 ^ k)

/-- The 32-bit word at byte address `a` (`((uint32_t*)p)[0]`). -/
def loadU32 (m : Mem) (a : Nat) : Nat :=
  (m a).val + (m (a + 1)).val * 256 + (m (a + 2)).val * 256 ^ 2 + (m (a + 3)).val * 256 ^ 3

/-- Store of a 32-bit word at byte address `a`. -/
def storeU32 (m : Mem) (a w : Nat) : Mem :=
  fun x => if a ≤ x ∧ x < a + 4 then byteOf w (x - a) else m x

/-- The 64-bit word at byte address `a` (`((uint64_t*)p)[0]`). -/
def loadU64 (m : Mem) (a : Nat) : Nat :=
  (m a).val + (m (a + 1)).val * 256 + (m (a + 2)).val * 256 ^ 2 + (m (a + 3)).val * 256 ^ 3
    + (m (a + 4)).val * 256 ^ 4 + (m (a + 5)).val * 256 ^ 5 + (m (a + 6)).val * 256 ^ 6
    + (m (a + 7)).val * 256 ^ 7

/-- Store of a 64-bit word at byte address `a`. -/
def storeU64 (m : Mem) (a w : Nat) : Mem :=
  fun x => if a ≤ x ∧ x < a + 8 then byteOf w (x - a) else m x

/-! ## Size-specialised copy and broadcast (file-private functions) -/

/-- Source function `copy4`: one 32-bit word. -/
def copy4 (dst : Mem) (d : Nat) (src : Mem) (s : Nat) : Mem :=
  storeU32 dst d (loadU32 src s)

/-- Source function `bcast4`: one 32-bit word `0x01010101 * val`. -/
def bcast4 (dst : Mem) (d : Nat) (val : Byte) : Mem :=
  storeU32 dst d (u32 (0x01010101 * val.val))

/-- Source function `copy16`: two 64-bit words. -/
def copy16 (dst : Mem) (d : Nat) (src : Mem) (s : Nat) : Mem :=
  let m := storeU64 dst d (loadU64 src s)
  storeU64 m (d + 8) (loadU64 src (s + 8))

/-- Source function `bcast16`: two 64-bit words `0x0101010101010101 * val`. -/
def bcast16 (dst : Mem) (d : Nat) (val : Byte) : Mem :=
  let bval := (0x0101010101010101 * val.val) % 2 ^ 64
  let m := storeU64 dst d bval
  storeU64 m (d + 8) bval

/-- Source function `copy64`: eight 64-bit words. -/
def copy64 (dst : Mem) (d : Nat) (src : Mem) (s : Nat) : Mem :=
  let m := storeU64 dst d (loadU64 src s)
  let m := storeU64 m (d + 8) (loadU64 src (s + 8))
  let m := storeU64 m (d + 16) (loadU64 src (s + 16))
  let m := storeU64 m (d + 24) (loadU64 src (s + 24))
  let m := storeU64 m (d + 32) (loadU64 src (s + 32))
  let m := storeU64 m (d + 40) (loadU64 src (s + 40))
  let m := storeU64 m (d + 48) (loadU64 src (s + 48))
  storeU64 m (d + 56) (loadU64 src (s + 56))

/-- Source function `bcast64`: eight 64-bit words `0x0101010101010101 * val`. -/
def bcast64 (dst : Mem) (d : Nat) (val : Byte) : Mem :=
  let bval := (0x0101010101010101 * val.val) % 2 ^ 64
  let m := storeU64 dst d bval
  let m := storeU64 m (d + 8) bval
  let m := storeU64 m (d + 16) bval
  let m := storeU64 m (d + 24) bval
  let m := storeU64 m (d + 32) bval
  let m := storeU64 m (d + 40) bval
  let m := storeU64 m (d + 48) bval
  storeU64 m (d + 56) bval

/-- Source function `copy256`: `memcpy(dst, src, 256)`. -/
def copy256 (dst : Mem) (d : Nat) (src : Mem) (s : Nat) : Mem :=
  memcpy dst d src s 256

/-- Source function `bcast256`: `memset(dst, val, 256)`. -/
def bcast256 (dst : Mem) (d : Nat) (val : Byte) : Mem :=
  memset dst d val 256

/-! ## Constants and global tables

The header that declares them is not part of `cudata.cpp`. -/

/-- Modelled from the spec: the number of per-partition attribute bytes
(`BytesPerPartition` of the missing header). `initialize` lays out twenty
arrays and checks that they consume exactly `numPartition * BytesPerPartition`
bytes, which fixes the value. -/
def BytesPerPartition : Nat := 20

/-- Modelled from the spec: the "no partition" size marker of the missing header. -/
def SIZE_NONE : Nat := 15

/-- Modelled from the spec: the "no mode" prediction marker of the missing header. -/
def MODE_NONE : Nat := 0

/-- Modelled from the spec: the DC intra direction of the missing header. -/
def DC_IDX : Nat := 1

/-- Modelled from the spec: the slice type of an intra-only slice (missing header). -/
def I_SLICE : Nat := 2

/-- Modelled from the spec: the invalid reference index of the missing header. -/
def NOT_VALID : Int := -1

/-- Modelled from the spec: log2 of the minimum partition unit (4 pixels). -/
def LOG2_UNIT_SIZE : Nat := 2

/-- Modelled from the spec: horizontal chroma subsampling shift of a colour
format (`CHROMA_H_SHIFT` of the missing header): one for 4:2:0 and 4:2:2. -/
def CHROMA_H_SHIFT (csp : Int) : Nat := if csp = 1 ∨ csp = 2 then 1 else 0

/-- Modelled from the spec: vertical chroma subsampling shift of a colour
format (`CHROMA_V_SHIFT` of the missing header): one for 4:2:0. -/
def CHROMA_V_SHIFT (csp : Int) : Nat := if csp = 1 then 1 else 0

/-- The run-time globals read by the container. -/
structure Globals where
  /-- Log2 of the maximum CTU size. -/
  g_maxLog2CUSize : Nat
  /-- Depth of the quadtree from the CTU down to the minimum partition unit. -/
  g_maxFullDepth : Nat

/-- Modelled from the spec: the partition count of the maximum CTU
(`NUM_CU_PARTITIONS` of the missing header), a power of four. -/
def NUM_CU_PARTITIONS (g : Globals) : Nat := u32 (1 <<< (g.g_maxFullDepth <<< 1))

/-- Column of a z-scan index: its even bits, over `d` quadtree levels. -/
def zscanCol : Nat → Nat → Nat
  | 0, _ => 0
  | d + 1, z => 2 * zscanCol d (z / 4) + z % 2

/-- Row of a z-scan index: its odd bits, over `d` quadtree levels. -/
def zscanRow : Nat → Nat → Nat
  | 0, _ => 0
  | d + 1, z => 2 * zscanRow d (z / 4) + z / 2 % 2

/-- The z-scan index of a (column, row) pair: the bits interleaved. -/
def zscanOf : Nat → Nat → Nat → Nat
  | 0, _, _ => 0
  | d + 1, x, y => 4 * zscanOf d (x / 2) (y / 2) + 2 * (y % 2) + x % 2

/-- Modelled from the spec: the global table `g_zscanToRaster` of the missing
address translator, from the recursive quadtree order to the row-major order
of the CTU's partition grid. -/
def g_zscanToRaster (g : Globals) (z : Nat) : Nat :=
  zscanRow g.g_maxFullDepth z * 2 ^ g.g_maxFullDepth + zscanCol g.g_maxFullDepth z

/-- Modelled from the spec: the global table `g_rasterToZscan` of the missing
address translator, from the row-major order to the quadtree order. -/
def g_rasterToZscan (g : Globals) (r : Nat) : Nat :=
  zscanOf g.g_maxFullDepth (r % 2 ^ g.g_maxFullDepth) (r / 2 ^ g.g_maxFullDepth)

/-- Modelled from the spec: the global table `g_zscanToPelX` of the missing
address translator, the pixel column of a partition inside its CTU. -/
def g_zscanToPelX (g : Globals) (z : Nat) : Nat :=
  zscanCol g.g_maxFullDepth z <<< LOG2_UNIT_SIZE

/-- Modelled from the spec: the global table `g_zscanToPelY` of the missing
address translator, the pixel row of a partition inside its CTU. -/
def g_zscanToPelY (g : Globals) (z : Nat) : Nat :=
  zscanRow g.g_maxFullDepth z <<< LOG2_UNIT_SIZE

/-! ## Address predicates (file-private functions)

The `int` arguments are kept as their 32-bit patterns. -/

/-- Subtraction of 32-bit values. -/
def sub32 (a b : Nat) : Nat := (a + 2 ^ 32 - b % 2 ^ 32) % 2 ^ 32

/-- Bitwise complement of a 32-bit value. -/
def not32 (a : Nat) : Nat := (2 ^ 32 - 1) ^^^ (a % 2 ^ 32)

/-- Source function `isEqualCol`: the two addresses point to the same column. -/
def isEqualCol (addrA addrB numUnitsPerRow : Nat) : Bool :=
  ((addrA ^^^ addrB) &&& sub32 numUnitsPerRow 1) == 0

/-- Source function `isEqualRow`: the two addresses point to the same row. -/
def isEqualRow (addrA addrB numUnitsPerRow : Nat) : Bool :=
  ((addrA ^^^ addrB) &&& not32 (sub32 numUnitsPerRow 1)) == 0

/-- Source function `isZeroCol`: the address points to the first column. -/
def isZeroCol (addr numUnitsPerRow : Nat) : Bool :=
  (addr &&& sub32 numUnitsPerRow 1) == 0

/-- Source function `isZeroRow`: the address points to the first row. -/
def isZeroRow (addr numUnitsPerRow : Nat) : Bool :=
  (addr &&& not32 (sub32 numUnitsPerRow 1)) == 0

/-! ## Collaborators -/

/-- A motion vector (two 16-bit components). -/
structure MV where
  x : Int
  y : Int
deriving DecidableEq, Repr

/-- Modelled from the spec: the motion-vector field of one reference list (its
class is not part of `cudata.cpp`): per minimum partition unit a motion
vector and a reference index, for `m_numPartitions` units. -/
structure CUMVField where
  m_mv : Nat → MV
  m_refIdx : Nat → Int
  m_numPartitions : Nat

/-- Modelled from the spec: binding a motion-vector field to its pool slice
for `numPartition` units (`CUMVField::initialize`, missing). -/
def CUMVField.initialize (f : CUMVField) (numPartition : Nat) : CUMVField :=
  { f with m_numPartitions := numPartition }

/-- Modelled from the spec: bulk clear of a motion-vector field
(`clearMvField`, missing): every unit of the field loses its reference. -/
def CUMVField.clearMvField (f : CUMVField) : CUMVField :=
  { f with m_refIdx := memset f.m_refIdx 0 NOT_VALID f.m_numPartitions }

/-- Modelled from the spec: bulk copy into a motion-vector field at an offset
(`copyFrom`, missing): `numPartSrc` units of `src` land at `partAddrDst`. -/
def CUMVField.copyFrom (f src : CUMVField) (numPartSrc partAddrDst : Nat) : CUMVField :=
  { f with
    m_mv := memcpy f.m_mv partAddrDst src.m_mv 0 numPartSrc
    m_refIdx := memcpy f.m_refIdx partAddrDst src.m_refIdx 0 numPartSrc }

/-- Modelled from the spec: bulk copy of a whole motion-vector field into
another one at an offset (`copyTo`, missing); the result is the destination. -/
def CUMVField.copyTo (f dst : CUMVField) (partAddrDst : Nat) : CUMVField :=
  dst.copyFrom f f.m_numPartitions partAddrDst

/-- The slice parameters read through `m_slice`, with the parameter-set fields
read through `m_slice->m_sps`. A reference picture is named by a handle; the
CTU-resident containers of the picture with handle `h` are given separately. -/
structure Slice where
  m_sliceType : Nat
  /-- Picture order count of the slice. -/
  m_poc : Int := 0
  /-- Reference POC per list and reference index: `m_refPOCList[list][idx]`. -/
  m_refPOCList : Int → Int → Int := fun _ _ => 0
  /-- Number of reference indices per list: `m_numRefIdx[list]`. -/
  m_numRefIdx : Int → Int := fun _ => 1
  m_maxNumMergeCand : Nat := 5
  m_colFromL0Flag : Bool := true
  m_colRefIdx : Nat := 0
  m_bCheckLDC : Bool := false
  /-- Reference pictures per list and index (null or a handle): `m_refPicList[list][idx]`. -/
  m_refPicList : Int → Nat → Option Nat := fun _ _ => none
  /-- Picture width: `m_sps->picWidthInLumaSamples`. -/
  picWidthInLumaSamples : Nat := 0
  /-- Picture height: `m_sps->picHeightInLumaSamples`. -/
  picHeightInLumaSamples : Nat := 0
  /-- Depth of the quantization groups: `m_pps->maxCuDQPDepth`. -/
  maxCuDQPDepth : Nat := 0
  /-- Wavefront flag: `m_pps->bEntropyCodingSyncEnabled`. -/
  bEntropyCodingSyncEnabled : Bool := false
  /-- Initial QP of the slice: `m_sliceQp`. -/
  m_sliceQp : Int := 0

/-- The frame parameters read through `m_frame`. -/
structure Frame where
  /-- Width of the picture in CTUs: `m_origPicYuv->m_numCuInWidth`. -/
  m_numCuInWidth : Nat
  /-- Encoder-wide lossless flag: `m_encData->m_param->bLossless`. -/
  bLossless : Int
  /-- Governing slice: `m_encData->m_slice`. -/
  m_slice : Option Slice
  /-- Partitions per CTU row: `m_encData->m_numPartInCUSize`. -/
  m_numPartInCUSize : Nat
  /-- Picture width in pixels: `m_origPicYuv->m_picWidth`. -/
  m_picWidth : Nat := 0
  /-- Picture height in pixels: `m_origPicYuv->m_picHeight`. -/
  m_picHeight : Nat := 0

/-- The quadtree descriptor of one node. -/
structure CUGeom where
  log2CUSize : Nat
  childOffset : Nat
  encodeIdx : Nat
  numPartitions : Nat
  depth : Nat
  flags : Nat
deriving DecidableEq, Repr

/-- Sub-part and whole-part copy functions a container can point to. -/
inductive cucopy_t where
  | copy4 | copy16 | copy64 | copy256
deriving DecidableEq, Repr

/-- Broadcast functions a container can point to. -/
inductive cubcast_t where
  | bcast4 | bcast16 | bcast64 | bcast256
deriving DecidableEq, Repr

/-- Call through a copy function pointer. -/
def cucopy_t.call (f : cucopy_t) (dst : Mem) (d : Nat) (src : Mem) (s : Nat) : Mem :=
  match f with
  | .copy4 => X265.copy4 dst d src s
  | .copy16 => X265.copy16 dst d src s
  | .copy64 => X265.copy64 dst d src s
  | .copy256 => X265.copy256 dst d src s

/-- Call through a broadcast function pointer. -/
def cubcast_t.call (f : cubcast_t) (dst : Mem) (d : Nat) (val : Byte) : Mem :=
  match f with
  | .bcast4 => X265.bcast4 dst d val
  | .bcast16 => X265.bcast16 dst d val
  | .bcast64 => X265.bcast64 dst d val
  | .bcast256 => X265.bcast256 dst d val

/-- A `const CUData*` result of a neighbour query. -/
inductive CUPtr where
  /-- The null pointer `NULL`. -/
  | null
  /-- The queried container itself. -/
  | thisCU
  /-- The CTU-resident container `getPicCTU(cuAddr)`. -/
  | picCTU (cuAddr : Nat)
deriving DecidableEq, Repr

/-! ## The container -/

/-- The CU data container. Pointers into the attribute slab and into the
coefficient pool are addresses into the container's images of those pools;
a neighbour reference is the address of a CTU of the frame, or null. -/
structure CUData where
  m_frame : Option Frame
  m_slice : Option Slice
  m_cuAddr : Nat
  m_cuPelX : Nat
  m_cuPelY : Nat
  m_absIdxInCTU : Nat
  m_numPartitions : Nat
  m_hChromaShift : Nat
  m_vChromaShift : Nat
  m_chromaFormat : Int
  m_cuMvField0 : CUMVField
  m_cuMvField1 : CUMVField
  /-- Image of `dataPool->charMemBlock`. -/
  charMemBlock : Mem
  /-- Image of `dataPool->trCoeffMemBlock`. -/
  trCoeffMemBlock : Nat → Int
  m_qp : Nat
  m_log2CUSize : Nat
  m_partSizes : Nat
  m_predModes : Nat
  m_lumaIntraDir : Nat
  m_cuTransquantBypass : Nat
  m_depth : Nat
  m_skipFlag : Nat
  m_bMergeFlags : Nat
  m_interDir : Nat
  m_mvpIdx0 : Nat
  m_mvpIdx1 : Nat
  m_trIdx : Nat
  m_transformSkip0 : Nat
  m_transformSkip1 : Nat
  m_transformSkip2 : Nat
  m_cbf0 : Nat
  m_cbf1 : Nat
  m_cbf2 : Nat
  m_chromaIntraDir : Nat
  m_trCoeff0 : Nat
  m_trCoeff1 : Nat
  m_trCoeff2 : Nat
  m_partCopy : Option cucopy_t
  m_partSet : Option cubcast_t
  m_subPartCopy : Option cucopy_t
  m_cuLeft : Option Nat
  m_cuAbove : Option Nat
  m_cuAboveLeft : Option Nat
  m_cuAboveRight : Option Nat

/-- The twenty per-partition attribute arrays. -/
inductive Attr where
  | qp | log2CUSize | partSizes | predModes | lumaIntraDir | cuTransquantBypass
  | depth | skipFlag | bMergeFlags | interDir | mvpIdx0 | mvpIdx1 | trIdx
  | transformSkip0 | transformSkip1 | transformSkip2 | cbf0 | cbf1 | cbf2
  | chromaIntraDir
deriving DecidableEq, Repr

/-- The pointer member of an attribute array. -/
def CUData.ptr (cu : CUData) : Attr → Nat
  | .qp => cu.m_qp
  | .log2CUSize => cu.m_log2CUSize
  | .partSizes => cu.m_partSizes
  | .predModes => cu.m_predModes
  | .lumaIntraDir => cu.m_lumaIntraDir
  | .cuTransquantBypass => cu.m_cuTransquantBypass
  | .depth => cu.m_depth
  | .skipFlag => cu.m_skipFlag
  | .bMergeFlags => cu.m_bMergeFlags
  | .interDir => cu.m_interDir
  | .mvpIdx0 => cu.m_mvpIdx0
  | .mvpIdx1 => cu.m_mvpIdx1
  | .trIdx => cu.m_trIdx
  | .transformSkip0 => cu.m_transformSkip0
  | .transformSkip1 => cu.m_transformSkip1
  | .transformSkip2 => cu.m_transformSkip2
  | .cbf0 => cu.m_cbf0
  | .cbf1 => cu.m_cbf1
  | .cbf2 => cu.m_cbf2
  | .chromaIntraDir => cu.m_chromaIntraDir

/-- The array read `cu.m_attr[i]`. -/
def CUData.get (cu : CUData) (a : Attr) (i : Nat) : Byte :=
  cu.charMemBlock (cu.ptr a + i)

/-- The empty motion-vector field of a zeroed container. -/
def CUMVField.zero : CUMVField :=
  { m_mv := fun _ => ⟨0, 0⟩, m_refIdx := fun _ => 0, m_numPartitions := 0 }

/-- Source function `CUData::CUData()`: every member zeroed; the pool images start zeroed. -/
def CUData.zero : CUData :=
  { m_frame := none, m_slice := none, m_cuAddr := 0, m_cuPelX := 0, m_cuPelY := 0,
    m_absIdxInCTU := 0, m_numPartitions := 0, m_hChromaShift := 0, m_vChromaShift := 0,
    m_chromaFormat := 0, m_cuMvField0 := CUMVField.zero, m_cuMvField1 := CUMVField.zero,
    charMemBlock := fun _ => 0, trCoeffMemBlock := fun _ => 0,
    m_qp := 0, m_log2CUSize := 0, m_partSizes := 0, m_predModes := 0, m_lumaIntraDir := 0,
    m_cuTransquantBypass := 0, m_depth := 0, m_skipFlag := 0, m_bMergeFlags := 0,
    m_interDir := 0, m_mvpIdx0 := 0, m_mvpIdx1 := 0, m_trIdx := 0, m_transformSkip0 := 0,
    m_transformSkip1 := 0, m_transformSkip2 := 0, m_cbf0 := 0, m_cbf1 := 0, m_cbf2 := 0,
    m_chromaIntraDir := 0, m_trCoeff0 := 0, m_trCoeff1 := 0, m_trCoeff2 := 0,
    m_partCopy := none, m_partSet := none, m_subPartCopy := none,
    m_cuLeft := none, m_cuAbove := none, m_cuAboveLeft := none, m_cuAboveRight := none }

/-! ## Lifecycle operations -/

/-- Source function `CUData::initialize`: binds the attribute pointers into the slab of the
pool selected by `index`, selects the copy and broadcast functions by
partition count, and binds the coefficient pointers. An unsupported
partition count leaves the three function pointers as they were. -/
def CUData.initialize (self : CUData) (numPartition cuSize : Nat) (csp : Int) (index : Nat) :
    CUData :=
  let hChromaShift := CHROMA_H_SHIFT csp
  let vChromaShift := CHROMA_V_SHIFT csp
  let charBuf := u32 (u32 (numPartition * BytesPerPartition) * index)
  let qp := charBuf
  let charBuf := charBuf + numPartition
  let log2CUSize := charBuf
  let charBuf := charBuf + numPartition
  let partSizes := charBuf
  let charBuf := charBuf + numPartition
  let predModes := charBuf
  let charBuf := charBuf + numPartition
  let lumaIntraDir := charBuf
  let charBuf := charBuf + numPartition
  let cuTransquantBypass := charBuf
  let charBuf := charBuf + numPartition
  let depth := charBuf
  let charBuf := charBuf + numPartition
  let skipFlag := charBuf
  let charBuf := charBuf + numPartition
  let bMergeFlags := charBuf
  let charBuf := charBuf + numPartition
  let interDir := charBuf
  let charBuf := charBuf + numPartition
  let mvpIdx0 := charBuf
  let charBuf := charBuf + numPartition
  let mvpIdx1 := charBuf
  let charBuf := charBuf + numPartition
  let trIdx := charBuf
  let charBuf := charBuf + numPartition
  let transformSkip0 := charBuf
  let charBuf := charBuf + numPartition
  let transformSkip1 := charBuf
  let charBuf := charBuf + numPartition
  let transformSkip2 := charBuf
  let charBuf := charBuf + numPartition
  let cbf0 := charBuf
  let charBuf := charBuf + numPartition
  let cbf1 := charBuf
  let charBuf := charBuf + numPartition
  let cbf2 := charBuf
  let charBuf := charBuf + numPartition
  let chromaIntraDir := charBuf
  let partCopy : Option cucopy_t :=
    if numPartition = 256 then some .copy256
    else if numPartition = 64 then some .copy64
    else if numPartition = 16 then some .copy16
    else if numPartition = 4 then some .copy4
    else self.m_partCopy
  let partSet : Option cubcast_t :=
    if numPartition = 256 then some .bcast256
    else if numPartition = 64 then some .bcast64
    else if numPartition = 16 then some .bcast16
    else if numPartition = 4 then some .bcast4
    else self.m_partSet
  let subPartCopy : Option cucopy_t :=
    if numPartition = 256 then some .copy64
    else if numPartition = 64 then some .copy16
    else if numPartition = 16 then some .copy4
    else if numPartition = 4 then none
    else self.m_subPartCopy
  let sizeL := u32 (cuSize * cuSize)
  let sizeC := sizeL >>> (hChromaShift + vChromaShift)
  let trCoeff0 := u32 (index * u32 (sizeL + u32 (sizeC * 2)))
  { self with
    m_hChromaShift := hChromaShift
    m_vChromaShift := vChromaShift
    m_chromaFormat := csp
    m_numPartitions := numPartition
    m_cuMvField0 := CUMVField.initialize self.m_cuMvField0 numPartition
    m_cuMvField1 := CUMVField.initialize self.m_cuMvField1 numPartition
    m_qp := qp
    m_log2CUSize := log2CUSize
    m_partSizes := partSizes
    m_predModes := predModes
    m_lumaIntraDir := lumaIntraDir
    m_cuTransquantBypass := cuTransquantBypass
    m_depth := depth
    m_skipFlag := skipFlag
    m_bMergeFlags := bMergeFlags
    m_interDir := interDir
    m_mvpIdx0 := mvpIdx0
    m_mvpIdx1 := mvpIdx1
    m_trIdx := trIdx
    m_transformSkip0 := transformSkip0
    m_transformSkip1 := transformSkip1
    m_transformSkip2 := transformSkip2
    m_cbf0 := cbf0
    m_cbf1 := cbf1
    m_cbf2 := cbf2
    m_chromaIntraDir := chromaIntraDir
    m_partCopy := partCopy
    m_partSet := partSet
    m_subPartCopy := subPartCopy
    m_trCoeff0 := trCoeff0
    m_trCoeff1 := trCoeff0 + sizeL
    m_trCoeff2 := trCoeff0 + sizeL + sizeC }

/-- Source function `CUData::initCTU`: resets a CTU root to its defaults and derives the four
neighbour references. A neighbour reference `getPicCTU(a)` is the address `a`. -/
def CUData.initCTU (self : CUData) (g : Globals) (frame : Frame) (cuAddr : Nat) (qp : Int) :
    Option CUData :=
  if frame.m_numCuInWidth = 0 then none
  else
    match self.m_partSet with
    | none => none
    | some partSet =>
      let numPartitions := NUM_CU_PARTITIONS g
      let m := partSet.call self.charMemBlock self.m_qp (u8i qp)
      let m := partSet.call m self.m_log2CUSize (u8 g.g_maxLog2CUSize)
      let m := partSet.call m self.m_partSizes (u8 SIZE_NONE)
      let m := partSet.call m self.m_predModes (u8 MODE_NONE)
      let m := partSet.call m self.m_lumaIntraDir (u8 DC_IDX)
      let m := partSet.call m self.m_cuTransquantBypass (u8i frame.bLossless)
      let m := memset m self.m_depth (u8 0) (u32 ((BytesPerPartition - 6) * numPartitions))
      let widthInCU := frame.m_numCuInWidth
      let cuLeft : Option Nat :=
        if cuAddr % widthInCU ≠ 0 then some (sub32 cuAddr 1) else none
      let cuAbove : Option Nat :=
        if cuAddr / widthInCU ≠ 0 then some (sub32 cuAddr widthInCU) else none
      let cuAboveLeft : Option Nat :=
        if cuLeft.isSome ∧ cuAbove.isSome then some (sub32 (sub32 cuAddr widthInCU) 1) else none
      let cuAboveRight : Option Nat :=
        if cuAbove.isSome ∧ cuAddr % widthInCU < sub32 widthInCU 1 then
          some (u32 (sub32 cuAddr widthInCU + 1))
        else none
      some { self with
        m_frame := some frame
        m_slice := frame.m_slice
        m_cuAddr := cuAddr
        m_cuPelX := u32 ((cuAddr % widthInCU) <<< g.g_maxLog2CUSize)
        m_cuPelY := u32 ((cuAddr / widthInCU) <<< g.g_maxLog2CUSize)
        m_absIdxInCTU := 0
        m_numPartitions := numPartitions
        charMemBlock := m
        m_cuMvField0 := self.m_cuMvField0.clearMvField
        m_cuMvField1 := self.m_cuMvField1.clearMvField
        m_cuLeft := cuLeft
        m_cuAbove := cuAbove
        m_cuAboveLeft := cuAboveLeft
        m_cuAboveRight := cuAboveRight }

/-- Source function `CUData::initSubCU`: resets a sub-node for one quadtree split, reusing the
frame, slice and neighbour references of the CTU. -/
def CUData.initSubCU (self : CUData) (g : Globals) (ctu : CUData) (cuGeom : CUGeom) :
    Option CUData :=
  match self.m_partSet, ctu.m_frame, ctu.m_slice with
  | some partSet, some frame, some slice =>
    let numPartitions := cuGeom.numPartitions
    let m := partSet.call self.charMemBlock self.m_qp (ctu.get .qp 0)
    let m := partSet.call m self.m_log2CUSize (u8 cuGeom.log2CUSize)
    let m := partSet.call m self.m_partSizes (u8 SIZE_NONE)
    let m := partSet.call m self.m_predModes (u8 MODE_NONE)
    let m := partSet.call m self.m_lumaIntraDir (u8 DC_IDX)
    let m := partSet.call m self.m_cuTransquantBypass (u8i frame.bLossless)
    let m := partSet.call m self.m_depth (u8 cuGeom.depth)
    let m := memset m self.m_skipFlag (u8 0) (u32 ((BytesPerPartition - 7) * numPartitions))
    let clear := slice.m_sliceType ≠ I_SLICE
    some { self with
      m_absIdxInCTU := cuGeom.encodeIdx
      m_numPartitions := numPartitions
      m_frame := ctu.m_frame
      m_slice := ctu.m_slice
      m_cuAddr := ctu.m_cuAddr
      m_cuPelX := u32 (ctu.m_cuPelX + g_zscanToPelX g cuGeom.encodeIdx)
      m_cuPelY := u32 (ctu.m_cuPelY + g_zscanToPelY g cuGeom.encodeIdx)
      m_cuLeft := ctu.m_cuLeft
      m_cuAbove := ctu.m_cuAbove
      m_cuAboveLeft := ctu.m_cuAboveLeft
      m_cuAboveRight := ctu.m_cuAboveRight
      charMemBlock := m
      m_cuMvField0 := if clear then self.m_cuMvField0.clearMvField else self.m_cuMvField0
      m_cuMvField1 := if clear then self.m_cuMvField1.clearMvField else self.m_cuMvField1 }
  | _, _, _ => none

/-- Source function `CUData::initLosslessCU`: an exact copy of `cu`, then the transquant-bypass
flag forced to true and the residual coding flags cleared. -/
def CUData.initLosslessCU (self : CUData) (cu : CUData) (cuGeom : CUGeom) : Option CUData :=
  match self.m_partSet with
  | none => none
  | some partSet =>
    let numPartitions := cuGeom.numPartitions
    let m := memcpy self.charMemBlock self.m_qp cu.charMemBlock cu.m_qp
      (u32 (BytesPerPartition * numPartitions))
    let mv0 := self.m_cuMvField0.copyFrom cu.m_cuMvField0 numPartitions 0
    let mv1 := self.m_cuMvField1.copyFrom cu.m_cuMvField1 numPartitions 0
    let m := partSet.call m self.m_cuTransquantBypass (u8 1)
    let m := partSet.call m self.m_skipFlag (u8 0)
    let m := partSet.call m self.m_trIdx (u8 0)
    let m := partSet.call m self.m_transformSkip0 (u8 0)
    let m := partSet.call m self.m_transformSkip1 (u8 0)
    let m := partSet.call m self.m_transformSkip2 (u8 0)
    let m := partSet.call m self.m_cbf0 (u8 0)
    let m := partSet.call m self.m_cbf1 (u8 0)
    let m := partSet.call m self.m_cbf2 (u8 0)
    some { self with
      m_absIdxInCTU := cuGeom.encodeIdx
      m_numPartitions := numPartitions
      m_frame := cu.m_frame
      m_slice := cu.m_slice
      m_cuAddr := cu.m_cuAddr
      m_cuPelX := cu.m_cuPelX
      m_cuPelY := cu.m_cuPelY
      m_cuLeft := cu.m_cuLeft
      m_cuAbove := cu.m_cuAbove
      m_cuAboveLeft := cu.m_cuAboveLeft
      m_cuAboveRight := cu.m_cuAboveRight
      charMemBlock := m
      m_cuMvField0 := mv0
      m_cuMvField1 := mv1 }

/-! ## Copy and merge operations -/

/-- Source function `CUData::copyFromPic`: pulls seven attribute arrays of the node from the
CTU-resident container. -/
def CUData.copyFromPic (self : CUData) (g : Globals) (ctu : CUData) (cuGeom : CUGeom) :
    Option CUData :=
  match self.m_partCopy with
  | none => none
  | some partCopy =>
    let absIdxInCTU := cuGeom.encodeIdx
    let m := partCopy.call self.charMemBlock self.m_qp ctu.charMemBlock (ctu.m_qp + absIdxInCTU)
    let m := partCopy.call m self.m_log2CUSize ctu.charMemBlock (ctu.m_log2CUSize + absIdxInCTU)
    let m := partCopy.call m self.m_partSizes ctu.charMemBlock (ctu.m_partSizes + absIdxInCTU)
    let m := partCopy.call m self.m_predModes ctu.charMemBlock (ctu.m_predModes + absIdxInCTU)
    let m := partCopy.call m self.m_lumaIntraDir ctu.charMemBlock
      (ctu.m_lumaIntraDir + absIdxInCTU)
    let m := partCopy.call m self.m_skipFlag ctu.charMemBlock (ctu.m_skipFlag + absIdxInCTU)
    let m := partCopy.call m self.m_depth ctu.charMemBlock (ctu.m_depth + absIdxInCTU)
    some { self with
      m_frame := ctu.m_frame
      m_slice := ctu.m_slice
      m_cuAddr := ctu.m_cuAddr
      m_cuPelX := u32 (ctu.m_cuPelX + g_zscanToPelX g cuGeom.encodeIdx)
      m_cuPelY := u32 (ctu.m_cuPelY + g_zscanToPelY g cuGeom.encodeIdx)
      m_absIdxInCTU := absIdxInCTU
      m_numPartitions := cuGeom.numPartitions
      charMemBlock := m }

/-- Source function `CUData::copyPartFrom`: splices a quadrant-sized container into this one at
the quadrant's offset. -/
def CUData.copyPartFrom (self : CUData) (g : Globals) (cu : CUData)
    (numPartitions partUnitIdx depth : Nat) : Option CUData :=
  match self.m_subPartCopy with
  | none => none
  | some subPartCopy =>
    let offset := u32 (numPartitions * partUnitIdx)
    let s := cu.charMemBlock
    let m := subPartCopy.call self.charMemBlock (self.m_qp + offset) s cu.m_qp
    let m := subPartCopy.call m (self.m_partSizes + offset) s cu.m_partSizes
    let m := subPartCopy.call m (self.m_depth + offset) s cu.m_depth
    let m := subPartCopy.call m (self.m_transformSkip0 + offset) s cu.m_transformSkip0
    let m := subPartCopy.call m (self.m_transformSkip1 + offset) s cu.m_transformSkip1
    let m := subPartCopy.call m (self.m_transformSkip2 + offset) s cu.m_transformSkip2
    let m := subPartCopy.call m (self.m_skipFlag + offset) s cu.m_skipFlag
    let m := subPartCopy.call m (self.m_predModes + offset) s cu.m_predModes
    let m := subPartCopy.call m (self.m_log2CUSize + offset) s cu.m_log2CUSize
    let m := subPartCopy.call m (self.m_trIdx + offset) s cu.m_trIdx
    let m := subPartCopy.call m (self.m_cbf0 + offset) s cu.m_cbf0
    let m := subPartCopy.call m (self.m_cbf1 + offset) s cu.m_cbf1
    let m := subPartCopy.call m (self.m_cbf2 + offset) s cu.m_cbf2
    let m := subPartCopy.call m (self.m_bMergeFlags + offset) s cu.m_bMergeFlags
    let m := subPartCopy.call m (self.m_lumaIntraDir + offset) s cu.m_lumaIntraDir
    let m := subPartCopy.call m (self.m_chromaIntraDir + offset) s cu.m_chromaIntraDir
    let m := subPartCopy.call m (self.m_interDir + offset) s cu.m_interDir
    let m := subPartCopy.call m (self.m_mvpIdx0 + offset) s cu.m_mvpIdx0
    let m := subPartCopy.call m (self.m_mvpIdx1 + offset) s cu.m_mvpIdx1
    let m := subPartCopy.call m (self.m_cuTransquantBypass + offset) s cu.m_cuTransquantBypass
    let mv0 := self.m_cuMvField0.copyFrom cu.m_cuMvField0 numPartitions offset
    let mv1 := self.m_cuMvField1.copyFrom cu.m_cuMvField1 numPartitions offset
    let tmp := u32 (1 <<< u32 (sub32 g.g_maxLog2CUSize depth * 2))
    let tmp2 := u32 (partUnitIdx * tmp)
    let c := memcpy self.trCoeffMemBlock (self.m_trCoeff0 + tmp2) cu.trCoeffMemBlock
      cu.m_trCoeff0 tmp
    let tmpC := tmp >>> (self.m_hChromaShift + self.m_vChromaShift)
    let tmpC2 := tmp2 >>> (self.m_hChromaShift + self.m_vChromaShift)
    let c := memcpy c (self.m_trCoeff1 + tmpC2) cu.trCoeffMemBlock cu.m_trCoeff1 tmpC
    let c := memcpy c (self.m_trCoeff2 + tmpC2) cu.trCoeffMemBlock cu.m_trCoeff2 tmpC
    some { self with
      charMemBlock := m
      m_cuMvField0 := mv0
      m_cuMvField1 := mv1
      trCoeffMemBlock := c }

/-- Source function `CUData::copyToPic`: writes the node into the CTU-resident container
`getPicCTU(m_cuAddr)` of the frame's CTU array `pic`; the result is the array
after the call. -/
def CUData.copyToPic (self : CUData) (g : Globals) (depth : Nat) (pic : Nat → CUData) :
    Option (Nat → CUData) :=
  match self.m_frame, self.m_partCopy with
  | some _, some partCopy =>
    let ctu := pic self.m_cuAddr
    let a := self.m_absIdxInCTU
    let s := self.charMemBlock
    let m := partCopy.call ctu.charMemBlock (ctu.m_qp + a) s self.m_qp
    let m := partCopy.call m (ctu.m_partSizes + a) s self.m_partSizes
    let m := partCopy.call m (ctu.m_cuTransquantBypass + a) s self.m_cuTransquantBypass
    let m := partCopy.call m (ctu.m_transformSkip0 + a) s self.m_transformSkip0
    let m := partCopy.call m (ctu.m_transformSkip1 + a) s self.m_transformSkip1
    let m := partCopy.call m (ctu.m_transformSkip2 + a) s self.m_transformSkip2
    let m := partCopy.call m (ctu.m_depth + a) s self.m_depth
    let m := partCopy.call m (ctu.m_skipFlag + a) s self.m_skipFlag
    let m := partCopy.call m (ctu.m_predModes + a) s self.m_predModes
    let m := partCopy.call m (ctu.m_log2CUSize + a) s self.m_log2CUSize
    let m := partCopy.call m (ctu.m_trIdx + a) s self.m_trIdx
    let m := partCopy.call m (ctu.m_cbf0 + a) s self.m_cbf0
    let m := partCopy.call m (ctu.m_cbf1 + a) s self.m_cbf1
    let m := partCopy.call m (ctu.m_cbf2 + a) s self.m_cbf2
    let m := partCopy.call m (ctu.m_bMergeFlags + a) s self.m_bMergeFlags
    let m := partCopy.call m (ctu.m_interDir + a) s self.m_interDir
    let m := partCopy.call m (ctu.m_lumaIntraDir + a) s self.m_lumaIntraDir
    let m := partCopy.call m (ctu.m_chromaIntraDir + a) s self.m_chromaIntraDir
    let m := partCopy.call m (ctu.m_mvpIdx0 + a) s self.m_mvpIdx0
    let m := partCopy.call m (ctu.m_mvpIdx1 + a) s self.m_mvpIdx1
    let mv0 := self.m_cuMvField0.copyTo ctu.m_cuMvField0 a
    let mv1 := self.m_cuMvField1.copyTo ctu.m_cuMvField1 a
    let tmpY := u32 (1 <<< u32 (sub32 g.g_maxLog2CUSize depth * 2))
    let tmpY2 := u32 (a <<< (LOG2_UNIT_SIZE * 2))
    let c := memcpy ctu.trCoeffMemBlock (ctu.m_trCoeff0 + tmpY2) self.trCoeffMemBlock
      self.m_trCoeff0 tmpY
    let tmpC := tmpY >>> (self.m_hChromaShift + self.m_vChromaShift)
    let tmpC2 := tmpY2 >>> (self.m_hChromaShift + self.m_vChromaShift)
    let c := memcpy c (ctu.m_trCoeff1 + tmpC2) self.trCoeffMemBlock self.m_trCoeff1 tmpC
    let c := memcpy c (ctu.m_trCoeff2 + tmpC2) self.trCoeffMemBlock self.m_trCoeff2 tmpC
    some (Function.update pic self.m_cuAddr
      { ctu with
        charMemBlock := m
        m_cuMvField0 := mv0
        m_cuMvField1 := mv1
        trCoeffMemBlock := c })
  | _, _ => none

/-- Source function `CUData::updatePic`: writes the fields that residual coding can change
into the CTU-resident container `getPicCTU(m_cuAddr)`; the result is the
frame's CTU array after the call. -/
def CUData.updatePic (self : CUData) (g : Globals) (depth : Nat) (pic : Nat → CUData) :
    Option (Nat → CUData) :=
  match self.m_frame, self.m_partCopy with
  | some _, some partCopy =>
    let ctu := pic self.m_cuAddr
    let a := self.m_absIdxInCTU
    let s := self.charMemBlock
    let m := partCopy.call ctu.charMemBlock (ctu.m_qp + a) s self.m_qp
    let m := partCopy.call m (ctu.m_transformSkip0 + a) s self.m_transformSkip0
    let m := partCopy.call m (ctu.m_transformSkip1 + a) s self.m_transformSkip1
    let m := partCopy.call m (ctu.m_transformSkip2 + a) s self.m_transformSkip2
    let m := partCopy.call m (ctu.m_skipFlag + a) s self.m_skipFlag
    let m := partCopy.call m (ctu.m_trIdx + a) s self.m_trIdx
    let m := partCopy.call m (ctu.m_cbf0 + a) s self.m_cbf0
    let m := partCopy.call m (ctu.m_cbf1 + a) s self.m_cbf1
    let m := partCopy.call m (ctu.m_cbf2 + a) s self.m_cbf2
    let m := partCopy.call m (ctu.m_chromaIntraDir + a) s self.m_chromaIntraDir
    let tmpY := u32 (1 <<< u32 (sub32 g.g_maxLog2CUSize depth * 2))
    let tmpY2 := u32 (a <<< (LOG2_UNIT_SIZE * 2))
    let c := memcpy ctu.trCoeffMemBlock (ctu.m_trCoeff0 + tmpY2) self.trCoeffMemBlock
      self.m_trCoeff0 tmpY
    let tmpY := tmpY >>> (self.m_hChromaShift + self.m_vChromaShift)
    let tmpY2 := tmpY2 >>> (self.m_hChromaShift + self.m_vChromaShift)
    let c := memcpy c (ctu.m_trCoeff1 + tmpY2) self.trCoeffMemBlock self.m_trCoeff1 tmpY
    let c := memcpy c (ctu.m_trCoeff2 + tmpY2) self.trCoeffMemBlock self.m_trCoeff2 tmpY
    some (Function.update pic self.m_cuAddr
      { ctu with
        charMemBlock := m
        trCoeffMemBlock := c })
  | _, _ => none

/-! ## Neighbour resolution -/

/-- A stored neighbour reference as the result of a query. -/
def CUPtr.ofRef : Option Nat → CUPtr
  | none => .null
  | some a => .picCTU a

/-- Source function `CUData::getPULeft`: the container holding the unit left of
`curPartUnitIdx`, with the value left in `lPartUnitIdx`. -/
def CUData.getPULeft (self : CUData) (g : Globals) (curPartUnitIdx : Nat) :
    Option (CUPtr × Nat) :=
  match self.m_frame with
  | none => none
  | some frame =>
    let absPartIdx := g_zscanToRaster g curPartUnitIdx
    let numPartInCUSize := frame.m_numPartInCUSize
    if !isZeroCol absPartIdx numPartInCUSize then
      let absZorderCUIdx := g_zscanToRaster g self.m_absIdxInCTU
      let lPartUnitIdx := g_rasterToZscan g (sub32 absPartIdx 1)
      if isEqualCol absPartIdx absZorderCUIdx numPartInCUSize then
        some (.picCTU self.m_cuAddr, lPartUnitIdx)
      else
        some (.thisCU, sub32 lPartUnitIdx self.m_absIdxInCTU)
    else
      some (CUPtr.ofRef self.m_cuLeft,
        g_rasterToZscan g (sub32 (u32 (absPartIdx + numPartInCUSize)) 1))

/-- Source function `CUData::getPUAbove`: the container holding the unit above
`curPartUnitIdx`, with the value left in `aPartUnitIdx` (which enters the
call holding `aPartUnitIdx`). -/
def CUData.getPUAbove (self : CUData) (g : Globals) (aPartUnitIdx curPartUnitIdx : Nat)
    (planarAtCTUBoundary : Bool) : Option (CUPtr × Nat) :=
  match self.m_frame with
  | none => none
  | some frame =>
    let absPartIdx := g_zscanToRaster g curPartUnitIdx
    let numPartInCUSize := frame.m_numPartInCUSize
    if !isZeroRow absPartIdx numPartInCUSize then
      let absZorderCUIdx := g_zscanToRaster g self.m_absIdxInCTU
      let aPartUnitIdx := g_rasterToZscan g (sub32 absPartIdx numPartInCUSize)
      if isEqualRow absPartIdx absZorderCUIdx numPartInCUSize then
        some (.picCTU self.m_cuAddr, aPartUnitIdx)
      else
        some (.thisCU, sub32 aPartUnitIdx self.m_absIdxInCTU)
    else if planarAtCTUBoundary then
      some (.null, aPartUnitIdx)
    else
      some (CUPtr.ofRef self.m_cuAbove,
        g_rasterToZscan g (sub32 (u32 (absPartIdx + NUM_CU_PARTITIONS g)) numPartInCUSize))

/-! ## Notions used to state the results -/

/-- Number of bytes moved by a copy function. -/
def cucopy_t.size : cucopy_t → Nat
  | .copy4 => 4
  | .copy16 => 16
  | .copy64 => 64
  | .copy256 => 256

/-- Number of bytes written by a broadcast function. -/
def cubcast_t.size : cubcast_t → Nat
  | .bcast4 => 4
  | .bcast16 => 16
  | .bcast64 => 64
  | .bcast256 => 256

/-- Position of an attribute array in the slab, in the order in which
`initialize` binds the pointers. -/
def Attr.idx : Attr → Nat
  | .qp => 0
  | .log2CUSize => 1
  | .partSizes => 2
  | .predModes => 3
  | .lumaIntraDir => 4
  | .cuTransquantBypass => 5
  | .depth => 6
  | .skipFlag => 7
  | .bMergeFlags => 8
  | .interDir => 9
  | .mvpIdx0 => 10
  | .mvpIdx1 => 11
  | .trIdx => 12
  | .transformSkip0 => 13
  | .transformSkip1 => 14
  | .transformSkip2 => 15
  | .cbf0 => 16
  | .cbf1 => 17
  | .cbf2 => 18
  | .chromaIntraDir => 19

/-- The attribute pointers of `cu` are the twenty consecutive arrays of `N`
bytes starting at address `b`, in the order in which `initialize` binds them. -/
def Layout (cu : CUData) (b N : Nat) : Prop :=
  ∀ a : Attr, cu.ptr a = b + a.idx * N

/-- A run of block copies of `k` bytes, one per listed attribute array, from
`src` at `sp a` to `dp a`, in list order. -/
def copyAttrs (k : Nat) (dst : Mem) (dp : Attr → Nat) (src : Mem) (sp : Attr → Nat)
    (order : List Attr) : Mem :=
  order.foldl (fun m a => memcpy m (dp a) src (sp a) k) dst

/-- The order in which `copyPartFrom` copies the attribute arrays. -/
def copyPartFromOrder : List Attr :=
  [.qp, .partSizes, .depth, .transformSkip0, .transformSkip1, .transformSkip2, .skipFlag,
   .predModes, .log2CUSize, .trIdx, .cbf0, .cbf1, .cbf2, .bMergeFlags, .lumaIntraDir,
   .chromaIntraDir, .interDir, .mvpIdx0, .mvpIdx1, .cuTransquantBypass]

/-- The order in which `copyToPic` copies the attribute arrays. -/
def copyToPicOrder : List Attr :=
  [.qp, .partSizes, .cuTransquantBypass, .transformSkip0, .transformSkip1, .transformSkip2,
   .depth, .skipFlag, .predModes, .log2CUSize, .trIdx, .cbf0, .cbf1, .cbf2, .bMergeFlags,
   .interDir, .lumaIntraDir, .chromaIntraDir, .mvpIdx0, .mvpIdx1]

/-- The attribute arrays that `updatePic` copies, in its order. -/
def updatePicOrder : List Attr :=
  [.qp, .transformSkip0, .transformSkip1, .transformSkip2, .skipFlag, .trIdx, .cbf0, .cbf1,
   .cbf2, .chromaIntraDir]

/-- The attribute arrays that `copyFromPic` copies, in its order. -/
def copyFromPicOrder : List Attr :=
  [.qp, .log2CUSize, .partSizes, .predModes, .lumaIntraDir, .skipFlag, .depth]

/-- Start of the slab that `initialize` selects for `index`. -/
def slabBase (numPartition index : Nat) : Nat :=
  u32 (u32 (numPartition * BytesPerPartition) * index)

/-- The statement `m_partSet(m_attr, val)`: the container's broadcast function
applied to one of its attribute arrays. -/
def CUData.partSet (cu : CUData) (a : Attr) (val : Byte) : Option CUData :=
  match cu.m_partSet with
  | none => none
  | some f => some { cu with charMemBlock := f.call cu.charMemBlock (cu.ptr a) val }

/-- A sample quadrant-sized container whose slab holds pairwise different
bytes at its first addresses. -/
def sampleChild : CUData :=
  { CUData.initialize CUData.zero 4 8 1 1 with charMemBlock := fun x => u8 (x + 1) }

/-- A sample frame: two CTUs per row, lossless coding off, a P slice, sixteen
partitions per CTU row. -/
def sampleFrame : Frame :=
  { m_numCuInWidth := 2, bLossless := 0, m_slice := some { m_sliceType := 1 },
    m_numPartInCUSize := 16 }

/-- The globals of a 64x64 CTU with 4x4 partitions. -/
def sampleGlobals : Globals := { g_maxLog2CUSize := 6, g_maxFullDepth := 4 }

/-- A zeroed container bound to the sample frame, at CTU 0. -/
def sampleBlank : CUData := { CUData.zero with m_frame := some sampleFrame }

/-- A sample CTU array: every CTU-resident container is initialised for 256
partitions. -/
def samplePic : Nat → CUData := fun _ => CUData.initialize sampleBlank 256 64 1 0

/-- A sample working container for the node at z-scan index 16 of CTU 0,
before `initialize`. -/
def sampleNode16 : CUData :=
  { sampleBlank with m_absIdxInCTU := 16, charMemBlock := fun x => u8 (2 * x + 3) }

/-- A sample working container for the node at z-scan index 20 of CTU 0,
before `initialize`. -/
def sampleNode20 : CUData :=
  { sampleBlank with m_absIdxInCTU := 20, charMemBlock := fun x => u8 (x + 1) }

/-- A run of broadcasts of `k` bytes, one per listed attribute array and
value, in list order. -/
def setAttrs (k : Nat) (dst : Mem) (dp : Attr → Nat) (l : List (Attr × Byte)) : Mem :=
  l.foldl (fun m p => memset m (dp p.1) p.2 k) dst

/-! ## Motion vector scaling

Arithmetic on `int` is exact: signed overflow is undefined in the source
language, so the model follows the executions that are defined. A right shift
of an `int` is the arithmetic shift, which rounds down. -/

/-- Modelled from the spec: the clamp `Clip3(minVal, maxVal, a)` of the missing
common header, `min(max(minVal, a), maxVal)`. -/
def Clip3 (minVal maxVal a : Int) : Int := min (max minVal a) maxVal

/-- Library function `abs` on `int`. -/
def iabs (v : Int) : Int := if v < 0 then -v else v

/-- Source function `CUData::getDistScaleFactor`: the POC-distance scale factor, or
4096 when the two distances are equal. A division by zero gives no result. -/
def getDistScaleFactor (curPOC curRefPOC colPOC colRefPOC : Int) : Option Int :=
  let diffPocD := colPOC - colRefPOC
  let diffPocB := curPOC - curRefPOC
  if diffPocD = diffPocB then some 4096
  else
    let tdb := Clip3 (-128) 127 diffPocB
    let tdd := Clip3 (-128) 127 diffPocD
    if tdd = 0 then none
    else
      let x := Int.tdiv (0x4000 + iabs (Int.tdiv tdd 2)) tdd
      let scale := Clip3 (-4096) 4095 ((tdb * x + 32) >>> (6 : Nat))
      some scale

/-- Source function `scaleMv`: a vector scaled by a factor in 1/256 units, rounded
and clamped to 16 bits. -/
def scaleMv (mv : MV) (scale : Int) : MV :=
  let mvx := Clip3 (-32768) 32767
    ((scale * mv.x + 127 + (if scale * mv.x < 0 then 1 else 0)) >>> (8 : Nat))
  let mvy := Clip3 (-32768) 32767
    ((scale * mv.y + 127 + (if scale * mv.y < 0 then 1 else 0)) >>> (8 : Nat))
  ⟨mvx, mvy⟩

/-! ## Constants and types of the candidate derivations

The headers that declare them are not part of `cudata.cpp`. -/

/-- Modelled from the spec: the size in pixels of the minimum partition unit. -/
def UNIT_SIZE : Nat := 1 <<< LOG2_UNIT_SIZE

/-- Modelled from the spec: the mask that maps a partition index to the unit at
which the motion of a collocated picture is stored (one unit per 16 partitions). -/
def TMVP_UNIT_MASK : Nat := 0xF0

/-- Modelled from the spec: the number of AMVP candidates. -/
def AMVP_NUM_CANDS : Nat := 2

/-- Modelled from the spec: the slice type of a bi-predictive slice. -/
def B_SLICE : Nat := 0

/-- Modelled from the spec: the prediction mode marker of an inter-coded unit. -/
def MODE_INTER : Nat := 1

/-- Modelled from the spec: the prediction mode marker of an intra-coded unit. -/
def MODE_INTRA : Nat := 2

/-- Modelled from the spec: partition mode 2Nx2N (the full block). -/
def SIZE_2Nx2N : Nat := 0

/-- Modelled from the spec: partition mode 2NxN (two horizontal halves). -/
def SIZE_2NxN : Nat := 1

/-- Modelled from the spec: partition mode Nx2N (two vertical halves). -/
def SIZE_Nx2N : Nat := 2

/-- Modelled from the spec: partition mode NxN (four quadrants). -/
def SIZE_NxN : Nat := 3

/-- Modelled from the spec: asymmetric partition mode 2NxnU. -/
def SIZE_2NxnU : Nat := 4

/-- Modelled from the spec: asymmetric partition mode 2NxnD. -/
def SIZE_2NxnD : Nat := 5

/-- Modelled from the spec: asymmetric partition mode nLx2N. -/
def SIZE_nLx2N : Nat := 6

/-- Modelled from the spec: asymmetric partition mode nRx2N. -/
def SIZE_nRx2N : Nat := 7

/-- Modelled from the spec: reference picture list 0. -/
def REF_PIC_LIST_0 : Int := 0

/-- Modelled from the spec: reference picture list 1. -/
def REF_PIC_LIST_1 : Int := 1

/-- Modelled from the spec: a motion vector with a reference index
(`TComMvField` of the missing header). -/
structure TComMvField where
  mv : MV
  refIdx : Int
deriving DecidableEq, Repr

/-- Modelled from the spec: the five directions of a spatial motion predictor
(`MVP_DIR` of the missing header), in the order of the enumeration. -/
inductive MVP_DIR where
  | MD_LEFT | MD_ABOVE | MD_ABOVE_RIGHT | MD_BELOW_LEFT | MD_ABOVE_LEFT
deriving DecidableEq, Repr

/-- The zero motion vector `MV(0, 0)`. -/
def MV.zero : MV := ⟨0, 0⟩

/-- Modelled from the spec: the test `MV::notZero` of the missing header. -/
def MV.notZero (v : MV) : Bool := v.x != 0 || v.y != 0

/-- Modelled from the spec: the test `Slice::isInterB` of the missing header. -/
def Slice.isInterB (s : Slice) : Bool := s.m_sliceType == B_SLICE

/-- Modelled from the spec: the accessor `getMv` of a motion-vector field. -/
def CUMVField.getMv (f : CUMVField) (idx : Nat) : MV := f.m_mv idx

/-- Modelled from the spec: the accessor `getRefIdx` of a motion-vector field. -/
def CUMVField.getRefIdx (f : CUMVField) (idx : Nat) : Int := f.m_refIdx idx

/-- The member `m_cuMvField[picList]`; a list index other than 0 and 1 is out of
range, and the model reads field 1 there. -/
def CUData.cuMvField (cu : CUData) (picList : Int) : CUMVField :=
  if picList = 0 then cu.m_cuMvField0 else cu.m_cuMvField1

/-- Modelled from the spec: the test `CUData::isIntra` of the missing header. -/
def CUData.isIntra (cu : CUData) (absPartIdx : Nat) : Bool :=
  (cu.get .predModes absPartIdx).val == MODE_INTRA

/-- The container a query result points to, if it is not null. -/
def CUPtr.deref (p : CUPtr) (self : CUData) (pic : Nat → CUData) : Option CUData :=
  match p with
  | .null => none
  | .thisCU => some self
  | .picCTU a => some (pic a)

/-! ## More address predicates (file-private functions) -/

/-- Source function `isEqualRowOrCol`: same row or same column. -/
def isEqualRowOrCol (addrA addrB numUnitsPerRow : Nat) : Bool :=
  isEqualCol addrA addrB numUnitsPerRow || isEqualRow addrA addrB numUnitsPerRow

/-- The conversion of a `uint32_t` value to `int` (two's complement). -/
def toInt32 (n : Nat) : Int :=
  if n % 2 ^ 32 < 2 ^ 31 then ((n % 2 ^ 32 : Nat) : Int) else ((n % 2 ^ 32 : Nat) : Int) - 2 ^ 32

/-- Source function `lessThanCol`: the column index is smaller than `val`. The
arguments are 32-bit patterns; the comparison is the signed one of the source. -/
def lessThanCol (addr val numUnitsPerRow : Nat) : Bool :=
  decide (toInt32 (addr &&& sub32 numUnitsPerRow 1) < toInt32 val)

/-- Source function `lessThanRow`: the row index is smaller than `val`. The
arguments are 32-bit patterns; the product and the comparison are the signed
ones of the source. -/
def lessThanRow (addr val numUnitsPerRow : Nat) : Bool :=
  decide (toInt32 addr < toInt32 val * toInt32 numUnitsPerRow)

/-- Source table `partTable`: per partition mode and partition index, the size
(entry 0) and the offset (entry 1) of the partition as two packed 4-bit
quarter counts (X, Y). -/
def partTableData : List (List (List Nat)) :=
  [ [[0x44, 0x00], [0x00, 0x00], [0x00, 0x00], [0x00, 0x00]],
    [[0x42, 0x00], [0x42, 0x02], [0x00, 0x00], [0x00, 0x00]],
    [[0x24, 0x00], [0x24, 0x20], [0x00, 0x00], [0x00, 0x00]],
    [[0x22, 0x00], [0x22, 0x20], [0x22, 0x02], [0x22, 0x22]],
    [[0x41, 0x00], [0x43, 0x01], [0x00, 0x00], [0x00, 0x00]],
    [[0x43, 0x00], [0x41, 0x03], [0x00, 0x00], [0x00, 0x00]],
    [[0x14, 0x00], [0x34, 0x10], [0x00, 0x00], [0x00, 0x00]],
    [[0x34, 0x00], [0x14, 0x30], [0x00, 0x00], [0x00, 0x00]] ]

/-- The read `partTable[mode][idx][k]`; a read out of range gives 0. -/
def partTable (mode idx k : Nat) : Nat :=
  ((partTableData.getD mode []).getD idx []).getD k 0

/-- Source table `partAddrTable`: per partition mode and partition index, the
partition address in sixteenths of the CU. -/
def partAddrTableData : List (List Nat) :=
  [ [0x00, 0x00, 0x00, 0x00],
    [0x00, 0x08, 0x08, 0x08],
    [0x00, 0x04, 0x04, 0x04],
    [0x00, 0x04, 0x08, 0x0C],
    [0x00, 0x02, 0x02, 0x02],
    [0x00, 0x0A, 0x0A, 0x0A],
    [0x00, 0x01, 0x01, 0x01],
    [0x00, 0x05, 0x05, 0x05] ]

/-- The read `partAddrTable[mode][idx]`; a read out of range gives 0. -/
def partAddrTable (mode idx : Nat) : Nat :=
  (partAddrTableData.getD mode []).getD idx 0

/-! ## Remaining neighbour queries

A shift by a negative amount is undefined; the model shifts by zero there. -/

/-- Source function `CUData::getPUAboveLeft`. -/
def CUData.getPUAboveLeft (self : CUData) (g : Globals) (curPartUnitIdx : Nat) :
    Option (CUPtr × Nat) :=
  match self.m_frame with
  | none => none
  | some frame =>
    let absPartIdx := g_zscanToRaster g curPartUnitIdx
    let numPartInCUSize := frame.m_numPartInCUSize
    if !isZeroCol absPartIdx numPartInCUSize then
      if !isZeroRow absPartIdx numPartInCUSize then
        let absZorderCUIdx := g_zscanToRaster g self.m_absIdxInCTU
        let alPartUnitIdx := g_rasterToZscan g (sub32 (sub32 absPartIdx numPartInCUSize) 1)
        if isEqualRowOrCol absPartIdx absZorderCUIdx numPartInCUSize then
          some (.picCTU self.m_cuAddr, alPartUnitIdx)
        else
          some (.thisCU, sub32 alPartUnitIdx self.m_absIdxInCTU)
      else
        some (CUPtr.ofRef self.m_cuAbove,
          g_rasterToZscan g
            (sub32 (sub32 (u32 (absPartIdx + NUM_CU_PARTITIONS g)) numPartInCUSize) 1))
    else if !isZeroRow absPartIdx numPartInCUSize then
      some (CUPtr.ofRef self.m_cuLeft, g_rasterToZscan g (sub32 absPartIdx 1))
    else
      some (CUPtr.ofRef self.m_cuAboveLeft, g_rasterToZscan g (sub32 (NUM_CU_PARTITIONS g) 1))

/-- Source function `CUData::getPUAboveRight`; `arPartUnitIdx` enters the call
holding `arPartUnitIdx`. -/
def CUData.getPUAboveRight (self : CUData) (g : Globals) (pic : Nat → CUData)
    (arPartUnitIdx curPartUnitIdx : Nat) : Option (CUPtr × Nat) :=
  match self.m_frame, self.m_slice with
  | some frame, some slice =>
    if u32 ((pic self.m_cuAddr).m_cuPelX + g_zscanToPelX g curPartUnitIdx + UNIT_SIZE)
        ≥ slice.picWidthInLumaSamples then
      some (.null, arPartUnitIdx)
    else
      let absPartIdxRT := g_zscanToRaster g curPartUnitIdx
      let numPartInCUSize := frame.m_numPartInCUSize
      if lessThanCol absPartIdxRT (sub32 numPartInCUSize 1) numPartInCUSize then
        if !isZeroRow absPartIdxRT numPartInCUSize then
          if curPartUnitIdx
              > g_rasterToZscan g (u32 (sub32 absPartIdxRT numPartInCUSize + 1)) then
            let absZorderCUIdx :=
              sub32 (u32 (g_zscanToRaster g self.m_absIdxInCTU
                + (1 <<< ((self.get .log2CUSize 0).val - LOG2_UNIT_SIZE)))) 1
            let arPartUnitIdx :=
              g_rasterToZscan g (u32 (sub32 absPartIdxRT numPartInCUSize + 1))
            if isEqualRowOrCol absPartIdxRT absZorderCUIdx numPartInCUSize then
              some (.picCTU self.m_cuAddr, arPartUnitIdx)
            else
              some (.thisCU, sub32 arPartUnitIdx self.m_absIdxInCTU)
          else
            some (.null, arPartUnitIdx)
        else
          some (CUPtr.ofRef self.m_cuAbove,
            g_rasterToZscan g
              (u32 (sub32 (u32 (absPartIdxRT + NUM_CU_PARTITIONS g)) numPartInCUSize + 1)))
      else if !isZeroRow absPartIdxRT numPartInCUSize then
        some (.null, arPartUnitIdx)
      else
        some (CUPtr.ofRef self.m_cuAboveRight,
          g_rasterToZscan g (sub32 (NUM_CU_PARTITIONS g) numPartInCUSize))
  | _, _ => none

/-- Source function `CUData::getPUBelowLeft`; `blPartUnitIdx` enters the call
holding `blPartUnitIdx`. -/
def CUData.getPUBelowLeft (self : CUData) (g : Globals) (pic : Nat → CUData)
    (blPartUnitIdx curPartUnitIdx : Nat) : Option (CUPtr × Nat) :=
  match self.m_frame, self.m_slice with
  | some frame, some slice =>
    if u32 ((pic self.m_cuAddr).m_cuPelY + g_zscanToPelY g curPartUnitIdx + UNIT_SIZE)
        ≥ slice.picHeightInLumaSamples then
      some (.null, blPartUnitIdx)
    else
      let absPartIdxLB := g_zscanToRaster g curPartUnitIdx
      let numPartInCUSize := frame.m_numPartInCUSize
      if lessThanRow absPartIdxLB (sub32 numPartInCUSize 1) numPartInCUSize then
        if !isZeroCol absPartIdxLB numPartInCUSize then
          if curPartUnitIdx
              > g_rasterToZscan g (sub32 (u32 (absPartIdxLB + numPartInCUSize)) 1) then
            let absZorderCUIdxLB :=
              u32 (g_zscanToRaster g self.m_absIdxInCTU
                + u32 (((1 <<< ((self.get .log2CUSize 0).val - LOG2_UNIT_SIZE)) - 1)
                    * numPartInCUSize))
            let blPartUnitIdx :=
              g_rasterToZscan g (sub32 (u32 (absPartIdxLB + numPartInCUSize)) 1)
            if isEqualRowOrCol absPartIdxLB absZorderCUIdxLB numPartInCUSize then
              some (.picCTU self.m_cuAddr, blPartUnitIdx)
            else
              some (.thisCU, sub32 blPartUnitIdx self.m_absIdxInCTU)
          else
            some (.null, blPartUnitIdx)
        else
          some (CUPtr.ofRef self.m_cuLeft,
            g_rasterToZscan g (sub32 (u32 (absPartIdxLB + u32 (numPartInCUSize * 2))) 1))
      else
        some (.null, blPartUnitIdx)
  | _, _ => none

/-! ## Partition geometry -/

/-- Source function `CUData::getPartIndexAndSize`: the address, width and
height of a prediction unit. -/
def CUData.getPartIndexAndSize (self : CUData) (partIdx : Nat) : Nat × Nat × Nat :=
  let cuSize := 1 <<< (self.get .log2CUSize 0).val
  let partType := (self.get .partSizes 0).val
  let tmp := partTable partType partIdx 0
  let outWidth := ((tmp >>> 4) * cuSize) >>> 2
  let outHeight := ((tmp &&& 0xF) * cuSize) >>> 2
  let outPartAddr := u32 (partAddrTable partType partIdx * self.m_numPartitions) >>> 4
  (outPartAddr, outWidth, outHeight)

/-- Source function `CUData::getPartPosition`: the corner `(xP, yP)` and the size
`(nPSW, nPSH)` of a prediction unit, in pixels inside the CU. -/
def CUData.getPartPosition (self : CUData) (partIdx : Nat) : Nat × Nat × Nat × Nat :=
  let cuSize := 1 <<< (self.get .log2CUSize 0).val
  let part_mode := (self.get .partSizes 0).val
  let tmp := partTable part_mode partIdx 0
  let nPSW := ((tmp >>> 4) * cuSize) >>> 2
  let nPSH := ((tmp &&& 0xF) * cuSize) >>> 2
  let tmp := partTable part_mode partIdx 1
  let xP := ((tmp >>> 4) * cuSize) >>> 2
  let yP := ((tmp &&& 0xF) * cuSize) >>> 2
  (xP, yP, nPSW, nPSH)

/-- Source function `CUData::isDiffMER`: the two positions lie in different
motion-estimation regions. -/
def isDiffMER (xN yN xP yP : Int) : Bool :=
  let plevel : Nat := 2
  if (xN >>> plevel) ≠ (xP >>> plevel) then true
  else if (yN >>> plevel) ≠ (yP >>> plevel) then true
  else false

/-- Source function `CUData::deriveLeftRightTopIdx`: the z-scan indices of the
top-left and top-right units of a prediction unit. -/
def CUData.deriveLeftRightTopIdx (self : CUData) (g : Globals) (partIdx : Nat) : Nat × Nat :=
  let n := self.m_numPartitions
  let partIdxLT := self.m_absIdxInCTU
  let partIdxRT := g_rasterToZscan g
    (sub32 (u32 (g_zscanToRaster g partIdxLT
      + (1 <<< ((self.get .log2CUSize 0).val - LOG2_UNIT_SIZE)))) 1)
  let partSize := (self.get .partSizes 0).val
  if partSize = SIZE_2Nx2N then
    (partIdxLT, partIdxRT)
  else if partSize = SIZE_2NxN then
    (u32 (partIdxLT + (if partIdx = 0 then 0 else n >>> 1)), u32 (partIdxRT + (if partIdx = 0 then 0 else n >>> 1)))
  else if partSize = SIZE_Nx2N then
    (u32 (partIdxLT + (if partIdx = 0 then 0 else n >>> 2)), sub32 partIdxRT (if partIdx = 1 then 0 else n >>> 2))
  else if partSize = SIZE_NxN then
    (u32 (partIdxLT + u32 ((n >>> 2) * partIdx)), u32 (partIdxRT + u32 ((n >>> 2) * sub32 partIdx 1)))
  else if partSize = SIZE_2NxnU then
    (u32 (partIdxLT + (if partIdx = 0 then 0 else n >>> 3)), u32 (partIdxRT + (if partIdx = 0 then 0 else n >>> 3)))
  else if partSize = SIZE_2NxnD then
    (u32 (partIdxLT + (if partIdx = 0 then 0 else u32 ((n >>> 1) + (n >>> 3)))), u32 (partIdxRT + (if partIdx = 0 then 0 else u32 ((n >>> 1) + (n >>> 3)))))
  else if partSize = SIZE_nLx2N then
    (u32 (partIdxLT + (if partIdx = 0 then 0 else n >>> 4)), sub32 partIdxRT (if partIdx = 1 then 0 else u32 ((n >>> 2) + (n >>> 4))))
  else if partSize = SIZE_nRx2N then
    (u32 (partIdxLT + (if partIdx = 0 then 0 else u32 ((n >>> 2) + (n >>> 4)))), sub32 partIdxRT (if partIdx = 1 then 0 else n >>> 4))
  else (partIdxLT, partIdxRT)

/-- Source function `CUData::deriveLeftBottomIdx`: the z-scan index of the
bottom-left unit of a prediction unit. -/
def CUData.deriveLeftBottomIdx (self : CUData) (g : Globals) (partIdx : Nat) : Option Nat :=
  match self.m_frame with
  | none => none
  | some frame =>
    let n := self.m_numPartitions
    let outPartIdxLB := g_rasterToZscan g
      (u32 (g_zscanToRaster g self.m_absIdxInCTU
        + u32 (((1 <<< ((self.get .log2CUSize 0).val - LOG2_UNIT_SIZE - 1)) - 1)
            * frame.m_numPartInCUSize)))
    let partSize := (self.get .partSizes 0).val
    if partSize = SIZE_2Nx2N then
      some (u32 (outPartIdxLB + (n >>> 1)))
    else if partSize = SIZE_2NxN then
      some (u32 (outPartIdxLB + (if partIdx = 0 then 0 else n >>> 1)))
    else if partSize = SIZE_Nx2N then
      some (u32 (outPartIdxLB + (if partIdx = 0 then n >>> 1 else u32 ((n >>> 2) * 3))))
    else if partSize = SIZE_NxN then
      some (u32 (outPartIdxLB + u32 ((n >>> 2) * partIdx)))
    else if partSize = SIZE_2NxnU then
      some (u32 (outPartIdxLB + (if partIdx = 0 then sub32 0 (n >>> 3) else n >>> 1)))
    else if partSize = SIZE_2NxnD then
      some (u32 (outPartIdxLB + (if partIdx = 0 then u32 ((n >>> 2) + (n >>> 3)) else n >>> 1)))
    else if partSize = SIZE_nLx2N then
      some (u32 (outPartIdxLB + (if partIdx = 0 then n >>> 1 else u32 ((n >>> 1) + (n >>> 4)))))
    else if partSize = SIZE_nRx2N then
      some (u32 (outPartIdxLB + (if partIdx = 0 then n >>> 1 else u32 (u32 ((n >>> 1) + (n >>> 2)) + (n >>> 4)))))
    else some outPartIdxLB

/-- Source function `CUData::deriveRightBottomIdx`: the z-scan index of the
bottom-right unit of a prediction unit. -/
def CUData.deriveRightBottomIdx (self : CUData) (g : Globals) (partIdx : Nat) : Option Nat :=
  match self.m_frame with
  | none => none
  | some frame =>
    let n := self.m_numPartitions
    let outPartIdxRB := g_rasterToZscan g
      (sub32 (u32 (u32 (g_zscanToRaster g self.m_absIdxInCTU
        + u32 (((1 <<< ((self.get .log2CUSize 0).val - LOG2_UNIT_SIZE - 1)) - 1)
            * frame.m_numPartInCUSize))
        + (1 <<< ((self.get .log2CUSize 0).val - LOG2_UNIT_SIZE)))) 1)
    let partSize := (self.get .partSizes 0).val
    if partSize = SIZE_2Nx2N then
      some (u32 (outPartIdxRB + (n >>> 1)))
    else if partSize = SIZE_2NxN then
      some (u32 (outPartIdxRB + (if partIdx = 0 then 0 else n >>> 1)))
    else if partSize = SIZE_Nx2N then
      some (u32 (outPartIdxRB + (if partIdx = 0 then n >>> 2 else n >>> 1)))
    else if partSize = SIZE_NxN then
      some (u32 (outPartIdxRB + u32 ((n >>> 2) * sub32 partIdx 1)))
    else if partSize = SIZE_2NxnU then
      some (u32 (outPartIdxRB + (if partIdx = 0 then sub32 0 (n >>> 3) else n >>> 1)))
    else if partSize = SIZE_2NxnD then
      some (u32 (outPartIdxRB + (if partIdx = 0 then u32 ((n >>> 2) + (n >>> 3)) else n >>> 1)))
    else if partSize = SIZE_nLx2N then
      some (u32 (outPartIdxRB + (if partIdx = 0 then u32 ((n >>> 3) + (n >>> 4)) else n >>> 1)))
    else if partSize = SIZE_nRx2N then
      some (u32 (outPartIdxRB + (if partIdx = 0 then u32 (u32 ((n >>> 2) + (n >>> 3)) + (n >>> 4)) else n >>> 1)))
    else some outPartIdxRB

/-- Source function `CUData::deriveCenterIdx`: the z-scan index of the centre
unit of a prediction unit. -/
def CUData.deriveCenterIdx (self : CUData) (g : Globals) (partIdx : Nat) : Option Nat :=
  match self.m_frame with
  | none => none
  | some frame =>
    let (partAddr, partWidth, partHeight) := self.getPartIndexAndSize partIdx
    let outPartIdxCenter := u32 (self.m_absIdxInCTU + partAddr)
    some (g_rasterToZscan g
      (u32 (u32 (g_zscanToRaster g outPartIdxCenter
        + u32 ((partHeight >>> (LOG2_UNIT_SIZE + 1)) * frame.m_numPartInCUSize))
        + (partWidth >>> (LOG2_UNIT_SIZE + 1)))))

/-! ## Motion comparison and temporal prediction -/

/-- Source function `CUData::hasEqualMotion`: same inter direction and, for
every list the direction uses, same vector and same reference index. -/
def CUData.hasEqualMotion (self : CUData) (absPartIdx : Nat) (candCU : CUData)
    (candAbsPartIdx : Nat) : Bool :=
  if self.get .interDir absPartIdx ≠ candCU.get .interDir candAbsPartIdx then false
  else if (self.get .interDir absPartIdx).val &&& (1 <<< 0) ≠ 0 ∧
      (self.m_cuMvField0.getMv absPartIdx ≠ candCU.m_cuMvField0.getMv candAbsPartIdx ∨
       self.m_cuMvField0.getRefIdx absPartIdx
         ≠ candCU.m_cuMvField0.getRefIdx candAbsPartIdx) then false
  else if (self.get .interDir absPartIdx).val &&& (1 <<< 1) ≠ 0 ∧
      (self.m_cuMvField1.getMv absPartIdx ≠ candCU.m_cuMvField1.getMv candAbsPartIdx ∨
       self.m_cuMvField1.getRefIdx absPartIdx
         ≠ candCU.m_cuMvField1.getRefIdx candAbsPartIdx) then false
  else true

/-- Source function `CUData::getMvField`: the vector and reference index of a
unit of `cu` in list `picList`, or a zero vector without reference when `cu`
is null. -/
def getMvField (cu : Option CUData) (absPartIdx : Nat) (picList : Int) : TComMvField :=
  match cu with
  | none => ⟨MV.zero, NOT_VALID⟩
  | some c => ⟨(c.cuMvField picList).getMv absPartIdx, (c.cuMvField picList).getRefIdx absPartIdx⟩

/-- The lines of `CUData::getColMVP` that scale the collocated vector once its
list and reference index are chosen. -/
def getColMVPScale (slice colSlice : Slice) (colCU : CUData) (picList outRefIdx : Int)
    (colRefPicList colRefIdx : Int) (absPartAddr : Nat) : Option (Bool × MV) :=
  let curPOC := slice.m_poc
  let colPOC := colSlice.m_poc
  let colRefPOC := colSlice.m_refPOCList colRefPicList colRefIdx
  let colmv := (colCU.cuMvField colRefPicList).getMv absPartAddr
  let curRefPOC := slice.m_refPOCList picList outRefIdx
  match getDistScaleFactor curPOC curRefPOC colPOC colRefPOC with
  | none => none
  | some scale => some (true, if scale = 4096 then colmv else scaleMv colmv scale)

/-- The index of the collocated picture in `m_refPicList`. -/
def Slice.colList (s : Slice) : Int :=
  if s.isInterB then 1 - (if s.m_colFromL0Flag then 1 else 0) else 0

/-- Source function `CUData::getColMVP`: the temporal predictor taken from unit
`partUnitIdx` of CTU `cuAddr` of the collocated picture. The result is the
returned flag with the value left in `outMV` (which enters the call holding
`outMV`); `refPics h` are the CTU-resident containers of the picture with
handle `h`. -/
def CUData.getColMVP (self : CUData) (refPics : Nat → Nat → CUData) (picList : Int)
    (cuAddr partUnitIdx : Nat) (outMV : MV) (outRefIdx : Int) : Option (Bool × MV) :=
  match self.m_slice with
  | none => none
  | some slice =>
    let absPartAddr := partUnitIdx &&& TMVP_UNIT_MASK
    match slice.m_refPicList slice.colList slice.m_colRefIdx with
    | none => none
    | some colPic =>
      let colCU := refPics colPic cuAddr
      if colCU.m_frame.isNone ∨ (colCU.get .partSizes partUnitIdx).val = SIZE_NONE then
        some (false, outMV)
      else
        match colCU.m_slice with
        | none => none
        | some colSlice =>
          if colCU.isIntra absPartAddr then some (false, outMV)
          else
            let colRefPicList : Int :=
              if slice.m_bCheckLDC then picList else (if slice.m_colFromL0Flag then 1 else 0)
            let colRefIdx := (colCU.cuMvField colRefPicList).getRefIdx absPartAddr
            if colRefIdx < 0 then
              let colRefPicList := 1 - colRefPicList
              let colRefIdx := (colCU.cuMvField colRefPicList).getRefIdx absPartAddr
              if colRefIdx < 0 then some (false, outMV)
              else getColMVPScale slice colSlice colCU picList outRefIdx colRefPicList
                colRefIdx absPartAddr
            else getColMVPScale slice colSlice colCU picList outRefIdx colRefPicList
              colRefIdx absPartAddr

/-! ## Spatial motion predictors -/

/-- The `switch (dir)` of `addMVPCand` and `addMVPCandOrder`: the neighbour
query of a direction, called with `idx = 0`. The calls of `getPUAbove` pass two
arguments; the third takes its default from the missing header, `false`. -/
def CUData.mvpNeighbour (self : CUData) (g : Globals) (pic : Nat → CUData) (partUnitIdx : Nat) :
    MVP_DIR → Option (CUPtr × Nat)
  | .MD_LEFT => self.getPULeft g partUnitIdx
  | .MD_ABOVE => self.getPUAbove g 0 partUnitIdx false
  | .MD_ABOVE_RIGHT => self.getPUAboveRight g pic 0 partUnitIdx
  | .MD_BELOW_LEFT => self.getPUBelowLeft g pic 0 partUnitIdx
  | .MD_ABOVE_LEFT => self.getPUAboveLeft g partUnitIdx

/-- Source function `CUData::addMVPCand`: the unscaled spatial predictor of a
direction. The result is the returned flag with the value left in `mvp`
(which enters the call holding `mvp`). -/
def CUData.addMVPCand (self : CUData) (g : Globals) (pic : Nat → CUData) (mvp : MV)
    (picList refIdx : Int) (partUnitIdx : Nat) (dir : MVP_DIR) : Option (Bool × MV) :=
  match self.mvpNeighbour g pic partUnitIdx dir with
  | none => none
  | some (ptr, idx) =>
    match ptr.deref self pic with
    | none => some (false, mvp)
    | some tmpCU =>
      match self.m_slice, tmpCU.m_slice with
      | some slice, some tmpSlice =>
        let refPOC := slice.m_refPOCList picList refIdx
        let otherPOC := tmpSlice.m_refPOCList picList ((tmpCU.cuMvField picList).getRefIdx idx)
        if (tmpCU.cuMvField picList).getRefIdx idx ≥ 0 ∧ refPOC = otherPOC then
          some (true, (tmpCU.cuMvField picList).getMv idx)
        else
          let refPicList2nd : Int := if picList = 0 then 1 else 0
          let curRefPOC := slice.m_refPOCList picList refIdx
          if (tmpCU.cuMvField refPicList2nd).getRefIdx idx ≥ 0 then
            let neibRefPOC :=
              tmpSlice.m_refPOCList refPicList2nd ((tmpCU.cuMvField refPicList2nd).getRefIdx idx)
            if neibRefPOC = curRefPOC then
              some (true, (tmpCU.cuMvField refPicList2nd).getMv idx)
            else some (false, mvp)
          else some (false, mvp)
      | _, _ => none

/-- The lines of `addMVPCandOrder` that scale a neighbour's vector. -/
def scaledMvp (curPOC curRefPOC neibPOC neibRefPOC : Int) (mvp : MV) : Option (Bool × MV) :=
  match getDistScaleFactor curPOC curRefPOC neibPOC neibRefPOC with
  | none => none
  | some scale => some (true, if scale = 4096 then mvp else scaleMv mvp scale)

/-- Source function `CUData::addMVPCandOrder`: the scaled spatial predictor of a
direction. The result is the returned flag with the value left in `outMV`. -/
def CUData.addMVPCandOrder (self : CUData) (g : Globals) (pic : Nat → CUData) (outMV : MV)
    (picList refIdx : Int) (partUnitIdx : Nat) (dir : MVP_DIR) : Option (Bool × MV) :=
  match self.mvpNeighbour g pic partUnitIdx dir with
  | none => none
  | some (ptr, idx) =>
    match ptr.deref self pic with
    | none => some (false, outMV)
    | some tmpCU =>
      match self.m_slice, tmpCU.m_slice with
      | some slice, some tmpSlice =>
        let refPicList2nd : Int := if picList = REF_PIC_LIST_0 then REF_PIC_LIST_1 else REF_PIC_LIST_0
        let curPOC := slice.m_poc
        let curRefPOC := slice.m_refPOCList picList refIdx
        let neibPOC := curPOC
        if (tmpCU.cuMvField picList).getRefIdx idx ≥ 0 then
          let neibRefPOC :=
            tmpSlice.m_refPOCList picList ((tmpCU.cuMvField picList).getRefIdx idx)
          scaledMvp curPOC curRefPOC neibPOC neibRefPOC ((tmpCU.cuMvField picList).getMv idx)
        else if (tmpCU.cuMvField refPicList2nd).getRefIdx idx ≥ 0 then
          let neibRefPOC :=
            tmpSlice.m_refPOCList refPicList2nd ((tmpCU.cuMvField refPicList2nd).getRefIdx idx)
          scaledMvp curPOC curRefPOC neibPOC neibRefPOC
            ((tmpCU.cuMvField refPicList2nd).getMv idx)
        else some (false, outMV)
      | _, _ => none

/-! ## Temporal candidate position -/

/-- The block of `getInterMergeCandidates` and `fillMvpCand` that locates the
collocated bottom-right unit: the CTU index `ctuIdx` (`-1` when there is none)
and the partition address, which enters the block holding `absPartAddr`. -/
def CUData.colRightBottom (self : CUData) (g : Globals) (pic : Nat → CUData)
    (partIdxRB absPartAddr : Nat) : Option (Int × Nat) :=
  match self.m_frame, self.m_slice with
  | some frame, some slice =>
    if u32 ((pic self.m_cuAddr).m_cuPelX + g_zscanToPelX g partIdxRB + UNIT_SIZE)
          < slice.picWidthInLumaSamples ∧
        u32 ((pic self.m_cuAddr).m_cuPelY + g_zscanToPelY g partIdxRB + UNIT_SIZE)
          < slice.picHeightInLumaSamples then
      let absPartIdxRB := g_zscanToRaster g partIdxRB
      let numPartInCUSize := frame.m_numPartInCUSize
      let bNotLastCol := lessThanCol absPartIdxRB (sub32 numPartInCUSize 1) numPartInCUSize
      let bNotLastRow := lessThanRow absPartIdxRB (sub32 numPartInCUSize 1) numPartInCUSize
      if bNotLastCol ∧ bNotLastRow then
        some (toInt32 self.m_cuAddr,
          g_rasterToZscan g (u32 (u32 (absPartIdxRB + numPartInCUSize) + 1)))
      else if bNotLastCol then
        some (-1, g_rasterToZscan g
          (u32 (u32 (absPartIdxRB + numPartInCUSize) + 1) &&& sub32 numPartInCUSize 1))
      else if bNotLastRow then
        some (toInt32 (u32 (self.m_cuAddr + 1)), g_rasterToZscan g (u32 (absPartIdxRB + 1)))
      else
        some (-1, 0)
    else
      some (-1, absPartAddr)
  | _, _ => none

/-- The temporal lookup shared by `getInterMergeCandidates` and `fillMvpCand`:
`ctuIdx >= 0 && getColMVP(picList, ctuIdx, absPartAddr, ...)`, and when that
fails `getColMVP(picList, curCTUIdx, partIdxCenter, ...)`. -/
def CUData.colMVPEither (self : CUData) (refPics : Nat → Nat → CUData) (picList : Int)
    (ctuIdx : Int) (absPartAddr curCTUIdx partIdxCenter : Nat) (colmv : MV) (refIdx : Int) :
    Option (Bool × MV) :=
  match (if ctuIdx ≥ 0 then self.getColMVP refPics picList ctuIdx.toNat absPartAddr colmv refIdx
      else some (false, colmv)) with
  | none => none
  | some (true, mv) => some (true, mv)
  | some (false, mv) => self.getColMVP refPics picList curCTUIdx partIdxCenter mv refIdx

/-! ## AMVP candidate list -/

/-- The local arrays `valid`, `mv`, `validOrder` and `mvOrder` of `fillMvpCand`. -/
structure MvpSpatial where
  valid : MVP_DIR → Bool
  mv : MVP_DIR → MV
  validOrder : MVP_DIR → Bool
  mvOrder : MVP_DIR → MV

/-- The ten calls of `fillMvpCand` that fill its local arrays. The vectors of the
local arrays have no initial value in the source, which reads an entry only
when the call that fills it returned true; the model starts them at zero. -/
def CUData.mvpSpatial (self : CUData) (g : Globals) (pic : Nat → CUData) (picList refIdx : Int)
    (partIdxLT partIdxRT partIdxLB : Nat) : Option MvpSpatial := do
  let bl ← self.addMVPCand g pic MV.zero picList refIdx partIdxLB .MD_BELOW_LEFT
  let l ← self.addMVPCand g pic MV.zero picList refIdx partIdxLB .MD_LEFT
  let ar ← self.addMVPCand g pic MV.zero picList refIdx partIdxRT .MD_ABOVE_RIGHT
  let a ← self.addMVPCand g pic MV.zero picList refIdx partIdxRT .MD_ABOVE
  let al ← self.addMVPCand g pic MV.zero picList refIdx partIdxLT .MD_ABOVE_LEFT
  let blo ← self.addMVPCandOrder g pic MV.zero picList refIdx partIdxLB .MD_BELOW_LEFT
  let lo ← self.addMVPCandOrder g pic MV.zero picList refIdx partIdxLB .MD_LEFT
  let aro ← self.addMVPCandOrder g pic MV.zero picList refIdx partIdxRT .MD_ABOVE_RIGHT
  let ao ← self.addMVPCandOrder g pic MV.zero picList refIdx partIdxRT .MD_ABOVE
  let alo ← self.addMVPCandOrder g pic MV.zero picList refIdx partIdxLT .MD_ABOVE_LEFT
  let pick (xl xa xar xbl xal : Bool × MV) : MVP_DIR → Bool × MV
    | .MD_LEFT => xl
    | .MD_ABOVE => xa
    | .MD_ABOVE_RIGHT => xar
    | .MD_BELOW_LEFT => xbl
    | .MD_ABOVE_LEFT => xal
  pure
    { valid := fun d => (pick l a ar bl al d).1
      mv := fun d => (pick l a ar bl al d).2
      validOrder := fun d => (pick lo ao aro blo alo d).1
      mvOrder := fun d => (pick lo ao aro blo alo d).2 }

/-- The left predictor search of `fillMvpCand`; the result is `num` and
`amvpCand` after it. -/
def amvpLeftSearch (c : MvpSpatial) (num : Nat) (amvpCand : Nat → MV) : Nat × (Nat → MV) :=
  if c.valid .MD_BELOW_LEFT then (num + 1, Function.update amvpCand num (c.mv .MD_BELOW_LEFT))
  else if c.valid .MD_LEFT then (num + 1, Function.update amvpCand num (c.mv .MD_LEFT))
  else if c.validOrder .MD_BELOW_LEFT then
    (num + 1, Function.update amvpCand num (c.mvOrder .MD_BELOW_LEFT))
  else if c.validOrder .MD_LEFT then
    (num + 1, Function.update amvpCand num (c.mvOrder .MD_LEFT))
  else (num, amvpCand)

/-- The unscaled chain of the above predictor search of `fillMvpCand`. -/
def amvpAboveUnscaled (c : MvpSpatial) (num : Nat) (amvpCand : Nat → MV) : Nat × (Nat → MV) :=
  if c.valid .MD_ABOVE_RIGHT then (num + 1, Function.update amvpCand num (c.mv .MD_ABOVE_RIGHT))
  else if c.valid .MD_ABOVE then (num + 1, Function.update amvpCand num (c.mv .MD_ABOVE))
  else if c.valid .MD_ABOVE_LEFT then
    (num + 1, Function.update amvpCand num (c.mv .MD_ABOVE_LEFT))
  else (num, amvpCand)

/-- The scaled chain of the above predictor search of `fillMvpCand`, run when
the left search added nothing. -/
def amvpAboveScaled (c : MvpSpatial) (num : Nat) (amvpCand : Nat → MV) : Nat × (Nat → MV) :=
  if c.validOrder .MD_ABOVE_RIGHT then
    (num + 1, Function.update amvpCand num (c.mvOrder .MD_ABOVE_RIGHT))
  else if c.validOrder .MD_ABOVE then
    (num + 1, Function.update amvpCand num (c.mvOrder .MD_ABOVE))
  else if c.validOrder .MD_ABOVE_LEFT then
    (num + 1, Function.update amvpCand num (c.mvOrder .MD_ABOVE_LEFT))
  else (num, amvpCand)

/-- The above predictor search of `fillMvpCand`; the result is `num` and
`amvpCand` after it. -/
def amvpAboveSearch (c : MvpSpatial) (bAddedSmvp : Bool) (num : Nat) (amvpCand : Nat → MV) :
    Nat × (Nat → MV) :=
  let r := amvpAboveUnscaled c num amvpCand
  if !bAddedSmvp then amvpAboveScaled c r.1 r.2 else r

/-- One round of the loop of `fillMvpCand` that collects the non-zero raw
candidates of a direction. -/
def mvcStep (c : MvpSpatial) (st : Nat × (Nat → MV)) (dir : MVP_DIR) : Nat × (Nat → MV) :=
  let st := if c.valid dir && (c.mv dir).notZero
    then (st.1 + 1, Function.update st.2 st.1 (c.mv dir)) else st
  if c.validOrder dir && (c.mvOrder dir).notZero
    then (st.1 + 1, Function.update st.2 st.1 (c.mvOrder dir)) else st

/-- The loop `for (dir = MD_LEFT; dir <= MD_ABOVE_LEFT; dir++)` of `fillMvpCand`. -/
def mvcLoop (c : MvpSpatial) (mvc : Nat → MV) : Nat × (Nat → MV) :=
  [MVP_DIR.MD_LEFT, .MD_ABOVE, .MD_ABOVE_RIGHT, .MD_BELOW_LEFT, .MD_ABOVE_LEFT].foldl
    (mvcStep c) (0, mvc)

/-- The loop `while (num < AMVP_NUM_CANDS) amvpCand[num++] = 0` of `fillMvpCand`. -/
def amvpPad : Nat → Nat → (Nat → MV) → Nat × (Nat → MV)
  | 0, num, amvpCand => (num, amvpCand)
  | fuel + 1, num, amvpCand =>
    if num < AMVP_NUM_CANDS then amvpPad fuel (num + 1) (Function.update amvpCand num MV.zero)
    else (num, amvpCand)

/-- The result of `fillMvpCand`: the returned count `numMvc`, the two output
arrays, and the final value of the local counter `num`. -/
structure MvpResult where
  numMvc : Nat
  amvpCand : Nat → MV
  mvc : Nat → MV
  num : Nat

/-- Source function `CUData::fillMvpCand`: the AMVP candidate list and the list
of raw motion candidates of a prediction unit. The local `colmv` has no initial
value in the source, which reads it only after a successful lookup; the model
starts it at zero. -/
def CUData.fillMvpCand (self : CUData) (g : Globals) (pic : Nat → CUData)
    (refPics : Nat → Nat → CUData) (partIdx partAddr : Nat) (picList refIdx : Int)
    (amvpCand mvc : Nat → MV) : Option MvpResult :=
  let (partIdxLT, partIdxRT) := self.deriveLeftRightTopIdx g partIdx
  match self.deriveLeftBottomIdx g partIdx with
  | none => none
  | some partIdxLB =>
    match self.mvpSpatial g pic picList refIdx partIdxLT partIdxRT partIdxLB with
    | none => none
    | some c =>
      let left := amvpLeftSearch c 0 amvpCand
      let bAddedSmvp := decide (left.1 > 0)
      let above := amvpAboveSearch c bAddedSmvp left.1 left.2
      let m := mvcLoop c mvc
      if above.1 = 2 ∧ above.2 0 ≠ above.2 1 then
        some { numMvc := m.1, amvpCand := above.2, mvc := m.2, num := above.1 }
      else
        let num := if above.1 = 2 then 1 else above.1
        let absPartAddr := u32 (self.m_absIdxInCTU + partAddr)
        match self.deriveRightBottomIdx g partIdx with
        | none => none
        | some partIdxRB =>
          match self.colRightBottom g pic partIdxRB absPartAddr with
          | none => none
          | some (ctuIdx, absPartAddr) =>
            match self.deriveCenterIdx g partIdx with
            | none => none
            | some partIdxCenter =>
              match self.colMVPEither refPics picList ctuIdx absPartAddr self.m_cuAddr
                  partIdxCenter MV.zero refIdx with
              | none => none
              | some (found, colmv) =>
                let t : (Nat × (Nat → MV)) × (Nat × (Nat → MV)) :=
                  if found then
                    ((num + 1, Function.update above.2 num colmv),
                     (m.1 + 1, Function.update m.2 m.1 colmv))
                  else ((num, above.2), m)
                let p := amvpPad (AMVP_NUM_CANDS - t.1.1) t.1.1 t.1.2
                some { numMvc := t.2.1, amvpCand := p.2, mvc := t.2.2, num := p.1 }

/-! ## Merge candidate list -/

/-- The statement of `getInterMergeCandidates` that filled a candidate slot: one
of the five spatial neighbours, the temporal candidate, a combined
bi-predictive candidate, or the zero padding. -/
inductive MergeSrc where
  | A1 | B1 | B0 | A0 | B2 | temporal | combined | zero
deriving DecidableEq, Repr

/-- The output arrays of `getInterMergeCandidates`: `mvFieldNeighbours[i][l]` and
`interDirNeighbours[i]`. The field `source` is a ghost annotation (not program
state): the statement that last wrote slot `i`, used to state properties of
the candidate taken from a given neighbour. -/
structure MergeOut where
  mvFieldNeighbours : Nat → Nat → TComMvField
  interDirNeighbours : Nat → Byte
  source : Nat → Option MergeSrc := fun _ => none

/-- The assignment `mvFieldNeighbours[i][l] = f`. -/
def MergeOut.setMvField (o : MergeOut) (i l : Nat) (f : TComMvField) : MergeOut :=
  { o with mvFieldNeighbours := fun i2 l2 =>
      if i2 = i ∧ l2 = l then f else o.mvFieldNeighbours i2 l2 }

/-- The assignment `interDirNeighbours[i] = d`. -/
def MergeOut.setInterDir (o : MergeOut) (i : Nat) (d : Byte) : MergeOut :=
  { o with interDirNeighbours := Function.update o.interDirNeighbours i d }

/-- The ghost annotation of slot `i`. -/
def MergeOut.setSource (o : MergeOut) (i : Nat) (s : MergeSrc) : MergeOut :=
  { o with source := Function.update o.source i (some s) }

/-- The first loop of `getInterMergeCandidates`: both reference indices of the
first `maxNumMergeCand` slots become `NOT_VALID`. No slot has a source yet. -/
def mergeInit (maxNumMergeCand : Nat) (o : MergeOut) : MergeOut :=
  { mvFieldNeighbours := fun i l =>
      if i < maxNumMergeCand ∧ l < 2 then { o.mvFieldNeighbours i l with refIdx := NOT_VALID }
      else o.mvFieldNeighbours i l
    interDirNeighbours := o.interDirNeighbours
    source := fun _ => none }

/-- The availability test of a spatial neighbour: the container is not null,
lies in a different motion-estimation region, is not excluded by the partition
shape (`excl`) and its unit is not intra. -/
def mergeAvail (cu : Option CUData) (idx : Nat) (xN yN xP yP : Int) (excl : Bool) : Bool :=
  match cu with
  | none => false
  | some c => isDiffMER xN yN xP yP && !excl && !c.isIntra idx

/-- The test `!isAvailable || !cu->hasEqualMotion(idx, cand, candIdx)`; `avail`
is false when `cu` is null. -/
def mergeDiffers (avail : Bool) (cu : Option CUData) (idx : Nat) (cand : Option CUData)
    (candIdx : Nat) : Bool :=
  match cu, cand with
  | some c, some d => !avail || !c.hasEqualMotion idx d candIdx
  | _, _ => true

/-- The statements that store a spatial neighbour in slot `count`. -/
def mergeSpatial (isInterB : Bool) (cu : Option CUData) (idx : Nat) (src : MergeSrc)
    (count : Nat) (o : MergeOut) : MergeOut :=
  match cu with
  | none => o
  | some c =>
    let o := o.setInterDir count (c.get .interDir idx)
    let o := o.setMvField count 0 (getMvField (some c) idx REF_PIC_LIST_0)
    let o := if isInterB then o.setMvField count 1 (getMvField (some c) idx REF_PIC_LIST_1) else o
    o.setSource count src

/-- The pattern `if (cond) { write slot count; count++; if (count ==
maxNumMergeCand) return maxNumMergeCand; }` followed by the rest `k` of the
function. The counter is incremented at most once per statement of the
function, so `count++` never wraps and is written without `% 2 ^ 32`. -/
def mergeStep (cond : Bool) (write : Nat → MergeOut → MergeOut) (maxNumMergeCand count : Nat)
    (o : MergeOut) (k : Nat → MergeOut → Option (Nat × MergeOut)) : Option (Nat × MergeOut) :=
  if cond then
    let o := write count o
    let count := count + 1
    if count = maxNumMergeCand then some (maxNumMergeCand, o) else k count o
  else k count o

/-- The statements that store the temporal candidate in slot `count`. -/
def mergeTemporalWrite (isInterB : Bool) (t0 t1 : Bool × MV) (refIdx : Int) (count : Nat)
    (o : MergeOut) : MergeOut :=
  let o := if t0.1 then o.setMvField count 0 ⟨t0.2, refIdx⟩ else o
  let o := if isInterB && t1.1 then o.setMvField count 1 ⟨t1.2, refIdx⟩ else o
  let dir : Nat := (if t0.1 then 1 else 0) ||| (if isInterB && t1.1 then 2 else 0)
  if dir ≠ 0 then (o.setInterDir count (Fin.ofNat dir)).setSource count .temporal else o

/-- The temporal block of `getInterMergeCandidates`, followed by the rest `k`. The
local `colmv` has no initial value in the source, which reads it only after a
successful lookup; the model starts it at zero. -/
def CUData.mergeTemporal (self : CUData) (g : Globals) (pic : Nat → CUData)
    (refPics : Nat → Nat → CUData) (isInterB : Bool) (puIdx absPartAddr : Nat)
    (maxNumMergeCand count : Nat) (o : MergeOut)
    (k : Nat → MergeOut → Option (Nat × MergeOut)) : Option (Nat × MergeOut) :=
  match self.deriveRightBottomIdx g puIdx with
  | none => none
  | some partIdxRB =>
    match self.colRightBottom g pic partIdxRB absPartAddr with
    | none => none
    | some (ctuIdx, absPartAddr) =>
      let refIdx : Int := 0
      let curCTUIdx := self.m_cuAddr
      match self.deriveCenterIdx g puIdx with
      | none => none
      | some partIdxCenter =>
        match self.colMVPEither refPics REF_PIC_LIST_0 ctuIdx absPartAddr curCTUIdx
            partIdxCenter MV.zero refIdx with
        | none => none
        | some t0 =>
          match (if isInterB then
              self.colMVPEither refPics REF_PIC_LIST_1 ctuIdx absPartAddr curCTUIdx
                partIdxCenter t0.2 refIdx
            else some (false, t0.2)) with
          | none => none
          | some t1 =>
            mergeStep (t0.1 || (isInterB && t1.1)) (mergeTemporalWrite isInterB t0 t1 refIdx)
              maxNumMergeCand count o k

/-- The statements that store a combined bi-predictive candidate, made of the
list-0 motion of slot `i` and the list-1 motion of slot `j`, in slot `count`. -/
def mergeCombinedWrite (i j : Nat) (count : Nat) (o : MergeOut) : MergeOut :=
  let refIdxL0 := (o.mvFieldNeighbours i 0).refIdx
  let refIdxL1 := (o.mvFieldNeighbours j 1).refIdx
  let o2 := o.setMvField count 0 ⟨(o.mvFieldNeighbours i 0).mv, refIdxL0⟩
  let o3 := o2.setMvField count 1 ⟨(o2.mvFieldNeighbours j 1).mv, refIdxL1⟩
  (o3.setInterDir count 3).setSource count .combined

/-- The loop `for (idx = 0; idx < cutoff; idx++)` of `getInterMergeCandidates`
with `n` rounds left, followed by the rest `k`. -/
def mergeCombine (slice : Slice) (maxNumMergeCand : Nat) :
    Nat → Nat → Nat → Nat → MergeOut → (Nat → MergeOut → Option (Nat × MergeOut)) →
      Option (Nat × MergeOut)
  | 0, _, _, count, o, k => k count o
  | n + 1, priorityList0, priorityList1, count, o, k =>
    let i := priorityList0 &&& 3
    let j := priorityList1 &&& 3
    let priorityList0 := priorityList0 >>> 2
    let priorityList1 := priorityList1 >>> 2
    let refPOCL0 := slice.m_refPOCList 0 (o.mvFieldNeighbours i 0).refIdx
    let refPOCL1 := slice.m_refPOCList 1 (o.mvFieldNeighbours j 1).refIdx
    mergeStep
      (decide ((o.interDirNeighbours i).val &&& 1 ≠ 0 ∧ (o.interDirNeighbours j).val &&& 2 ≠ 0 ∧
        ¬ (refPOCL0 = refPOCL1 ∧ (o.mvFieldNeighbours i 0).mv = (o.mvFieldNeighbours j 1).mv)))
      (mergeCombinedWrite i j) maxNumMergeCand count o
      (fun count o => mergeCombine slice maxNumMergeCand n priorityList0 priorityList1 count o k)

/-- The statements of one round of the padding loop that store a zero candidate
with reference index `r` in slot `count`. -/
def mergeZeroWrite (isInterB : Bool) (r : Int) (count : Nat) (o : MergeOut) : MergeOut :=
  let o := o.setInterDir count 1
  let o := o.setMvField count 0 ⟨⟨0, 0⟩, r⟩
  let o := if isInterB then (o.setInterDir count 3).setMvField count 1 ⟨⟨0, 0⟩, r⟩ else o
  o.setSource count .zero

/-- The loop `while (count < maxNumMergeCand)` of `getInterMergeCandidates`, with
at most `fuel` rounds; the result is the final `count` and the arrays. -/
def mergeZeroPad (isInterB : Bool) (numRefIdx : Int) (maxNumMergeCand : Nat) :
    Nat → Nat → Int → Int → MergeOut → Nat × MergeOut
  | 0, count, _, _, o => (count, o)
  | fuel + 1, count, r, refcnt, o =>
    if count < maxNumMergeCand then
      let o := mergeZeroWrite isInterB r count o
      let count := count + 1
      if refcnt = numRefIdx - 1 then
        mergeZeroPad isInterB numRefIdx maxNumMergeCand fuel count 0 refcnt o
      else
        mergeZeroPad isInterB numRefIdx maxNumMergeCand fuel count (r + 1) (refcnt + 1) o
    else (count, o)

/-- The end of `getInterMergeCandidates`: the combined bi-predictive candidates of
a B slice, then the zero padding. The padding loop runs at most
`maxNumMergeCand - count` rounds, which is the fuel it gets. -/
def mergeTail (slice : Slice) (isInterB : Bool) (maxNumMergeCand count : Nat) (o : MergeOut) :
    Option (Nat × MergeOut) :=
  let pad := fun count o =>
    let numRefIdx : Int :=
      if isInterB then min (slice.m_numRefIdx 0) (slice.m_numRefIdx 1) else slice.m_numRefIdx 0
    some (mergeZeroPad isInterB numRefIdx maxNumMergeCand (maxNumMergeCand - count) count 0 0 o)
  if isInterB then
    let cutoff := u32 (count * sub32 count 1)
    mergeCombine slice maxNumMergeCand cutoff 0xEDC984 0xB73621 count o pad
  else pad count o

/-- Source function `CUData::getInterMergeCandidates`: the list of merge
candidates of prediction unit `puIdx`. The result is the returned count with the
output arrays, which enter the call holding `o`. -/
def CUData.getInterMergeCandidates (self : CUData) (g : Globals) (pic : Nat → CUData)
    (refPics : Nat → Nat → CUData) (absPartIdx puIdx : Nat) (o : MergeOut) :
    Option (Nat × MergeOut) :=
  match self.m_slice with
  | none => none
  | some slice =>
    let absPartAddr := u32 (self.m_absIdxInCTU + absPartIdx)
    let isInterB := slice.isInterB
    let maxNumMergeCand := slice.m_maxNumMergeCand
    let o := mergeInit maxNumMergeCand o
    let (xP, yP, nPSW, nPSH) := self.getPartPosition puIdx
    let xP : Int := xP
    let yP : Int := yP
    let nPSW : Int := nPSW
    let nPSH : Int := nPSH
    let curPS := (self.get .partSizes absPartIdx).val
    match self.deriveLeftBottomIdx g puIdx with
    | none => none
    | some partIdxLB =>
      -- left
      match self.getPULeft g partIdxLB with
      | none => none
      | some (pLeft, leftPartIdx) =>
        let cuLeft := pLeft.deref self pic
        let isAvailableA1 := mergeAvail cuLeft leftPartIdx (xP - 1) (yP + nPSH - 1) xP yP
          (puIdx == 1 && (curPS == SIZE_Nx2N || curPS == SIZE_nLx2N || curPS == SIZE_nRx2N))
        mergeStep isAvailableA1 (mergeSpatial isInterB cuLeft leftPartIdx .A1)
          maxNumMergeCand 0 o fun count o =>
        let (_, partIdxRT) := self.deriveLeftRightTopIdx g puIdx
        -- above
        match self.getPUAbove g 0 partIdxRT false with
        | none => none
        | some (pAbove, abovePartIdx) =>
          let cuAbove := pAbove.deref self pic
          let isAvailableB1 := mergeAvail cuAbove abovePartIdx (xP + nPSW - 1) (yP - 1) xP yP
            (puIdx == 1 && (curPS == SIZE_2NxN || curPS == SIZE_2NxnU || curPS == SIZE_2NxnD))
          mergeStep
            (isAvailableB1 && mergeDiffers isAvailableA1 cuLeft leftPartIdx cuAbove abovePartIdx)
            (mergeSpatial isInterB cuAbove abovePartIdx .B1) maxNumMergeCand count o
            fun count o =>
          -- above right
          match self.getPUAboveRight g pic 0 partIdxRT with
          | none => none
          | some (pAboveRight, aboveRightPartIdx) =>
            let cuAboveRight := pAboveRight.deref self pic
            let isAvailableB0 :=
              mergeAvail cuAboveRight aboveRightPartIdx (xP + nPSW) (yP - 1) xP yP false
            mergeStep
              (isAvailableB0 &&
                mergeDiffers isAvailableB1 cuAbove abovePartIdx cuAboveRight aboveRightPartIdx)
              (mergeSpatial isInterB cuAboveRight aboveRightPartIdx .B0) maxNumMergeCand count o
              fun count o =>
            -- left bottom
            match self.getPUBelowLeft g pic 0 partIdxLB with
            | none => none
            | some (pLeftBottom, leftBottomPartIdx) =>
              let cuLeftBottom := pLeftBottom.deref self pic
              let isAvailableA0 :=
                mergeAvail cuLeftBottom leftBottomPartIdx (xP - 1) (yP + nPSH) xP yP false
              mergeStep
                (isAvailableA0 &&
                  mergeDiffers isAvailableA1 cuLeft leftPartIdx cuLeftBottom leftBottomPartIdx)
                (mergeSpatial isInterB cuLeftBottom leftBottomPartIdx .A0) maxNumMergeCand
                count o fun count o =>
              -- above left
              let rest := fun count o =>
                self.mergeTemporal g pic refPics isInterB puIdx absPartAddr maxNumMergeCand
                  count o (mergeTail slice isInterB maxNumMergeCand)
              if count < 4 then
                match self.getPUAboveLeft g absPartAddr with
                | none => none
                | some (pAboveLeft, aboveLeftPartIdx) =>
                  let cuAboveLeft := pAboveLeft.deref self pic
                  let isAvailableB2 :=
                    mergeAvail cuAboveLeft aboveLeftPartIdx (xP - 1) (yP - 1) xP yP false
                  mergeStep
                    (isAvailableB2 &&
                      mergeDiffers isAvailableA1 cuLeft leftPartIdx cuAboveLeft aboveLeftPartIdx &&
                      mergeDiffers isAvailableB1 cuAbove abovePartIdx cuAboveLeft aboveLeftPartIdx)
                    (mergeSpatial isInterB cuAboveLeft aboveLeftPartIdx .B2) maxNumMergeCand
                    count o rest
              else rest count o

/-- A sample slice for the temporal predictor: a P slice with POC 8 whose
reference pictures are all the picture with handle 0, at POC 4. -/
def sampleColSlice : Slice :=
  { m_sliceType := 1, m_poc := 8, m_refPOCList := fun _ _ => 4,
    m_refPicList := fun _ _ => some 0 }

/-- A sample container coded with `sampleColSlice`. -/
def sampleColSelf : CUData := { sampleBlank with m_slice := some sampleColSlice }

/-- A sample collocated picture: every CTU is inter-coded (all attribute bytes
are 1) with vector (4, -8) and reference index 0 in both lists, in a slice
at POC 4 whose references are at POC 2. -/
def sampleColPics : Nat → Nat → CUData := fun _ _ =>
  { sampleBlank with
    m_slice := some { m_sliceType := 1, m_poc := 4, m_refPOCList := fun _ _ => 2 }
    charMemBlock := fun _ => 1
    m_cuMvField0 := { m_mv := fun _ => ⟨4, -8⟩, m_refIdx := fun _ => 0, m_numPartitions := 256 }
    m_cuMvField1 := { m_mv := fun _ => ⟨4, -8⟩, m_refIdx := fun _ => 0, m_numPartitions := 256 } }

/-- A sample collocated picture whose slice is at POC 4 and whose references are
at POC 4 as well: every CTU is inter-coded (all attribute bytes are 1) with
vector (4, -8) and reference index 0 in both lists. -/
def sampleColSamePics : Nat → Nat → CUData := fun _ _ =>
  { sampleBlank with
    m_slice := some { m_sliceType := 1, m_poc := 4, m_refPOCList := fun _ _ => 4 }
    charMemBlock := fun _ => 1
    m_cuMvField0 := { m_mv := fun _ => ⟨4, -8⟩, m_refIdx := fun _ => 0, m_numPartitions := 256 }
    m_cuMvField1 := { m_mv := fun _ => ⟨4, -8⟩, m_refIdx := fun _ => 0, m_numPartitions := 256 } }

/-- A sample slice of a wide picture at POC 8 whose references are at POC 4. -/
def sampleMvpSlice : Slice :=
  { m_sliceType := 1, m_poc := 8, m_refPOCList := fun _ _ => 4,
    m_refPicList := fun _ _ => some 0,
    picWidthInLumaSamples := 1920, picHeightInLumaSamples := 1080 }

/-- A sample slab for 256 partitions: every unit has CU size 64 (`log2CUSize`
6); all other attributes are zero, so the partition mode is 2Nx2N. -/
def sampleMvpSlab : Mem := fun x => if 256 ≤ x ∧ x < 512 then 6 else 0

/-- A sample CTU-sized container at CTU 0 of `sampleMvpSlice`: no left
neighbours, CTU 1 above and CTU 2 above right. -/
def sampleMvpSelf : CUData :=
  { CUData.initialize sampleBlank 256 64 1 0 with
    m_slice := some sampleMvpSlice, charMemBlock := sampleMvpSlab,
    m_cuAbove := some 1, m_cuAboveRight := some 2 }

/-- A sample CTU array for `sampleMvpSelf`: every CTU holds the vector (4, -8) with
reference index 0 in list 0 and no reference in list 1; CTU 2 belongs to a slice
whose references are at POC 6, the others to `sampleMvpSlice`. -/
def sampleMvpPic : Nat → CUData := fun a =>
  { CUData.initialize sampleBlank 256 64 1 0 with
    m_slice := some (if a = 2 then { sampleMvpSlice with m_refPOCList := fun _ _ => 6 }
      else sampleMvpSlice)
    charMemBlock := sampleMvpSlab
    m_cuMvField0 := { m_mv := fun _ => ⟨4, -8⟩, m_refIdx := fun _ => 0, m_numPartitions := 256 }
    m_cuMvField1 :=
      { m_mv := fun _ => ⟨0, 0⟩, m_refIdx := fun _ => NOT_VALID, m_numPartitions := 256 } }

/-! ## Notions used to state the results on the merge candidate list -/

/-- The candidate slots from `maxNumMergeCand` on hold in `o` what they hold in `o0`. -/
def MergeFrame (maxNumMergeCand : Nat) (o o0 : MergeOut) : Prop :=
  ∀ i, maxNumMergeCand ≤ i →
    (∀ l, o.mvFieldNeighbours i l = o0.mvFieldNeighbours i l) ∧
    o.interDirNeighbours i = o0.interDirNeighbours i

/-- The condition under which `getInterMergeCandidates` stores a candidate of a
given source before the padding, from the availability flags of the five
spatial neighbours and their containers and unit indices: A1 when available,
the other spatial ones when available and different in motion from the
neighbours they are compared with; a zero candidate is never stored before the
padding. -/
def mergeAllowed (avA1 avB1 avB0 avA0 avB2 : Bool)
    (cuLeft : Option CUData) (leftPartIdx : Nat) (cuAbove : Option CUData) (abovePartIdx : Nat)
    (cuAboveRight : Option CUData) (aboveRightPartIdx : Nat)
    (cuLeftBottom : Option CUData) (leftBottomPartIdx : Nat)
    (cuAboveLeft : Option CUData) (aboveLeftPartIdx : Nat) : MergeSrc → Bool
  | .A1 => avA1
  | .B1 => avB1 && mergeDiffers avA1 cuLeft leftPartIdx cuAbove abovePartIdx
  | .B0 => avB0 && mergeDiffers avB1 cuAbove abovePartIdx cuAboveRight aboveRightPartIdx
  | .A0 => avA0 && mergeDiffers avA1 cuLeft leftPartIdx cuLeftBottom leftBottomPartIdx
  | .B2 => avB2 && mergeDiffers avA1 cuLeft leftPartIdx cuAboveLeft aboveLeftPartIdx &&
      mergeDiffers avB1 cuAbove abovePartIdx cuAboveLeft aboveLeftPartIdx
  | .temporal => true
  | .combined => true
  | .zero => false

/-- The state of the candidate arrays before the padding: slots from
`maxNumMergeCand` on are untouched and every stored candidate is allowed. -/
def MergeInv (maxNumMergeCand : Nat) (allowed : MergeSrc → Bool) (o0 o : MergeOut) : Prop :=
  MergeFrame maxNumMergeCand o o0 ∧ ∀ i t, o.source i = some t → allowed t = true

/-- The call returns what the padding loop gives when started with `count`
candidates in a state that satisfies `Inv`. -/
def MergeDone (isInterB : Bool) (numRefIdx : Int) (maxNumMergeCand : Nat)
    (Inv : MergeOut → Prop) (R : Option (Nat × MergeOut)) : Prop :=
  ∃ count o, count ≤ maxNumMergeCand ∧ Inv o ∧
    R = some (mergeZeroPad isInterB numRefIdx maxNumMergeCand (maxNumMergeCand - count)
      count 0 0 o)

/-- A sample slab for 256 partitions: every unit has CU size 64 (`log2CUSize`
6) and inter direction 1 (list 0); all other attributes are zero. -/
def sampleMergeSlab : Mem := fun x =>
  if 256 ≤ x ∧ x < 512 then 6 else if 2304 ≤ x ∧ x < 2560 then 1 else 0

/-- A sample CTU-sized container at CTU 0 of `sampleMvpSlice` with CTU 3 to its
left, CTU 1 above, CTU 2 above right and CTU 4 above left. -/
def sampleMergeSelf : CUData :=
  { CUData.initialize sampleBlank 256 64 1 0 with
    m_slice := some sampleMvpSlice, charMemBlock := sampleMergeSlab,
    m_cuLeft := some 3, m_cuAbove := some 1, m_cuAboveRight := some 2, m_cuAboveLeft := some 4 }

/-- A sample CTU array for `sampleMergeSelf`: CTU `a` holds the vector (4 + a, -8)
with reference index 0 in list 0 and no reference in list 1. -/
def sampleMergePic : Nat → CUData := fun a =>
  { CUData.initialize sampleBlank 256 64 1 0 with
    m_slice := some sampleMvpSlice
    charMemBlock := sampleMergeSlab
    m_cuMvField0 :=
      { m_mv := fun _ => ⟨4 + a, -8⟩, m_refIdx := fun _ => 0, m_numPartitions := 256 }
    m_cuMvField1 :=
      { m_mv := fun _ => ⟨0, 0⟩, m_refIdx := fun _ => NOT_VALID, m_numPartitions := 256 } }

/-- Sample output arrays before the call: every slot holds the vector (7, 7)
with reference index 7 and inter direction 9. -/
def sampleMergeOut : MergeOut :=
  { mvFieldNeighbours := fun _ _ => ⟨⟨7, 7⟩, 7⟩, interDirNeighbours := fun _ => 9 }

/-- The container `sampleMergeSelf` in a slice that allows one merge candidate. -/
def sampleMergeSingle : CUData :=
  { sampleMergeSelf with m_slice := some { sampleMvpSlice with m_maxNumMergeCand := 1 } }

/-- The container `sampleMergeSelf` without spatial neighbours, in a slice with two
reference indices per list. -/
def sampleMergeLone : CUData :=
  { sampleMergeSelf with
    m_slice := some { sampleMvpSlice with m_numRefIdx := fun _ => 2 }
    m_cuLeft := none, m_cuAbove := none, m_cuAboveRight := none, m_cuAboveLeft := none }

/-! ## Constants of the intra and scan derivations

The headers that declare them are not part of `cudata.cpp`. -/

/-- Modelled from the spec: the planar intra direction of the missing header. -/
def PLANAR_IDX : Nat := 0

/-- Modelled from the spec: the vertical intra direction of the missing header. -/
def VER_IDX : Nat := 26

/-- Modelled from the spec: the horizontal intra direction of the missing header. -/
def HOR_IDX : Nat := 10

/-- Modelled from the spec: the chroma direction that stands for the luma
direction (`DM_CHROMA_IDX` of the missing header). -/
def DM_CHROMA_IDX : Nat := 36

/-- Modelled from the spec: the largest log2 transform size that may use a
mode-dependent coefficient scan (`MDCS_LOG2_MAX_SIZE` of the missing header). -/
def MDCS_LOG2_MAX_SIZE : Nat := 3

/-- Modelled from the spec: the angular tolerance of the mode-dependent
coefficient scan (`MDCS_ANGLE_LIMIT` of the missing header). -/
def MDCS_ANGLE_LIMIT : Int := 4

/-- Modelled from the spec: the colour format 4:2:2 of the missing header. -/
def X265_CSP_I422 : Int := 2

/-- Modelled from the spec: the colour format 4:4:4 of the missing header. -/
def X265_CSP_I444 : Int := 3

/-- Modelled from the spec: the coefficient scan orders (`ScanType` of the
missing header). -/
inductive ScanType where
  | SCAN_DIAG | SCAN_HOR | SCAN_VER
deriving DecidableEq, Repr

/-- Modelled from the spec: log2 of the minimum CU size (8 pixels). -/
def MIN_LOG2_CU_SIZE : Nat := 3

/-- Modelled from the spec: flag `CUGeom::PRESENT`, the block is not completely
outside the picture. -/
def CUGeom.PRESENT : Nat := 1 <<< 1

/-- Modelled from the spec: flag `CUGeom::SPLIT_MANDATORY`, the block must be split. -/
def CUGeom.SPLIT_MANDATORY : Nat := 1 <<< 2

/-- Modelled from the spec: flag `CUGeom::LEAF`, the block has the minimum size. -/
def CUGeom.LEAF : Nat := 1 <<< 3

/-- Modelled from the spec: flag `CUGeom::SPLIT`, the block is split in four. -/
def CUGeom.SPLIT : Nat := 1 <<< 4

/-- Modelled from the spec: the statement `CU_SET_FLAG(bitfield, flag, value)` of
the missing header; the result is the new bit field, with `flag` set when `value` is 1
and cleared when it is 0: `(bitfield & ~flag) | (~(value - 1) & flag)`. -/
def CU_SET_FLAG (bitfield flag value : Nat) : Nat :=
  (bitfield &&& not32 flag) ||| (not32 (sub32 value 1) &&& flag)

/-- Modelled from the spec: the global table `g_log2Size` of the missing
constants, the log2 of a block size that is a power of two. -/
def g_log2Size (size : Nat) : Nat := Nat.log2 size

/-- Modelled from the spec: the global table `g_depthScanIdx[y][x]` of the missing
constants, the Z-order index of position (x, y) in an 8x8 grid. -/
def g_depthScanIdx (y x : Nat) : Nat := zscanOf 3 x y

/-! ## Neighbour queries for intra reference samples -/

/-- Source function `CUData::getPUBelowLeftAdi`; `blPartUnitIdx` enters the call
holding `blPartUnitIdx`. -/
def CUData.getPUBelowLeftAdi (self : CUData) (g : Globals) (pic : Nat → CUData)
    (blPartUnitIdx curPartUnitIdx partUnitOffset : Nat) : Option (CUPtr × Nat) :=
  match self.m_frame, self.m_slice with
  | some frame, some slice =>
    if u32 (u32 ((pic self.m_cuAddr).m_cuPelY + g_zscanToPelY g curPartUnitIdx)
          + u32 (partUnitOffset <<< LOG2_UNIT_SIZE)) ≥ slice.picHeightInLumaSamples then
      some (.null, blPartUnitIdx)
    else
      let absPartIdxLB := g_zscanToRaster g curPartUnitIdx
      let numPartInCUSize := frame.m_numPartInCUSize
      if lessThanRow absPartIdxLB (sub32 numPartInCUSize partUnitOffset) numPartInCUSize then
        if !isZeroCol absPartIdxLB numPartInCUSize then
          if curPartUnitIdx > g_rasterToZscan g
              (sub32 (u32 (absPartIdxLB + u32 (partUnitOffset * numPartInCUSize))) 1) then
            let absZorderCUIdxLB :=
              u32 (g_zscanToRaster g self.m_absIdxInCTU
                + u32 (((1 <<< ((self.get .log2CUSize 0).val - LOG2_UNIT_SIZE)) - 1)
                    * numPartInCUSize))
            let blPartUnitIdx := g_rasterToZscan g
              (sub32 (u32 (absPartIdxLB + u32 (partUnitOffset * numPartInCUSize))) 1)
            if isEqualRowOrCol absPartIdxLB absZorderCUIdxLB numPartInCUSize then
              some (.picCTU self.m_cuAddr, blPartUnitIdx)
            else
              some (.thisCU, sub32 blPartUnitIdx self.m_absIdxInCTU)
          else
            some (.null, blPartUnitIdx)
        else
          let blPartUnitIdx := g_rasterToZscan g
            (sub32 (u32 (absPartIdxLB + u32 (u32 (1 + partUnitOffset) * numPartInCUSize))) 1)
          match self.m_cuLeft with
          | none => some (.null, blPartUnitIdx)
          | some a =>
            if (pic a).m_slice.isNone then some (.null, blPartUnitIdx)
            else some (.picCTU a, blPartUnitIdx)
      else
        some (.null, blPartUnitIdx)
  | _, _ => none

/-- Source function `CUData::getPUAboveRightAdi`; `arPartUnitIdx` enters the call
holding `arPartUnitIdx`. -/
def CUData.getPUAboveRightAdi (self : CUData) (g : Globals) (pic : Nat → CUData)
    (arPartUnitIdx curPartUnitIdx partUnitOffset : Nat) : Option (CUPtr × Nat) :=
  match self.m_frame, self.m_slice with
  | some frame, some slice =>
    if u32 (u32 ((pic self.m_cuAddr).m_cuPelX + g_zscanToPelX g curPartUnitIdx)
          + u32 (partUnitOffset <<< LOG2_UNIT_SIZE)) ≥ slice.picWidthInLumaSamples then
      some (.null, arPartUnitIdx)
    else
      let absPartIdxRT := g_zscanToRaster g curPartUnitIdx
      let numPartInCUSize := frame.m_numPartInCUSize
      if lessThanCol absPartIdxRT (sub32 numPartInCUSize partUnitOffset) numPartInCUSize then
        if !isZeroRow absPartIdxRT numPartInCUSize then
          if curPartUnitIdx > g_rasterToZscan g
              (u32 (sub32 absPartIdxRT numPartInCUSize + partUnitOffset)) then
            let absZorderCUIdx :=
              sub32 (u32 (g_zscanToRaster g self.m_absIdxInCTU
                + (1 <<< ((self.get .log2CUSize 0).val - LOG2_UNIT_SIZE)))) 1
            let arPartUnitIdx := g_rasterToZscan g
              (u32 (sub32 absPartIdxRT numPartInCUSize + partUnitOffset))
            if isEqualRowOrCol absPartIdxRT absZorderCUIdx numPartInCUSize then
              some (.picCTU self.m_cuAddr, arPartUnitIdx)
            else
              some (.thisCU, sub32 arPartUnitIdx self.m_absIdxInCTU)
          else
            some (.null, arPartUnitIdx)
        else
          let arPartUnitIdx := g_rasterToZscan g
            (u32 (sub32 (u32 (absPartIdxRT + NUM_CU_PARTITIONS g)) numPartInCUSize
              + partUnitOffset))
          match self.m_cuAbove with
          | none => some (.null, arPartUnitIdx)
          | some a =>
            if (pic a).m_slice.isNone then some (.null, arPartUnitIdx)
            else some (.picCTU a, arPartUnitIdx)
      else if !isZeroRow absPartIdxRT numPartInCUSize then
        some (.null, arPartUnitIdx)
      else
        let arPartUnitIdx := g_rasterToZscan g
          (sub32 (u32 (sub32 (NUM_CU_PARTITIONS g) numPartInCUSize + partUnitOffset)) 1)
        match self.m_cuAboveRight with
        | none => some (.null, arPartUnitIdx)
        | some a =>
          if (pic a).m_slice.isNone ∨ (pic a).m_cuAddr > self.m_cuAddr then
            some (.null, arPartUnitIdx)
          else some (.picCTU a, arPartUnitIdx)
  | _, _ => none

/-! ## Quantization-parameter propagation -/

/-- The expression `0xFF << (g_maxFullDepth - maxCuDQPDepth) * 2`, the mask that
snaps a z-scan index to its quantization group. -/
def quPartIdxMask (g : Globals) (slice : Slice) : Nat :=
  u32 (0xFF <<< u32 (sub32 g.g_maxFullDepth slice.maxCuDQPDepth * 2))

/-- Source function `CUData::getQpMinCuLeft`; `lPartUnitIdx` enters the call
holding `lPartUnitIdx`. -/
def CUData.getQpMinCuLeft (self : CUData) (g : Globals) (lPartUnitIdx curAbsIdxInCTU : Nat) :
    Option (CUPtr × Nat) :=
  match self.m_frame, self.m_slice with
  | some frame, some slice =>
    let numPartInCUSize := frame.m_numPartInCUSize
    let absZorderQpMinCUIdx := curAbsIdxInCTU &&& quPartIdxMask g slice
    let absRorderQpMinCUIdx := g_zscanToRaster g absZorderQpMinCUIdx
    if isZeroCol absRorderQpMinCUIdx numPartInCUSize then
      some (.null, lPartUnitIdx)
    else
      some (.picCTU self.m_cuAddr, g_rasterToZscan g (sub32 absRorderQpMinCUIdx 1))
  | _, _ => none

/-- Source function `CUData::getQpMinCuAbove`; `aPartUnitIdx` enters the call
holding `aPartUnitIdx`. -/
def CUData.getQpMinCuAbove (self : CUData) (g : Globals) (aPartUnitIdx curAbsIdxInCTU : Nat) :
    Option (CUPtr × Nat) :=
  match self.m_frame, self.m_slice with
  | some frame, some slice =>
    let numPartInCUSize := frame.m_numPartInCUSize
    let absZorderQpMinCUIdx := curAbsIdxInCTU &&& quPartIdxMask g slice
    let absRorderQpMinCUIdx := g_zscanToRaster g absZorderQpMinCUIdx
    if isZeroRow absRorderQpMinCUIdx numPartInCUSize then
      some (.null, aPartUnitIdx)
    else
      some (.picCTU self.m_cuAddr,
        g_rasterToZscan g (sub32 absRorderQpMinCUIdx numPartInCUSize))
  | _, _ => none

/-- The loop of `CUData::getLastValidPartIdx` from `lastValidPartIdx`, with at most
`fuel` rounds; `none` when the fuel runs out. The subtraction is the unsigned
32-bit one of the source, converted back to `int`. -/
def CUData.lastValidLoop (self : CUData) : Nat → Int → Option Int
  | 0, _ => none
  | fuel + 1, lastValidPartIdx =>
    if lastValidPartIdx ≥ 0 ∧
        (self.get .predModes lastValidPartIdx.toNat).val = MODE_NONE then
      let depth := (self.get .depth lastValidPartIdx.toNat).val
      self.lastValidLoop fuel
        (toInt32 (sub32 lastValidPartIdx.toNat (self.m_numPartitions >>> (depth <<< 1))))
    else some lastValidPartIdx

/-- Source function `CUData::getLastValidPartIdx`: the last partition before
`absPartIdx` that has a prediction mode, or a negative value. A round that
subtracts nothing repeats for ever; with `m_numPartitions` below `2 ^ 31` every
other round lowers the index, so `absPartIdx + 1` rounds are enough fuel
whenever the loop ends, and the result is `none` when it does not. -/
def CUData.getLastValidPartIdx (self : CUData) (absPartIdx : Int) : Option Int :=
  self.lastValidLoop (absPartIdx.toNat + 1) (absPartIdx - 1)

/-- The condition `m_cuAddr > 0 && !(bEntropyCodingSyncEnabled && !(m_cuAddr %
m_numCuInWidth))` of `getLastCodedQP`; `none` when it reads a null frame or
divides by zero. -/
def CUData.hasPrevCTU (self : CUData) (slice : Slice) : Option Bool :=
  if self.m_cuAddr > 0 then
    if slice.bEntropyCodingSyncEnabled then
      match self.m_frame with
      | none => none
      | some frame =>
        if frame.m_numCuInWidth = 0 then none
        else some (!(self.m_cuAddr % frame.m_numCuInWidth == 0))
    else some true
  else some false

/-- Source function `CUData::getLastCodedQP`: the QP of the last coded partition
before `absPartIdx`. The recursion through the CTU-resident containers is
followed for at most `fuel` calls; `none` when the fuel runs out. -/
def CUData.getLastCodedQP (g : Globals) (pic : Nat → CUData) :
    Nat → CUData → Nat → Option Int
  | 0, _, _ => none
  | fuel + 1, self, absPartIdx =>
    match self.m_slice with
    | none => none
    | some slice =>
      match self.getLastValidPartIdx (toInt32 (absPartIdx &&& quPartIdxMask g slice)) with
      | none => none
      | some lastValidPartIdx =>
        if lastValidPartIdx ≥ 0 then
          some (asChar (self.get .qp lastValidPartIdx.toNat))
        else if self.m_absIdxInCTU ≠ 0 then
          match self.m_frame with
          | none => none
          | some _ => CUData.getLastCodedQP g pic fuel (pic self.m_cuAddr) self.m_absIdxInCTU
        else
          match self.hasPrevCTU slice with
          | none => none
          | some true =>
            match self.m_frame with
            | none => none
            | some _ =>
              CUData.getLastCodedQP g pic fuel (pic (sub32 self.m_cuAddr 1))
                (NUM_CU_PARTITIONS g)
          | some false => some (asChar (u8i slice.m_sliceQp))

/-- Source function `CUData::getRefQP`: the rounded average of the left and above
QP of the quantization group, as the `char` it returns. -/
def CUData.getRefQP (self : CUData) (g : Globals) (pic : Nat → CUData) (fuel : Nat)
    (curAbsIdxInCTU : Nat) : Option Int :=
  match self.getQpMinCuLeft g 0 (u32 (self.m_absIdxInCTU + curAbsIdxInCTU)),
      self.getQpMinCuAbove g 0 (u32 (self.m_absIdxInCTU + curAbsIdxInCTU)) with
  | some (cULeft, lPartIdx), some (cUAbove, aPartIdx) =>
    let left :=
      match cULeft.deref self pic with
      | some c => some (asChar (c.get .qp lPartIdx))
      | none => CUData.getLastCodedQP g pic fuel self curAbsIdxInCTU
    let above :=
      match cUAbove.deref self pic with
      | some c => some (asChar (c.get .qp aPartIdx))
      | none => CUData.getLastCodedQP g pic fuel self curAbsIdxInCTU
    match left, above with
    | some l, some a => some (asChar (u8i ((l + a + 1) >>> (1 : Nat))))
    | _, _ => none
  | _, _ => none

/-! ## Intra direction prediction and coefficient scan -/

/-- The expression `(tempCU && tempCU->isIntra(idx)) ? tempCU->m_lumaIntraDir[idx] : DC_IDX`. -/
def neighbourIntraDir (cu : Option CUData) (idx : Nat) : Nat :=
  match cu with
  | some c => if c.isIntra idx then (c.get .lumaIntraDir idx).val else DC_IDX
  | none => DC_IDX

/-- Source function `CUData::getIntraDirLumaPredictor`: the most probable luma
intra directions. The result is the returned count with the array
`intraDirPred`, which enters the call holding `intraDirPred`. -/
def CUData.getIntraDirLumaPredictor (self : CUData) (g : Globals) (pic : Nat → CUData)
    (absPartIdx : Nat) (intraDirPred : Nat → Nat) : Option (Int × (Nat → Nat)) :=
  match self.getPULeft g (u32 (self.m_absIdxInCTU + absPartIdx)) with
  | none => none
  | some (tempCU, tempPartIdx) =>
    let leftIntraDir := neighbourIntraDir (tempCU.deref self pic) tempPartIdx
    match self.getPUAbove g tempPartIdx (u32 (self.m_absIdxInCTU + absPartIdx)) true with
    | none => none
    | some (tempCU, tempPartIdx) =>
      let aboveIntraDir := neighbourIntraDir (tempCU.deref self pic) tempPartIdx
      if leftIntraDir = aboveIntraDir then
        if leftIntraDir ≥ 2 then
          let p := Function.update intraDirPred 0 leftIntraDir
          let p := Function.update p 1 (u32 ((u32 (sub32 leftIntraDir 2 + 31) &&& 31) + 2))
          let p := Function.update p 2 (u32 ((u32 (sub32 leftIntraDir 2 + 1) &&& 31) + 2))
          some (1, p)
        else
          let p := Function.update intraDirPred 0 PLANAR_IDX
          let p := Function.update p 1 DC_IDX
          let p := Function.update p 2 VER_IDX
          some (1, p)
      else
        let p := Function.update intraDirPred 0 leftIntraDir
        let p := Function.update p 1 aboveIntraDir
        let p :=
          if leftIntraDir ≠ 0 ∧ aboveIntraDir ≠ 0 then Function.update p 2 PLANAR_IDX
          else Function.update p 2 (if u32 (leftIntraDir + aboveIntraDir) < 2 then VER_IDX
            else DC_IDX)
        some (2, p)

/-- Source function `CUData::getCoefScanIdx`: the coefficient scan order of a
transform block. The table `g_chroma422IntraAngleMappingTable` of the missing
constants is the parameter `angleMap`. -/
def CUData.getCoefScanIdx (self : CUData) (angleMap : Nat → Byte)
    (absPartIdx log2TrSize : Nat) (bIsLuma bIsIntra : Bool) : ScanType :=
  if !bIsIntra then .SCAN_DIAG
  else
    let scan := fun (dirMode : Nat) =>
      if iabs (toInt32 dirMode - VER_IDX) ≤ MDCS_ANGLE_LIMIT then ScanType.SCAN_HOR
      else if iabs (toInt32 dirMode - HOR_IDX) ≤ MDCS_ANGLE_LIMIT then ScanType.SCAN_VER
      else ScanType.SCAN_DIAG
    if bIsLuma then
      if log2TrSize > MDCS_LOG2_MAX_SIZE then .SCAN_DIAG
      else scan (self.get .lumaIntraDir absPartIdx).val
    else
      if log2TrSize > sub32 MDCS_LOG2_MAX_SIZE self.m_hChromaShift then .SCAN_DIAG
      else
        let dirMode := (self.get .chromaIntraDir absPartIdx).val
        if dirMode = DM_CHROMA_IDX then
          let dirMode := (self.get .lumaIntraDir
            (if self.m_chromaFormat = X265_CSP_I444 then absPartIdx
              else absPartIdx &&& 0xFC)).val
          let dirMode :=
            if self.m_chromaFormat = X265_CSP_I422 then (angleMap dirMode).val else dirMode
          scan dirMode
        else scan dirMode

/-! ## Geometry table generation -/

/-- The body of the innermost loop of `calcCTUGeoms`: the index `cuIdx` and the
descriptor stored there. -/
def CUData.geomEntry (self : CUData) (g : Globals) (picWidth picHeight maxCUSize : Nat)
    (log2CUSize rangeCUIdx sbY sbX : Nat) : Nat × CUGeom :=
  let blockSize := u32 (1 <<< log2CUSize)
  let sbWidth := u32 (1 <<< sub32 (g_log2Size maxCUSize) log2CUSize)
  let lastLevelFlag : Nat := if log2CUSize = MIN_LOG2_CU_SIZE then 1 else 0
  let depthIdx := g_depthScanIdx sbY sbX
  let cuIdx := u32 (rangeCUIdx + depthIdx)
  let childIdx := u32 (u32 (rangeCUIdx + u32 (sbWidth * sbWidth)) + u32 (depthIdx <<< 2))
  let px := u32 (self.m_cuPelX + u32 (sbX * blockSize))
  let py := u32 (self.m_cuPelY + u32 (sbY * blockSize))
  let presentFlag : Nat := if px < picWidth ∧ py < picHeight then 1 else 0
  let splitMandatoryFlag : Nat :=
    if presentFlag ≠ 0 ∧ lastLevelFlag = 0 ∧
        (u32 (px + blockSize) > picWidth ∨ u32 (py + blockSize) > picHeight) then 1 else 0
  let xOffset := u32 (sbX * blockSize) >>> 3
  let yOffset := u32 (sbY * blockSize) >>> 3
  let flags := 0
  let flags := CU_SET_FLAG flags CUGeom.PRESENT presentFlag
  let flags := CU_SET_FLAG flags (CUGeom.SPLIT_MANDATORY ||| CUGeom.SPLIT) splitMandatoryFlag
  let flags := CU_SET_FLAG flags CUGeom.LEAF lastLevelFlag
  (cuIdx,
    { log2CUSize := log2CUSize
      childOffset := sub32 childIdx cuIdx
      encodeIdx := u32 (g_depthScanIdx yOffset xOffset * 4)
      numPartitions :=
        NUM_CU_PARTITIONS g >>> u32 (sub32 g.g_maxLog2CUSize log2CUSize * 2)
      depth := sub32 (g_log2Size maxCUSize) log2CUSize
      flags := flags })

/-- The two inner loops of `calcCTUGeoms` for one block size. -/
def CUData.geomLevel (self : CUData) (g : Globals) (picWidth picHeight maxCUSize : Nat)
    (log2CUSize rangeCUIdx : Nat) (cuDataArray : Nat → CUGeom) : Nat → CUGeom :=
  let sbWidth := u32 (1 <<< sub32 (g_log2Size maxCUSize) log2CUSize)
  (List.range sbWidth).foldl (fun arr sbY =>
    (List.range sbWidth).foldl (fun arr sbX =>
      let e := self.geomEntry g picWidth picHeight maxCUSize log2CUSize rangeCUIdx sbY sbX
      Function.update arr e.1 e.2) arr) cuDataArray

/-- The outer loop of `calcCTUGeoms` from block size `log2CUSize` down to
`MIN_LOG2_CU_SIZE`. -/
def CUData.geomLoop (self : CUData) (g : Globals) (picWidth picHeight maxCUSize : Nat) :
    Nat → Nat → (Nat → CUGeom) → Nat → CUGeom
  | 0, _, cuDataArray => cuDataArray
  | l + 1, rangeCUIdx, cuDataArray =>
    if l + 1 ≥ MIN_LOG2_CU_SIZE then
      let sbWidth := u32 (1 <<< sub32 (g_log2Size maxCUSize) (l + 1))
      self.geomLoop g picWidth picHeight maxCUSize l (u32 (rangeCUIdx + u32 (sbWidth * sbWidth)))
        (self.geomLevel g picWidth picHeight maxCUSize (l + 1) rangeCUIdx cuDataArray)
    else cuDataArray

/-- Source function `CUData::calcCTUGeoms`: the quadtree descriptors of the CTU;
the result is the array `cuDataArray` after the call. -/
def CUData.calcCTUGeoms (self : CUData) (g : Globals) (maxCUSize : Nat)
    (cuDataArray : Nat → CUGeom) : Option (Nat → CUGeom) :=
  match self.m_frame with
  | none => none
  | some frame =>
    some (self.geomLoop g frame.m_picWidth frame.m_picHeight maxCUSize (g_log2Size maxCUSize) 0
      cuDataArray)

/-- A sample slice without the low-delay property whose collocated list is list 1
(`m_colFromL0Flag` set): POC 8, every reference at POC 4, in picture 0. -/
def sampleColMixedSlice : Slice :=
  { m_sliceType := 1, m_poc := 8, m_refPOCList := fun _ _ => 4, m_colFromL0Flag := true,
    m_bCheckLDC := false, m_refPicList := fun _ _ => some 0 }

/-- A sample container coded with `sampleColMixedSlice`. -/
def sampleColMixedSelf : CUData := { sampleBlank with m_slice := some sampleColMixedSlice }

/-- The same container in a slice with the low-delay property. -/
def sampleColLowDelaySelf : CUData :=
  { sampleBlank with m_slice := some { sampleColMixedSlice with m_bCheckLDC := true } }

/-- A sample collocated picture: every CTU is inter-coded (all attribute bytes
are 1) with reference index 0 in both lists, vector (4, -8) in list 0 and vector
(2, 2) in list 1, in a slice at POC 4 whose references are at POC 0. -/
def sampleColMixedPics : Nat → Nat → CUData := fun _ _ =>
  { sampleBlank with
    m_slice := some { m_sliceType := 1, m_poc := 4, m_refPOCList := fun _ _ => 0 }
    charMemBlock := fun _ => 1
    m_cuMvField0 := { m_mv := fun _ => ⟨4, -8⟩, m_refIdx := fun _ => 0, m_numPartitions := 256 }
    m_cuMvField1 := { m_mv := fun _ => ⟨2, 2⟩, m_refIdx := fun _ => 0, m_numPartitions := 256 } }

/-- A sample CTU in which every unit is intra-coded with luma direction 2 (all
attribute bytes are 2). -/
def sampleIntraCU : CUData := { sampleBlank with charMemBlock := fun _ => 2 }

/-- A sample CTU in which every unit has luma direction 26 and chroma direction 26
(all attribute bytes are 26). -/
def sampleVerCU : CUData := { sampleBlank with charMemBlock := fun _ => 26 }

/-- A sample CTU at address 0 of `sampleMvpSlice` with CTU 3 on its left, CTU 1
above and CTU 2 above right. -/
def sampleAdiSelf : CUData := { sampleMvpSelf with m_cuLeft := some 3 }

/-- A sample CTU array for `sampleAdiSelf`: CTU `a` records the address `a`; CTU 3
has no slice yet. -/
def sampleAdiPic : Nat → CUData := fun a =>
  { sampleMvpPic a with
    m_cuAddr := a
    m_slice := if a = 3 then none else some sampleMvpSlice }

/-- What `getLastCodedQP` relies on in a container: a slice, a frame with a
positive width in CTUs, a partition count below `2 ^ 31`, and a positive step
`m_numPartitions >> (depth << 1)` at every unit without a prediction mode. -/
def CUData.qpScanReady (cu : CUData) : Prop :=
  cu.m_slice ≠ none ∧ (∃ f, cu.m_frame = some f ∧ 0 < f.m_numCuInWidth) ∧
  cu.m_numPartitions < 2 ^ 31 ∧
  ∀ i, (cu.get .predModes i).val = MODE_NONE →
    0 < cu.m_numPartitions >>> ((cu.get .depth i).val <<< 1)

/-- A sample slice with initial QP 30 and quantization groups of 8x8 pixels. -/
def sampleQpSlice : Slice := { m_sliceType := 1, m_sliceQp := 30, maxCuDQPDepth := 3 }

/-- A sample CTU array of a picture in which nothing is coded yet: CTU `a` records
the address `a`, has 256 partitions, and all its attribute bytes are zero. -/
def sampleQpPic : Nat → CUData := fun a =>
  { sampleBlank with m_slice := some sampleQpSlice, m_cuAddr := a, m_numPartitions := 256 }

/-- A sample CTU array of a coded picture: unit `i` of every CTU is intra-coded
with QP `20 + i` (attribute byte `20 + i`). -/
def sampleQpCoded : Nat → CUData := fun a =>
  { sampleQpPic a with charMemBlock := fun x => u8 (20 + x) }

/-- Index of the first descriptor of depth `d` in the array that `calcCTUGeoms`
fills: the number of blocks of smaller depth. -/
def geomBase : Nat → Nat
  | 0 => 0
  | d + 1 => geomBase d + 4 ^ d

/-- A sample frame of 128x64 pixels, two CTUs of 64x64 wide. -/
def sampleGeomFrame : Frame := { sampleFrame with m_picWidth := 128, m_picHeight := 64 }

/-- The second CTU of `sampleGeomFrame`, at pixel (64, 0). -/
def sampleGeomCU : CUData :=
  { sampleBlank with m_frame := some sampleGeomFrame, m_cuPelX := 64 }

/-- A sample frame of 100x64 pixels: its second CTU column is cut at pixel 100. -/
def sampleEdgeFrame : Frame := { sampleFrame with m_picWidth := 100, m_picHeight := 64 }

/-- The second CTU of `sampleEdgeFrame`, at pixel (64, 0). -/
def sampleEdgeCU : CUData :=
  { sampleBlank with m_frame := some sampleEdgeFrame, m_cuPelX := 64 }

/-- A descriptor array before `calcCTUGeoms`: every field zero. -/
def sampleGeoms : Nat → CUGeom := fun _ => ⟨0, 0, 0, 0, 0, 0⟩

/-- The reads of a reference-POC list that `CUData::addMVPCand` performs, in
execution order. Each read `m_refPOCList[list][idx]` is recorded as
`(own, list, idx)`, where `own` tells the container's own slice from the
neighbour's slice. -/
def CUData.addMVPCandLookups (self : CUData) (g : Globals) (pic : Nat → CUData)
    (picList refIdx : Int) (partUnitIdx : Nat) (dir : MVP_DIR) :
    Option (List (Bool × Int × Int)) :=
  match self.mvpNeighbour g pic partUnitIdx dir with
  | none => none
  | some (ptr, idx) =>
    match ptr.deref self pic with
    | none => some []
    | some tmpCU =>
      match self.m_slice, tmpCU.m_slice with
      | some slice, some tmpSlice =>
        let refPOC := slice.m_refPOCList picList refIdx
        let otherPOC := tmpSlice.m_refPOCList picList ((tmpCU.cuMvField picList).getRefIdx idx)
        let reads := [(true, picList, refIdx),
          (false, picList, (tmpCU.cuMvField picList).getRefIdx idx)]
        if (tmpCU.cuMvField picList).getRefIdx idx ≥ 0 ∧ refPOC = otherPOC then
          some reads
        else
          let refPicList2nd : Int := if picList = 0 then 1 else 0
          let reads := reads ++ [(true, picList, refIdx)]
          if (tmpCU.cuMvField refPicList2nd).getRefIdx idx ≥ 0 then
            some (reads ++
              [(false, refPicList2nd, (tmpCU.cuMvField refPicList2nd).getRefIdx idx)])
          else some reads
      | _, _ => none

/-- A sample container of 16 partitions whose prediction modes and depths are
separate arrays: units 0..3 are coded (mode 1), units 4..15 are not, and every
unit has depth 1, so that a block has 16 >> 2 = 4 partitions. -/
def sampleScanCU : CUData :=
  { sampleBlank with
    m_numPartitions := 16
    m_predModes := 0
    m_depth := 256
    charMemBlock := fun x => if x < 4 then 1 else if 256 ≤ x then 1 else 0 }

/-- The index pairs `(i, j)` that the first `n` rounds of the combination loop of
`getInterMergeCandidates` take from `priorityList0` and `priorityList1`: each
round reads the two low bits of both and shifts both right by two. -/
def combinePairs : Nat → Nat → Nat → List (Nat × Nat)
  | 0, _, _ => []
  | n + 1, priorityList0, priorityList1 =>
    (priorityList0 &&& 3, priorityList1 &&& 3)
      :: combinePairs n (priorityList0 >>> 2) (priorityList1 >>> 2)

/-- The two candidate arrays hold the same candidates in the slots below `m`. -/
def MergeOut.agreeBelow (o1 o2 : MergeOut) (m : Nat) : Prop :=
  ∀ i, i < m →
    (∀ l, l < 2 → o1.mvFieldNeighbours i l = o2.mvFieldNeighbours i l) ∧
    o1.interDirNeighbours i = o2.interDirNeighbours i

/-- The number of prediction units of a partition mode: the entries of the row
`partTable[mode]` whose packed size is not zero. -/
def puCount (mode : Nat) : Nat :=
  ((partTableData.getD mode []).filter (fun e => e.getD 0 0 ≠ 0)).length

/-- The pixel `(x, y)` of the CU lies inside the rectangle `(xP, yP, nPSW, nPSH)`. -/
def inPU (r : Nat × Nat × Nat × Nat) (x y : Nat) : Prop :=
  r.1 ≤ x ∧ x < r.1 + r.2.2.1 ∧ r.2.1 ≤ y ∧ y < r.2.1 + r.2.2.2

/-- A CU of 64x64 pixels with partition mode `SIZE_2NxnU`. -/
def sampleAmpCU : CUData :=
  { sampleBlank with
    m_numPartitions := 256, m_log2CUSize := 0, m_partSizes := 16,
    charMemBlock := fun x => if x < 16 then 6 else 4 }

/-- The z-scan index, in the CTU, of the 4x4 unit that holds the pixel `(x, y)` of
the CU whose first unit has the index `absIdxInCTU`: the unit `y / 4` rows
below and `x / 4` columns right of that unit, found through the two address
tables as the source does. -/
def unitOfPixel (g : Globals) (numPartInCUSize absIdxInCTU x y : Nat) : Nat :=
  g_rasterToZscan g
    (g_zscanToRaster g absIdxInCTU + (y >>> LOG2_UNIT_SIZE) * numPartInCUSize
      + (x >>> LOG2_UNIT_SIZE))

/-- A sample container for the node of 16 partitions at z-scan index 16 of CTU
number `m_cuAddr`. -/
def sampleNodeCU : CUData :=
  { sampleBlank with m_absIdxInCTU := 16, m_numPartitions := 16, m_cuAddr := 3 }

/-- The `memset` calls of the source function `CUData::setInterDirSubParts`, in call
order: each pair is the offset of the destination from `m_interDir + absPartIdx`
and the byte count, for the partition mode read at `absPartIdx`, the unit index
`puIdx` and the quarter count `curPartNumQ`. An unexpected mode makes no call. -/
def interDirRuns (partSize puIdx curPartNumQ : Nat) : List (Nat × Nat) :=
  let q := curPartNumQ
  if partSize = SIZE_2Nx2N then [(0, u32 (4 * q))]
  else if partSize = SIZE_2NxN then [(0, u32 (2 * q))]
  else if partSize = SIZE_Nx2N then [(0, q), (u32 (2 * q), q)]
  else if partSize = SIZE_NxN then [(0, q)]
  else if partSize = SIZE_2NxnU then
    if puIdx = 0 then [(0, q >>> 1), (q, q >>> 1)]
    else [(0, q >>> 1), (q, u32 ((q >>> 1) + u32 (q <<< 1)))]
  else if partSize = SIZE_2NxnD then
    if puIdx = 0 then
      [(0, u32 (u32 (q <<< 1) + (q >>> 1))), (u32 (q <<< 1) + q, q >>> 1)]
    else [(0, q >>> 1), (q, q >>> 1)]
  else if partSize = SIZE_nLx2N then
    if puIdx = 0 then
      [(0, q >>> 2), (q >>> 1, q >>> 2), (u32 (q <<< 1), q >>> 2),
        (u32 (q <<< 1) + (q >>> 1), q >>> 2)]
    else
      [(0, q >>> 2), (q >>> 1, u32 (q + (q >>> 2))), (u32 (q <<< 1), q >>> 2),
        (u32 (q <<< 1) + (q >>> 1), u32 (q + (q >>> 2)))]
  else if partSize = SIZE_nRx2N then
    if puIdx = 0 then
      [(0, u32 (q + (q >>> 2))), (q + (q >>> 1), q >>> 2),
        (u32 (q <<< 1), u32 (q + (q >>> 2))), (u32 (q <<< 1) + q + (q >>> 1), q >>> 2)]
    else
      [(0, q >>> 2), (q >>> 1, q >>> 2), (u32 (q <<< 1), q >>> 2),
        (u32 (q <<< 1) + (q >>> 1), q >>> 2)]
  else []

/-- Source function `CUData::setInterDirSubParts`: store `dir` in the `m_interDir`
entries of one prediction unit. -/
def CUData.setInterDirSubParts (self : CUData) (g : Globals) (dir absPartIdx puIdx depth : Nat) :
    CUData :=
  let curPartNumQ := (NUM_CU_PARTITIONS g >>> u32 (2 * depth)) >>> 2
  { self with
    charMemBlock :=
      (interDirRuns (self.get .partSizes absPartIdx).val puIdx curPartNumQ).foldl
        (fun mem r => memset mem (self.m_interDir + absPartIdx + r.1) (u8 dir) r.2)
        self.charMemBlock }

/-- A container for a CU of 64x64 pixels with partition mode `SIZE_nLx2N`, the
mode stored for every partition. -/
def sampleInterCU : CUData :=
  { sampleBlank with
    m_numPartitions := 256, m_log2CUSize := 0, m_partSizes := 256, m_interDir := 512,
    charMemBlock := fun x => if x < 256 then 6 else if x < 512 then 6 else 0 }

/-! ## Basic facts about the primitives -/

theorem memcpy_in {α : Type} (dst : Nat → α) (d : Nat) (src : Nat → α) (s n x : Nat)
    (h1 : d ≤ x) (h2 : x < d + n) : memcpy dst d src s n x = src (s + (x - d)) := by
  simp [memcpy, h1, h2]

theorem memcpy_out {α : Type} (dst : Nat → α) (d : Nat) (src : Nat → α) (s n x : Nat)
    (h : x < d ∨ d + n ≤ x) : memcpy dst d src s n x = dst x := by
  have : ¬ (d ≤ x ∧ x < d + n) := by omega
  simp [memcpy, this]

theorem memset_in {α : Type} (dst : Nat → α) (d : Nat) (v : α) (n x : Nat)
    (h1 : d ≤ x) (h2 : x < d + n) : memset dst d v n x = v := by
  simp [memset, h1, h2]

theorem memset_out {α : Type} (dst : Nat → α) (d : Nat) (v : α) (n x : Nat)
    (h : x < d ∨ d + n ≤ x) : memset dst d v n x = dst x := by
  have : ¬ (d ≤ x ∧ x < d + n) := by omega
  simp [memset, this]

theorem byteOf_loadU64 (m : Mem) (a k : Nat) (hk : k < 8) :
    byteOf (loadU64 m a) k = m (a + k) := by
  apply Fin.ext
  have h0 := (m a).isLt
  have h1 := (m (a + 1)).isLt
  have h2 := (m (a + 2)).isLt
  have h3 := (m (a + 3)).isLt
  have h4 := (m (a + 4)).isLt
  have h5 := (m (a + 5)).isLt
  have h6 := (m (a + 6)).isLt
  have h7 := (m (a + 7)).isLt
  simp only [byteOf, u8, loadU64]
  interval_cases k <;> norm_num <;> omega

theorem byteOf_loadU32 (m : Mem) (a k : Nat) (hk : k < 4) :
    byteOf (loadU32 m a) k = m (a + k) := by
  apply Fin.ext
  have h0 := (m a).isLt
  have h1 := (m (a + 1)).isLt
  have h2 := (m (a + 2)).isLt
  have h3 := (m (a + 3)).isLt
  simp only [byteOf, u8, loadU32]
  interval_cases k <;> norm_num <;> omega

set_option maxRecDepth 100000 in
theorem byteOf_bval64_all :
    ∀ v : Byte, ∀ k : Fin 8, byteOf ((0x0101010101010101 * v.val) % 2 ^ 64) k.val = v := by
  decide

theorem byteOf_bval64 (v : Byte) (k : Nat) (hk : k < 8) :
    byteOf ((0x0101010101010101 * v.val) % 2 ^ 64) k = v :=
  byteOf_bval64_all v ⟨k, hk⟩

set_option maxRecDepth 100000 in
theorem byteOf_bval32_all :
    ∀ v : Byte, ∀ k : Fin 4, byteOf (u32 (0x01010101 * v.val)) k.val = v := by
  decide

theorem byteOf_bval32 (v : Byte) (k : Nat) (hk : k < 4) :
    byteOf (u32 (0x01010101 * v.val)) k = v :=
  byteOf_bval32_all v ⟨k, hk⟩

theorem memcpy_append {α : Type} (dst : Nat → α) (d : Nat) (src : Nat → α) (s n k : Nat) :
    memcpy (memcpy dst d src s n) (d + n) src (s + n) k = memcpy dst d src s (n + k) := by
  funext x
  simp only [memcpy]
  by_cases h1 : d + n ≤ x ∧ x < d + n + k
  · have h2 : d ≤ x ∧ x < d + (n + k) := by omega
    rw [if_pos h1, if_pos h2]
    congr 1
    omega
  · rw [if_neg h1]
    by_cases h3 : d ≤ x ∧ x < d + n
    · have h2 : d ≤ x ∧ x < d + (n + k) := by omega
      rw [if_pos h3, if_pos h2]
    · have h2 : ¬ (d ≤ x ∧ x < d + (n + k)) := by omega
      rw [if_neg h3, if_neg h2]

theorem memset_append {α : Type} (dst : Nat → α) (d : Nat) (v : α) (n k : Nat) :
    memset (memset dst d v n) (d + n) v k = memset dst d v (n + k) := by
  funext x
  simp only [memset]
  by_cases h1 : d + n ≤ x ∧ x < d + n + k
  · have h2 : d ≤ x ∧ x < d + (n + k) := by omega
    rw [if_pos h1, if_pos h2]
  · rw [if_neg h1]
    by_cases h3 : d ≤ x ∧ x < d + n
    · have h2 : d ≤ x ∧ x < d + (n + k) := by omega
      rw [if_pos h3, if_pos h2]
    · have h2 : ¬ (d ≤ x ∧ x < d + (n + k)) := by omega
      rw [if_neg h3, if_neg h2]

theorem storeU64_loadU64 (dst : Mem) (d : Nat) (src : Mem) (s : Nat) :
    storeU64 dst d (loadU64 src s) = memcpy dst d src s 8 := by
  funext x
  simp only [storeU64, memcpy]
  by_cases h : d ≤ x ∧ x < d + 8
  · rw [if_pos h, if_pos h]
    exact byteOf_loadU64 src s (x - d) (by omega)
  · rw [if_neg h, if_neg h]

theorem storeU32_loadU32 (dst : Mem) (d : Nat) (src : Mem) (s : Nat) :
    storeU32 dst d (loadU32 src s) = memcpy dst d src s 4 := by
  funext x
  simp only [storeU32, memcpy]
  by_cases h : d ≤ x ∧ x < d + 4
  · rw [if_pos h, if_pos h]
    exact byteOf_loadU32 src s (x - d) (by omega)
  · rw [if_neg h, if_neg h]

theorem storeU64_bval (dst : Mem) (d : Nat) (v : Byte) :
    storeU64 dst d ((0x0101010101010101 * v.val) % 2 ^ 64) = memset dst d v 8 := by
  funext x
  simp only [storeU64, memset]
  by_cases h : d ≤ x ∧ x < d + 8
  · rw [if_pos h, if_pos h]
    exact byteOf_bval64 v (x - d) (by omega)
  · rw [if_neg h, if_neg h]

/-- The word copy of four bytes is a four-byte block copy. -/
theorem copy4_eq (dst : Mem) (d : Nat) (src : Mem) (s : Nat) :
    copy4 dst d src s = memcpy dst d src s 4 :=
  storeU32_loadU32 dst d src s

/-- The two-word copy is a sixteen-byte block copy. -/
theorem copy16_eq (dst : Mem) (d : Nat) (src : Mem) (s : Nat) :
    copy16 dst d src s = memcpy dst d src s 16 := by
  simp only [copy16, storeU64_loadU64]
  exact memcpy_append dst d src s 8 8

/-- The eight-word copy is a sixty-four-byte block copy. -/
theorem copy64_eq (dst : Mem) (d : Nat) (src : Mem) (s : Nat) :
    copy64 dst d src s = memcpy dst d src s 64 := by
  simp only [copy64, storeU64_loadU64]
  have e := memcpy_append dst d src s
  rw [e 8 8, e 16 8, e 24 8, e 32 8, e 40 8, e 48 8, e 56 8]

/-- The one-word broadcast fills four bytes. -/
theorem bcast4_eq (dst : Mem) (d : Nat) (v : Byte) :
    bcast4 dst d v = memset dst d v 4 := by
  funext x
  simp only [bcast4, storeU32, memset]
  by_cases h : d ≤ x ∧ x < d + 4
  · rw [if_pos h, if_pos h]
    exact byteOf_bval32 v (x - d) (by omega)
  · rw [if_neg h, if_neg h]

/-- The two-word broadcast fills sixteen bytes. -/
theorem bcast16_eq (dst : Mem) (d : Nat) (v : Byte) :
    bcast16 dst d v = memset dst d v 16 := by
  simp only [bcast16, storeU64_bval]
  exact memset_append dst d v 8 8

/-- The eight-word broadcast fills sixty-four bytes. -/
theorem bcast64_eq (dst : Mem) (d : Nat) (v : Byte) :
    bcast64 dst d v = memset dst d v 64 := by
  simp only [bcast64, storeU64_bval]
  have e := memset_append dst d v
  rw [e 8 8, e 16 8, e 24 8, e 32 8, e 40 8, e 48 8, e 56 8]

/-! ## Function pointers and layout after `initialize` -/

theorem cucopy_call_eq (f : cucopy_t) (dst : Mem) (d : Nat) (src : Mem) (s : Nat) :
    f.call dst d src s = memcpy dst d src s f.size := by
  cases f
  · exact copy4_eq dst d src s
  · exact copy16_eq dst d src s
  · exact copy64_eq dst d src s
  · rfl

theorem cubcast_call_eq (f : cubcast_t) (dst : Mem) (d : Nat) (v : Byte) :
    f.call dst d v = memset dst d v f.size := by
  cases f
  · exact bcast4_eq dst d v
  · exact bcast16_eq dst d v
  · exact bcast64_eq dst d v
  · rfl

theorem initialize_layout (cu0 : CUData) (N cuSize : Nat) (csp : Int) (index : Nat) :
    Layout ( CUData.initialize cu0 N cuSize csp index) (slabBase N index) N := by
  intro a
  cases a <;> simp only [ CUData.initialize, CUData.ptr, Attr.idx, slabBase] <;> omega

theorem initialize_partSet (cu0 : CUData) (N cuSize : Nat) (csp : Int) (index : Nat)
    (hN : N = 4 ∨ N = 16 ∨ N = 64 ∨ N = 256) :
    ∃ k, ( CUData.initialize cu0 N cuSize csp index).m_partSet = some k ∧ k.size = N := by
  rcases hN with h | h | h | h <;> subst h
  · exact ⟨.bcast4, rfl, rfl⟩
  · exact ⟨.bcast16, rfl, rfl⟩
  · exact ⟨.bcast64, rfl, rfl⟩
  · exact ⟨.bcast256, rfl, rfl⟩

theorem initialize_partCopy (cu0 : CUData) (N cuSize : Nat) (csp : Int) (index : Nat)
    (hN : N = 4 ∨ N = 16 ∨ N = 64 ∨ N = 256) :
    ∃ k, ( CUData.initialize cu0 N cuSize csp index).m_partCopy = some k ∧ k.size = N := by
  rcases hN with h | h | h | h <;> subst h
  · exact ⟨.copy4, rfl, rfl⟩
  · exact ⟨.copy16, rfl, rfl⟩
  · exact ⟨.copy64, rfl, rfl⟩
  · exact ⟨.copy256, rfl, rfl⟩

theorem initialize_subPartCopy (cu0 : CUData) (N cuSize : Nat) (csp : Int) (index : Nat)
    (hN : N = 16 ∨ N = 64 ∨ N = 256) :
    ∃ k, ( CUData.initialize cu0 N cuSize csp index).m_subPartCopy = some k ∧ 4 * k.size = N := by
  rcases hN with h | h | h <;> subst h
  · exact ⟨.copy4, rfl, rfl⟩
  · exact ⟨.copy16, rfl, rfl⟩
  · exact ⟨.copy64, rfl, rfl⟩

/-! ## Runs of block copies over a laid-out slab -/

theorem Attr.idx_lt (a : Attr) : a.idx < 20 := by
  cases a <;> decide

theorem Attr.idx_injective (a a' : Attr) (h : a.idx = a'.idx) : a = a' := by
  cases a <;> cases a' <;> first | rfl | (exact absurd h (by decide))

theorem copyAttrs_cons (k : Nat) (dst : Mem) (dp : Attr → Nat) (src : Mem) (sp : Attr → Nat)
    (a : Attr) (rest : List Attr) :
    copyAttrs k dst dp src sp (a :: rest)
      = copyAttrs k (memcpy dst (dp a) src (sp a) k) dp src sp rest := rfl

/-- An address outside every destination block keeps its byte. -/
theorem copyAttrs_out (k : Nat) (dp : Attr → Nat) (src : Mem) (sp : Attr → Nat) (x : Nat)
    (order : List Attr) :
    ∀ dst : Mem, (∀ a' ∈ order, x < dp a' ∨ dp a' + k ≤ x) →
      copyAttrs k dst dp src sp order x = dst x := by
  induction order with
  | nil => intro dst _; rfl
  | cons a rest ih =>
    intro dst h
    rw [copyAttrs_cons, ih _ (fun a' ha' => h a' (List.mem_cons_of_mem a ha'))]
    exact memcpy_out dst (dp a) src (sp a) k x (h a (List.mem_cons_self a rest))

/-- An address inside the destination block of a listed array, and outside
the blocks of the other listed arrays, receives the source byte. -/
theorem copyAttrs_in (k : Nat) (dp : Attr → Nat) (src : Mem) (sp : Attr → Nat) (x : Nat)
    (a : Attr) (h1 : dp a ≤ x) (h2 : x < dp a + k) (order : List Attr) :
    ∀ dst : Mem, a ∈ order → (∀ a' ∈ order, a' ≠ a → x < dp a' ∨ dp a' + k ≤ x) →
      copyAttrs k dst dp src sp order x = src (sp a + (x - dp a)) := by
  induction order with
  | nil => intro dst ha; exact absurd ha (List.not_mem_nil a)
  | cons a0 rest ih =>
    intro dst ha h
    rw [copyAttrs_cons]
    by_cases hr : a ∈ rest
    · exact ih _ hr (fun a' ha' hne => h a' (List.mem_cons_of_mem a0 ha') hne)
    · have h0 : a = a0 := by
        rcases List.mem_cons.mp ha with h0 | h0
        · exact h0
        · exact absurd h0 hr
      subst h0
      rw [copyAttrs_out k dp src sp x rest _ (fun a' ha' =>
        h a' (List.mem_cons_of_mem a ha') (fun e => hr (e ▸ ha')))]
      exact memcpy_in dst (dp a) src (sp a) k x h1 h2

/-- In a laid-out slab, a byte of one array lies outside the window
`[off, off + k)` of every other array. -/
theorem Layout.disjoint {cu : CUData} {b N : Nat} (H : Layout cu b N) (a a' : Attr)
    (hne : a' ≠ a) (j off k : Nat) (hj : j < N) (hk : off + k ≤ N) :
    cu.ptr a + j < cu.ptr a' + off ∨ cu.ptr a' + off + k ≤ cu.ptr a + j := by
  rw [H a, H a']
  have hi : a'.idx ≠ a.idx := fun e => hne (Attr.idx_injective a' a e)
  rcases Nat.lt_or_gt_of_ne hi with h | h
  · right
    have : (a'.idx + 1) * N ≤ a.idx * N := Nat.mul_le_mul_right N h
    rw [Nat.add_mul] at this
    omega
  · left
    have : (a.idx + 1) * N ≤ a'.idx * N := Nat.mul_le_mul_right N h
    rw [Nat.add_mul] at this
    omega

theorem mem_copyPartFromOrder (a : Attr) : a ∈ copyPartFromOrder := by
  cases a <;> decide

theorem mem_copyToPicOrder (a : Attr) : a ∈ copyToPicOrder := by
  cases a <;> decide

/-- Reading a laid-out slab after a run of block copies into the windows
`[off, off + k)` of the listed arrays: inside the window of a listed array. -/
theorem copyAttrs_layout_in {cu : CUData} {b N : Nat} (H : Layout cu b N) (k off : Nat)
    (hk : off + k ≤ N) (dst src : Mem) (sp : Attr → Nat) (order : List Attr) (a : Attr)
    (ha : a ∈ order) (i : Nat) (hi : i < k) :
    copyAttrs k dst (fun a => cu.ptr a + off) src sp order (cu.ptr a + (off + i))
      = src (sp a + i) := by
  rw [copyAttrs_in k (fun a => cu.ptr a + off) src sp (cu.ptr a + (off + i)) a
    (by show cu.ptr a + off ≤ cu.ptr a + (off + i); omega)
    (by show cu.ptr a + (off + i) < cu.ptr a + off + k; omega) order dst ha
    (fun a' _ hne => H.disjoint a a' hne (off + i) off k (by omega) hk)]
  congr 1
  show sp a + (cu.ptr a + (off + i) - (cu.ptr a + off)) = sp a + i
  omega

/-- Reading a laid-out slab after a run of block copies into the windows
`[off, off + k)` of the listed arrays: outside the window, or in an array
that is not listed. -/
theorem copyAttrs_layout_out {cu : CUData} {b N : Nat} (H : Layout cu b N) (k off : Nat)
    (hk : off + k ≤ N) (dst src : Mem) (sp : Attr → Nat) (order : List Attr) (a : Attr)
    (j : Nat) (hj : j < N) (hout : a ∉ order ∨ j < off ∨ off + k ≤ j) :
    copyAttrs k dst (fun a => cu.ptr a + off) src sp order (cu.ptr a + j) = dst (cu.ptr a + j) := by
  apply copyAttrs_out
  intro a' ha'
  by_cases e : a' = a
  · subst e
    rcases hout with h | h
    · exact absurd ha' h
    · show cu.ptr a' + j < cu.ptr a' + off ∨ cu.ptr a' + off + k ≤ cu.ptr a' + j
      omega
  · exact H.disjoint a a' e j off k hj hk

/-! ## `copyPartFrom` -/

/-- The attribute slab after `copyPartFrom`, as a run of block copies. -/
theorem copyPartFrom_eq (p child : CUData) (g : Globals) (n q depth : Nat) (k : cucopy_t)
    (hk : p.m_subPartCopy = some k) :
    ∃ p2, p.copyPartFrom g child n q depth = some p2 ∧
      p2.charMemBlock = copyAttrs k.size p.charMemBlock (fun a => p.ptr a + u32 (n * q))
        child.charMemBlock child.ptr copyPartFromOrder ∧
      (∀ a, p2.ptr a = p.ptr a) ∧
      p2.m_cuMvField0 = p.m_cuMvField0.copyFrom child.m_cuMvField0 n (u32 (n * q)) ∧
      p2.m_cuMvField1 = p.m_cuMvField1.copyFrom child.m_cuMvField1 n (u32 (n * q)) ∧
      p2.m_cuAddr = p.m_cuAddr ∧ p2.m_absIdxInCTU = p.m_absIdxInCTU ∧
      p2.m_partCopy = p.m_partCopy ∧ p2.m_frame = p.m_frame := by
  unfold CUData.copyPartFrom
  simp only [hk]
  refine ⟨_, rfl, ?_, ?_, ?_, ?_, ?_, ?_, ?_, ?_⟩
  · simp only [cucopy_call_eq]
    rfl
  · intro a
    cases a <;> rfl
  all_goals rfl

/-! ## C1: broadcast and quadrant splice -/

theorem partSet_spec (p : CUData) (b N : Nat) (k : cubcast_t) (a0 : Attr) (val : Byte)
    (H : Layout p b N) (hk : p.m_partSet = some k) (hs : k.size = N) :
    ∃ p1, p.partSet a0 val = some p1 ∧ Layout p1 b N ∧
      p1.m_subPartCopy = p.m_subPartCopy ∧ (∀ i, i < N → p1.get a0 i = val) := by
  unfold CUData.partSet
  simp only [hk]
  refine ⟨_, rfl, ?_, rfl, ?_⟩
  · intro a
    rw [← H a]
    cases a <;> rfl
  · intro i hi
    show k.call p.charMemBlock (p.ptr a0) val (p.ptr a0 + i) = val
    rw [cubcast_call_eq, hs]
    exact memset_in _ _ _ _ _ (by omega) (by omega)

theorem copyPartFrom_spec (p child : CUData) (g : Globals) (b N n q depth : Nat) (k : cucopy_t)
    (H : Layout p b N) (hk : p.m_subPartCopy = some k) (hs : k.size = n) (hN : 4 * n = N)
    (hq : q < 4) (hn : n ≤ 64) :
    ∃ p2, p.copyPartFrom g child n q depth = some p2 ∧
      (∀ a, p2.ptr a = p.ptr a) ∧
      (∀ a i, i < n → p2.get a (q * n + i) = child.get a i) ∧
      (∀ a j, j < N → (j < q * n ∨ (q + 1) * n ≤ j) → p2.get a j = p.get a j) ∧
      p2.m_cuMvField0 = p.m_cuMvField0.copyFrom child.m_cuMvField0 n (q * n) ∧
      p2.m_cuMvField1 = p.m_cuMvField1.copyFrom child.m_cuMvField1 n (q * n) ∧
      p2.m_cuAddr = p.m_cuAddr ∧ p2.m_absIdxInCTU = p.m_absIdxInCTU ∧
      p2.m_partCopy = p.m_partCopy ∧ p2.m_frame = p.m_frame := by
  obtain ⟨p2, h, hm, hp, hmv0, hmv1, hrest⟩ := copyPartFrom_eq p child g n q depth k hk
  have hoffN : q * n + n ≤ N := by
    interval_cases q <;> omega
  have hu : u32 (n * q) = q * n := by
    unfold u32
    interval_cases q <;> omega
  rw [hu] at hm hmv0 hmv1
  rw [hs] at hm
  refine ⟨p2, h, hp, ?_, ?_, hmv0, hmv1, hrest⟩
  · intro a i hi
    unfold CUData.get
    rw [hp a, hm, ← Nat.add_assoc]
    rw [Nat.add_assoc]
    exact copyAttrs_layout_in H n (q * n) hoffN _ _ _ _ a (mem_copyPartFromOrder a) i hi
  · intro a j hj hout
    unfold CUData.get
    rw [hp a, hm]
    exact copyAttrs_layout_out H n (q * n) hoffN _ _ _ _ a j hj
      (Or.inr (by rw [Nat.add_mul, Nat.one_mul] at hout; omega))

/-- C1: for a parent container initialised for `N` partitions (`N` one of 16, 64,
256) and every byte value `v`, after the size-specialised broadcast
`m_partSet` of `v` over an attribute array every index below `N` reads back
`v`; after a subsequent `copyPartFrom(child, N/4, q, depth)` with `q < 4`, every
one of the twenty attribute arrays holds the child's value at `q*N/4 + i` for
`i < N/4`, and every parent entry outside the quadrant keeps its previous
value, the broadcast value `v` in the broadcast array. -/
theorem C1_broadcast_then_copyPartFrom (cu0 child : CUData) (g : Globals) (N cuSize : Nat)
    (csp : Int) (index : Nat) (a0 : Attr) (v q depth : Nat)
    (hN : N = 16 ∨ N = 64 ∨ N = 256) (hv : v < 256) (hq : q < 4) :
    ∃ p1 p2, ( CUData.initialize cu0 N cuSize csp index).partSet a0 (u8 v) = some p1 ∧
      (∀ i, i < N → (p1.get a0 i).val = v) ∧
      p1.copyPartFrom g child (N / 4) q depth = some p2 ∧
      (∀ a i, i < N / 4 → p2.get a (q * (N / 4) + i) = child.get a i) ∧
      (∀ a j, j < N → (j < q * (N / 4) ∨ (q + 1) * (N / 4) ≤ j) →
        p2.get a j = p1.get a j) ∧
      (∀ j, j < N → (j < q * (N / 4) ∨ (q + 1) * (N / 4) ≤ j) → (p2.get a0 j).val = v) := by
  have H := initialize_layout cu0 N cuSize csp index
  obtain ⟨ks, hks, hkss⟩ := initialize_partSet cu0 N cuSize csp index (by omega)
  obtain ⟨kc, hkc, hkcs⟩ := initialize_subPartCopy cu0 N cuSize csp index hN
  obtain ⟨p1, hp1, H1, hsub, hget⟩ := partSet_spec _ _ _ ks a0 (u8 v) H hks hkss
  have hval : (u8 v).val = v := by
    show v % 256 = v
    omega
  obtain ⟨p2, hp2, _, hin, hout, _⟩ :=
    copyPartFrom_spec p1 child g _ N (N / 4) q depth kc H1 (hsub.trans hkc) (by omega)
      (by omega) hq (by omega)
  refine ⟨p1, p2, hp1, ?_, hp2, hin, hout, ?_⟩
  · intro i hi
    rw [hget i hi, hval]
  · intro j hj ho
    rw [hout a0 j hj ho, hget j hj, hval]

/-- C1 at a concrete input: a 16-partition parent, `qp` broadcast to 7, then
quadrant 2 spliced from the sample child. -/
theorem C1_broadcast_then_copyPartFrom_witness :
    ∃ p1 p2, ( CUData.initialize CUData.zero 16 16 1 0).partSet .qp (u8 7) = some p1 ∧
      (p1.get .qp 15).val = 7 ∧
      p1.copyPartFrom ⟨4, 2⟩ sampleChild 4 2 1 = some p2 ∧
      p2.get .depth 9 = sampleChild.get .depth 1 ∧
      p2.get .depth 3 = p1.get .depth 3 ∧
      (p2.get .qp 3).val = 7 := by
  obtain ⟨p1, p2, h1, h2, h3, h4, h5, h6⟩ :=
    C1_broadcast_then_copyPartFrom CUData.zero sampleChild ⟨4, 2⟩ 16 16 1 0 .qp 7 2 1
      (by decide) (by decide) (by decide)
  exact ⟨p1, p2, h1, h2 15 (by decide), h3, h4 .depth 1 (by decide),
    h5 .depth 3 (by decide) (by decide), h6 3 (by decide) (by decide)⟩

/-! ## `copyToPic`, `updatePic`, `copyFromPic` as runs of block copies -/

theorem copyToPic_eq (self : CUData) (g : Globals) (depth : Nat) (pic : Nat → CUData)
    (f : Frame) (k : cucopy_t) (hf : self.m_frame = some f) (hk : self.m_partCopy = some k) :
    ∃ ctu2, self.copyToPic g depth pic = some (Function.update pic self.m_cuAddr ctu2) ∧
      ctu2.charMemBlock = copyAttrs k.size (pic self.m_cuAddr).charMemBlock
        (fun a => (pic self.m_cuAddr).ptr a + self.m_absIdxInCTU)
        self.charMemBlock self.ptr copyToPicOrder ∧
      (∀ a, ctu2.ptr a = (pic self.m_cuAddr).ptr a) ∧
      ctu2.m_cuMvField0
        = self.m_cuMvField0.copyTo (pic self.m_cuAddr).m_cuMvField0 self.m_absIdxInCTU ∧
      ctu2.m_cuMvField1
        = self.m_cuMvField1.copyTo (pic self.m_cuAddr).m_cuMvField1 self.m_absIdxInCTU := by
  unfold CUData.copyToPic
  simp only [hf, hk]
  refine ⟨_, rfl, ?_, ?_, ?_, ?_⟩
  · simp only [cucopy_call_eq]
    rfl
  · intro a
    cases a <;> rfl
  all_goals rfl

theorem updatePic_eq (self : CUData) (g : Globals) (depth : Nat) (pic : Nat → CUData)
    (f : Frame) (k : cucopy_t) (hf : self.m_frame = some f) (hk : self.m_partCopy = some k) :
    ∃ ctu2, self.updatePic g depth pic = some (Function.update pic self.m_cuAddr ctu2) ∧
      ctu2.charMemBlock = copyAttrs k.size (pic self.m_cuAddr).charMemBlock
        (fun a => (pic self.m_cuAddr).ptr a + self.m_absIdxInCTU)
        self.charMemBlock self.ptr updatePicOrder ∧
      (∀ a, ctu2.ptr a = (pic self.m_cuAddr).ptr a) ∧
      ctu2.m_cuMvField0 = (pic self.m_cuAddr).m_cuMvField0 ∧
      ctu2.m_cuMvField1 = (pic self.m_cuAddr).m_cuMvField1 := by
  unfold CUData.updatePic
  simp only [hf, hk]
  refine ⟨_, rfl, ?_, ?_, ?_, ?_⟩
  · simp only [cucopy_call_eq]
    rfl
  · intro a
    cases a <;> rfl
  all_goals rfl

theorem copyFromPic_eq (self : CUData) (g : Globals) (ctu : CUData) (cuGeom : CUGeom)
    (k : cucopy_t) (hk : self.m_partCopy = some k) :
    ∃ r, self.copyFromPic g ctu cuGeom = some r ∧
      r.charMemBlock = copyAttrs k.size self.charMemBlock (fun a => self.ptr a + 0)
        ctu.charMemBlock (fun a => ctu.ptr a + cuGeom.encodeIdx) copyFromPicOrder ∧
      (∀ a, r.ptr a = self.ptr a) ∧
      r.m_cuMvField0 = self.m_cuMvField0 ∧ r.m_cuMvField1 = self.m_cuMvField1 ∧
      r.m_absIdxInCTU = cuGeom.encodeIdx ∧ r.m_numPartitions = cuGeom.numPartitions := by
  unfold CUData.copyFromPic
  simp only [hk]
  refine ⟨_, rfl, ?_, ?_, ?_, ?_, ?_, ?_⟩
  · simp only [cucopy_call_eq]
    rfl
  · intro a
    cases a <;> rfl
  all_goals rfl

/-- What `copyToPic` leaves in the CTU-resident container. -/
theorem copyToPic_spec (self : CUData) (g : Globals) (depth : Nat) (pic : Nat → CUData)
    (f : Frame) (k : cucopy_t) (b N : Nat) (hf : self.m_frame = some f)
    (hk : self.m_partCopy = some k) (H : Layout (pic self.m_cuAddr) b N)
    (hfit : self.m_absIdxInCTU + k.size ≤ N) :
    ∃ pic2, self.copyToPic g depth pic = some pic2 ∧
      (∀ a i, i < k.size →
        (pic2 self.m_cuAddr).get a (self.m_absIdxInCTU + i) = self.get a i) ∧
      (∀ a j, j < N → (j < self.m_absIdxInCTU ∨ self.m_absIdxInCTU + k.size ≤ j) →
        (pic2 self.m_cuAddr).get a j = (pic self.m_cuAddr).get a j) ∧
      (pic2 self.m_cuAddr).m_cuMvField0
        = self.m_cuMvField0.copyTo (pic self.m_cuAddr).m_cuMvField0 self.m_absIdxInCTU ∧
      (pic2 self.m_cuAddr).m_cuMvField1
        = self.m_cuMvField1.copyTo (pic self.m_cuAddr).m_cuMvField1 self.m_absIdxInCTU := by
  obtain ⟨ctu2, h, hm, hp, hmv0, hmv1⟩ := copyToPic_eq self g depth pic f k hf hk
  refine ⟨_, h, ?_, ?_, ?_, ?_⟩
  · intro a i hi
    rw [Function.update_same]
    unfold CUData.get
    rw [hp a, hm]
    exact copyAttrs_layout_in H k.size _ hfit _ _ _ _ a (mem_copyToPicOrder a) i hi
  · intro a j hj hout
    rw [Function.update_same]
    unfold CUData.get
    rw [hp a, hm]
    exact copyAttrs_layout_out H k.size _ hfit _ _ _ _ a j hj (Or.inr hout)
  · rw [Function.update_same]
    exact hmv0
  · rw [Function.update_same]
    exact hmv1

/-! ## C2: splice into the parent, then write back -/

theorem mv_splice_copyTo (P C T : CUMVField) (n off a i : Nat)
    (hP : P.m_numPartitions = 4 * n) (hC : C.m_numPartitions = n)
    (hoff : off + n ≤ 4 * n) (hi : i < n) :
    ((P.copyFrom C n off).copyTo T a).m_mv (a + (off + i))
        = (C.copyTo T (a + off)).m_mv (a + (off + i)) ∧
      ((P.copyFrom C n off).copyTo T a).m_refIdx (a + (off + i))
        = (C.copyTo T (a + off)).m_refIdx (a + (off + i)) := by
  simp only [CUMVField.copyTo, CUMVField.copyFrom, hP, hC]
  constructor
  · rw [memcpy_in _ _ _ _ _ _ (by omega) (by omega),
      memcpy_in _ _ _ _ _ _ (by omega) (by omega),
      memcpy_in _ _ _ _ _ _ (by omega) (by omega)]
    congr 1
    omega
  · rw [memcpy_in _ _ _ _ _ _ (by omega) (by omega),
      memcpy_in _ _ _ _ _ _ (by omega) (by omega),
      memcpy_in _ _ _ _ _ _ (by omega) (by omega)]
    congr 1
    omega

theorem initialize_mvField (cu0 : CUData) (N cuSize : Nat) (csp : Int) (index : Nat) :
    ( CUData.initialize cu0 N cuSize csp index).m_cuMvField0.m_numPartitions = N ∧
      ( CUData.initialize cu0 N cuSize csp index).m_cuMvField1.m_numPartitions = N :=
  ⟨rfl, rfl⟩

/-- C2: for a parent node (absolute z-scan index `a`, `4n` partitions, depth `d`)
and a child node (`n` partitions, absolute index `a + q*n`, `q < 4`) of the same
CTU, whose CTU-resident container is initialised and contains the parent node,
the CTU-resident attribute arrays and motion fields over
`[a + q*n, a + (q+1)*n)` after `parent.copyPartFrom(child, n, q, d+1)` followed
by `parent.copyToPic(d)` equal those after `child.copyToPic(d+1)`. -/
theorem C2_copyPartFrom_copyToPic (cu0p cu0c ctu0 : CUData) (pic : Nat → CUData) (g : Globals)
    (n q d a cuSizeP cuSizeC cuSizeT idxP idxC idxT Nctu : Nat) (cspP cspC cspT : Int)
    (fp fc : Frame)
    (hn : n = 4 ∨ n = 16 ∨ n = 64) (hq : q < 4)
    (hfp : cu0p.m_frame = some fp) (hfc : cu0c.m_frame = some fc)
    (haddr : cu0c.m_cuAddr = cu0p.m_cuAddr)
    (hap : cu0p.m_absIdxInCTU = a) (hac : cu0c.m_absIdxInCTU = a + q * n)
    (hctu : pic cu0p.m_cuAddr = CUData.initialize ctu0 Nctu cuSizeT cspT idxT)
    (hfit : a + 4 * n ≤ Nctu) :
    ∃ p2 picA picB,
      ( CUData.initialize cu0p (4 * n) cuSizeP cspP idxP).copyPartFrom g
        ( CUData.initialize cu0c n cuSizeC cspC idxC) n q (d + 1) = some p2 ∧
      p2.copyToPic g d pic = some picA ∧
      ( CUData.initialize cu0c n cuSizeC cspC idxC).copyToPic g (d + 1) pic = some picB ∧
      ∀ i, i < n →
        (∀ attr, (picA cu0p.m_cuAddr).get attr (a + q * n + i)
          = (picB cu0p.m_cuAddr).get attr (a + q * n + i)) ∧
        (picA cu0p.m_cuAddr).m_cuMvField0.m_mv (a + q * n + i)
          = (picB cu0p.m_cuAddr).m_cuMvField0.m_mv (a + q * n + i) ∧
        (picA cu0p.m_cuAddr).m_cuMvField0.m_refIdx (a + q * n + i)
          = (picB cu0p.m_cuAddr).m_cuMvField0.m_refIdx (a + q * n + i) ∧
        (picA cu0p.m_cuAddr).m_cuMvField1.m_mv (a + q * n + i)
          = (picB cu0p.m_cuAddr).m_cuMvField1.m_mv (a + q * n + i) ∧
        (picA cu0p.m_cuAddr).m_cuMvField1.m_refIdx (a + q * n + i)
          = (picB cu0p.m_cuAddr).m_cuMvField1.m_refIdx (a + q * n + i) := by
  have hoffN : q * n + n ≤ 4 * n := by
    interval_cases q <;> omega
  -- the parent
  have Hp := initialize_layout cu0p (4 * n) cuSizeP cspP idxP
  obtain ⟨ks, hks, hkss⟩ := initialize_subPartCopy cu0p (4 * n) cuSizeP cspP idxP (by omega)
  obtain ⟨kp, hkp, hkps⟩ := initialize_partCopy cu0p (4 * n) cuSizeP cspP idxP (by omega)
  obtain ⟨hmvp0, hmvp1⟩ := initialize_mvField cu0p (4 * n) cuSizeP cspP idxP
  -- the child
  obtain ⟨kc, hkc, hkcs⟩ := initialize_partCopy cu0c n cuSizeC cspC idxC (by omega)
  obtain ⟨hmvc0, hmvc1⟩ := initialize_mvField cu0c n cuSizeC cspC idxC
  -- the CTU-resident container
  have Hc : Layout (pic cu0p.m_cuAddr) (slabBase Nctu idxT) Nctu := by
    rw [hctu]
    exact initialize_layout ctu0 Nctu cuSizeT cspT idxT
  obtain ⟨p2, hp2, _, hin, _, hmv0, hmv1, hadr2, habs2, hpc2, hfr2⟩ :=
    copyPartFrom_spec _ ( CUData.initialize cu0c n cuSizeC cspC idxC) g _ (4 * n) n q (d + 1) ks Hp hks
      (by omega) rfl hq (by omega)
  have hadr2' : p2.m_cuAddr = cu0p.m_cuAddr := hadr2
  have habs2' : p2.m_absIdxInCTU = a := habs2.trans hap
  obtain ⟨picA, hA, hAin, _, hAmv0, hAmv1⟩ :=
    copyToPic_spec p2 g d pic fp kp (slabBase Nctu idxT) Nctu (hfr2.trans hfp) (hpc2.trans hkp)
      (by rw [hadr2']; exact Hc) (by rw [habs2', hkps]; exact hfit)
  have hadrc : ( CUData.initialize cu0c n cuSizeC cspC idxC).m_cuAddr = cu0p.m_cuAddr := haddr
  have habsc : ( CUData.initialize cu0c n cuSizeC cspC idxC).m_absIdxInCTU = a + q * n := hac
  obtain ⟨picB, hB, hBin, _, hBmv0, hBmv1⟩ :=
    copyToPic_spec ( CUData.initialize cu0c n cuSizeC cspC idxC) g (d + 1) pic fc kc
      (slabBase Nctu idxT) Nctu hfc hkc (by rw [hadrc]; exact Hc)
      (by rw [habsc, hkcs]; omega)
  rw [hadr2', habs2'] at hAin hAmv0 hAmv1
  rw [hadrc, habsc] at hBin hBmv0 hBmv1
  rw [hkps] at hAin
  rw [hkcs] at hBin
  refine ⟨p2, picA, picB, hp2, hA, hB, ?_⟩
  intro i hi
  refine ⟨?_, ?_, ?_, ?_, ?_⟩
  · intro attr
    rw [hBin attr i hi, Nat.add_assoc, hAin attr (q * n + i) (by omega), hin attr i hi]
  · rw [hAmv0, hBmv0, hmv0, Nat.add_assoc]
    exact (mv_splice_copyTo _ _ _ n (q * n) a i hmvp0 hmvc0 hoffN hi).1
  · rw [hAmv0, hBmv0, hmv0, Nat.add_assoc]
    exact (mv_splice_copyTo _ _ _ n (q * n) a i hmvp0 hmvc0 hoffN hi).2
  · rw [hAmv1, hBmv1, hmv1, Nat.add_assoc]
    exact (mv_splice_copyTo _ _ _ n (q * n) a i hmvp1 hmvc1 hoffN hi).1
  · rw [hAmv1, hBmv1, hmv1, Nat.add_assoc]
    exact (mv_splice_copyTo _ _ _ n (q * n) a i hmvp1 hmvc1 hoffN hi).2

/-- C2 at a concrete input: a 16-partition parent at index 16 and its quadrant 1
(4 partitions, index 20) of CTU 0. -/
theorem C2_copyPartFrom_copyToPic_witness :
    ∃ p2 picA picB,
      ( CUData.initialize sampleNode16 16 16 1 1).copyPartFrom sampleGlobals
        ( CUData.initialize sampleNode20 4 8 1 2) 4 1 3 = some p2 ∧
      p2.copyToPic sampleGlobals 2 samplePic = some picA ∧
      ( CUData.initialize sampleNode20 4 8 1 2).copyToPic sampleGlobals 3 samplePic = some picB ∧
      (picA 0).get .predModes 22 = (picB 0).get .predModes 22 ∧
      (picA 0).m_cuMvField1.m_refIdx 22 = (picB 0).m_cuMvField1.m_refIdx 22 := by
  obtain ⟨p2, picA, picB, h1, h2, h3, h4⟩ :=
    C2_copyPartFrom_copyToPic sampleNode16 sampleNode20 sampleBlank samplePic sampleGlobals
      4 1 2 16 16 8 64 1 2 0 256 1 1 1 sampleFrame sampleFrame
      (by decide) (by decide) rfl rfl rfl rfl rfl rfl (by decide)
  exact ⟨p2, picA, picB, h1, h2, h3, (h4 2 (by decide)).1 .predModes,
    (h4 2 (by decide)).2.2.2.2⟩

/-! ## C3: `updatePic` -/

theorem not_mem_updatePicOrder (attr : Attr)
    (h : attr ∈ [Attr.partSizes, .predModes, .log2CUSize, .depth, .bMergeFlags, .interDir,
      .lumaIntraDir, .mvpIdx0, .mvpIdx1, .cuTransquantBypass]) :
    attr ∉ updatePicOrder := by
  revert h
  cases attr <;> decide

/-- C3: for a working node at absolute index `a` with `n` partitions, after
`updatePic` the CTU-resident QP, transform-skip (3 planes), skip flag, transform
index, coded-block flags (3 planes) and chroma intra direction over `[a, a+n)`
equal the working node's values, while the CTU-resident partition mode,
prediction mode, log2 CU size, depth, merge flag, inter direction, luma intra
direction, MVP indices, transquant-bypass flag and both motion-vector fields are
unchanged at every index, and every array is unchanged outside `[a, a+n)`. -/
theorem C3_updatePic_frame (cu0 ctu0 : CUData) (pic : Nat → CUData) (g : Globals)
    (n depth cuSize cuSizeT index idxT Nctu : Nat) (csp cspT : Int) (f : Frame)
    (hn : n = 4 ∨ n = 16 ∨ n = 64 ∨ n = 256) (hf : cu0.m_frame = some f)
    (hctu : pic cu0.m_cuAddr = CUData.initialize ctu0 Nctu cuSizeT cspT idxT)
    (hfit : cu0.m_absIdxInCTU + n ≤ Nctu) :
    ∃ pic2, ( CUData.initialize cu0 n cuSize csp index).updatePic g depth pic = some pic2 ∧
      (∀ attr ∈ [Attr.qp, .transformSkip0, .transformSkip1, .transformSkip2, .skipFlag,
          .trIdx, .cbf0, .cbf1, .cbf2, .chromaIntraDir], ∀ i, i < n →
        (pic2 cu0.m_cuAddr).get attr (cu0.m_absIdxInCTU + i)
          = ( CUData.initialize cu0 n cuSize csp index).get attr i) ∧
      (∀ attr ∈ [Attr.partSizes, .predModes, .log2CUSize, .depth, .bMergeFlags, .interDir,
          .lumaIntraDir, .mvpIdx0, .mvpIdx1, .cuTransquantBypass], ∀ j, j < Nctu →
        (pic2 cu0.m_cuAddr).get attr j = (pic cu0.m_cuAddr).get attr j) ∧
      (pic2 cu0.m_cuAddr).m_cuMvField0 = (pic cu0.m_cuAddr).m_cuMvField0 ∧
      (pic2 cu0.m_cuAddr).m_cuMvField1 = (pic cu0.m_cuAddr).m_cuMvField1 ∧
      (∀ attr j, j < Nctu → (j < cu0.m_absIdxInCTU ∨ cu0.m_absIdxInCTU + n ≤ j) →
        (pic2 cu0.m_cuAddr).get attr j = (pic cu0.m_cuAddr).get attr j) := by
  obtain ⟨k, hk, hks⟩ := initialize_partCopy cu0 n cuSize csp index hn
  have Hc : Layout (pic cu0.m_cuAddr) (slabBase Nctu idxT) Nctu := by
    rw [hctu]
    exact initialize_layout ctu0 Nctu cuSizeT cspT idxT
  obtain ⟨ctu2, h, hm, hp, hmv0, hmv1⟩ :=
    updatePic_eq ( CUData.initialize cu0 n cuSize csp index) g depth pic f k hf hk
  have hadr : ( CUData.initialize cu0 n cuSize csp index).m_cuAddr = cu0.m_cuAddr := rfl
  have habs : ( CUData.initialize cu0 n cuSize csp index).m_absIdxInCTU = cu0.m_absIdxInCTU := rfl
  rw [hadr] at h hm hp hmv0 hmv1
  rw [habs, hks] at hm
  refine ⟨_, h, ?_, ?_, ?_, ?_, ?_⟩
  · intro attr hattr i hi
    rw [Function.update_same]
    unfold CUData.get
    rw [hp attr, hm]
    exact copyAttrs_layout_in Hc n _ hfit _ _ _ _ attr hattr i hi
  · intro attr hattr j hj
    rw [Function.update_same]
    unfold CUData.get
    rw [hp attr, hm]
    exact copyAttrs_layout_out Hc n _ hfit _ _ _ _ attr j hj
      (Or.inl (not_mem_updatePicOrder attr hattr))
  · rw [Function.update_same]
    exact hmv0
  · rw [Function.update_same]
    exact hmv1
  · intro attr j hj hout
    rw [Function.update_same]
    unfold CUData.get
    rw [hp attr, hm]
    exact copyAttrs_layout_out Hc n _ hfit _ _ _ _ attr j hj (Or.inr hout)

/-- C3 at a concrete input: the 4-partition node at index 20 of CTU 0. -/
theorem C3_updatePic_frame_witness :
    ∃ pic2, ( CUData.initialize sampleNode20 4 8 1 2).updatePic sampleGlobals 3 samplePic = some pic2 ∧
      (pic2 0).get .cbf1 21 = ( CUData.initialize sampleNode20 4 8 1 2).get .cbf1 1 ∧
      (pic2 0).get .predModes 21 = (samplePic 0).get .predModes 21 ∧
      (pic2 0).m_cuMvField0 = (samplePic 0).m_cuMvField0 ∧
      (pic2 0).get .qp 24 = (samplePic 0).get .qp 24 := by
  obtain ⟨pic2, h1, h2, h3, h4, _, h6⟩ :=
    C3_updatePic_frame sampleNode20 sampleBlank samplePic sampleGlobals 4 3 8 64 2 0 256 1 1
      sampleFrame (by decide) rfl rfl (by decide)
  exact ⟨pic2, h1, h2 .cbf1 (by decide) 1 (by decide), h3 .predModes (by decide) 21 (by decide),
    h4, h6 .qp 24 (by decide) (by decide)⟩

/-! ## C4: `copyFromPic` -/

theorem not_mem_copyFromPicOrder (attr : Attr)
    (h : attr ∈ [Attr.bMergeFlags, .interDir, .mvpIdx0, .mvpIdx1, .trIdx, .transformSkip0,
      .transformSkip1, .transformSkip2, .cbf0, .cbf1, .cbf2, .chromaIntraDir,
      .cuTransquantBypass]) :
    attr ∉ copyFromPicOrder := by
  revert h
  cases attr <;> decide

/-- C4: for a container initialised for `geom.numPartitions` partitions, after
`copyFromPic(ctu, geom)` the local QP, log2 CU size, partition mode, prediction
mode, luma intra direction, skip flag and depth at every local index
`i < geom.numPartitions` equal the CTU-resident values at `geom.encodeIdx + i`,
and every other attribute array of the container (merge flag, inter direction,
MVP indices, transform index, transform-skip, coded-block flags, chroma intra
direction, transquant-bypass) is unchanged. -/
theorem C4_copyFromPic_subset (cu0 ctu : CUData) (g : Globals) (geom : CUGeom)
    (cuSize index : Nat) (csp : Int)
    (hn : geom.numPartitions = 4 ∨ geom.numPartitions = 16 ∨ geom.numPartitions = 64 ∨
      geom.numPartitions = 256) :
    ∃ r, ( CUData.initialize cu0 geom.numPartitions cuSize csp index).copyFromPic g ctu geom = some r ∧
      (∀ attr ∈ [Attr.qp, .log2CUSize, .partSizes, .predModes, .lumaIntraDir, .skipFlag,
          .depth], ∀ i, i < geom.numPartitions →
        r.get attr i = ctu.get attr (geom.encodeIdx + i)) ∧
      (∀ attr ∈ [Attr.bMergeFlags, .interDir, .mvpIdx0, .mvpIdx1, .trIdx, .transformSkip0,
          .transformSkip1, .transformSkip2, .cbf0, .cbf1, .cbf2, .chromaIntraDir,
          .cuTransquantBypass], ∀ i, i < geom.numPartitions →
        r.get attr i = ( CUData.initialize cu0 geom.numPartitions cuSize csp index).get attr i) := by
  obtain ⟨k, hk, hks⟩ := initialize_partCopy cu0 geom.numPartitions cuSize csp index hn
  have H := initialize_layout cu0 geom.numPartitions cuSize csp index
  obtain ⟨r, h, hm, hp, _⟩ :=
    copyFromPic_eq ( CUData.initialize cu0 geom.numPartitions cuSize csp index) g ctu geom k hk
  rw [hks] at hm
  refine ⟨r, h, ?_, ?_⟩
  · intro attr hattr i hi
    unfold CUData.get
    rw [hp attr, hm, ← Nat.add_assoc]
    have e := copyAttrs_layout_in H geom.numPartitions 0 (by omega)
      ( CUData.initialize cu0 geom.numPartitions cuSize csp index).charMemBlock ctu.charMemBlock
      (fun a => ctu.ptr a + geom.encodeIdx) copyFromPicOrder attr hattr i hi
    rw [Nat.zero_add] at e
    exact e
  · intro attr hattr i hi
    unfold CUData.get
    rw [hp attr, hm]
    exact copyAttrs_layout_out H geom.numPartitions 0 (by omega) _ _ _ _ attr i hi
      (Or.inl (not_mem_copyFromPicOrder attr hattr))

/-- C4 at a concrete input: a 4-partition node pulled from index 20 of a CTU. -/
theorem C4_copyFromPic_subset_witness :
    ∃ r, ( CUData.initialize sampleNode16 4 8 1 1).copyFromPic sampleGlobals
        ( CUData.initialize sampleNode20 256 64 1 0) ⟨3, 0, 20, 4, 3, 0⟩ = some r ∧
      r.get .skipFlag 3 = ( CUData.initialize sampleNode20 256 64 1 0).get .skipFlag 23 ∧
      r.get .trIdx 3 = ( CUData.initialize sampleNode16 4 8 1 1).get .trIdx 3 := by
  obtain ⟨r, h1, h2, h3⟩ :=
    C4_copyFromPic_subset sampleNode16 ( CUData.initialize sampleNode20 256 64 1 0) sampleGlobals
      ⟨3, 0, 20, 4, 3, 0⟩ 8 1 1 (by decide)
  exact ⟨r, h1, h2 .skipFlag (by decide) 3 (by decide), h3 .trIdx (by decide) 3 (by decide)⟩

/-! ## Runs of broadcasts over a laid-out slab -/

theorem cubcast_t.size_le (k : cubcast_t) : k.size ≤ 256 := by
  cases k <;> decide

theorem setAttrs_cons (k : Nat) (dst : Mem) (dp : Attr → Nat) (p : Attr × Byte)
    (rest : List (Attr × Byte)) :
    setAttrs k dst dp (p :: rest) = setAttrs k (memset dst (dp p.1) p.2 k) dp rest := rfl

/-- An address outside every broadcast block keeps its byte. -/
theorem setAttrs_out (k : Nat) (dp : Attr → Nat) (x : Nat) (l : List (Attr × Byte)) :
    ∀ dst : Mem, (∀ p ∈ l, x < dp p.1 ∨ dp p.1 + k ≤ x) → setAttrs k dst dp l x = dst x := by
  induction l with
  | nil => intro dst _; rfl
  | cons p rest ih =>
    intro dst h
    rw [setAttrs_cons, ih _ (fun p' hp' => h p' (List.mem_cons_of_mem p hp'))]
    exact memset_out dst (dp p.1) p.2 k x (h p (List.mem_cons_self p rest))

/-- An address inside the block of an array that is listed with one value
only, and outside the blocks of the other listed arrays, receives that value. -/
theorem setAttrs_in (k : Nat) (dp : Attr → Nat) (x : Nat) (a : Attr) (v : Byte)
    (h1 : dp a ≤ x) (h2 : x < dp a + k) (l : List (Attr × Byte)) :
    ∀ dst : Mem, (a, v) ∈ l → (∀ p ∈ l, p.1 = a → p.2 = v) →
      (∀ p ∈ l, p.1 ≠ a → x < dp p.1 ∨ dp p.1 + k ≤ x) → setAttrs k dst dp l x = v := by
  induction l with
  | nil => intro dst ha; exact absurd ha (List.not_mem_nil _)
  | cons p rest ih =>
    intro dst ha hv h
    rw [setAttrs_cons]
    by_cases hr : (a, v) ∈ rest
    · exact ih _ hr (fun p' hp' => hv p' (List.mem_cons_of_mem p hp'))
        (fun p' hp' => h p' (List.mem_cons_of_mem p hp'))
    · have h0 : (a, v) = p := by
        rcases List.mem_cons.mp ha with h0 | h0
        · exact h0
        · exact absurd h0 hr
      subst h0
      rw [setAttrs_out k dp x rest _ (fun p' hp' => by
        by_cases e : p'.1 = a
        · have e2 : p'.2 = v := hv p' (List.mem_cons_of_mem _ hp') e
          have : p' = (a, v) := Prod.ext e e2
          exact absurd (this ▸ hp') hr
        · exact h p' (List.mem_cons_of_mem _ hp') e)]
      exact memset_in dst (dp a) v k x h1 h2

/-- Reading a laid-out slab after a run of whole-array broadcasts: an array
listed with one value only. -/
theorem setAttrs_layout_in {cu : CUData} {b N : Nat} (H : Layout cu b N) (dst : Mem)
    (l : List (Attr × Byte)) (a : Attr) (v : Byte) (ha : (a, v) ∈ l)
    (hv : ∀ p ∈ l, p.1 = a → p.2 = v) (i : Nat) (hi : i < N) :
    setAttrs N dst cu.ptr l (cu.ptr a + i) = v := by
  apply setAttrs_in N cu.ptr (cu.ptr a + i) a v (by omega) (by omega) l dst ha hv
  intro p _ hne
  have := H.disjoint a p.1 hne i 0 N hi (by omega)
  omega

/-- Reading a laid-out slab after a run of whole-array broadcasts: an array
that is not listed. -/
theorem setAttrs_layout_out {cu : CUData} {b N : Nat} (H : Layout cu b N) (dst : Mem)
    (l : List (Attr × Byte)) (a : Attr) (ha : ∀ p ∈ l, p.1 ≠ a) (i : Nat) (hi : i < N) :
    setAttrs N dst cu.ptr l (cu.ptr a + i) = dst (cu.ptr a + i) := by
  apply setAttrs_out
  intro p hp
  have := H.disjoint a p.1 (ha p hp) i 0 N hi (by omega)
  omega

/-- Position of a byte of array `a` in a laid-out slab. -/
theorem Layout.range {cu : CUData} {b N : Nat} (H : Layout cu b N) (a : Attr) (lo hi : Nat)
    (hlo : lo ≤ a.idx) (hhi : a.idx < hi) (i : Nat) (hi' : i < N) :
    b + lo * N ≤ cu.ptr a + i ∧ cu.ptr a + i < b + hi * N := by
  rw [H a]
  have h1 : lo * N ≤ a.idx * N := Nat.mul_le_mul_right N hlo
  have h2 : (a.idx + 1) * N ≤ hi * N := Nat.mul_le_mul_right N hhi
  rw [Nat.add_mul] at h2
  omega

/-- An address outside a laid-out slab lies outside every array of it. -/
theorem Layout.outside {cu : CUData} {b N : Nat} (H : Layout cu b N) (a : Attr) (x : Nat)
    (hx : x < b ∨ b + 20 * N ≤ x) : x < cu.ptr a ∨ cu.ptr a + N ≤ x := by
  rw [H a]
  have h2 : (a.idx + 1) * N ≤ 20 * N := Nat.mul_le_mul_right N (Attr.idx_lt a)
  rw [Nat.add_mul] at h2
  omega

theorem unique_of_nodup_fst (l : List (Attr × Byte)) (hnd : (l.map Prod.fst).Nodup)
    (a : Attr) (v : Byte) (h : (a, v) ∈ l) : ∀ p ∈ l, p.1 = a → p.2 = v := by
  induction l with
  | nil => exact absurd h (List.not_mem_nil _)
  | cons p0 rest ih =>
    rw [List.map_cons, List.nodup_cons] at hnd
    intro p hp hpa
    rcases List.mem_cons.mp h with h0 | h0
    · rcases List.mem_cons.mp hp with hp0 | hp0
      · rw [hp0, ← h0]
      · exfalso
        apply hnd.1
        rw [← h0]
        show a ∈ List.map Prod.fst rest
        rw [← hpa]
        exact List.mem_map_of_mem Prod.fst hp0
    · rcases List.mem_cons.mp hp with hp0 | hp0
      · exfalso
        apply hnd.1
        rw [← hp0, hpa]
        exact List.mem_map_of_mem Prod.fst h0
      · exact ih hnd.2 h0 p hp0 hpa

theorem u8_val_of_lt (n : Nat) (h : n < 256) : (u8 n).val = n := by
  show n % 256 = n
  omega

theorem u8i_val_of_range (v : Int) (h0 : 0 ≤ v) (h1 : v < 256) : ((u8i v).val : Int) = v := by
  show (((v % 256).toNat % 256 : Nat) : Int) = v
  omega

theorem asChar_u8i (v : Int) (h0 : -128 ≤ v) (h1 : v < 128) : asChar (u8i v) = v := by
  unfold asChar
  have e : (u8i v).val = (v % 256).toNat % 256 := rfl
  rw [e]
  split_ifs with h <;> omega

/-! ## C5: `initCTU` defaults -/

/-- The attribute slab and the neighbour references after `initCTU`. -/
theorem initCTU_eq (self : CUData) (g : Globals) (frame : Frame) (cuAddr : Nat) (qp : Int)
    (k : cubcast_t) (hw : 0 < frame.m_numCuInWidth) (hk : self.m_partSet = some k) :
    ∃ r, self.initCTU g frame cuAddr qp = some r ∧
      r.charMemBlock = memset (setAttrs k.size self.charMemBlock self.ptr
          [(.qp, u8i qp), (.log2CUSize, u8 g.g_maxLog2CUSize), (.partSizes, u8 SIZE_NONE),
           (.predModes, u8 MODE_NONE), (.lumaIntraDir, u8 DC_IDX),
           (.cuTransquantBypass, u8i frame.bLossless)])
        self.m_depth (u8 0) (u32 ((BytesPerPartition - 6) * NUM_CU_PARTITIONS g)) ∧
      (∀ a, r.ptr a = self.ptr a) ∧
      r.m_frame = some frame ∧ r.m_cuAddr = cuAddr ∧ r.m_absIdxInCTU = 0 ∧
      r.m_numPartitions = NUM_CU_PARTITIONS g ∧
      r.m_cuLeft = (if cuAddr % frame.m_numCuInWidth ≠ 0 then some (sub32 cuAddr 1) else none) ∧
      r.m_cuAbove = (if cuAddr / frame.m_numCuInWidth ≠ 0
        then some (sub32 cuAddr frame.m_numCuInWidth) else none) ∧
      r.m_cuAboveLeft = (if cuAddr % frame.m_numCuInWidth ≠ 0 ∧ cuAddr / frame.m_numCuInWidth ≠ 0
        then some (sub32 (sub32 cuAddr frame.m_numCuInWidth) 1) else none) ∧
      r.m_cuAboveRight = (if cuAddr / frame.m_numCuInWidth ≠ 0 ∧
          cuAddr % frame.m_numCuInWidth < sub32 frame.m_numCuInWidth 1
        then some (u32 (sub32 cuAddr frame.m_numCuInWidth + 1)) else none) ∧
      r.m_cuMvField0 = self.m_cuMvField0.clearMvField ∧
      r.m_cuMvField1 = self.m_cuMvField1.clearMvField := by
  unfold CUData.initCTU
  have hw' : frame.m_numCuInWidth ≠ 0 := by omega
  simp only [hw', hk, if_false]
  refine ⟨_, rfl, ?_, ?_, rfl, rfl, rfl, rfl, rfl, rfl, ?_, ?_, rfl, rfl⟩
  · simp only [cubcast_call_eq]
    rfl
  · intro a
    cases a <;> rfl
  · show (if _ then _ else _) = _
    by_cases h1 : cuAddr % frame.m_numCuInWidth = 0 <;>
      by_cases h2 : cuAddr / frame.m_numCuInWidth = 0 <;> simp [h1, h2]
  · show (if _ then _ else _) = _
    by_cases h2 : cuAddr / frame.m_numCuInWidth = 0 <;> simp [h2]

theorem mem_tail14 (attr : Attr)
    (h : attr ∈ [Attr.depth, .skipFlag, .bMergeFlags, .interDir, .mvpIdx0, .mvpIdx1, .trIdx,
      .transformSkip0, .transformSkip1, .transformSkip2, .cbf0, .cbf1, .cbf2,
      .chromaIntraDir]) : 6 ≤ attr.idx := by
  revert h
  cases attr <;> decide

/-- C5: after `initCTU(frame, cuAddr, qp)` on a container initialised for
`NUM_CU_PARTITIONS` partitions, for every partition `i < NUM_CU_PARTITIONS` the
QP array holds the byte of `qp` (read back as `qp` itself when `qp` fits a
signed byte), the log2 CU size holds the byte of `g_maxLog2CUSize`, the
partition mode `SIZE_NONE`, the prediction mode `MODE_NONE`, the luma intra
direction `DC_IDX`, the transquant-bypass flag the byte of the encoder-wide
lossless flag, and each of the 14 remaining arrays (depth, skip flag, merge
flag, inter direction, the two MVP indices, transform index, the three
transform-skip flags, the three coded-block flags, chroma intra direction) is
0: the single zero-fill that starts at the depth array covers exactly the
arrays laid out after the six broadcast ones, and no byte outside the
container's slab changes. -/
theorem C5_initCTU_defaults (cu0 : CUData) (g : Globals) (frame : Frame) (cuAddr : Nat)
    (qp : Int) (cuSize index : Nat) (csp : Int)
    (hN : NUM_CU_PARTITIONS g = 4 ∨ NUM_CU_PARTITIONS g = 16 ∨ NUM_CU_PARTITIONS g = 64 ∨
      NUM_CU_PARTITIONS g = 256)
    (hw : 0 < frame.m_numCuInWidth) :
    ∃ r, ( CUData.initialize cu0 (NUM_CU_PARTITIONS g) cuSize csp index).initCTU g frame cuAddr qp
        = some r ∧
      (∀ i, i < NUM_CU_PARTITIONS g →
        r.get .qp i = u8i qp ∧
        (-128 ≤ qp ∧ qp < 128 → asChar (r.get .qp i) = qp) ∧
        r.get .log2CUSize i = u8 g.g_maxLog2CUSize ∧
        (g.g_maxLog2CUSize < 256 → (r.get .log2CUSize i).val = g.g_maxLog2CUSize) ∧
        (r.get .partSizes i).val = SIZE_NONE ∧
        (r.get .predModes i).val = MODE_NONE ∧
        (r.get .lumaIntraDir i).val = DC_IDX ∧
        r.get .cuTransquantBypass i = u8i frame.bLossless ∧
        (0 ≤ frame.bLossless ∧ frame.bLossless < 256 →
          ((r.get .cuTransquantBypass i).val : Int) = frame.bLossless) ∧
        (∀ attr ∈ [Attr.depth, .skipFlag, .bMergeFlags, .interDir, .mvpIdx0, .mvpIdx1, .trIdx,
            .transformSkip0, .transformSkip1, .transformSkip2, .cbf0, .cbf1, .cbf2,
            .chromaIntraDir], (r.get attr i).val = 0)) ∧
      (∀ x, (x < slabBase (NUM_CU_PARTITIONS g) index ∨
          slabBase (NUM_CU_PARTITIONS g) index + BytesPerPartition * NUM_CU_PARTITIONS g ≤ x) →
        r.charMemBlock x
          = ( CUData.initialize cu0 (NUM_CU_PARTITIONS g) cuSize csp index).charMemBlock x) := by
  have H := initialize_layout cu0 (NUM_CU_PARTITIONS g) cuSize csp index
  obtain ⟨k, hk, hks⟩ := initialize_partSet cu0 (NUM_CU_PARTITIONS g) cuSize csp index hN
  obtain ⟨r, h, hm, hp, _⟩ := initCTU_eq _ g frame cuAddr qp k hw hk
  have hdepth : ( CUData.initialize cu0 (NUM_CU_PARTITIONS g) cuSize csp index).m_depth
      = slabBase (NUM_CU_PARTITIONS g) index + 6 * NUM_CU_PARTITIONS g := H .depth
  have hlen : u32 ((BytesPerPartition - 6) * NUM_CU_PARTITIONS g) = 14 * NUM_CU_PARTITIONS g := by
    unfold u32 BytesPerPartition
    omega
  rw [hks, hdepth, hlen] at hm
  -- the six broadcast arrays lie before the zero-fill
  have head : ∀ (a : Attr) (v : Byte) (i : Nat), a.idx < 6 →
      (a, v) ∈ [(Attr.qp, u8i qp), (.log2CUSize, u8 g.g_maxLog2CUSize),
        (.partSizes, u8 SIZE_NONE), (.predModes, u8 MODE_NONE), (.lumaIntraDir, u8 DC_IDX),
        (.cuTransquantBypass, u8i frame.bLossless)] →
      (∀ p ∈ [(Attr.qp, u8i qp), (.log2CUSize, u8 g.g_maxLog2CUSize),
        (.partSizes, u8 SIZE_NONE), (.predModes, u8 MODE_NONE), (.lumaIntraDir, u8 DC_IDX),
        (.cuTransquantBypass, u8i frame.bLossless)], p.1 = a → p.2 = v) →
      i < NUM_CU_PARTITIONS g → r.get a i = v := by
    intro a v i ha hmem huniq hi
    unfold CUData.get
    rw [hp a, hm]
    have hr := H.range a 0 6 (Nat.zero_le _) ha i hi
    rw [memset_out _ _ _ _ _ (Or.inl hr.2)]
    exact setAttrs_layout_in H _ _ a v hmem huniq i hi
  have hnd : (List.map Prod.fst [(Attr.qp, u8i qp), (.log2CUSize, u8 g.g_maxLog2CUSize),
      (.partSizes, u8 SIZE_NONE), (.predModes, u8 MODE_NONE), (.lumaIntraDir, u8 DC_IDX),
      (.cuTransquantBypass, u8i frame.bLossless)]).Nodup := by
    simp only [List.map]
    decide
  refine ⟨r, h, ?_, ?_⟩
  rotate_left
  · intro x hx
    have hx' : x < slabBase (NUM_CU_PARTITIONS g) index ∨
        slabBase (NUM_CU_PARTITIONS g) index + 20 * NUM_CU_PARTITIONS g ≤ x := hx
    rw [hm, memset_out _ _ _ _ _ (by omega)]
    exact setAttrs_out _ _ _ _ _ (fun p _ => H.outside p.1 x hx')
  intro i hi
  have hqp : r.get .qp i = u8i qp :=
    head .qp _ i (by decide) (by simp) (unique_of_nodup_fst _ hnd _ _ (by simp)) hi
  have hlog : r.get .log2CUSize i = u8 g.g_maxLog2CUSize :=
    head .log2CUSize _ i (by decide) (by simp) (unique_of_nodup_fst _ hnd _ _ (by simp)) hi
  have hps : r.get .partSizes i = u8 SIZE_NONE :=
    head .partSizes _ i (by decide) (by simp) (unique_of_nodup_fst _ hnd _ _ (by simp)) hi
  have hpm : r.get .predModes i = u8 MODE_NONE :=
    head .predModes _ i (by decide) (by simp) (unique_of_nodup_fst _ hnd _ _ (by simp)) hi
  have hli : r.get .lumaIntraDir i = u8 DC_IDX :=
    head .lumaIntraDir _ i (by decide) (by simp) (unique_of_nodup_fst _ hnd _ _ (by simp)) hi
  have htq : r.get .cuTransquantBypass i = u8i frame.bLossless :=
    head .cuTransquantBypass _ i (by decide) (by simp)
      (unique_of_nodup_fst _ hnd _ _ (by simp)) hi
  refine ⟨hqp, ?_, hlog, ?_, ?_, ?_, ?_, htq, ?_, ?_⟩
  · intro hr
    rw [hqp]
    exact asChar_u8i qp hr.1 hr.2
  · intro hr
    rw [hlog]
    exact u8_val_of_lt _ hr
  · rw [hps]
    rfl
  · rw [hpm]
    rfl
  · rw [hli]
    rfl
  · intro hr
    rw [htq]
    exact u8i_val_of_range _ hr.1 hr.2
  · intro attr hattr
    unfold CUData.get
    rw [hp attr, hm]
    have hr := H.range attr 6 20 (mem_tail14 attr hattr) (Attr.idx_lt attr) i hi
    rw [memset_in _ _ _ _ _ hr.1 (by omega)]
    rfl

/-- C5 at a concrete input: CTU 3 of the sample frame, initial QP 30. -/
theorem C5_initCTU_defaults_witness :
    ∃ r, ( CUData.initialize sampleBlank (NUM_CU_PARTITIONS sampleGlobals) 64 1 0).initCTU
        sampleGlobals sampleFrame 3 30 = some r ∧
      asChar (r.get .qp 255) = 30 ∧ (r.get .log2CUSize 255).val = 6 ∧
      (r.get .partSizes 255).val = SIZE_NONE ∧ (r.get .chromaIntraDir 255).val = 0 := by
  obtain ⟨r, h, hr, _⟩ :=
    C5_initCTU_defaults sampleBlank sampleGlobals sampleFrame 3 30 64 0 1
      (Or.inr (Or.inr (Or.inr (by decide)))) (by decide)
  obtain ⟨_, h1, _, h2, h3, _, _, _, _, h4⟩ := hr 255 (by decide)
  exact ⟨r, h, h1 (by decide), h2 (by decide), h3, h4 .chromaIntraDir (by decide)⟩

/-! ## C6: neighbour references after `initCTU` -/

/-- C6 fails as stated: for CTU 2 of a picture two CTUs wide (first column,
second row) the above-right reference is set although the left reference is
null. -/
theorem C6_initCTU_neighbours_counterexample :
    ∃ r, ( CUData.initialize sampleBlank 256 64 1 0).initCTU sampleGlobals sampleFrame 2 30 = some r ∧
      r.m_cuAboveRight = some 1 ∧ r.m_cuLeft = none ∧
      ¬ (r.m_cuAboveRight ≠ none → r.m_cuLeft ≠ none ∧ r.m_cuAbove ≠ none) := by
  obtain ⟨r, h, _, _, _, _, _, _, hl, _, _, har, _⟩ :=
    initCTU_eq ( CUData.initialize sampleBlank 256 64 1 0) sampleGlobals sampleFrame 2 30 .bcast256
      (by decide) rfl
  have h1 : r.m_cuAboveRight = some 1 := by
    rw [har]
    decide
  have h2 : r.m_cuLeft = none := by
    rw [hl]
    decide
  refine ⟨r, h, h1, h2, ?_⟩
  intro hc
  have := (hc (by rw [h1]; exact Option.some_ne_none 1)).1
  exact this h2

theorem sub32_one (w : Nat) (h0 : 0 < w) (h1 : w < 2 ^ 32) : sub32 w 1 = w - 1 := by
  unfold sub32
  omega

/-- C6, amended: after `initCTU` the above-left reference is non-null exactly
when both the left and the above references are non-null; the above-right
reference is non-null exactly when the above reference is non-null and the CTU
is not in the last column (`cuAddr mod widthInCU < widthInCU - 1`), whatever the
left reference; the left reference is null exactly when
`cuAddr mod widthInCU = 0` and the above reference is null exactly when
`cuAddr < widthInCU`. -/
theorem C6_initCTU_neighbours (cu0 : CUData) (g : Globals) (frame : Frame) (cuAddr : Nat)
    (qp : Int) (cuSize index : Nat) (csp : Int)
    (hN : NUM_CU_PARTITIONS g = 4 ∨ NUM_CU_PARTITIONS g = 16 ∨ NUM_CU_PARTITIONS g = 64 ∨
      NUM_CU_PARTITIONS g = 256)
    (hw : 0 < frame.m_numCuInWidth) (hw32 : frame.m_numCuInWidth < 2 ^ 32) :
    ∃ r, ( CUData.initialize cu0 (NUM_CU_PARTITIONS g) cuSize csp index).initCTU g frame cuAddr qp
        = some r ∧
      (r.m_cuAboveLeft ≠ none ↔ r.m_cuLeft ≠ none ∧ r.m_cuAbove ≠ none) ∧
      (r.m_cuAboveRight ≠ none ↔
        r.m_cuAbove ≠ none ∧ cuAddr % frame.m_numCuInWidth < frame.m_numCuInWidth - 1) ∧
      (r.m_cuLeft = none ↔ cuAddr % frame.m_numCuInWidth = 0) ∧
      (r.m_cuAbove = none ↔ cuAddr < frame.m_numCuInWidth) := by
  obtain ⟨k, hk, _⟩ := initialize_partSet cu0 (NUM_CU_PARTITIONS g) cuSize csp index hN
  obtain ⟨r, h, _, _, _, _, _, _, hl, ha, hal, har, _⟩ := initCTU_eq _ g frame cuAddr qp k hw hk
  have hdiv : cuAddr / frame.m_numCuInWidth = 0 ↔ cuAddr < frame.m_numCuInWidth :=
    Nat.div_eq_zero_iff hw
  rw [sub32_one _ hw hw32] at har
  refine ⟨r, h, ?_, ?_, ?_, ?_⟩
  · rw [hal, hl, ha]
    by_cases h1 : cuAddr % frame.m_numCuInWidth = 0 <;>
      by_cases h2 : cuAddr / frame.m_numCuInWidth = 0 <;> simp [h1, h2]
  · rw [har, ha]
    by_cases h2 : cuAddr / frame.m_numCuInWidth = 0 <;>
      by_cases h3 : cuAddr % frame.m_numCuInWidth < frame.m_numCuInWidth - 1 <;>
      simp [h2, h3]
  · rw [hl]
    by_cases h1 : cuAddr % frame.m_numCuInWidth = 0 <;> simp [h1]
  · rw [ha, ← hdiv]
    by_cases h2 : cuAddr / frame.m_numCuInWidth = 0 <;> simp [h2]

/-- C6, amended, at a concrete input: CTU 2 of the sample frame. -/
theorem C6_initCTU_neighbours_witness :
    ∃ r, ( CUData.initialize sampleBlank (NUM_CU_PARTITIONS sampleGlobals) 64 1 0).initCTU
        sampleGlobals sampleFrame 2 30 = some r ∧
      r.m_cuLeft = none ∧ r.m_cuAbove ≠ none ∧ r.m_cuAboveRight ≠ none ∧
      ¬ r.m_cuAboveLeft ≠ none := by
  obtain ⟨r, h, h1, h2, h3, h4⟩ :=
    C6_initCTU_neighbours sampleBlank sampleGlobals sampleFrame 2 30 64 0 1
      (Or.inr (Or.inr (Or.inr (by decide)))) (by decide) (by decide)
  have hl : r.m_cuLeft = none := h3.mpr (by decide)
  have ha : r.m_cuAbove ≠ none := fun e => absurd (h4.mp e) (by decide)
  exact ⟨r, h, hl, ha, h2.mpr ⟨ha, by decide⟩, fun e => (h1.mp e).1 hl⟩

/-! ## C7: the first partition of the top-left CTU -/

theorem zscanCol_zero (d : Nat) : zscanCol d 0 = 0 := by
  induction d with
  | zero => rfl
  | succ d ih => simp [zscanCol, ih]

theorem zscanRow_zero (d : Nat) : zscanRow d 0 = 0 := by
  induction d with
  | zero => rfl
  | succ d ih => simp [zscanRow, ih]

theorem g_zscanToRaster_zero (g : Globals) : g_zscanToRaster g 0 = 0 := by
  simp [g_zscanToRaster, zscanCol_zero, zscanRow_zero]

/-- C7: for a CTU initialised by `initCTU` with `cuAddr = 0` (the top-left CTU of
the picture), `getPULeft` and `getPUAbove` called on partition index 0 both
return null. -/
theorem C7_first_partition_no_neighbours (cu0 : CUData) (g : Globals) (frame : Frame)
    (qp : Int) (cuSize index : Nat) (csp : Int)
    (hN : NUM_CU_PARTITIONS g = 4 ∨ NUM_CU_PARTITIONS g = 16 ∨ NUM_CU_PARTITIONS g = 64 ∨
      NUM_CU_PARTITIONS g = 256)
    (hw : 0 < frame.m_numCuInWidth) :
    ∃ ctu, ( CUData.initialize cu0 (NUM_CU_PARTITIONS g) cuSize csp index).initCTU g frame 0 qp
        = some ctu ∧
      (∃ l, ctu.getPULeft g 0 = some (CUPtr.null, l)) ∧
      (∀ a0 planar, ∃ a, ctu.getPUAbove g a0 0 planar = some (CUPtr.null, a)) := by
  obtain ⟨k, hk, _⟩ := initialize_partSet cu0 (NUM_CU_PARTITIONS g) cuSize csp index hN
  obtain ⟨r, h, _, _, hf, _, _, _, hl, ha, _⟩ := initCTU_eq _ g frame 0 qp k hw hk
  have hl0 : r.m_cuLeft = none := by
    rw [hl]
    simp
  have ha0 : r.m_cuAbove = none := by
    rw [ha]
    simp
  refine ⟨r, h, ?_, ?_⟩
  · unfold CUData.getPULeft
    simp only [hf, g_zscanToRaster_zero, isZeroCol, Nat.zero_and, hl0, CUPtr.ofRef]
    exact ⟨_, rfl⟩
  · intro a0 planar
    unfold CUData.getPUAbove
    simp only [hf, g_zscanToRaster_zero, isZeroRow, Nat.zero_and, ha0, CUPtr.ofRef]
    cases planar
    · exact ⟨_, rfl⟩
    · exact ⟨_, rfl⟩

/-- C7 at a concrete input: the sample frame and globals. -/
theorem C7_first_partition_no_neighbours_witness :
    ∃ ctu, ( CUData.initialize sampleBlank (NUM_CU_PARTITIONS sampleGlobals) 64 1 0).initCTU
        sampleGlobals sampleFrame 0 30 = some ctu ∧
      (∃ l, ctu.getPULeft sampleGlobals 0 = some (CUPtr.null, l)) ∧
      (∃ a, ctu.getPUAbove sampleGlobals 0 0 false = some (CUPtr.null, a)) := by
  obtain ⟨ctu, h, h1, h2⟩ :=
    C7_first_partition_no_neighbours sampleBlank sampleGlobals sampleFrame 30 64 0 1
      (Or.inr (Or.inr (Or.inr (by decide)))) (by decide)
  exact ⟨ctu, h, h1, h2 0 false⟩

/-! ## C8 and C9: `initSubCU` -/

/-- The state after `initSubCU`. -/
theorem initSubCU_eq (self : CUData) (g : Globals) (ctu : CUData) (cuGeom : CUGeom)
    (k : cubcast_t) (frame : Frame) (slice : Slice) (hk : self.m_partSet = some k)
    (hf : ctu.m_frame = some frame) (hs : ctu.m_slice = some slice) :
    ∃ r, self.initSubCU g ctu cuGeom = some r ∧
      r.charMemBlock = memset (setAttrs k.size self.charMemBlock self.ptr
          [(.qp, ctu.get .qp 0), (.log2CUSize, u8 cuGeom.log2CUSize),
           (.partSizes, u8 SIZE_NONE), (.predModes, u8 MODE_NONE), (.lumaIntraDir, u8 DC_IDX),
           (.cuTransquantBypass, u8i frame.bLossless), (.depth, u8 cuGeom.depth)])
        self.m_skipFlag (u8 0) (u32 ((BytesPerPartition - 7) * cuGeom.numPartitions)) ∧
      (∀ a, r.ptr a = self.ptr a) ∧
      r.m_absIdxInCTU = cuGeom.encodeIdx ∧ r.m_numPartitions = cuGeom.numPartitions ∧
      r.m_cuLeft = ctu.m_cuLeft ∧ r.m_cuAbove = ctu.m_cuAbove ∧
      r.m_cuAboveLeft = ctu.m_cuAboveLeft ∧ r.m_cuAboveRight = ctu.m_cuAboveRight ∧
      r.m_cuMvField0 = (if slice.m_sliceType ≠ I_SLICE then self.m_cuMvField0.clearMvField
        else self.m_cuMvField0) ∧
      r.m_cuMvField1 = (if slice.m_sliceType ≠ I_SLICE then self.m_cuMvField1.clearMvField
        else self.m_cuMvField1) := by
  unfold CUData.initSubCU
  simp only [hk, hf, hs]
  refine ⟨_, rfl, ?_, ?_, rfl, rfl, rfl, rfl, rfl, rfl, rfl, rfl⟩
  · simp only [cubcast_call_eq]
    rfl
  · intro a
    cases a <;> rfl

theorem mem_tail13 (attr : Attr)
    (h : attr ∈ [Attr.skipFlag, .bMergeFlags, .interDir, .mvpIdx0, .mvpIdx1, .trIdx,
      .transformSkip0, .transformSkip1, .transformSkip2, .cbf0, .cbf1, .cbf2,
      .chromaIntraDir]) : 7 ≤ attr.idx := by
  revert h
  cases attr <;> decide

/-- C8: after `initSubCU(ctu, geom)` on a container initialised for
`geom.numPartitions` partitions, `m_absIdxInCTU = geom.encodeIdx`,
`m_numPartitions = geom.numPartitions`, the four neighbour references equal the
CTU's, and for every `i < geom.numPartitions` the QP is the CTU's QP at
partition 0, the log2 CU size and the depth hold the bytes of `geom.log2CUSize`
and `geom.depth`, the partition mode is `SIZE_NONE`, the prediction mode
`MODE_NONE`, the luma intra direction `DC_IDX`, the transquant-bypass flag the
byte of the lossless flag, and the 13 remaining arrays (skip flag through
chroma intra direction) are 0. -/
theorem C8_initSubCU_defaults (cu0 ctu : CUData) (g : Globals) (geom : CUGeom)
    (cuSize index : Nat) (csp : Int) (frame : Frame) (slice : Slice)
    (hn : geom.numPartitions = 4 ∨ geom.numPartitions = 16 ∨ geom.numPartitions = 64 ∨
      geom.numPartitions = 256)
    (hf : ctu.m_frame = some frame) (hs : ctu.m_slice = some slice) :
    ∃ r, ( CUData.initialize cu0 geom.numPartitions cuSize csp index).initSubCU g ctu geom = some r ∧
      r.m_absIdxInCTU = geom.encodeIdx ∧ r.m_numPartitions = geom.numPartitions ∧
      r.m_cuLeft = ctu.m_cuLeft ∧ r.m_cuAbove = ctu.m_cuAbove ∧
      r.m_cuAboveLeft = ctu.m_cuAboveLeft ∧ r.m_cuAboveRight = ctu.m_cuAboveRight ∧
      ∀ i, i < geom.numPartitions →
        r.get .qp i = ctu.get .qp 0 ∧
        r.get .log2CUSize i = u8 geom.log2CUSize ∧
        (geom.log2CUSize < 256 → (r.get .log2CUSize i).val = geom.log2CUSize) ∧
        r.get .depth i = u8 geom.depth ∧
        (geom.depth < 256 → (r.get .depth i).val = geom.depth) ∧
        (r.get .partSizes i).val = SIZE_NONE ∧
        (r.get .predModes i).val = MODE_NONE ∧
        (r.get .lumaIntraDir i).val = DC_IDX ∧
        r.get .cuTransquantBypass i = u8i frame.bLossless ∧
        (0 ≤ frame.bLossless ∧ frame.bLossless < 256 →
          ((r.get .cuTransquantBypass i).val : Int) = frame.bLossless) ∧
        (∀ attr ∈ [Attr.skipFlag, .bMergeFlags, .interDir, .mvpIdx0, .mvpIdx1, .trIdx,
            .transformSkip0, .transformSkip1, .transformSkip2, .cbf0, .cbf1, .cbf2,
            .chromaIntraDir], (r.get attr i).val = 0) := by
  have H := initialize_layout cu0 geom.numPartitions cuSize csp index
  obtain ⟨k, hk, hks⟩ := initialize_partSet cu0 geom.numPartitions cuSize csp index hn
  obtain ⟨r, h, hm, hp, h1, h2, h3, h4, h5, h6, _⟩ :=
    initSubCU_eq _ g ctu geom k frame slice hk hf hs
  have hskip : ( CUData.initialize cu0 geom.numPartitions cuSize csp index).m_skipFlag
      = slabBase geom.numPartitions index + 7 * geom.numPartitions := H .skipFlag
  have hlen : u32 ((BytesPerPartition - 7) * geom.numPartitions) = 13 * geom.numPartitions := by
    unfold u32 BytesPerPartition
    omega
  rw [hks, hskip, hlen] at hm
  have hnd : (List.map Prod.fst [(Attr.qp, ctu.get .qp 0), (.log2CUSize, u8 geom.log2CUSize),
      (.partSizes, u8 SIZE_NONE), (.predModes, u8 MODE_NONE), (.lumaIntraDir, u8 DC_IDX),
      (.cuTransquantBypass, u8i frame.bLossless), (.depth, u8 geom.depth)]).Nodup := by
    simp only [List.map]
    decide
  have head : ∀ (a : Attr) (v : Byte) (i : Nat), a.idx < 7 →
      (a, v) ∈ [(Attr.qp, ctu.get .qp 0), (.log2CUSize, u8 geom.log2CUSize),
        (.partSizes, u8 SIZE_NONE), (.predModes, u8 MODE_NONE), (.lumaIntraDir, u8 DC_IDX),
        (.cuTransquantBypass, u8i frame.bLossless), (.depth, u8 geom.depth)] →
      i < geom.numPartitions → r.get a i = v := by
    intro a v i ha hmem hi
    unfold CUData.get
    rw [hp a, hm]
    have hr := H.range a 0 7 (Nat.zero_le _) ha i hi
    rw [memset_out _ _ _ _ _ (Or.inl hr.2)]
    exact setAttrs_layout_in H _ _ a v hmem (unique_of_nodup_fst _ hnd _ _ hmem) i hi
  refine ⟨r, h, h1, h2, h3, h4, h5, h6, ?_⟩
  intro i hi
  have hqp : r.get .qp i = ctu.get .qp 0 := head .qp _ i (by decide) (by simp) hi
  have hlog : r.get .log2CUSize i = u8 geom.log2CUSize :=
    head .log2CUSize _ i (by decide) (by simp) hi
  have hdp : r.get .depth i = u8 geom.depth := head .depth _ i (by decide) (by simp) hi
  have hps : r.get .partSizes i = u8 SIZE_NONE := head .partSizes _ i (by decide) (by simp) hi
  have hpm : r.get .predModes i = u8 MODE_NONE := head .predModes _ i (by decide) (by simp) hi
  have hli : r.get .lumaIntraDir i = u8 DC_IDX :=
    head .lumaIntraDir _ i (by decide) (by simp) hi
  have htq : r.get .cuTransquantBypass i = u8i frame.bLossless :=
    head .cuTransquantBypass _ i (by decide) (by simp) hi
  refine ⟨hqp, hlog, ?_, hdp, ?_, ?_, ?_, ?_, htq, ?_, ?_⟩
  · intro hr
    rw [hlog]
    exact u8_val_of_lt _ hr
  · intro hr
    rw [hdp]
    exact u8_val_of_lt _ hr
  · rw [hps]
    rfl
  · rw [hpm]
    rfl
  · rw [hli]
    rfl
  · intro hr
    rw [htq]
    exact u8i_val_of_range _ hr.1 hr.2
  · intro attr hattr
    unfold CUData.get
    rw [hp attr, hm]
    have hr := H.range attr 7 20 (mem_tail13 attr hattr) (Attr.idx_lt attr) i hi
    rw [memset_in _ _ _ _ _ hr.1 (by omega)]
    rfl

/-- C8 at a concrete input: a 4-partition node at index 20, depth 3, under a
CTU-resident container bound to the sample frame. -/
theorem C8_initSubCU_defaults_witness :
    ∃ r, ( CUData.initialize sampleNode16 4 8 1 1).initSubCU sampleGlobals
        { CUData.initialize sampleNode20 256 64 1 0 with m_slice := some { m_sliceType := 1 } }
        ⟨3, 0, 20, 4, 3, 0⟩ = some r ∧
      r.m_absIdxInCTU = 20 ∧ r.m_numPartitions = 4 ∧
      r.get .qp 3 = ( CUData.initialize sampleNode20 256 64 1 0).get .qp 0 ∧
      (r.get .depth 3).val = 3 ∧ (r.get .cbf2 3).val = 0 := by
  obtain ⟨r, h, h1, h2, _, _, _, _, hr⟩ :=
    C8_initSubCU_defaults sampleNode16
      { CUData.initialize sampleNode20 256 64 1 0 with m_slice := some { m_sliceType := 1 } }
      sampleGlobals ⟨3, 0, 20, 4, 3, 0⟩ 8 1 1 sampleFrame { m_sliceType := 1 }
      (by decide) rfl rfl
  obtain ⟨hq, _, _, _, hd, _, _, _, _, _, hz⟩ := hr 3 (by decide)
  exact ⟨r, h, h1, h2, hq, hd (by decide), hz .cbf2 (by decide)⟩

/-- C9: `initSubCU` clears both motion-vector fields (every unit of the node
loses its reference index) when the slice type is not `I_SLICE`, and leaves
both motion-vector fields exactly as they were when the slice type is
`I_SLICE`. -/
theorem C9_initSubCU_motion_fields (cu0 ctu : CUData) (g : Globals) (geom : CUGeom)
    (cuSize index : Nat) (csp : Int) (frame : Frame) (slice : Slice)
    (hn : geom.numPartitions = 4 ∨ geom.numPartitions = 16 ∨ geom.numPartitions = 64 ∨
      geom.numPartitions = 256)
    (hf : ctu.m_frame = some frame) (hs : ctu.m_slice = some slice) :
    ∃ r, ( CUData.initialize cu0 geom.numPartitions cuSize csp index).initSubCU g ctu geom = some r ∧
      (slice.m_sliceType ≠ I_SLICE →
        r.m_cuMvField0
          = ( CUData.initialize cu0 geom.numPartitions cuSize csp index).m_cuMvField0.clearMvField ∧
        r.m_cuMvField1
          = ( CUData.initialize cu0 geom.numPartitions cuSize csp index).m_cuMvField1.clearMvField ∧
        ∀ i, i < geom.numPartitions →
          r.m_cuMvField0.m_refIdx i = NOT_VALID ∧ r.m_cuMvField1.m_refIdx i = NOT_VALID) ∧
      (slice.m_sliceType = I_SLICE →
        r.m_cuMvField0 = ( CUData.initialize cu0 geom.numPartitions cuSize csp index).m_cuMvField0 ∧
        r.m_cuMvField1 = ( CUData.initialize cu0 geom.numPartitions cuSize csp index).m_cuMvField1) := by
  obtain ⟨k, hk, _⟩ := initialize_partSet cu0 geom.numPartitions cuSize csp index hn
  obtain ⟨r, h, _, _, _, _, _, _, _, _, hmv0, hmv1⟩ :=
    initSubCU_eq _ g ctu geom k frame slice hk hf hs
  refine ⟨r, h, ?_, ?_⟩
  · intro hne
    rw [if_pos hne] at hmv0 hmv1
    refine ⟨hmv0, hmv1, ?_⟩
    intro i hi
    rw [hmv0, hmv1]
    exact ⟨memset_in _ _ _ _ _ (Nat.zero_le _) (by show i < 0 + geom.numPartitions; omega),
      memset_in _ _ _ _ _ (Nat.zero_le _) (by show i < 0 + geom.numPartitions; omega)⟩
  · intro he
    rw [if_neg (fun hne => hne he)] at hmv0 hmv1
    exact ⟨hmv0, hmv1⟩

/-- C9 at a concrete input: a P slice clears the fields of a 4-partition node. -/
theorem C9_initSubCU_motion_fields_witness :
    ∃ r, ( CUData.initialize sampleNode16 4 8 1 1).initSubCU sampleGlobals
        { CUData.initialize sampleNode20 256 64 1 0 with m_slice := some { m_sliceType := 1 } }
        ⟨3, 0, 20, 4, 3, 0⟩ = some r ∧
      r.m_cuMvField0.m_refIdx 2 = NOT_VALID ∧ r.m_cuMvField1.m_refIdx 2 = NOT_VALID := by
  obtain ⟨r, h, h1, _⟩ :=
    C9_initSubCU_motion_fields sampleNode16
      { CUData.initialize sampleNode20 256 64 1 0 with m_slice := some { m_sliceType := 1 } }
      sampleGlobals ⟨3, 0, 20, 4, 3, 0⟩ 8 1 1 sampleFrame { m_sliceType := 1 }
      (by decide) rfl rfl
  exact ⟨r, h, ((h1 (by decide)).2.2 2 (by decide)).1, ((h1 (by decide)).2.2 2 (by decide)).2⟩

/-! ## C10: `initLosslessCU` -/

/-- The state after `initLosslessCU`. -/
theorem initLosslessCU_eq (self cu : CUData) (cuGeom : CUGeom) (k : cubcast_t)
    (hk : self.m_partSet = some k) :
    ∃ r, self.initLosslessCU cu cuGeom = some r ∧
      r.charMemBlock = setAttrs k.size
        (memcpy self.charMemBlock self.m_qp cu.charMemBlock cu.m_qp
          (u32 (BytesPerPartition * cuGeom.numPartitions)))
        self.ptr
        [(.cuTransquantBypass, u8 1), (.skipFlag, u8 0), (.trIdx, u8 0),
         (.transformSkip0, u8 0), (.transformSkip1, u8 0), (.transformSkip2, u8 0),
         (.cbf0, u8 0), (.cbf1, u8 0), (.cbf2, u8 0)] ∧
      (∀ a, r.ptr a = self.ptr a) ∧
      r.m_cuMvField0 = self.m_cuMvField0.copyFrom cu.m_cuMvField0 cuGeom.numPartitions 0 ∧
      r.m_cuMvField1 = self.m_cuMvField1.copyFrom cu.m_cuMvField1 cuGeom.numPartitions 0 := by
  unfold CUData.initLosslessCU
  simp only [hk]
  refine ⟨_, rfl, ?_, ?_, rfl, rfl⟩
  · simp only [cubcast_call_eq]
    rfl
  · intro a
    cases a <;> rfl

theorem not_mem_losslessFlags (attr : Attr)
    (h : attr ∈ [Attr.qp, .log2CUSize, .partSizes, .predModes, .lumaIntraDir, .depth,
      .bMergeFlags, .interDir, .mvpIdx0, .mvpIdx1, .chromaIntraDir]) :
    ∀ p ∈ [(Attr.cuTransquantBypass, u8 1), (.skipFlag, u8 0), (.trIdx, u8 0),
      (.transformSkip0, u8 0), (.transformSkip1, u8 0), (.transformSkip2, u8 0),
      (.cbf0, u8 0), (.cbf1, u8 0), (.cbf2, u8 0)], p.1 ≠ attr := by
  revert h
  cases attr <;> decide

/-- C10: for containers initialised for `geom.numPartitions` partitions, after
`initLosslessCU(cu, geom)`, for every `i < geom.numPartitions` the
transquant-bypass flag is 1 and the skip flag, transform index, the three
transform-skip flags and the three coded-block flags are 0, while QP, log2 CU
size, partition mode, prediction mode, luma intra direction, depth, merge
flag, inter direction, the two MVP indices and chroma intra direction equal
the source container's values at `i`, and both motion-vector fields equal the
source's. -/
theorem C10_initLosslessCU (cu0 cu1 : CUData) (geom : CUGeom)
    (cuSize cuSize1 index index1 : Nat) (csp csp1 : Int)
    (hn : geom.numPartitions = 4 ∨ geom.numPartitions = 16 ∨ geom.numPartitions = 64 ∨
      geom.numPartitions = 256) :
    ∃ r, ( CUData.initialize cu0 geom.numPartitions cuSize csp index).initLosslessCU
        ( CUData.initialize cu1 geom.numPartitions cuSize1 csp1 index1) geom = some r ∧
      ∀ i, i < geom.numPartitions →
        (r.get .cuTransquantBypass i).val = 1 ∧
        (∀ attr ∈ [Attr.skipFlag, .trIdx, .transformSkip0, .transformSkip1, .transformSkip2,
            .cbf0, .cbf1, .cbf2], (r.get attr i).val = 0) ∧
        (∀ attr ∈ [Attr.qp, .log2CUSize, .partSizes, .predModes, .lumaIntraDir, .depth,
            .bMergeFlags, .interDir, .mvpIdx0, .mvpIdx1, .chromaIntraDir],
          r.get attr i = ( CUData.initialize cu1 geom.numPartitions cuSize1 csp1 index1).get attr i) ∧
        r.m_cuMvField0.m_mv i
          = ( CUData.initialize cu1 geom.numPartitions cuSize1 csp1 index1).m_cuMvField0.m_mv i ∧
        r.m_cuMvField0.m_refIdx i
          = ( CUData.initialize cu1 geom.numPartitions cuSize1 csp1 index1).m_cuMvField0.m_refIdx i ∧
        r.m_cuMvField1.m_mv i
          = ( CUData.initialize cu1 geom.numPartitions cuSize1 csp1 index1).m_cuMvField1.m_mv i ∧
        r.m_cuMvField1.m_refIdx i
          = ( CUData.initialize cu1 geom.numPartitions cuSize1 csp1 index1).m_cuMvField1.m_refIdx i := by
  have H := initialize_layout cu0 geom.numPartitions cuSize csp index
  have H1 := initialize_layout cu1 geom.numPartitions cuSize1 csp1 index1
  obtain ⟨k, hk, hks⟩ := initialize_partSet cu0 geom.numPartitions cuSize csp index hn
  obtain ⟨r, h, hm, hp, hmv0, hmv1⟩ :=
    initLosslessCU_eq _ ( CUData.initialize cu1 geom.numPartitions cuSize1 csp1 index1) geom k hk
  have hqp : ( CUData.initialize cu0 geom.numPartitions cuSize csp index).m_qp
      = slabBase geom.numPartitions index := by
    have := H .qp
    simpa [Attr.idx, CUData.ptr] using this
  have hqp1 : ( CUData.initialize cu1 geom.numPartitions cuSize1 csp1 index1).m_qp
      = slabBase geom.numPartitions index1 := by
    have := H1 .qp
    simpa [Attr.idx, CUData.ptr] using this
  have hlen : u32 (BytesPerPartition * geom.numPartitions) = 20 * geom.numPartitions := by
    unfold u32 BytesPerPartition
    omega
  rw [hks, hqp, hqp1, hlen] at hm
  have hnd : (List.map Prod.fst [(Attr.cuTransquantBypass, u8 1), (.skipFlag, u8 0),
      (.trIdx, u8 0), (.transformSkip0, u8 0), (.transformSkip1, u8 0),
      (.transformSkip2, u8 0), (.cbf0, u8 0), (.cbf1, u8 0), (.cbf2, u8 0)]).Nodup := by
    simp only [List.map]
    decide
  have flag : ∀ (a : Attr) (v : Byte) (i : Nat),
      (a, v) ∈ [(Attr.cuTransquantBypass, u8 1), (.skipFlag, u8 0), (.trIdx, u8 0),
        (.transformSkip0, u8 0), (.transformSkip1, u8 0), (.transformSkip2, u8 0),
        (.cbf0, u8 0), (.cbf1, u8 0), (.cbf2, u8 0)] →
      i < geom.numPartitions → r.get a i = v := by
    intro a v i hmem hi
    unfold CUData.get
    rw [hp a, hm]
    exact setAttrs_layout_in H _ _ a v hmem (unique_of_nodup_fst _ hnd _ _ hmem) i hi
  refine ⟨r, h, ?_⟩
  intro i hi
  refine ⟨?_, ?_, ?_, ?_, ?_, ?_, ?_⟩
  · rw [flag .cuTransquantBypass (u8 1) i (by simp) hi]
    rfl
  · intro attr hattr
    have hmem : (attr, u8 0) ∈ [(Attr.cuTransquantBypass, u8 1), (.skipFlag, u8 0),
        (.trIdx, u8 0), (.transformSkip0, u8 0), (.transformSkip1, u8 0),
        (.transformSkip2, u8 0), (.cbf0, u8 0), (.cbf1, u8 0), (.cbf2, u8 0)] := by
      revert hattr
      cases attr <;> simp
    rw [flag attr (u8 0) i hmem hi]
    rfl
  · intro attr hattr
    unfold CUData.get
    rw [hp attr, hm, setAttrs_layout_out H _ _ attr (not_mem_losslessFlags attr hattr) i hi]
    have hr := H.range attr 0 20 (Nat.zero_le _) (Attr.idx_lt attr) i hi
    rw [memcpy_in _ _ _ _ _ _ (by omega) (by omega)]
    congr 1
    rw [H attr, H1 attr]
    omega
  · rw [hmv0]
    show memcpy _ 0 _ 0 geom.numPartitions i = _
    rw [memcpy_in _ _ _ _ _ _ (Nat.zero_le _) (by omega)]
    congr 1
    omega
  · rw [hmv0]
    show memcpy _ 0 _ 0 geom.numPartitions i = _
    rw [memcpy_in _ _ _ _ _ _ (Nat.zero_le _) (by omega)]
    congr 1
    omega
  · rw [hmv1]
    show memcpy _ 0 _ 0 geom.numPartitions i = _
    rw [memcpy_in _ _ _ _ _ _ (Nat.zero_le _) (by omega)]
    congr 1
    omega
  · rw [hmv1]
    show memcpy _ 0 _ 0 geom.numPartitions i = _
    rw [memcpy_in _ _ _ _ _ _ (Nat.zero_le _) (by omega)]
    congr 1
    omega

/-- C10 at a concrete input: a lossless copy of a 4-partition node. -/
theorem C10_initLosslessCU_witness :
    ∃ r, ( CUData.initialize sampleNode16 4 8 1 1).initLosslessCU
        ( CUData.initialize sampleNode20 4 8 1 2) ⟨3, 0, 20, 4, 3, 0⟩ = some r ∧
      (r.get .cuTransquantBypass 3).val = 1 ∧ (r.get .cbf0 3).val = 0 ∧
      r.get .predModes 3 = ( CUData.initialize sampleNode20 4 8 1 2).get .predModes 3 ∧
      r.m_cuMvField1.m_refIdx 3 = ( CUData.initialize sampleNode20 4 8 1 2).m_cuMvField1.m_refIdx 3 := by
  obtain ⟨r, h, hr⟩ :=
    C10_initLosslessCU sampleNode16 sampleNode20 ⟨3, 0, 20, 4, 3, 0⟩ 8 8 1 2 1 1 (by decide)
  obtain ⟨h1, h2, h3, _, _, _, h7⟩ := hr 3 (by decide)
  exact ⟨r, h, h1, h2 .cbf0 (by decide), h3 .predModes (by decide), h7⟩

/-! ## C11 and C12: `getDistScaleFactor` -/

theorem Clip3_bounds (lo hi a : Int) (h : lo ≤ hi) : lo ≤ Clip3 lo hi a ∧ Clip3 lo hi a ≤ hi := by
  unfold Clip3
  constructor
  · exact le_min (le_max_left lo a) h
  · exact min_le_right _ _

theorem Clip3_eq_zero_iff (a : Int) : Clip3 (-128) 127 a = 0 ↔ a = 0 := by
  unfold Clip3
  constructor
  · intro h
    rcases le_total (max (-128) a) 127 with h1 | h1
    · rw [min_eq_left h1] at h
      rcases le_total (-128) a with h2 | h2
      · rw [max_eq_right h2] at h
        exact h
      · rw [max_eq_left h2] at h
        omega
    · rw [min_eq_right h1] at h
      omega
  · intro h
    subst h
    decide

/-- C11: `getDistScaleFactor` returns exactly 4096 for every input with
`colPOC - colRefPOC = curPOC - curRefPOC`. -/
theorem C11_getDistScaleFactor_identity (curPOC curRefPOC colPOC colRefPOC : Int)
    (h : colPOC - colRefPOC = curPOC - curRefPOC) :
    getDistScaleFactor curPOC curRefPOC colPOC colRefPOC = some 4096 := by
  unfold getDistScaleFactor
  simp only [h, if_true]

/-- C11 at a concrete input: both POC distances are 3. -/
theorem C11_getDistScaleFactor_identity_witness :
    (8 : Int) - 5 = 10 - 7 ∧ getDistScaleFactor 10 7 8 5 = some 4096 :=
  ⟨by decide, C11_getDistScaleFactor_identity 10 7 8 5 (by decide)⟩

/-- C12 fails as stated: with `colPOC = colRefPOC` and a non-zero current
distance the two distances differ, the divisor `tdd` is 0 and the function
has no result. -/
theorem C12_getDistScaleFactor_scaled_counterexample :
    (0 : Int) - 0 ≠ 1 - 0 ∧ getDistScaleFactor 1 0 0 0 = none := by
  decide

/-- C12, amended: for every input with `colPOC - colRefPOC` different from
`curPOC - curRefPOC` and `colPOC` different from `colRefPOC`, `getDistScaleFactor`
returns `Clip3(-4096, 4095, (tdb*x + 32) >> 6)` with
`tdb = Clip3(-128, 127, curPOC - curRefPOC)`,
`tdd = Clip3(-128, 127, colPOC - colRefPOC)` and `x = (16384 + |tdd/2|) / tdd`
(truncating divisions), so the result lies in `[-4096, 4095]` and is never the
sentinel 4096. -/
theorem C12_getDistScaleFactor_scaled (curPOC curRefPOC colPOC colRefPOC : Int)
    (hne : colPOC - colRefPOC ≠ curPOC - curRefPOC) (hcol : colPOC ≠ colRefPOC) :
    ∃ r, getDistScaleFactor curPOC curRefPOC colPOC colRefPOC = some r ∧
      r = Clip3 (-4096) 4095
        ((Clip3 (-128) 127 (curPOC - curRefPOC)
            * Int.tdiv (16384 + iabs (Int.tdiv (Clip3 (-128) 127 (colPOC - colRefPOC)) 2))
                (Clip3 (-128) 127 (colPOC - colRefPOC)) + 32) >>> (6 : Nat)) ∧
      -4096 ≤ r ∧ r ≤ 4095 ∧ r ≠ 4096 := by
  have htdd : Clip3 (-128) 127 (colPOC - colRefPOC) ≠ 0 := by
    intro h0
    have := (Clip3_eq_zero_iff _).mp h0
    exact hcol (by omega)
  refine ⟨_, by unfold getDistScaleFactor; simp only [hne, htdd, if_false], rfl, ?_⟩
  have hb := Clip3_bounds (-4096) 4095
    ((Clip3 (-128) 127 (curPOC - curRefPOC)
      * Int.tdiv (16384 + iabs (Int.tdiv (Clip3 (-128) 127 (colPOC - colRefPOC)) 2))
          (Clip3 (-128) 127 (colPOC - colRefPOC)) + 32) >>> (6 : Nat)) (by decide)
  refine ⟨hb.1, hb.2, ?_⟩
  have := hb.2
  omega

/-- C12, amended, at a concrete input: current distance 2, collocated distance 1. -/
theorem C12_getDistScaleFactor_scaled_witness :
    getDistScaleFactor 2 0 1 0 = some 512 := by
  obtain ⟨r, h, hr, _⟩ := C12_getDistScaleFactor_scaled 2 0 1 0 (by decide) (by decide)
  rw [h, hr]
  decide

/-! ## C20: the temporal predictor `getColMVP` -/

/-- The cases of `getColMVP`: called on a container with a slice whose collocated
picture is set, for list 0 or 1, `getColMVP` returns false, leaving `outMV`
untouched, when the collocated CTU is unset (null frame), or has no partition
mode at `partUnitIdx` (`SIZE_NONE`), or its unit `partUnitIdx & TMVP_UNIT_MASK` is
intra-coded, or that unit has a negative reference index in both lists. In
every other case the unit has a non-negative reference index in the list tried
first (`picList` under `m_bCheckLDC`, else `m_colFromL0Flag`) or else in the
other one, and the call has a result exactly when `getDistScaleFactor` has one:
true with the vector stored there, unscaled when the factor is 4096 and scaled
by `scaleMv` otherwise; the factor is defined whenever the collocated POC
differs from the POC of the collocated reference. -/
theorem getColMVP_cases (self : CUData) (refPics : Nat → Nat → CUData) (picList : Int)
    (cuAddr partUnitIdx : Nat) (outMV : MV) (outRefIdx : Int) (slice : Slice) (colPic : Nat)
    (hs : self.m_slice = some slice)
    (hpic : slice.m_refPicList slice.colList slice.m_colRefIdx = some colPic)
    (hlist : picList = 0 ∨ picList = 1)
    (hcs : (refPics colPic cuAddr).m_frame ≠ none → (refPics colPic cuAddr).m_slice ≠ none) :
    let colCU := refPics colPic cuAddr
    let absPartAddr := partUnitIdx &&& TMVP_UNIT_MASK
    let falseCase :=
      colCU.m_frame = none ∨ (colCU.get .partSizes partUnitIdx).val = SIZE_NONE ∨
      colCU.isIntra absPartAddr = true ∨
      ((colCU.cuMvField 0).getRefIdx absPartAddr < 0 ∧
        (colCU.cuMvField 1).getRefIdx absPartAddr < 0)
    (falseCase →
      self.getColMVP refPics picList cuAddr partUnitIdx outMV outRefIdx = some (false, outMV)) ∧
    (¬ falseCase → ∃ colSlice, colCU.m_slice = some colSlice ∧
      let first : Int :=
        if slice.m_bCheckLDC then picList else (if slice.m_colFromL0Flag then 1 else 0)
      let colRefPicList :=
        if (colCU.cuMvField first).getRefIdx absPartAddr < 0 then 1 - first else first
      let colRefIdx := (colCU.cuMvField colRefPicList).getRefIdx absPartAddr
      let colmv := (colCU.cuMvField colRefPicList).getMv absPartAddr
      let sf := getDistScaleFactor slice.m_poc (slice.m_refPOCList picList outRefIdx)
        colSlice.m_poc (colSlice.m_refPOCList colRefPicList colRefIdx)
      0 ≤ colRefIdx ∧
      self.getColMVP refPics picList cuAddr partUnitIdx outMV outRefIdx
        = sf.map (fun scale => (true, if scale = 4096 then colmv else scaleMv colmv scale)) ∧
      (colSlice.m_poc ≠ colSlice.m_refPOCList colRefPicList colRefIdx → sf.isSome = true)) := by
  intro colCU absPartAddr falseCase
  have hfirst : ∀ first : Int,
      first = (if slice.m_bCheckLDC then picList else (if slice.m_colFromL0Flag then 1 else 0)) →
      (first = 0 ∧ 1 - first = 1) ∨ (first = 1 ∧ 1 - first = 0) := by
    intro first hf
    subst hf
    rcases hlist with h | h <;> subst h <;> cases slice.m_bCheckLDC <;>
      cases slice.m_colFromL0Flag <;> simp
  have hmap : ∀ (colSlice : Slice) (l r : Int),
      getColMVPScale slice colSlice colCU picList outRefIdx l r absPartAddr
        = (getDistScaleFactor slice.m_poc (slice.m_refPOCList picList outRefIdx)
            colSlice.m_poc (colSlice.m_refPOCList l r)).map
          (fun scale => (true, if scale = 4096 then (colCU.cuMvField l).getMv absPartAddr
            else scaleMv ((colCU.cuMvField l).getMv absPartAddr) scale)) := by
    intro colSlice l r
    unfold getColMVPScale
    simp only []
    generalize getDistScaleFactor slice.m_poc (slice.m_refPOCList picList outRefIdx)
      colSlice.m_poc (colSlice.m_refPOCList l r) = sf
    cases sf <;> rfl
  have hsome : ∀ a b c d : Int, c ≠ d → (getDistScaleFactor a b c d).isSome = true := by
    intro a b c d hcd
    unfold getDistScaleFactor
    simp only []
    split
    · rfl
    · rw [if_neg]
      · rfl
      · rw [Clip3_eq_zero_iff]
        omega
  constructor
  · intro hf
    unfold CUData.getColMVP
    simp only [hs, hpic]
    by_cases h1 : colCU.m_frame = none ∨ (colCU.get .partSizes partUnitIdx).val = SIZE_NONE
    · have : (refPics colPic cuAddr).m_frame.isNone = true ∨
          ((refPics colPic cuAddr).get .partSizes partUnitIdx).val = SIZE_NONE := by
        rcases h1 with h | h
        · left; show colCU.m_frame.isNone = true; rw [h]; rfl
        · right; exact h
      rw [if_pos this]
    · have hfr : colCU.m_frame ≠ none := fun h => h1 (Or.inl h)
      have : ¬ ((refPics colPic cuAddr).m_frame.isNone = true ∨
          ((refPics colPic cuAddr).get .partSizes partUnitIdx).val = SIZE_NONE) := by
        rintro (h | h)
        · exact hfr (Option.isNone_iff_eq_none.mp h)
        · exact h1 (Or.inr h)
      rw [if_neg this]
      obtain ⟨colSlice, hcsl⟩ := Option.ne_none_iff_exists'.mp (hcs hfr)
      simp only [hcsl]
      by_cases h2 : colCU.isIntra absPartAddr = true
      · rw [if_pos h2]
      · rw [if_neg h2]
        have h3 : (colCU.cuMvField 0).getRefIdx absPartAddr < 0 ∧
            (colCU.cuMvField 1).getRefIdx absPartAddr < 0 := by
          rcases hf with h | h | h | h
          · exact absurd h hfr
          · exact absurd (Or.inr h) h1
          · exact absurd h h2
          · exact h
        rcases hfirst _ rfl with ⟨e0, e1⟩ | ⟨e0, e1⟩
        · rw [e1, e0, if_pos h3.1, if_pos h3.2]
        · rw [e1, e0, if_pos h3.2, if_pos h3.1]
  · intro hnf
    have hfr : colCU.m_frame ≠ none := fun h => hnf (Or.inl h)
    have hps : ¬ (colCU.get .partSizes partUnitIdx).val = SIZE_NONE :=
      fun h => hnf (Or.inr (Or.inl h))
    have hin : ¬ colCU.isIntra absPartAddr = true := fun h => hnf (Or.inr (Or.inr (Or.inl h)))
    have hrf : ¬ ((colCU.cuMvField 0).getRefIdx absPartAddr < 0 ∧
        (colCU.cuMvField 1).getRefIdx absPartAddr < 0) :=
      fun h => hnf (Or.inr (Or.inr (Or.inr h)))
    obtain ⟨colSlice, hcsl⟩ := Option.ne_none_iff_exists'.mp (hcs hfr)
    refine ⟨colSlice, hcsl, ?_⟩
    intro first colRefPicList colRefIdx colmv sf
    have hun : ¬ ((refPics colPic cuAddr).m_frame.isNone = true ∨
        ((refPics colPic cuAddr).get .partSizes partUnitIdx).val = SIZE_NONE) := by
      rintro (h | h)
      · exact hfr (Option.isNone_iff_eq_none.mp h)
      · exact hps h
    have key : 0 ≤ colRefIdx ∧
        self.getColMVP refPics picList cuAddr partUnitIdx outMV outRefIdx
          = getColMVPScale slice colSlice colCU picList outRefIdx colRefPicList colRefIdx
              absPartAddr := by
      unfold CUData.getColMVP
      simp only [hs, hpic]
      rw [if_neg hun]
      simp only [hcsl]
      rw [if_neg hin]
      by_cases h1 : (colCU.cuMvField first).getRefIdx absPartAddr < 0
      · have h2 : ¬ (colCU.cuMvField (1 - first)).getRefIdx absPartAddr < 0 := by
          rcases hfirst first rfl with ⟨e0, e1⟩ | ⟨e0, e1⟩
          · rw [e1]; rw [e0] at h1; exact fun h => hrf ⟨h1, h⟩
          · rw [e1]; rw [e0] at h1; exact fun h => hrf ⟨h, h1⟩
        have hl : colRefPicList = 1 - first := if_pos h1
        have hr : colRefIdx = (colCU.cuMvField (1 - first)).getRefIdx absPartAddr := by
          show (colCU.cuMvField colRefPicList).getRefIdx absPartAddr = _
          rw [hl]
        refine ⟨by rw [hr]; omega, ?_⟩
        rw [if_pos h1, if_neg h2, hr, hl]
      · have hl : colRefPicList = first := if_neg h1
        have hr : colRefIdx = (colCU.cuMvField first).getRefIdx absPartAddr := by
          show (colCU.cuMvField colRefPicList).getRefIdx absPartAddr = _
          rw [hl]
        refine ⟨by rw [hr]; omega, ?_⟩
        rw [if_neg h1, hr, hl]
    refine ⟨key.1, ?_, fun h => hsome _ _ _ _ h⟩
    rw [key.2, hmap]

/-- With a collocated distance of zero and a current distance that is not zero the
scale factor is a division by zero. -/
theorem getDistScaleFactor_zero_col (curPOC curRefPOC colPOC : Int) (h : curPOC ≠ curRefPOC) :
    getDistScaleFactor curPOC curRefPOC colPOC colPOC = none := by
  unfold getDistScaleFactor
  simp only []
  rw [if_neg (by omega), if_pos ((Clip3_eq_zero_iff _).mpr (by omega))]

/-- C20 fails on the code: the collocated CTU of the sample is set, has a
partition mode, its unit is inter-coded with reference index 0 in list 0,
so none of the four listed cases holds; the collocated POC equals the POC of the
collocated reference (4) while the current distance is 8 - 4, so
`getDistScaleFactor` divides by zero and the call returns neither true nor
false. -/
theorem C20_getColMVP_counterexample :
    (sampleColSamePics 0 0).m_frame.isNone = false ∧
    ((sampleColSamePics 0 0).get .partSizes 0).val ≠ SIZE_NONE ∧
    (sampleColSamePics 0 0).isIntra (0 &&& TMVP_UNIT_MASK) = false ∧
    0 ≤ ((sampleColSamePics 0 0).cuMvField 0).getRefIdx (0 &&& TMVP_UNIT_MASK) ∧
    getDistScaleFactor 8 4 4 4 = none ∧
    sampleColSelf.getColMVP sampleColSamePics 0 0 0 MV.zero 0 = none := by
  decide

/-- C20, amended: called on a container with a slice whose collocated picture is
set, for list 0 or 1, `getColMVP` returns false, leaving `outMV` untouched, when
the collocated CTU is unset (null frame), or has no partition mode at
`partUnitIdx` (`SIZE_NONE`), or its unit `partUnitIdx & TMVP_UNIT_MASK` is
intra-coded, or that unit has a negative reference index in both lists. In
every other case the unit has a non-negative reference index in the list tried
first (`picList` under `m_bCheckLDC`, else `m_colFromL0Flag`) or else in the
other one; if the collocated POC differs from the POC of the collocated
reference, or the current POC equals the POC of the current reference, the call
returns true with the vector stored there, unscaled when `getDistScaleFactor`
yields 4096 and scaled by `scaleMv` otherwise; if the collocated POC equals the
POC of the collocated reference while the current POC differs from the POC of
the current reference, the scale factor is a division by zero and the call has
no result. -/
theorem C20_getColMVP (self : CUData) (refPics : Nat → Nat → CUData) (picList : Int)
    (cuAddr partUnitIdx : Nat) (outMV : MV) (outRefIdx : Int) (slice : Slice) (colPic : Nat)
    (hs : self.m_slice = some slice)
    (hpic : slice.m_refPicList slice.colList slice.m_colRefIdx = some colPic)
    (hlist : picList = 0 ∨ picList = 1)
    (hcs : (refPics colPic cuAddr).m_frame ≠ none → (refPics colPic cuAddr).m_slice ≠ none) :
    let colCU := refPics colPic cuAddr
    let absPartAddr := partUnitIdx &&& TMVP_UNIT_MASK
    let falseCase :=
      colCU.m_frame = none ∨ (colCU.get .partSizes partUnitIdx).val = SIZE_NONE ∨
      colCU.isIntra absPartAddr = true ∨
      ((colCU.cuMvField 0).getRefIdx absPartAddr < 0 ∧
        (colCU.cuMvField 1).getRefIdx absPartAddr < 0)
    (falseCase →
      self.getColMVP refPics picList cuAddr partUnitIdx outMV outRefIdx = some (false, outMV)) ∧
    (¬ falseCase → ∃ colSlice, colCU.m_slice = some colSlice ∧
      let first : Int :=
        if slice.m_bCheckLDC then picList else (if slice.m_colFromL0Flag then 1 else 0)
      let colRefPicList :=
        if (colCU.cuMvField first).getRefIdx absPartAddr < 0 then 1 - first else first
      let colRefIdx := (colCU.cuMvField colRefPicList).getRefIdx absPartAddr
      let colmv := (colCU.cuMvField colRefPicList).getMv absPartAddr
      let curPOC := slice.m_poc
      let curRefPOC := slice.m_refPOCList picList outRefIdx
      let colPOC := colSlice.m_poc
      let colRefPOC := colSlice.m_refPOCList colRefPicList colRefIdx
      0 ≤ colRefIdx ∧
      (colPOC ≠ colRefPOC ∨ curPOC = curRefPOC →
        ∃ scale, getDistScaleFactor curPOC curRefPOC colPOC colRefPOC = some scale ∧
          self.getColMVP refPics picList cuAddr partUnitIdx outMV outRefIdx
            = some (true, if scale = 4096 then colmv else scaleMv colmv scale)) ∧
      (colPOC = colRefPOC → curPOC ≠ curRefPOC →
        self.getColMVP refPics picList cuAddr partUnitIdx outMV outRefIdx = none)) := by
  intro colCU absPartAddr falseCase
  have h := getColMVP_cases self refPics picList cuAddr partUnitIdx outMV outRefIdx slice colPic
    hs hpic hlist hcs
  refine ⟨h.1, fun hnf => ?_⟩
  obtain ⟨colSlice, hcsl, hidx, heq, hsome⟩ := h.2 hnf
  refine ⟨colSlice, hcsl, ?_⟩
  intro first colRefPicList colRefIdx colmv curPOC curRefPOC colPOC colRefPOC
  refine ⟨hidx, fun hp => ?_, fun he hn => ?_⟩
  · have hdef : ∃ scale, getDistScaleFactor curPOC curRefPOC colPOC colRefPOC = some scale := by
      by_cases hc : colPOC = colRefPOC
      · have hb : curPOC = curRefPOC := hp.resolve_left (fun hne => hne hc)
        refine ⟨4096, ?_⟩
        unfold getDistScaleFactor
        simp only []
        rw [if_pos (by omega)]
      · exact Option.isSome_iff_exists.mp (hsome hc)
    obtain ⟨scale, hsc⟩ := hdef
    refine ⟨scale, hsc, ?_⟩
    rw [heq]
    show (getDistScaleFactor curPOC curRefPOC colPOC colRefPOC).map _ = _
    rw [hsc]
    rfl
  · rw [heq]
    show (getDistScaleFactor curPOC curRefPOC colPOC colRefPOC).map _ = _
    rw [he, getDistScaleFactor_zero_col curPOC curRefPOC colRefPOC hn]
    rfl

/-- C20, amended, at a concrete input: an inter-coded collocated unit with vector
(4, -8) at half the POC distance gives the vector scaled by two. -/
theorem C20_getColMVP_witness :
    sampleColSelf.m_slice = some sampleColSlice ∧
    sampleColSlice.m_refPicList sampleColSlice.colList sampleColSlice.m_colRefIdx = some 0 ∧
    sampleColSelf.getColMVP sampleColPics 0 0 0 MV.zero 0 = some (true, ⟨8, -16⟩) := by
  have h := C20_getColMVP sampleColSelf sampleColPics 0 0 0 MV.zero 0 sampleColSlice 0 rfl rfl
    (Or.inl rfl) (fun _ => by simp [sampleColPics])
  refine ⟨rfl, rfl, ?_⟩
  obtain ⟨cs, hcs, -, hret, -⟩ := h.2 (by
    simp [sampleColPics, sampleBlank, CUData.isIntra, CUData.get, CUData.cuMvField,
      CUMVField.getRefIdx, SIZE_NONE, MODE_INTRA])
  have hc : cs = { m_sliceType := 1, m_poc := 4, m_refPOCList := fun _ _ => 2 } :=
    (Option.some.inj hcs).symm
  subst hc
  obtain ⟨scale, hsc, hres⟩ := hret (Or.inl (by decide))
  have h512 : scale = 512 := Option.some.inj (hsc.symm.trans (by decide))
  subst h512
  rw [hres]
  rfl

/-! ## The neighbour queries are defined on a container bound to a frame and a slice -/

theorem getPULeft_isSome (self : CUData) (g : Globals) (c : Nat) (frame : Frame)
    (hf : self.m_frame = some frame) : ∃ r, self.getPULeft g c = some r := by
  unfold CUData.getPULeft
  simp only [hf]
  split_ifs <;> exact ⟨_, rfl⟩

theorem getPUAbove_isSome (self : CUData) (g : Globals) (a c : Nat) (b : Bool) (frame : Frame)
    (hf : self.m_frame = some frame) : ∃ r, self.getPUAbove g a c b = some r := by
  unfold CUData.getPUAbove
  simp only [hf]
  split_ifs <;> exact ⟨_, rfl⟩

theorem getPUAboveLeft_isSome (self : CUData) (g : Globals) (c : Nat) (frame : Frame)
    (hf : self.m_frame = some frame) : ∃ r, self.getPUAboveLeft g c = some r := by
  unfold CUData.getPUAboveLeft
  simp only [hf]
  split_ifs <;> exact ⟨_, rfl⟩

theorem getPUAboveRight_isSome (self : CUData) (g : Globals) (pic : Nat → CUData) (a c : Nat)
    (frame : Frame) (slice : Slice) (hf : self.m_frame = some frame)
    (hs : self.m_slice = some slice) : ∃ r, self.getPUAboveRight g pic a c = some r := by
  unfold CUData.getPUAboveRight
  simp only [hf, hs]
  split_ifs <;> exact ⟨_, rfl⟩

theorem getPUBelowLeft_isSome (self : CUData) (g : Globals) (pic : Nat → CUData) (a c : Nat)
    (frame : Frame) (slice : Slice) (hf : self.m_frame = some frame)
    (hs : self.m_slice = some slice) : ∃ r, self.getPUBelowLeft g pic a c = some r := by
  unfold CUData.getPUBelowLeft
  simp only [hf, hs]
  split_ifs <;> exact ⟨_, rfl⟩

theorem mvpNeighbour_isSome (self : CUData) (g : Globals) (pic : Nat → CUData) (c : Nat)
    (dir : MVP_DIR) (frame : Frame) (slice : Slice) (hf : self.m_frame = some frame)
    (hs : self.m_slice = some slice) : ∃ r, self.mvpNeighbour g pic c dir = some r := by
  cases dir
  · exact getPULeft_isSome self g c frame hf
  · exact getPUAbove_isSome self g 0 c false frame hf
  · exact getPUAboveRight_isSome self g pic 0 c frame slice hf hs
  · exact getPUBelowLeft_isSome self g pic 0 c frame slice hf hs
  · exact getPUAboveLeft_isSome self g c frame hf

/-! ## C19: the unscaled spatial predictor `addMVPCand` -/

/-- C19: on a container bound to a frame and a slice, for list 0 or 1, the
neighbour query of `dir` yields a container (or null) and a unit index `idx`.
`addMVPCand` returns false, leaving `mvp` untouched, when the neighbour is null.
Otherwise, with `refPOC = m_refPOCList[picList][refIdx]`: if the neighbour's
unit has in `picList` a non-negative reference index whose POC (in the
neighbour's slice) equals `refPOC`, the call returns true with the vector stored
in `picList`; else if it has such a reference index in the other list, the call
returns true with the vector stored in the other list; else it returns false and
leaves `mvp` untouched. The vector is returned as stored. -/
theorem C19_addMVPCand (self : CUData) (g : Globals) (pic : Nat → CUData) (mvp : MV)
    (picList refIdx : Int) (partUnitIdx : Nat) (dir : MVP_DIR) (frame : Frame) (slice : Slice)
    (hf : self.m_frame = some frame) (hs : self.m_slice = some slice)
    (hlist : picList = 0 ∨ picList = 1) :
    ∃ ptr idx, self.mvpNeighbour g pic partUnitIdx dir = some (ptr, idx) ∧
      (ptr.deref self pic = none →
        self.addMVPCand g pic mvp picList refIdx partUnitIdx dir = some (false, mvp)) ∧
      (∀ tmpCU tmpSlice, ptr.deref self pic = some tmpCU → tmpCU.m_slice = some tmpSlice →
        let refPOC := slice.m_refPOCList picList refIdx
        let other : Int := 1 - picList
        let hit := fun l : Int => (tmpCU.cuMvField l).getRefIdx idx ≥ 0 ∧
          tmpSlice.m_refPOCList l ((tmpCU.cuMvField l).getRefIdx idx) = refPOC
        (hit picList → self.addMVPCand g pic mvp picList refIdx partUnitIdx dir
          = some (true, (tmpCU.cuMvField picList).getMv idx)) ∧
        (¬ hit picList → hit other → self.addMVPCand g pic mvp picList refIdx partUnitIdx dir
          = some (true, (tmpCU.cuMvField other).getMv idx)) ∧
        (¬ hit picList → ¬ hit other →
          self.addMVPCand g pic mvp picList refIdx partUnitIdx dir = some (false, mvp))) := by
  obtain ⟨⟨ptr, idx⟩, hq⟩ := mvpNeighbour_isSome self g pic partUnitIdx dir frame slice hf hs
  refine ⟨ptr, idx, hq, ?_, ?_⟩
  · intro hd
    unfold CUData.addMVPCand
    simp only [hq, hd]
  · intro tmpCU tmpSlice hd hts refPOC other hit
    have h2nd : (if picList = 0 then (1 : Int) else 0) = other := by
      rcases hlist with h | h <;> subst h <;> rfl
    unfold CUData.addMVPCand
    simp only [hq, hd, hs, hts, h2nd]
    refine ⟨?_, ?_, ?_⟩
    · intro h
      rw [if_pos ⟨h.1, h.2.symm⟩]
    · intro h1 h2
      rw [if_neg (fun h => h1 ⟨h.1, h.2.symm⟩), if_pos h2.1, if_pos h2.2]
    · intro h1 h2
      rw [if_neg (fun h => h1 ⟨h.1, h.2.symm⟩)]
      by_cases h3 : (tmpCU.cuMvField other).getRefIdx idx ≥ 0
      · rw [if_pos h3, if_neg (fun h => h2 ⟨h3, h⟩)]
      · rw [if_neg h3]

/-- Witness for C19: the unit left of unit 1 lies in the container itself and
refers to the same picture, so its stored vector is returned. -/
theorem C19_addMVPCand_witness :
    sampleColSelf.m_frame = some sampleFrame ∧ sampleColSelf.m_slice = some sampleColSlice ∧
    sampleColSelf.addMVPCand sampleGlobals samplePic ⟨1, 1⟩ 0 0 1 .MD_LEFT
      = some (true, ⟨0, 0⟩) := by
  obtain ⟨ptr, idx, hq, -, h⟩ := C19_addMVPCand sampleColSelf sampleGlobals samplePic ⟨1, 1⟩ 0 0 1
    .MD_LEFT sampleFrame sampleColSlice rfl rfl (Or.inl rfl)
  have hq2 : sampleColSelf.mvpNeighbour sampleGlobals samplePic 1 .MD_LEFT
      = some (.thisCU, 0) := by decide
  rw [hq2] at hq
  obtain ⟨rfl, rfl⟩ := Prod.mk.inj (Option.some.inj hq)
  exact ⟨rfl, rfl, (h sampleColSelf sampleColSlice rfl rfl).1 ⟨by decide, rfl⟩⟩

/-! ## The derived indices and the temporal lookup are defined -/

theorem deriveLeftBottomIdx_isSome (self : CUData) (g : Globals) (partIdx : Nat) (frame : Frame)
    (hf : self.m_frame = some frame) : ∃ r, self.deriveLeftBottomIdx g partIdx = some r := by
  apply Option.isSome_iff_exists.mp
  unfold CUData.deriveLeftBottomIdx
  simp only [hf, apply_ite Option.isSome, Option.isSome_some, ite_self]

theorem deriveRightBottomIdx_isSome (self : CUData) (g : Globals) (partIdx : Nat) (frame : Frame)
    (hf : self.m_frame = some frame) : ∃ r, self.deriveRightBottomIdx g partIdx = some r := by
  apply Option.isSome_iff_exists.mp
  unfold CUData.deriveRightBottomIdx
  simp only [hf, apply_ite Option.isSome, Option.isSome_some, ite_self]

theorem deriveCenterIdx_isSome (self : CUData) (g : Globals) (partIdx : Nat) (frame : Frame)
    (hf : self.m_frame = some frame) : ∃ r, self.deriveCenterIdx g partIdx = some r := by
  unfold CUData.deriveCenterIdx
  simp only [hf]
  exact ⟨_, rfl⟩

theorem colRightBottom_isSome (self : CUData) (g : Globals) (pic : Nat → CUData)
    (partIdxRB absPartAddr : Nat) (frame : Frame) (slice : Slice)
    (hf : self.m_frame = some frame) (hs : self.m_slice = some slice) :
    ∃ r, self.colRightBottom g pic partIdxRB absPartAddr = some r := by
  unfold CUData.colRightBottom
  simp only [hf, hs]
  split_ifs <;> exact ⟨_, rfl⟩

theorem colMVPEither_isSome (self : CUData) (refPics : Nat → Nat → CUData) (picList : Int)
    (ctuIdx : Int) (absPartAddr curCTUIdx partIdxCenter : Nat) (colmv : MV) (refIdx : Int)
    (hcol : ∀ a p mv, ∃ r, self.getColMVP refPics picList a p mv refIdx = some r) :
    ∃ r, self.colMVPEither refPics picList ctuIdx absPartAddr curCTUIdx partIdxCenter colmv
      refIdx = some r := by
  unfold CUData.colMVPEither
  by_cases h : ctuIdx ≥ 0
  · rw [if_pos h]
    obtain ⟨⟨b, mv⟩, hr⟩ := hcol ctuIdx.toNat absPartAddr colmv
    rw [hr]
    cases b
    · exact hcol _ _ _
    · exact ⟨_, rfl⟩
  · rw [if_neg h]
    exact hcol _ _ _

theorem mvpSpatial_isSome (self : CUData) (g : Globals) (pic : Nat → CUData)
    (picList refIdx : Int) (partIdxLT partIdxRT partIdxLB : Nat)
    (hsp : ∀ p d, ∃ r, self.addMVPCand g pic MV.zero picList refIdx p d = some r)
    (hspo : ∀ p d, ∃ r, self.addMVPCandOrder g pic MV.zero picList refIdx p d = some r) :
    ∃ c, self.mvpSpatial g pic picList refIdx partIdxLT partIdxRT partIdxLB = some c := by
  unfold CUData.mvpSpatial
  obtain ⟨r1, h1⟩ := hsp partIdxLB .MD_BELOW_LEFT
  obtain ⟨r2, h2⟩ := hsp partIdxLB .MD_LEFT
  obtain ⟨r3, h3⟩ := hsp partIdxRT .MD_ABOVE_RIGHT
  obtain ⟨r4, h4⟩ := hsp partIdxRT .MD_ABOVE
  obtain ⟨r5, h5⟩ := hsp partIdxLT .MD_ABOVE_LEFT
  obtain ⟨r6, h6⟩ := hspo partIdxLB .MD_BELOW_LEFT
  obtain ⟨r7, h7⟩ := hspo partIdxLB .MD_LEFT
  obtain ⟨r8, h8⟩ := hspo partIdxRT .MD_ABOVE_RIGHT
  obtain ⟨r9, h9⟩ := hspo partIdxRT .MD_ABOVE
  obtain ⟨r10, h10⟩ := hspo partIdxLT .MD_ABOVE_LEFT
  simp only [h1, h2, h3, h4, h5, h6, h7, h8, h9, h10, Option.bind_eq_bind, Option.some_bind]
  exact ⟨_, rfl⟩

/-! ## The predictors are defined when the slices involved are set -/

theorem getDistScaleFactor_isSome (a b c d : Int) (hcd : c ≠ d) :
    ∃ s, getDistScaleFactor a b c d = some s := by
  unfold getDistScaleFactor
  simp only []
  split
  · exact ⟨_, rfl⟩
  · rw [if_neg]
    · exact ⟨_, rfl⟩
    · rw [Clip3_eq_zero_iff]
      omega

theorem deref_cases (ptr : CUPtr) (self : CUData) (pic : Nat → CUData) (tmpCU : CUData)
    (h : ptr.deref self pic = some tmpCU) : tmpCU = self ∨ ∃ a, tmpCU = pic a := by
  cases ptr
  · exact absurd h (by simp [CUPtr.deref])
  · exact Or.inl (Option.some.inj h).symm
  · exact Or.inr ⟨_, (Option.some.inj h).symm⟩

theorem addMVPCand_isSome (self : CUData) (g : Globals) (pic : Nat → CUData) (mvp : MV)
    (picList refIdx : Int) (partUnitIdx : Nat) (dir : MVP_DIR) (frame : Frame) (slice : Slice)
    (hf : self.m_frame = some frame) (hs : self.m_slice = some slice)
    (hps : ∀ a, (pic a).m_slice ≠ none) :
    ∃ r, self.addMVPCand g pic mvp picList refIdx partUnitIdx dir = some r := by
  obtain ⟨⟨ptr, idx⟩, hq⟩ := mvpNeighbour_isSome self g pic partUnitIdx dir frame slice hf hs
  unfold CUData.addMVPCand
  simp only [hq]
  cases hd : ptr.deref self pic with
  | none => exact ⟨_, rfl⟩
  | some tmpCU =>
    have hts : ∃ ts, tmpCU.m_slice = some ts := by
      rcases deref_cases ptr self pic tmpCU hd with h | ⟨a, h⟩
      · exact ⟨slice, by rw [h]; exact hs⟩
      · exact Option.ne_none_iff_exists'.mp (by rw [h]; exact hps a)
    obtain ⟨ts, hts⟩ := hts
    simp only [hs, hts]
    split_ifs <;> exact ⟨_, rfl⟩

theorem scaledMvp_isSome (curPOC curRefPOC neibPOC neibRefPOC : Int) (mvp : MV)
    (h : neibPOC ≠ neibRefPOC) : ∃ r, scaledMvp curPOC curRefPOC neibPOC neibRefPOC mvp = some r := by
  obtain ⟨s, hsf⟩ := getDistScaleFactor_isSome curPOC curRefPOC neibPOC neibRefPOC h
  unfold scaledMvp
  rw [hsf]
  exact ⟨_, rfl⟩

theorem addMVPCandOrder_isSome (self : CUData) (g : Globals) (pic : Nat → CUData) (outMV : MV)
    (picList refIdx : Int) (partUnitIdx : Nat) (dir : MVP_DIR) (frame : Frame) (slice : Slice)
    (hf : self.m_frame = some frame) (hs : self.m_slice = some slice)
    (hself : ∀ l r, slice.m_poc ≠ slice.m_refPOCList l r)
    (hps : ∀ a, ∃ ts, (pic a).m_slice = some ts ∧ ∀ l r, slice.m_poc ≠ ts.m_refPOCList l r) :
    ∃ r, self.addMVPCandOrder g pic outMV picList refIdx partUnitIdx dir = some r := by
  obtain ⟨⟨ptr, idx⟩, hq⟩ := mvpNeighbour_isSome self g pic partUnitIdx dir frame slice hf hs
  unfold CUData.addMVPCandOrder
  simp only [hq]
  cases hd : ptr.deref self pic with
  | none => exact ⟨_, rfl⟩
  | some tmpCU =>
    have hts : ∃ ts, tmpCU.m_slice = some ts ∧ ∀ l r, slice.m_poc ≠ ts.m_refPOCList l r := by
      rcases deref_cases ptr self pic tmpCU hd with h | ⟨a, h⟩
      · exact ⟨slice, by rw [h]; exact hs, hself⟩
      · rw [h]; exact hps a
    obtain ⟨ts, hts, hpoc⟩ := hts
    simp only [hs, hts]
    split_ifs <;> first | exact ⟨_, rfl⟩ | exact scaledMvp_isSome _ _ _ _ _ (hpoc _ _)

theorem getColMVP_isSome (self : CUData) (refPics : Nat → Nat → CUData) (picList : Int)
    (cuAddr partUnitIdx : Nat) (outMV : MV) (outRefIdx : Int) (slice : Slice) (colPic : Nat)
    (hs : self.m_slice = some slice)
    (hpic : slice.m_refPicList slice.colList slice.m_colRefIdx = some colPic)
    (hcs : ∀ a, ∃ cs, (refPics colPic a).m_slice = some cs ∧
      ∀ l r, cs.m_poc ≠ cs.m_refPOCList l r) :
    ∃ r, self.getColMVP refPics picList cuAddr partUnitIdx outMV outRefIdx = some r := by
  obtain ⟨cs, hcsl, hpoc⟩ := hcs cuAddr
  have hsc : ∀ l r a, ∃ x, getColMVPScale slice cs (refPics colPic cuAddr) picList outRefIdx l r a
      = some x := by
    intro l r a
    obtain ⟨s, hsf⟩ := getDistScaleFactor_isSome slice.m_poc
      (slice.m_refPOCList picList outRefIdx) cs.m_poc (cs.m_refPOCList l r) (hpoc l r)
    unfold getColMVPScale
    simp only [hsf]
    exact ⟨_, rfl⟩
  unfold CUData.getColMVP
  simp only [hs, hpic, hcsl]
  split_ifs <;> first | exact ⟨_, rfl⟩ | exact hsc _ _ _

/-! ## The stages of `fillMvpCand` -/

theorem amvpLeftSearch_cases (c : MvpSpatial) (n : Nat) (a : Nat → MV) :
    amvpLeftSearch c n a = (n, a) ∨ ∃ v, amvpLeftSearch c n a = (n + 1, Function.update a n v) := by
  unfold amvpLeftSearch
  split_ifs
  · exact Or.inr ⟨_, rfl⟩
  · exact Or.inr ⟨_, rfl⟩
  · exact Or.inr ⟨_, rfl⟩
  · exact Or.inr ⟨_, rfl⟩
  · exact Or.inl rfl

theorem amvpAboveUnscaled_cases (c : MvpSpatial) (n : Nat) (a : Nat → MV) :
    amvpAboveUnscaled c n a = (n, a) ∨
      ∃ v, amvpAboveUnscaled c n a = (n + 1, Function.update a n v) := by
  unfold amvpAboveUnscaled
  split_ifs
  · exact Or.inr ⟨_, rfl⟩
  · exact Or.inr ⟨_, rfl⟩
  · exact Or.inr ⟨_, rfl⟩
  · exact Or.inl rfl

theorem amvpAboveScaled_cases (c : MvpSpatial) (n : Nat) (a : Nat → MV) :
    amvpAboveScaled c n a = (n, a) ∨
      ∃ v, amvpAboveScaled c n a = (n + 1, Function.update a n v) := by
  unfold amvpAboveScaled
  split_ifs
  · exact Or.inr ⟨_, rfl⟩
  · exact Or.inr ⟨_, rfl⟩
  · exact Or.inr ⟨_, rfl⟩
  · exact Or.inl rfl

/-- The counters of the two searches of `fillMvpCand`, started on an empty list. -/
theorem amvp_search_counts (c : MvpSpatial) (amvpCand : Nat → MV) :
    (amvpLeftSearch c 0 amvpCand).1 ≤ 1 ∧
    (amvpAboveUnscaled c (amvpLeftSearch c 0 amvpCand).1 (amvpLeftSearch c 0 amvpCand).2).1
      ≤ (amvpLeftSearch c 0 amvpCand).1 + 1 ∧
    (amvpAboveSearch c (decide ((amvpLeftSearch c 0 amvpCand).1 > 0))
        (amvpLeftSearch c 0 amvpCand).1 (amvpLeftSearch c 0 amvpCand).2).1
      ≤ (amvpAboveUnscaled c (amvpLeftSearch c 0 amvpCand).1
          (amvpLeftSearch c 0 amvpCand).2).1 + 1 ∧
    ((amvpLeftSearch c 0 amvpCand).1 = 1 →
      amvpAboveSearch c (decide ((amvpLeftSearch c 0 amvpCand).1 > 0))
          (amvpLeftSearch c 0 amvpCand).1 (amvpLeftSearch c 0 amvpCand).2
        = amvpAboveUnscaled c (amvpLeftSearch c 0 amvpCand).1
            (amvpLeftSearch c 0 amvpCand).2) ∧
    (amvpAboveSearch c (decide ((amvpLeftSearch c 0 amvpCand).1 > 0))
        (amvpLeftSearch c 0 amvpCand).1 (amvpLeftSearch c 0 amvpCand).2).1 ≤ 2 ∧
    ∀ i, 2 ≤ i →
      (amvpAboveSearch c (decide ((amvpLeftSearch c 0 amvpCand).1 > 0))
        (amvpLeftSearch c 0 amvpCand).1 (amvpLeftSearch c 0 amvpCand).2).2 i = amvpCand i := by
  have hup : ∀ (a : Nat → MV) (n : Nat) (v : MV) (i : Nat), n < i →
      Function.update a n v i = a i := by
    intro a n v i h
    exact Function.update_noteq (by omega) _ _
  rcases amvpLeftSearch_cases c 0 amvpCand with hl | ⟨v, hl⟩
  · rw [hl]
    simp only [Nat.lt_irrefl, gt_iff_lt, decide_False]
    unfold amvpAboveSearch
    simp only [Bool.not_false, if_true]
    rcases amvpAboveUnscaled_cases c 0 amvpCand with hu | ⟨w, hu⟩
    · rw [hu]
      rcases amvpAboveScaled_cases c 0 amvpCand with hs | ⟨x, hs⟩
      · rw [hs]
        exact ⟨by omega, by omega, by omega, by omega, by omega, fun _ _ => rfl⟩
      · rw [hs]
        exact ⟨by omega, by omega, by omega, by omega, by omega,
          fun i hi => hup _ _ _ _ (by omega)⟩
    · rw [hu]
      rcases amvpAboveScaled_cases c 1 (Function.update amvpCand 0 w) with hs | ⟨x, hs⟩
      · rw [hs]
        exact ⟨by omega, by omega, by omega, by omega, by omega,
          fun i hi => hup _ _ _ _ (by omega)⟩
      · rw [hs]
        refine ⟨by omega, by omega, by omega, by omega, by omega, fun i hi => ?_⟩
        show Function.update (Function.update amvpCand 0 w) 1 x i = amvpCand i
        rw [hup _ _ _ _ (by omega), hup _ _ _ _ (by omega)]
  · rw [hl]
    simp only [Nat.zero_add, gt_iff_lt, Nat.lt_one_iff, Nat.one_pos, decide_True]
    unfold amvpAboveSearch
    simp only [Bool.not_true, Bool.false_eq_true, if_false]
    rcases amvpAboveUnscaled_cases c 1 (Function.update amvpCand 0 v) with hu | ⟨w, hu⟩
    · rw [hu]
      exact ⟨by omega, by omega, by omega, fun _ => trivial, by omega,
        fun i hi => hup _ _ _ _ (by omega)⟩
    · rw [hu]
      refine ⟨by omega, by omega, by omega, fun _ => trivial, by omega, fun i hi => ?_⟩
      show Function.update (Function.update amvpCand 0 v) 1 w i = amvpCand i
      rw [hup _ _ _ _ (by omega), hup _ _ _ _ (by omega)]

theorem amvpPad_spec (n : Nat) (a : Nat → MV) (hn : n ≤ 2) :
    (amvpPad (AMVP_NUM_CANDS - n) n a).1 = 2 ∧
    ∀ i, (amvpPad (AMVP_NUM_CANDS - n) n a).2 i = if n ≤ i ∧ i < 2 then MV.zero else a i := by
  have h : n = 0 ∨ n = 1 ∨ n = 2 := by omega
  rcases h with h | h | h <;> subst h
  · refine ⟨rfl, fun i => ?_⟩
    show Function.update (Function.update a 0 MV.zero) 1 MV.zero i = _
    by_cases h1 : i = 1
    · subst h1; simp
    · by_cases h0 : i = 0
      · subst h0; simp
      · rw [Function.update_noteq h1, Function.update_noteq h0, if_neg (by omega)]
  · refine ⟨rfl, fun i => ?_⟩
    show Function.update a 1 MV.zero i = _
    by_cases h1 : i = 1
    · subst h1; simp
    · rw [Function.update_noteq h1, if_neg (by omega)]
  · refine ⟨rfl, fun i => ?_⟩
    show a i = _
    rw [if_neg (by omega)]

/-! ## C17: the two spatial searches of `fillMvpCand` -/

/-- C17, counterexample: for a CTU-sized unit on the left picture border (no left
neighbours) whose above neighbour refers to the same picture and whose
above-right neighbour refers to another one, the left search of `fillMvpCand`
adds nothing and the above search adds two candidates, the stored vector of the
above neighbour and the scaled vector of the above-right neighbour; they are the
final AMVP list. -/
theorem C17_fillMvpCand_searches_counterexample :
    ((sampleMvpSelf.deriveLeftBottomIdx sampleGlobals 0).bind fun partIdxLB =>
      (sampleMvpSelf.mvpSpatial sampleGlobals sampleMvpPic 0 0
        (sampleMvpSelf.deriveLeftRightTopIdx sampleGlobals 0).1
        (sampleMvpSelf.deriveLeftRightTopIdx sampleGlobals 0).2 partIdxLB).map fun c =>
          ((amvpLeftSearch c 0 (fun _ => ⟨7, 7⟩)).1,
           (amvpAboveSearch c (decide ((amvpLeftSearch c 0 (fun _ => ⟨7, 7⟩)).1 > 0))
             (amvpLeftSearch c 0 (fun _ => ⟨7, 7⟩)).1
             (amvpLeftSearch c 0 (fun _ => ⟨7, 7⟩)).2).1)) = some (0, 2) ∧
    ((sampleMvpSelf.fillMvpCand sampleGlobals sampleMvpPic sampleColPics 0 0 0 0
        (fun _ => ⟨7, 7⟩) (fun _ => ⟨7, 7⟩)).map
      (fun r => (r.num, r.amvpCand 0, r.amvpCand 1))) = some (2, ⟨4, -8⟩, ⟨8, -16⟩) := by
  constructor <;> decide

/-- C17, amended: in `fillMvpCand` the left search adds at most one candidate; the
above search is two chains over the same neighbours (above-right, above,
above-left), an unscaled one that adds at most one candidate and a scaled one
that adds at most one more and runs only when the left search added nothing.
So the above search adds at most one candidate when the left search found one,
up to two otherwise, and the two searches leave at most two candidates. -/
theorem C17_fillMvpCand_searches (c : MvpSpatial) (amvpCand : Nat → MV) :
    let left := amvpLeftSearch c 0 amvpCand
    let unscaled := amvpAboveUnscaled c left.1 left.2
    let above := amvpAboveSearch c (decide (left.1 > 0)) left.1 left.2
    left.1 ≤ 1 ∧ unscaled.1 ≤ left.1 + 1 ∧ above.1 ≤ unscaled.1 + 1 ∧
    (left.1 = 1 → above = unscaled) ∧ above.1 ≤ 2 := by
  intro left unscaled above
  obtain ⟨h1, h2, h3, h4, h5, -⟩ := amvp_search_counts c amvpCand
  exact ⟨h1, h2, h3, h4, h5⟩

/-! ## C18: `fillMvpCand` leaves exactly two candidates -/

/-- C18: on a container bound to a frame and a slice, with the spatial predictors
and the temporal lookup defined, `fillMvpCand` returns with its counter `num`
equal to `AMVP_NUM_CANDS = 2` and with `amvpCand` unchanged at every index from
2 on. The two searches store at most two spatial candidates. When they store two
different ones, these are the list. Otherwise `n` candidates are kept, with
`n = 1` when two identical ones were found and `n < 2` in every case; the
temporal lookup is made, its vector goes to slot `n` when it succeeds, and
every slot below 2 that is still unfilled holds the zero vector. -/
theorem C18_fillMvpCand_two_entries (self : CUData) (g : Globals) (pic : Nat → CUData)
    (refPics : Nat → Nat → CUData) (partIdx partAddr : Nat) (picList refIdx : Int)
    (amvpCand mvc : Nat → MV) (frame : Frame) (slice : Slice)
    (hf : self.m_frame = some frame) (hs : self.m_slice = some slice)
    (hsp : ∀ p d, ∃ r, self.addMVPCand g pic MV.zero picList refIdx p d = some r)
    (hspo : ∀ p d, ∃ r, self.addMVPCandOrder g pic MV.zero picList refIdx p d = some r)
    (hcol : ∀ a p mv, ∃ r, self.getColMVP refPics picList a p mv refIdx = some r) :
    ∃ r c partIdxLB,
      self.fillMvpCand g pic refPics partIdx partAddr picList refIdx amvpCand mvc = some r ∧
      self.deriveLeftBottomIdx g partIdx = some partIdxLB ∧
      self.mvpSpatial g pic picList refIdx (self.deriveLeftRightTopIdx g partIdx).1
        (self.deriveLeftRightTopIdx g partIdx).2 partIdxLB = some c ∧
      r.num = AMVP_NUM_CANDS ∧ (∀ i, AMVP_NUM_CANDS ≤ i → r.amvpCand i = amvpCand i) ∧
      let left := amvpLeftSearch c 0 amvpCand
      let sp := amvpAboveSearch c (decide (left.1 > 0)) left.1 left.2
      sp.1 ≤ 2 ∧
      (sp.1 = 2 ∧ sp.2 0 ≠ sp.2 1 → r.amvpCand 0 = sp.2 0 ∧ r.amvpCand 1 = sp.2 1) ∧
      (¬ (sp.1 = 2 ∧ sp.2 0 ≠ sp.2 1) →
        let n := if sp.1 = 2 then 1 else sp.1
        n < 2 ∧ (∀ i, i < n → r.amvpCand i = sp.2 i) ∧
        ∃ partIdxRB ctuIdx absPartAddr partIdxCenter found colmv,
          self.deriveRightBottomIdx g partIdx = some partIdxRB ∧
          self.colRightBottom g pic partIdxRB (u32 (self.m_absIdxInCTU + partAddr))
            = some (ctuIdx, absPartAddr) ∧
          self.deriveCenterIdx g partIdx = some partIdxCenter ∧
          self.colMVPEither refPics picList ctuIdx absPartAddr self.m_cuAddr partIdxCenter
            MV.zero refIdx = some (found, colmv) ∧
          (found = true → r.amvpCand n = colmv ∧
            ∀ i, n < i → i < 2 → r.amvpCand i = MV.zero) ∧
          (found = false → ∀ i, n ≤ i → i < 2 → r.amvpCand i = MV.zero)) := by
  obtain ⟨partIdxLB, hlb⟩ := deriveLeftBottomIdx_isSome self g partIdx frame hf
  obtain ⟨c, hc⟩ := mvpSpatial_isSome self g pic picList refIdx
    (self.deriveLeftRightTopIdx g partIdx).1 (self.deriveLeftRightTopIdx g partIdx).2 partIdxLB
    hsp hspo
  obtain ⟨partIdxRB, hrb⟩ := deriveRightBottomIdx_isSome self g partIdx frame hf
  obtain ⟨⟨ctuIdx, absPartAddr⟩, hcr⟩ := colRightBottom_isSome self g pic partIdxRB
    (u32 (self.m_absIdxInCTU + partAddr)) frame slice hf hs
  obtain ⟨partIdxCenter, hce⟩ := deriveCenterIdx_isSome self g partIdx frame hf
  obtain ⟨⟨found, colmv⟩, hte⟩ := colMVPEither_isSome self refPics picList ctuIdx absPartAddr
    self.m_cuAddr partIdxCenter MV.zero refIdx hcol
  obtain ⟨-, -, -, -, hsp2, hframe⟩ := amvp_search_counts c amvpCand
  generalize hspdef : amvpAboveSearch c (decide ((amvpLeftSearch c 0 amvpCand).1 > 0))
    (amvpLeftSearch c 0 amvpCand).1 (amvpLeftSearch c 0 amvpCand).2 = sp at hsp2 hframe
  have hfill : self.fillMvpCand g pic refPics partIdx partAddr picList refIdx amvpCand mvc
      = if sp.1 = 2 ∧ sp.2 0 ≠ sp.2 1 then
          some { numMvc := (mvcLoop c mvc).1, amvpCand := sp.2, mvc := (mvcLoop c mvc).2,
                 num := sp.1 }
        else
          some
            { numMvc := (if found then ((mvcLoop c mvc).1 + 1) else (mvcLoop c mvc).1)
              amvpCand := (amvpPad
                (AMVP_NUM_CANDS - (if found then (if sp.1 = 2 then 1 else sp.1) + 1
                  else (if sp.1 = 2 then 1 else sp.1)))
                (if found then (if sp.1 = 2 then 1 else sp.1) + 1
                  else (if sp.1 = 2 then 1 else sp.1))
                (if found then Function.update sp.2 (if sp.1 = 2 then 1 else sp.1) colmv
                  else sp.2)).2
              mvc := (if found then Function.update (mvcLoop c mvc).2 (mvcLoop c mvc).1 colmv
                else (mvcLoop c mvc).2)
              num := (amvpPad
                (AMVP_NUM_CANDS - (if found then (if sp.1 = 2 then 1 else sp.1) + 1
                  else (if sp.1 = 2 then 1 else sp.1)))
                (if found then (if sp.1 = 2 then 1 else sp.1) + 1
                  else (if sp.1 = 2 then 1 else sp.1))
                (if found then Function.update sp.2 (if sp.1 = 2 then 1 else sp.1) colmv
                  else sp.2)).1 } := by
    unfold CUData.fillMvpCand
    simp only [hlb, hc, hrb, hcr, hce, hte, hspdef]
    cases found <;> rfl
  by_cases hd : sp.1 = 2 ∧ sp.2 0 ≠ sp.2 1
  · rw [if_pos hd] at hfill
    refine ⟨_, c, partIdxLB, hfill, hlb, hc, ?_⟩
    simp only [hspdef]
    exact ⟨hd.1, fun i hi => hframe i hi, hsp2, fun _ => ⟨trivial, trivial⟩, fun h => absurd hd h⟩
  · rw [if_neg hd] at hfill
    refine ⟨_, c, partIdxLB, hfill, hlb, hc, ?_⟩
    simp only [hspdef]
    have hn : (if sp.1 = 2 then 1 else sp.1) < 2 := by
      split_ifs with h
      · omega
      · omega
    generalize (if sp.1 = 2 then 1 else sp.1) = n at hn
    cases found
    · simp only [Bool.false_eq_true, if_false]
      obtain ⟨hp1, hp2⟩ := amvpPad_spec n sp.2 (by omega)
      refine ⟨hp1, fun i hi => ?_, hsp2, fun h => absurd h hd, fun _ => ?_⟩
      · rw [hp2, if_neg (by unfold AMVP_NUM_CANDS at hi; omega)]
        exact hframe i hi
      · refine ⟨hn, fun i hi => ?_, partIdxRB, ctuIdx, absPartAddr, partIdxCenter, false, colmv,
          hrb, hcr, hce, hte, fun h => absurd h (by decide), fun _ i h1 h2 => ?_⟩
        · rw [hp2, if_neg (by omega)]
        · rw [hp2, if_pos ⟨h1, h2⟩]
    · simp only [if_true]
      obtain ⟨hp1, hp2⟩ := amvpPad_spec (n + 1) (Function.update sp.2 n colmv) (by omega)
      refine ⟨hp1, fun i hi => ?_, hsp2, fun h => absurd h hd, fun _ => ?_⟩
      · rw [hp2, if_neg (by unfold AMVP_NUM_CANDS at hi; omega),
          Function.update_noteq (by unfold AMVP_NUM_CANDS at hi; omega)]
        exact hframe i hi
      · refine ⟨hn, fun i hi => ?_, partIdxRB, ctuIdx, absPartAddr, partIdxCenter, true, colmv,
          hrb, hcr, hce, hte, fun _ => ⟨?_, fun i h1 h2 => ?_⟩, fun h => absurd h (by decide)⟩
        · rw [hp2, if_neg (by omega), Function.update_noteq (by omega)]
        · rw [hp2, if_neg (by omega), Function.update_same]
        · rw [hp2, if_pos ⟨by omega, h2⟩]

/-- Witness for C18: the sample unit on the left picture border, whose spatial
predictors and temporal lookup are defined. -/
theorem C18_fillMvpCand_two_entries_witness :
    ∃ r, sampleMvpSelf.fillMvpCand sampleGlobals sampleMvpPic sampleColPics 0 0 0 0
        (fun _ => ⟨7, 7⟩) (fun _ => ⟨7, 7⟩) = some r ∧
      r.num = 2 ∧ r.amvpCand 2 = ⟨7, 7⟩ := by
  have hps : ∀ a, ∃ ts, (sampleMvpPic a).m_slice = some ts ∧
      ∀ l r, sampleMvpSlice.m_poc ≠ ts.m_refPOCList l r := by
    intro a
    refine ⟨_, rfl, fun l r => ?_⟩
    by_cases h : a = 2
    · simp only [h, if_true]; show (8 : Int) ≠ 6; decide
    · simp only [h, if_false]; show (8 : Int) ≠ 4; decide
  obtain ⟨r, c, lb, h1, -, -, h2, h3, -⟩ := C18_fillMvpCand_two_entries sampleMvpSelf
    sampleGlobals sampleMvpPic sampleColPics 0 0 0 0 (fun _ => ⟨7, 7⟩) (fun _ => ⟨7, 7⟩)
    sampleFrame sampleMvpSlice rfl rfl
    (fun p d => addMVPCand_isSome _ _ _ _ _ _ p d sampleFrame sampleMvpSlice rfl rfl
      (fun a => by obtain ⟨ts, h, -⟩ := hps a; rw [h]; exact Option.some_ne_none ts))
    (fun p d => addMVPCandOrder_isSome _ _ _ _ _ _ p d sampleFrame sampleMvpSlice rfl rfl
      (fun _ _ => by show (8 : Int) ≠ 4; decide) hps)
    (fun a p mv => getColMVP_isSome _ _ _ a p mv _ sampleMvpSlice 0 rfl rfl
      (fun _ => ⟨_, rfl, fun _ _ => by show (4 : Int) ≠ 2; decide⟩))
  exact ⟨r, h1, h2, h3 2 (by decide)⟩

/-! ## The stages of `getInterMergeCandidates` -/

theorem MergeInv_of_local (maxNumMergeCand : Nat) (allowed : MergeSrc → Bool)
    (o0 o o2 : MergeOut) (count : Nat) (h : MergeInv maxNumMergeCand allowed o0 o)
    (hc : count < maxNumMergeCand)
    (hl : ∀ i, i ≠ count → (∀ l, o2.mvFieldNeighbours i l = o.mvFieldNeighbours i l) ∧
      o2.interDirNeighbours i = o.interDirNeighbours i ∧ o2.source i = o.source i)
    (ht : ∀ t, o2.source count = some t → allowed t = true) :
    MergeInv maxNumMergeCand allowed o0 o2 := by
  refine ⟨fun i hi => ?_, fun i t hit => ?_⟩
  · have hne : i ≠ count := by omega
    obtain ⟨h1, h2, -⟩ := hl i hne
    exact ⟨fun l => (h1 l).trans ((h.1 i hi).1 l), h2.trans (h.1 i hi).2⟩
  · by_cases hne : i = count
    · subst hne; exact ht t hit
    · rw [(hl i hne).2.2] at hit
      exact h.2 i t hit

theorem mergeSpatial_local (isInterB : Bool) (cu : Option CUData) (idx : Nat) (src : MergeSrc)
    (count : Nat) (o : MergeOut) :
    (∀ i, i ≠ count →
      (∀ l, (mergeSpatial isInterB cu idx src count o).mvFieldNeighbours i l
        = o.mvFieldNeighbours i l) ∧
      (mergeSpatial isInterB cu idx src count o).interDirNeighbours i = o.interDirNeighbours i ∧
      (mergeSpatial isInterB cu idx src count o).source i = o.source i) ∧
    (cu.isSome = true → (mergeSpatial isInterB cu idx src count o).source count = some src) := by
  cases cu with
  | none => exact ⟨fun i _ => ⟨fun _ => rfl, rfl, rfl⟩, fun h => absurd h (by decide)⟩
  | some c =>
    refine ⟨fun i hi => ?_, fun _ => ?_⟩
    · cases isInterB <;>
        simp [mergeSpatial, MergeOut.setMvField, MergeOut.setInterDir, MergeOut.setSource,
          Function.update, hi]
    · cases isInterB <;>
        simp [mergeSpatial, MergeOut.setMvField, MergeOut.setInterDir, MergeOut.setSource]

theorem mergeTemporalWrite_local (isInterB : Bool) (t0 t1 : Bool × MV) (refIdx : Int)
    (count : Nat) (o : MergeOut) :
    (∀ i, i ≠ count →
      (∀ l, (mergeTemporalWrite isInterB t0 t1 refIdx count o).mvFieldNeighbours i l
        = o.mvFieldNeighbours i l) ∧
      (mergeTemporalWrite isInterB t0 t1 refIdx count o).interDirNeighbours i
        = o.interDirNeighbours i ∧
      (mergeTemporalWrite isInterB t0 t1 refIdx count o).source i = o.source i) ∧
    (∀ t, (mergeTemporalWrite isInterB t0 t1 refIdx count o).source count = some t →
      t = .temporal ∨ o.source count = some t) := by
  obtain ⟨b0, m0⟩ := t0
  obtain ⟨b1, m1⟩ := t1
  refine ⟨fun i hi => ?_, fun t => ?_⟩
  · cases isInterB <;> cases b0 <;> cases b1 <;>
      simp [mergeTemporalWrite, MergeOut.setMvField, MergeOut.setInterDir, MergeOut.setSource,
        Function.update, hi]
  · cases isInterB <;> cases b0 <;> cases b1 <;>
      simp [mergeTemporalWrite, MergeOut.setMvField, MergeOut.setInterDir, MergeOut.setSource] <;>
      intro h <;> simp [h]

theorem mergeCombinedWrite_local (i j count : Nat) (o : MergeOut) :
    (∀ k, k ≠ count →
      (∀ l, (mergeCombinedWrite i j count o).mvFieldNeighbours k l = o.mvFieldNeighbours k l) ∧
      (mergeCombinedWrite i j count o).interDirNeighbours k = o.interDirNeighbours k ∧
      (mergeCombinedWrite i j count o).source k = o.source k) ∧
    (mergeCombinedWrite i j count o).source count = some .combined := by
  refine ⟨fun k hk => ?_, ?_⟩
  · simp [mergeCombinedWrite, MergeOut.setMvField, MergeOut.setInterDir, MergeOut.setSource,
      Function.update, hk]
  · simp [mergeCombinedWrite, MergeOut.setMvField, MergeOut.setInterDir, MergeOut.setSource]

theorem mergeStep_done (isInterB : Bool) (numRefIdx : Int) (maxNumMergeCand : Nat)
    (Inv : MergeOut → Prop) (cond : Bool) (write : Nat → MergeOut → MergeOut) (count : Nat)
    (o : MergeOut) (k : Nat → MergeOut → Option (Nat × MergeOut))
    (hc : count < maxNumMergeCand) (hi : Inv o) (hw : cond = true → Inv (write count o))
    (hk : ∀ c o2, count ≤ c → c < maxNumMergeCand → Inv o2 →
      MergeDone isInterB numRefIdx maxNumMergeCand Inv (k c o2)) :
    MergeDone isInterB numRefIdx maxNumMergeCand Inv
      (mergeStep cond write maxNumMergeCand count o k) := by
  unfold mergeStep
  cases cond with
  | false => exact hk count o (Nat.le_refl _) hc hi
  | true =>
    simp only [if_true]
    by_cases h : count + 1 = maxNumMergeCand
    · rw [if_pos h]
      refine ⟨maxNumMergeCand, write count o, Nat.le_refl _, hw rfl, ?_⟩
      rw [Nat.sub_self]
      rfl
    · rw [if_neg h]
      exact hk (count + 1) (write count o) (by omega) (by omega) (hw rfl)

theorem mergeCombine_done (slice : Slice) (isInterB : Bool) (numRefIdx : Int)
    (maxNumMergeCand : Nat) (allowed : MergeSrc → Bool) (o0 : MergeOut)
    (hal : allowed .combined = true) (k : Nat → MergeOut → Option (Nat × MergeOut))
    (hk : ∀ c o2, c < maxNumMergeCand → MergeInv maxNumMergeCand allowed o0 o2 →
      MergeDone isInterB numRefIdx maxNumMergeCand (MergeInv maxNumMergeCand allowed o0) (k c o2)) :
    ∀ (n p0 p1 count : Nat) (o : MergeOut), count < maxNumMergeCand →
      MergeInv maxNumMergeCand allowed o0 o →
      MergeDone isInterB numRefIdx maxNumMergeCand (MergeInv maxNumMergeCand allowed o0)
        (mergeCombine slice maxNumMergeCand n p0 p1 count o k) := by
  intro n
  induction n with
  | zero =>
    intro p0 p1 count o hc hi
    exact hk count o hc hi
  | succ n ih =>
    intro p0 p1 count o hc hi
    unfold mergeCombine
    simp only []
    apply mergeStep_done _ _ _ _ _ _ _ _ _ hc hi
    · intro _
      obtain ⟨h1, h2⟩ := mergeCombinedWrite_local (p0 &&& 3) (p1 &&& 3) count o
      refine MergeInv_of_local _ _ _ o _ count hi hc h1 (fun t ht => ?_)
      rw [h2] at ht
      rw [← Option.some.inj ht]
      exact hal
    · intro c o2 _ hc2 hi2
      exact ih _ _ c o2 hc2 hi2

theorem mergeTail_done (slice : Slice) (isInterB : Bool) (maxNumMergeCand : Nat)
    (allowed : MergeSrc → Bool) (o0 : MergeOut) (hal : allowed .combined = true)
    (count : Nat) (o : MergeOut) (hc : count < maxNumMergeCand)
    (hi : MergeInv maxNumMergeCand allowed o0 o) :
    MergeDone isInterB
      (if isInterB then min (slice.m_numRefIdx 0) (slice.m_numRefIdx 1) else slice.m_numRefIdx 0)
      maxNumMergeCand (MergeInv maxNumMergeCand allowed o0)
      (mergeTail slice isInterB maxNumMergeCand count o) := by
  have hpad : ∀ c o2, c < maxNumMergeCand → MergeInv maxNumMergeCand allowed o0 o2 →
      MergeDone isInterB
        (if isInterB then min (slice.m_numRefIdx 0) (slice.m_numRefIdx 1)
          else slice.m_numRefIdx 0)
        maxNumMergeCand (MergeInv maxNumMergeCand allowed o0)
        (some (mergeZeroPad isInterB
          (if isInterB then min (slice.m_numRefIdx 0) (slice.m_numRefIdx 1)
            else slice.m_numRefIdx 0)
          maxNumMergeCand (maxNumMergeCand - c) c 0 0 o2)) :=
    fun c o2 hc2 hi2 => ⟨c, o2, Nat.le_of_lt hc2, hi2, rfl⟩
  unfold mergeTail
  simp only []
  cases isInterB with
  | false => exact hpad count o hc hi
  | true =>
    simp only [if_true]
    exact mergeCombine_done slice true _ maxNumMergeCand allowed o0 hal _ hpad _ _ _ count o hc hi

theorem mergeTemporal_done (self : CUData) (g : Globals) (pic : Nat → CUData)
    (refPics : Nat → Nat → CUData) (isInterB : Bool) (numRefIdx : Int) (puIdx absPartAddr : Nat)
    (maxNumMergeCand count : Nat) (o : MergeOut) (k : Nat → MergeOut → Option (Nat × MergeOut))
    (allowed : MergeSrc → Bool) (o0 : MergeOut) (frame : Frame) (slice : Slice)
    (hf : self.m_frame = some frame) (hs : self.m_slice = some slice)
    (hcol : ∀ l a p mv r, ∃ x, self.getColMVP refPics l a p mv r = some x)
    (hal : allowed .temporal = true)
    (hc : count < maxNumMergeCand) (hi : MergeInv maxNumMergeCand allowed o0 o)
    (hk : ∀ c o2, c < maxNumMergeCand → MergeInv maxNumMergeCand allowed o0 o2 →
      MergeDone isInterB numRefIdx maxNumMergeCand (MergeInv maxNumMergeCand allowed o0) (k c o2)) :
    MergeDone isInterB numRefIdx maxNumMergeCand (MergeInv maxNumMergeCand allowed o0)
      (self.mergeTemporal g pic refPics isInterB puIdx absPartAddr maxNumMergeCand count o k) := by
  obtain ⟨partIdxRB, hrb⟩ := deriveRightBottomIdx_isSome self g puIdx frame hf
  obtain ⟨⟨ctuIdx, addr⟩, hcr⟩ := colRightBottom_isSome self g pic partIdxRB absPartAddr frame
    slice hf hs
  obtain ⟨partIdxCenter, hce⟩ := deriveCenterIdx_isSome self g puIdx frame hf
  obtain ⟨t0, ht0⟩ := colMVPEither_isSome self refPics REF_PIC_LIST_0 ctuIdx addr self.m_cuAddr
    partIdxCenter MV.zero 0 (fun a p mv => hcol _ a p mv _)
  obtain ⟨t1, ht1⟩ : ∃ t1, (if isInterB then
      self.colMVPEither refPics REF_PIC_LIST_1 ctuIdx addr self.m_cuAddr partIdxCenter t0.2 0
      else some (false, t0.2)) = some t1 := by
    cases isInterB with
    | false => exact ⟨_, rfl⟩
    | true =>
      exact colMVPEither_isSome self refPics REF_PIC_LIST_1 ctuIdx addr self.m_cuAddr
        partIdxCenter t0.2 0 (fun a p mv => hcol _ a p mv _)
  unfold CUData.mergeTemporal
  simp only [hrb, hcr, hce, ht0, ht1]
  apply mergeStep_done _ _ _ _ _ _ _ _ _ hc hi
  · intro _
    obtain ⟨h1, h2⟩ := mergeTemporalWrite_local isInterB t0 t1 0 count o
    refine MergeInv_of_local _ _ _ o _ count hi hc h1 (fun t ht => ?_)
    rcases h2 t ht with h | h
    · rw [h]; exact hal
    · exact hi.2 count t h
  · intro c o2 _ hc2 hi2
    exact hk c o2 hc2 hi2

theorem mergeAvail_isSome (cu : Option CUData) (idx : Nat) (xN yN xP yP : Int) (excl : Bool)
    (h : mergeAvail cu idx xN yN xP yP excl = true) : cu.isSome = true := by
  cases cu with
  | none => exact absurd h (by simp [mergeAvail])
  | some c => rfl

theorem MergeInv_spatial (maxNumMergeCand : Nat) (allowed : MergeSrc → Bool) (o0 o : MergeOut)
    (isInterB : Bool) (cu : Option CUData) (idx : Nat) (src : MergeSrc) (count : Nat)
    (hi : MergeInv maxNumMergeCand allowed o0 o) (hc : count < maxNumMergeCand)
    (hcu : cu.isSome = true) (hal : allowed src = true) :
    MergeInv maxNumMergeCand allowed o0 (mergeSpatial isInterB cu idx src count o) := by
  obtain ⟨h1, h2⟩ := mergeSpatial_local isInterB cu idx src count o
  refine MergeInv_of_local _ _ _ o _ count hi hc h1 (fun t ht => ?_)
  rw [h2 hcu] at ht
  rw [← Option.some.inj ht]
  exact hal

theorem MergeInv_mergeInit (maxNumMergeCand : Nat) (allowed : MergeSrc → Bool) (o0 : MergeOut) :
    MergeInv maxNumMergeCand allowed o0 (mergeInit maxNumMergeCand o0) := by
  refine ⟨fun i hi => ⟨fun l => ?_, rfl⟩, fun i t h => ?_⟩
  · show (if i < maxNumMergeCand ∧ l < 2 then _ else _) = _
    rw [if_neg (by omega)]
  · exact absurd h (by simp [mergeInit])

/-- The run of `getInterMergeCandidates` up to the padding, with the results of its
neighbour queries named. -/
theorem merge_master (self : CUData) (g : Globals) (pic : Nat → CUData)
    (refPics : Nat → Nat → CUData) (absPartIdx puIdx : Nat) (o0 : MergeOut)
    (frame : Frame) (slice : Slice) (xP yP nPSW nPSH partIdxLT partIdxRT partIdxLB : Nat)
    (pLeft : CUPtr) (leftPartIdx : Nat) (pAbove : CUPtr) (abovePartIdx : Nat)
    (pAboveRight : CUPtr) (aboveRightPartIdx : Nat) (pLeftBottom : CUPtr)
    (leftBottomPartIdx : Nat) (pAboveLeft : CUPtr) (aboveLeftPartIdx : Nat)
    (hf : self.m_frame = some frame) (hs : self.m_slice = some slice)
    (hmax : 1 ≤ slice.m_maxNumMergeCand)
    (hcol : ∀ l a p mv r, ∃ x, self.getColMVP refPics l a p mv r = some x)
    (hpos : self.getPartPosition puIdx = (xP, yP, nPSW, nPSH))
    (hrt : self.deriveLeftRightTopIdx g puIdx = (partIdxLT, partIdxRT))
    (hlb : self.deriveLeftBottomIdx g puIdx = some partIdxLB)
    (hL : self.getPULeft g partIdxLB = some (pLeft, leftPartIdx))
    (hA : self.getPUAbove g 0 partIdxRT false = some (pAbove, abovePartIdx))
    (hAR : self.getPUAboveRight g pic 0 partIdxRT = some (pAboveRight, aboveRightPartIdx))
    (hBL : self.getPUBelowLeft g pic 0 partIdxLB = some (pLeftBottom, leftBottomPartIdx))
    (hAL : self.getPUAboveLeft g (u32 (self.m_absIdxInCTU + absPartIdx))
      = some (pAboveLeft, aboveLeftPartIdx)) :
    MergeDone slice.isInterB
      (if slice.isInterB then min (slice.m_numRefIdx 0) (slice.m_numRefIdx 1)
        else slice.m_numRefIdx 0)
      slice.m_maxNumMergeCand
      (MergeInv slice.m_maxNumMergeCand
        (mergeAllowed
          (mergeAvail (pLeft.deref self pic) leftPartIdx ((xP : Int) - 1)
            ((yP : Int) + (nPSH : Int) - 1) xP yP
            (puIdx == 1 && ((self.get .partSizes absPartIdx).val == SIZE_Nx2N ||
              (self.get .partSizes absPartIdx).val == SIZE_nLx2N ||
              (self.get .partSizes absPartIdx).val == SIZE_nRx2N)))
          (mergeAvail (pAbove.deref self pic) abovePartIdx ((xP : Int) + (nPSW : Int) - 1)
            ((yP : Int) - 1) xP yP
            (puIdx == 1 && ((self.get .partSizes absPartIdx).val == SIZE_2NxN ||
              (self.get .partSizes absPartIdx).val == SIZE_2NxnU ||
              (self.get .partSizes absPartIdx).val == SIZE_2NxnD)))
          (mergeAvail (pAboveRight.deref self pic) aboveRightPartIdx ((xP : Int) + (nPSW : Int))
            ((yP : Int) - 1) xP yP false)
          (mergeAvail (pLeftBottom.deref self pic) leftBottomPartIdx ((xP : Int) - 1)
            ((yP : Int) + (nPSH : Int)) xP yP false)
          (mergeAvail (pAboveLeft.deref self pic) aboveLeftPartIdx ((xP : Int) - 1)
            ((yP : Int) - 1) xP yP false)
          (pLeft.deref self pic) leftPartIdx (pAbove.deref self pic) abovePartIdx
          (pAboveRight.deref self pic) aboveRightPartIdx
          (pLeftBottom.deref self pic) leftBottomPartIdx
          (pAboveLeft.deref self pic) aboveLeftPartIdx) o0)
      (self.getInterMergeCandidates g pic refPics absPartIdx puIdx o0) := by
  have hrest : ∀ (allowed : MergeSrc → Bool), allowed .temporal = true →
      allowed .combined = true → ∀ c o2, c < slice.m_maxNumMergeCand →
      MergeInv slice.m_maxNumMergeCand allowed o0 o2 →
      MergeDone slice.isInterB
        (if slice.isInterB then min (slice.m_numRefIdx 0) (slice.m_numRefIdx 1)
          else slice.m_numRefIdx 0)
        slice.m_maxNumMergeCand (MergeInv slice.m_maxNumMergeCand allowed o0)
        (self.mergeTemporal g pic refPics slice.isInterB puIdx
          (u32 (self.m_absIdxInCTU + absPartIdx)) slice.m_maxNumMergeCand c o2
          (mergeTail slice slice.isInterB slice.m_maxNumMergeCand)) :=
    fun allowed ht hcb c o2 hc hi =>
      mergeTemporal_done self g pic refPics slice.isInterB _ puIdx _ _ c o2 _
        allowed o0 frame slice hf hs hcol ht hc hi
        (fun c2 o3 hc2 hi2 => mergeTail_done slice slice.isInterB _ allowed o0 hcb c2 o3 hc2 hi2)
  unfold CUData.getInterMergeCandidates
  simp only [hs, hpos, hlb, hL]
  apply mergeStep_done _ _ _ _ _ _ _ _ _ (by omega) (MergeInv_mergeInit _ _ _)
  · intro hcond
    exact MergeInv_spatial _ _ _ _ _ _ _ _ _ (MergeInv_mergeInit _ _ _) (by omega)
      (mergeAvail_isSome _ _ _ _ _ _ _ hcond) hcond
  intro c1 o1 _ hc1 hi1
  simp only [hrt, hA]
  apply mergeStep_done _ _ _ _ _ _ _ _ _ hc1 hi1
  · intro hcond
    exact MergeInv_spatial _ _ _ _ _ _ _ _ _ hi1 hc1
      (mergeAvail_isSome _ _ _ _ _ _ _ (Bool.and_eq_true_iff.mp hcond).1) hcond
  intro c2 o2 _ hc2 hi2
  simp only [hAR]
  apply mergeStep_done _ _ _ _ _ _ _ _ _ hc2 hi2
  · intro hcond
    exact MergeInv_spatial _ _ _ _ _ _ _ _ _ hi2 hc2
      (mergeAvail_isSome _ _ _ _ _ _ _ (Bool.and_eq_true_iff.mp hcond).1) hcond
  intro c3 o3 _ hc3 hi3
  simp only [hBL]
  apply mergeStep_done _ _ _ _ _ _ _ _ _ hc3 hi3
  · intro hcond
    exact MergeInv_spatial _ _ _ _ _ _ _ _ _ hi3 hc3
      (mergeAvail_isSome _ _ _ _ _ _ _ (Bool.and_eq_true_iff.mp hcond).1) hcond
  intro c4 o4 _ hc4 hi4
  by_cases h4 : c4 < 4
  · rw [if_pos h4]
    simp only [hAL]
    apply mergeStep_done _ _ _ _ _ _ _ _ _ hc4 hi4
    · intro hcond
      exact MergeInv_spatial _ _ _ _ _ _ _ _ _ hi4 hc4
        (mergeAvail_isSome _ _ _ _ _ _ _
          (Bool.and_eq_true_iff.mp (Bool.and_eq_true_iff.mp hcond).1).1) hcond
    intro c5 o5 _ hc5 hi5
    exact hrest _ rfl rfl c5 o5 hc5 hi5
  · rw [if_neg h4]
    exact hrest _ rfl rfl c4 o4 hc4 hi4

/-! ## The padding loop -/

theorem mergeZeroWrite_local (isInterB : Bool) (r : Int) (count : Nat) (o : MergeOut) :
    (∀ i, i ≠ count →
      (∀ l, (mergeZeroWrite isInterB r count o).mvFieldNeighbours i l = o.mvFieldNeighbours i l) ∧
      (mergeZeroWrite isInterB r count o).interDirNeighbours i = o.interDirNeighbours i ∧
      (mergeZeroWrite isInterB r count o).source i = o.source i) ∧
    (mergeZeroWrite isInterB r count o).source count = some .zero ∧
    (mergeZeroWrite isInterB r count o).mvFieldNeighbours count 0 = ⟨⟨0, 0⟩, r⟩ ∧
    (isInterB = false → (mergeZeroWrite isInterB r count o).interDirNeighbours count = 1) ∧
    (isInterB = true → (mergeZeroWrite isInterB r count o).interDirNeighbours count = 3 ∧
      (mergeZeroWrite isInterB r count o).mvFieldNeighbours count 1 = ⟨⟨0, 0⟩, r⟩) := by
  refine ⟨fun i hi => ?_, ?_, ?_, ?_, ?_⟩
  · cases isInterB <;>
      simp [mergeZeroWrite, MergeOut.setMvField, MergeOut.setInterDir, MergeOut.setSource,
        Function.update, hi]
  · cases isInterB <;>
      simp [mergeZeroWrite, MergeOut.setMvField, MergeOut.setInterDir, MergeOut.setSource]
  · cases isInterB <;>
      simp [mergeZeroWrite, MergeOut.setMvField, MergeOut.setInterDir, MergeOut.setSource]
  · intro h
    subst h
    simp [mergeZeroWrite, MergeOut.setMvField, MergeOut.setInterDir, MergeOut.setSource]
  · intro h
    subst h
    simp [mergeZeroWrite, MergeOut.setMvField, MergeOut.setInterDir, MergeOut.setSource]

/-- The padding loop ends with `count = maxNumMergeCand`, tags exactly the slots
it fills and leaves every other slot as it was. -/
theorem mergeZeroPad_frame (isInterB : Bool) (numRefIdx : Int) (maxNumMergeCand : Nat) :
    ∀ (fuel count : Nat) (r refcnt : Int) (o : MergeOut), count + fuel = maxNumMergeCand →
      (mergeZeroPad isInterB numRefIdx maxNumMergeCand fuel count r refcnt o).1
        = maxNumMergeCand ∧
      (∀ i, i < count ∨ maxNumMergeCand ≤ i →
        (∀ l, (mergeZeroPad isInterB numRefIdx maxNumMergeCand fuel count r refcnt
            o).2.mvFieldNeighbours i l = o.mvFieldNeighbours i l) ∧
        (mergeZeroPad isInterB numRefIdx maxNumMergeCand fuel count r refcnt
            o).2.interDirNeighbours i = o.interDirNeighbours i ∧
        (mergeZeroPad isInterB numRefIdx maxNumMergeCand fuel count r refcnt o).2.source i
          = o.source i) ∧
      (∀ i, count ≤ i → i < maxNumMergeCand →
        (mergeZeroPad isInterB numRefIdx maxNumMergeCand fuel count r refcnt o).2.source i
          = some .zero) := by
  intro fuel
  induction fuel with
  | zero =>
    intro count r refcnt o h
    refine ⟨by simpa [mergeZeroPad] using h, fun i _ => ⟨fun _ => rfl, rfl, rfl⟩, fun i h1 h2 => ?_⟩
    omega
  | succ fuel ih =>
    intro count r refcnt o h
    have hlt : count < maxNumMergeCand := by omega
    obtain ⟨hw1, hw2, -⟩ := mergeZeroWrite_local isInterB r count o
    have key : ∀ r2 refcnt2,
        (mergeZeroPad isInterB numRefIdx maxNumMergeCand fuel (count + 1) r2 refcnt2
          (mergeZeroWrite isInterB r count o)).1 = maxNumMergeCand ∧
        (∀ i, i < count ∨ maxNumMergeCand ≤ i →
          (∀ l, (mergeZeroPad isInterB numRefIdx maxNumMergeCand fuel (count + 1) r2 refcnt2
            (mergeZeroWrite isInterB r count o)).2.mvFieldNeighbours i l
              = o.mvFieldNeighbours i l) ∧
          (mergeZeroPad isInterB numRefIdx maxNumMergeCand fuel (count + 1) r2 refcnt2
            (mergeZeroWrite isInterB r count o)).2.interDirNeighbours i
              = o.interDirNeighbours i ∧
          (mergeZeroPad isInterB numRefIdx maxNumMergeCand fuel (count + 1) r2 refcnt2
            (mergeZeroWrite isInterB r count o)).2.source i = o.source i) ∧
        (∀ i, count ≤ i → i < maxNumMergeCand →
          (mergeZeroPad isInterB numRefIdx maxNumMergeCand fuel (count + 1) r2 refcnt2
            (mergeZeroWrite isInterB r count o)).2.source i = some .zero) := by
      intro r2 refcnt2
      obtain ⟨h1, h2, h3⟩ := ih (count + 1) r2 refcnt2 (mergeZeroWrite isInterB r count o)
        (by omega)
      refine ⟨h1, fun i hi => ?_, fun i hi1 hi2 => ?_⟩
      · obtain ⟨a1, a2, a3⟩ := h2 i (by omega)
        obtain ⟨b1, b2, b3⟩ := hw1 i (by omega)
        exact ⟨fun l => (a1 l).trans (b1 l), a2.trans b2, a3.trans b3⟩
      · by_cases hic : i = count
        · subst hic
          rw [(h2 i (by omega)).2.2, hw2]
        · exact h3 i (by omega) hi2
    unfold mergeZeroPad
    rw [if_pos hlt]
    simp only []
    split_ifs
    · exact key _ _
    · exact key _ _

/-- The reference indices written by the padding loop: round `j` (counted from
the start of the loop) writes `j` while `j < numRefIdx` and 0 afterwards. -/
theorem mergeZeroPad_slots (isInterB : Bool) (numRefIdx : Int) (maxNumMergeCand : Nat)
    (hnum : 1 ≤ numRefIdx) :
    ∀ (fuel count j : Nat) (r refcnt : Int) (o : MergeOut), count + fuel = maxNumMergeCand →
      r = (if (j : Int) < numRefIdx then (j : Int) else 0) →
      refcnt = (if (j : Int) < numRefIdx then (j : Int) else numRefIdx - 1) →
      ∀ k, k < fuel →
        (mergeZeroPad isInterB numRefIdx maxNumMergeCand fuel count r refcnt
            o).2.mvFieldNeighbours (count + k) 0
          = ⟨⟨0, 0⟩, if ((j + k : Nat) : Int) < numRefIdx then ((j + k : Nat) : Int) else 0⟩ ∧
        (isInterB = false →
          (mergeZeroPad isInterB numRefIdx maxNumMergeCand fuel count r refcnt
            o).2.interDirNeighbours (count + k) = 1) ∧
        (isInterB = true →
          (mergeZeroPad isInterB numRefIdx maxNumMergeCand fuel count r refcnt
            o).2.interDirNeighbours (count + k) = 3 ∧
          (mergeZeroPad isInterB numRefIdx maxNumMergeCand fuel count r refcnt
            o).2.mvFieldNeighbours (count + k) 1
            = ⟨⟨0, 0⟩,
                if ((j + k : Nat) : Int) < numRefIdx then ((j + k : Nat) : Int) else 0⟩) := by
  intro fuel
  induction fuel with
  | zero => intro count j r refcnt o _ _ _ k hk; omega
  | succ fuel ih =>
    intro count j r refcnt o h hr hrc k hk
    have hlt : count < maxNumMergeCand := by omega
    obtain ⟨-, -, hw3, hw4, hw5⟩ := mergeZeroWrite_local isInterB r count o
    have key : ∀ r2 refcnt2,
        r2 = (if ((j + 1 : Nat) : Int) < numRefIdx then ((j + 1 : Nat) : Int) else 0) →
        refcnt2 = (if ((j + 1 : Nat) : Int) < numRefIdx then ((j + 1 : Nat) : Int)
          else numRefIdx - 1) →
        (mergeZeroPad isInterB numRefIdx maxNumMergeCand fuel (count + 1) r2 refcnt2
            (mergeZeroWrite isInterB r count o)).2.mvFieldNeighbours (count + k) 0
          = ⟨⟨0, 0⟩, if ((j + k : Nat) : Int) < numRefIdx then ((j + k : Nat) : Int) else 0⟩ ∧
        (isInterB = false →
          (mergeZeroPad isInterB numRefIdx maxNumMergeCand fuel (count + 1) r2 refcnt2
            (mergeZeroWrite isInterB r count o)).2.interDirNeighbours (count + k) = 1) ∧
        (isInterB = true →
          (mergeZeroPad isInterB numRefIdx maxNumMergeCand fuel (count + 1) r2 refcnt2
            (mergeZeroWrite isInterB r count o)).2.interDirNeighbours (count + k) = 3 ∧
          (mergeZeroPad isInterB numRefIdx maxNumMergeCand fuel (count + 1) r2 refcnt2
            (mergeZeroWrite isInterB r count o)).2.mvFieldNeighbours (count + k) 1
            = ⟨⟨0, 0⟩,
                if ((j + k : Nat) : Int) < numRefIdx then ((j + k : Nat) : Int) else 0⟩) := by
      intro r2 refcnt2 hr2 hrc2
      cases k with
      | zero =>
        obtain ⟨-, hfr, -⟩ := mergeZeroPad_frame isInterB numRefIdx maxNumMergeCand fuel
          (count + 1) r2 refcnt2 (mergeZeroWrite isInterB r count o) (by omega)
        obtain ⟨a1, a2, -⟩ := hfr count (Or.inl (by omega))
        simp only [Nat.add_zero]
        rw [a1 0, a1 1, a2, hw3, ← hr]
        exact ⟨rfl, hw4, hw5⟩
      | succ k =>
        have := ih (count + 1) (j + 1) r2 refcnt2 (mergeZeroWrite isInterB r count o)
          (by omega) hr2 hrc2 k (by omega)
        have e1 : count + 1 + k = count + (k + 1) := by omega
        have e2 : j + 1 + k = j + (k + 1) := by omega
        rw [e1, e2] at this
        exact this
    unfold mergeZeroPad
    rw [if_pos hlt]
    simp only []
    by_cases hcmp : refcnt = numRefIdx - 1
    · rw [if_pos hcmp]
      refine key _ _ ?_ ?_
      · push_cast; split_ifs at hrc ⊢ <;> omega
      · push_cast; split_ifs at hrc ⊢ <;> omega
    · rw [if_neg hcmp]
      refine key _ _ ?_ ?_
      · push_cast; split_ifs at hr hrc ⊢ <;> omega
      · push_cast; split_ifs at hr hrc ⊢ <;> omega

/-- The padding loop as `getInterMergeCandidates` runs it, from `count` candidates. -/
theorem mergeZeroPad_result (isInterB : Bool) (numRefIdx : Int) (maxNumMergeCand count : Nat)
    (o : MergeOut) (hc : count ≤ maxNumMergeCand) :
    ∃ o2, mergeZeroPad isInterB numRefIdx maxNumMergeCand (maxNumMergeCand - count) count 0 0 o
        = (maxNumMergeCand, o2) ∧
      (∀ i, i < count ∨ maxNumMergeCand ≤ i →
        (∀ l, o2.mvFieldNeighbours i l = o.mvFieldNeighbours i l) ∧
        o2.interDirNeighbours i = o.interDirNeighbours i ∧ o2.source i = o.source i) ∧
      (∀ i, count ≤ i → i < maxNumMergeCand → o2.source i = some .zero) ∧
      (1 ≤ numRefIdx → ∀ k, count + k < maxNumMergeCand →
        o2.mvFieldNeighbours (count + k) 0
          = ⟨⟨0, 0⟩, if (k : Int) < numRefIdx then (k : Int) else 0⟩ ∧
        (isInterB = false → o2.interDirNeighbours (count + k) = 1) ∧
        (isInterB = true → o2.interDirNeighbours (count + k) = 3 ∧
          o2.mvFieldNeighbours (count + k) 1
            = ⟨⟨0, 0⟩, if (k : Int) < numRefIdx then (k : Int) else 0⟩)) := by
  obtain ⟨h1, h2, h3⟩ := mergeZeroPad_frame isInterB numRefIdx maxNumMergeCand
    (maxNumMergeCand - count) count 0 0 o (by omega)
  refine ⟨_, Prod.ext h1 rfl, h2, h3, fun hnum k hk => ?_⟩
  have := mergeZeroPad_slots isInterB numRefIdx maxNumMergeCand hnum
    (maxNumMergeCand - count) count 0 0 0 o (by omega)
    (by rw [if_pos (by push_cast; omega)]; rfl) (by rw [if_pos (by push_cast; omega)]; rfl)
    k (by omega)
  rw [Nat.zero_add] at this
  exact this

/-! ## The whole of `getInterMergeCandidates` -/

/-- On a container bound to a frame and a slice with `maxNumMergeCand >= 1` and a
defined temporal lookup, the neighbour queries of `getInterMergeCandidates` are
defined and the call returns what the padding loop gives from a state in which
every stored candidate is allowed. -/
theorem merge_done (self : CUData) (g : Globals) (pic : Nat → CUData)
    (refPics : Nat → Nat → CUData) (absPartIdx puIdx : Nat) (o0 : MergeOut)
    (frame : Frame) (slice : Slice)
    (hf : self.m_frame = some frame) (hs : self.m_slice = some slice)
    (hmax : 1 ≤ slice.m_maxNumMergeCand)
    (hcol : ∀ l a p mv r, ∃ x, self.getColMVP refPics l a p mv r = some x) :
    ∃ (partIdxLB : Nat) (pLeft : CUPtr) (leftPartIdx : Nat) (pAbove : CUPtr)
      (abovePartIdx : Nat) (pAboveRight : CUPtr) (aboveRightPartIdx : Nat)
      (pLeftBottom : CUPtr) (leftBottomPartIdx : Nat) (pAboveLeft : CUPtr)
      (aboveLeftPartIdx : Nat) (avA1 avB1 avB0 avA0 avB2 : Bool),
      self.deriveLeftBottomIdx g puIdx = some partIdxLB ∧
      self.getPULeft g partIdxLB = some (pLeft, leftPartIdx) ∧
      self.getPUAbove g 0 (self.deriveLeftRightTopIdx g puIdx).2 false
        = some (pAbove, abovePartIdx) ∧
      self.getPUAboveRight g pic 0 (self.deriveLeftRightTopIdx g puIdx).2
        = some (pAboveRight, aboveRightPartIdx) ∧
      self.getPUBelowLeft g pic 0 partIdxLB = some (pLeftBottom, leftBottomPartIdx) ∧
      self.getPUAboveLeft g (u32 (self.m_absIdxInCTU + absPartIdx))
        = some (pAboveLeft, aboveLeftPartIdx) ∧
      (avA1 = true → (pLeft.deref self pic).isSome = true) ∧
      (avB1 = true → (pAbove.deref self pic).isSome = true) ∧
      (avB0 = true → (pAboveRight.deref self pic).isSome = true) ∧
      (avA0 = true → (pLeftBottom.deref self pic).isSome = true) ∧
      (avB2 = true → (pAboveLeft.deref self pic).isSome = true) ∧
      MergeDone slice.isInterB
        (if slice.isInterB then min (slice.m_numRefIdx 0) (slice.m_numRefIdx 1)
          else slice.m_numRefIdx 0)
        slice.m_maxNumMergeCand
        (MergeInv slice.m_maxNumMergeCand
          (mergeAllowed avA1 avB1 avB0 avA0 avB2
            (pLeft.deref self pic) leftPartIdx (pAbove.deref self pic) abovePartIdx
            (pAboveRight.deref self pic) aboveRightPartIdx
            (pLeftBottom.deref self pic) leftBottomPartIdx
            (pAboveLeft.deref self pic) aboveLeftPartIdx) o0)
        (self.getInterMergeCandidates g pic refPics absPartIdx puIdx o0) := by
  obtain ⟨partIdxLB, hlb⟩ := deriveLeftBottomIdx_isSome self g puIdx frame hf
  obtain ⟨⟨pLeft, leftPartIdx⟩, hL⟩ := getPULeft_isSome self g partIdxLB frame hf
  obtain ⟨⟨pAbove, abovePartIdx⟩, hA⟩ := getPUAbove_isSome self g 0
    (self.deriveLeftRightTopIdx g puIdx).2 false frame hf
  obtain ⟨⟨pAboveRight, aboveRightPartIdx⟩, hAR⟩ := getPUAboveRight_isSome self g pic 0
    (self.deriveLeftRightTopIdx g puIdx).2 frame slice hf hs
  obtain ⟨⟨pLeftBottom, leftBottomPartIdx⟩, hBL⟩ := getPUBelowLeft_isSome self g pic 0
    partIdxLB frame slice hf hs
  obtain ⟨⟨pAboveLeft, aboveLeftPartIdx⟩, hAL⟩ := getPUAboveLeft_isSome self g
    (u32 (self.m_absIdxInCTU + absPartIdx)) frame hf
  have hm := merge_master self g pic refPics absPartIdx puIdx o0 frame slice
    (self.getPartPosition puIdx).1 (self.getPartPosition puIdx).2.1
    (self.getPartPosition puIdx).2.2.1 (self.getPartPosition puIdx).2.2.2
    (self.deriveLeftRightTopIdx g puIdx).1 (self.deriveLeftRightTopIdx g puIdx).2 partIdxLB
    pLeft leftPartIdx pAbove abovePartIdx pAboveRight aboveRightPartIdx pLeftBottom
    leftBottomPartIdx pAboveLeft aboveLeftPartIdx hf hs hmax hcol rfl rfl hlb hL hA hAR hBL hAL
  exact ⟨partIdxLB, pLeft, leftPartIdx, pAbove, abovePartIdx, pAboveRight, aboveRightPartIdx,
    pLeftBottom, leftBottomPartIdx, pAboveLeft, aboveLeftPartIdx, _, _, _, _, _,
    hlb, hL, hA, hAR, hBL, hAL,
    mergeAvail_isSome _ _ _ _ _ _ _, mergeAvail_isSome _ _ _ _ _ _ _,
    mergeAvail_isSome _ _ _ _ _ _ _, mergeAvail_isSome _ _ _ _ _ _ _,
    mergeAvail_isSome _ _ _ _ _ _ _, hm⟩

theorem mergeDiffers_spec (avail : Bool) (cu : Option CUData) (idx : Nat)
    (cand : Option CUData) (candIdx : Nat) (ha : avail = true) (hcu : cu.isSome = true)
    (hcand : cand.isSome = true) (h : mergeDiffers avail cu idx cand candIdx = true) :
    ∃ c d, cu = some c ∧ cand = some d ∧ c.hasEqualMotion idx d candIdx = false := by
  obtain ⟨c, rfl⟩ := Option.isSome_iff_exists.mp hcu
  obtain ⟨d, rfl⟩ := Option.isSome_iff_exists.mp hcand
  subst ha
  refine ⟨c, d, rfl, rfl, ?_⟩
  simpa [mergeDiffers] using h

/-- A candidate other than a zero one that is in the list after the padding was in
it before. -/
theorem placed_before_pad (maxNumMergeCand count : Nat) (o o2 : MergeOut)
    (h2 : ∀ i, i < count ∨ maxNumMergeCand ≤ i → o2.source i = o.source i)
    (h3 : ∀ i, count ≤ i → i < maxNumMergeCand → o2.source i = some .zero)
    (t : MergeSrc) (ht : t ≠ .zero) (i : Nat) (h : o2.source i = some t) :
    o.source i = some t := by
  by_cases hi : i < count ∨ maxNumMergeCand ≤ i
  · rw [h2 i hi] at h
    exact h
  · rw [h3 i (by omega) (by omega)] at h
    exact absurd (Option.some.inj h).symm ht

/-! ## C13: the merge list is capped at `maxNumMergeCand` -/

/-- C13: on a container bound to a frame and a slice with `maxNumMergeCand >= 1`
(no upper bound is needed) and a defined temporal lookup,
`getInterMergeCandidates` returns, its result is exactly `maxNumMergeCand`, and
every slot of `mvFieldNeighbours` and `interDirNeighbours` at an index from
`maxNumMergeCand` on holds what it held before the call. -/
theorem C13_merge_returns_max (self : CUData) (g : Globals) (pic : Nat → CUData)
    (refPics : Nat → Nat → CUData) (absPartIdx puIdx : Nat) (o : MergeOut)
    (frame : Frame) (slice : Slice)
    (hf : self.m_frame = some frame) (hs : self.m_slice = some slice)
    (hmax : 1 ≤ slice.m_maxNumMergeCand)
    (hcol : ∀ l a p mv r, ∃ x, self.getColMVP refPics l a p mv r = some x) :
    ∃ o2, self.getInterMergeCandidates g pic refPics absPartIdx puIdx o
        = some (slice.m_maxNumMergeCand, o2) ∧
      ∀ i, slice.m_maxNumMergeCand ≤ i →
        (∀ l, o2.mvFieldNeighbours i l = o.mvFieldNeighbours i l) ∧
        o2.interDirNeighbours i = o.interDirNeighbours i := by
  obtain ⟨_, _, _, _, _, _, _, _, _, _, _, _, _, _, _, _, -, -, -, -, -, -, -, -, -, -, -,
    count, o1, hc, hinv, hres⟩ := merge_done self g pic refPics absPartIdx puIdx o frame slice
      hf hs hmax hcol
  obtain ⟨o2, h1, h2, -, -⟩ := mergeZeroPad_result slice.isInterB
    (if slice.isInterB then min (slice.m_numRefIdx 0) (slice.m_numRefIdx 1)
      else slice.m_numRefIdx 0)
    slice.m_maxNumMergeCand count o1 hc
  refine ⟨o2, by rw [hres, h1], fun i hi => ?_⟩
  obtain ⟨a1, a2, -⟩ := h2 i (Or.inr hi)
  obtain ⟨b1, b2⟩ := hinv.1 i hi
  exact ⟨fun l => (a1 l).trans (b1 l), a2.trans b2⟩

/-! ## C15: no two compared spatial candidates have equal motion -/

/-- C15: on a container bound to a frame and a slice with `maxNumMergeCand >= 1`
and a defined temporal lookup, `getInterMergeCandidates` returns, and with the
five neighbours its queries yield (A1 left, B1 above, B0 above right, A0 below
left, B2 above left): whenever the returned list holds the candidates of both
members of one of the pairs (A1, B1), (B1, B0), (A1, A0), (A1, B2), (B1, B2),
both neighbours are containers and `hasEqualMotion` is false for their units. -/
theorem C15_merge_spatial_redundancy (self : CUData) (g : Globals) (pic : Nat → CUData)
    (refPics : Nat → Nat → CUData) (absPartIdx puIdx : Nat) (o : MergeOut)
    (frame : Frame) (slice : Slice)
    (hf : self.m_frame = some frame) (hs : self.m_slice = some slice)
    (hmax : 1 ≤ slice.m_maxNumMergeCand)
    (hcol : ∀ l a p mv r, ∃ x, self.getColMVP refPics l a p mv r = some x) :
    ∃ (res : Nat × MergeOut) (partIdxLB : Nat) (pLeft : CUPtr) (leftPartIdx : Nat)
      (pAbove : CUPtr) (abovePartIdx : Nat) (pAboveRight : CUPtr) (aboveRightPartIdx : Nat)
      (pLeftBottom : CUPtr) (leftBottomPartIdx : Nat) (pAboveLeft : CUPtr)
      (aboveLeftPartIdx : Nat),
      self.getInterMergeCandidates g pic refPics absPartIdx puIdx o = some res ∧
      self.deriveLeftBottomIdx g puIdx = some partIdxLB ∧
      self.getPULeft g partIdxLB = some (pLeft, leftPartIdx) ∧
      self.getPUAbove g 0 (self.deriveLeftRightTopIdx g puIdx).2 false
        = some (pAbove, abovePartIdx) ∧
      self.getPUAboveRight g pic 0 (self.deriveLeftRightTopIdx g puIdx).2
        = some (pAboveRight, aboveRightPartIdx) ∧
      self.getPUBelowLeft g pic 0 partIdxLB = some (pLeftBottom, leftBottomPartIdx) ∧
      self.getPUAboveLeft g (u32 (self.m_absIdxInCTU + absPartIdx))
        = some (pAboveLeft, aboveLeftPartIdx) ∧
      let placed : MergeSrc → Prop := fun t => ∃ i, res.2.source i = some t
      let differ : CUPtr → Nat → CUPtr → Nat → Prop := fun p idx q candIdx =>
        ∃ c d, p.deref self pic = some c ∧ q.deref self pic = some d ∧
          c.hasEqualMotion idx d candIdx = false
      (placed .A1 → placed .B1 → differ pLeft leftPartIdx pAbove abovePartIdx) ∧
      (placed .B1 → placed .B0 → differ pAbove abovePartIdx pAboveRight aboveRightPartIdx) ∧
      (placed .A1 → placed .A0 → differ pLeft leftPartIdx pLeftBottom leftBottomPartIdx) ∧
      (placed .A1 → placed .B2 → differ pLeft leftPartIdx pAboveLeft aboveLeftPartIdx) ∧
      (placed .B1 → placed .B2 → differ pAbove abovePartIdx pAboveLeft aboveLeftPartIdx) := by
  obtain ⟨partIdxLB, pLeft, leftPartIdx, pAbove, abovePartIdx, pAboveRight, aboveRightPartIdx,
    pLeftBottom, leftBottomPartIdx, pAboveLeft, aboveLeftPartIdx, avA1, avB1, avB0, avA0, avB2,
    hlb, hL, hA, hAR, hBL, hAL, sA1, sB1, sB0, sA0, sB2, count, o1, hc, hinv, hres⟩ :=
    merge_done self g pic refPics absPartIdx puIdx o frame slice hf hs hmax hcol
  obtain ⟨o2, h1, h2, h3, -⟩ := mergeZeroPad_result slice.isInterB
    (if slice.isInterB then min (slice.m_numRefIdx 0) (slice.m_numRefIdx 1)
      else slice.m_numRefIdx 0)
    slice.m_maxNumMergeCand count o1 hc
  rw [h1] at hres
  refine ⟨_, partIdxLB, pLeft, leftPartIdx, pAbove, abovePartIdx, pAboveRight,
    aboveRightPartIdx, pLeftBottom, leftBottomPartIdx, pAboveLeft, aboveLeftPartIdx,
    hres, hlb, hL, hA, hAR, hBL, hAL, ?_⟩
  intro placed differ
  have hal : ∀ t, t ≠ MergeSrc.zero → placed t →
      mergeAllowed avA1 avB1 avB0 avA0 avB2
        (pLeft.deref self pic) leftPartIdx (pAbove.deref self pic) abovePartIdx
        (pAboveRight.deref self pic) aboveRightPartIdx
        (pLeftBottom.deref self pic) leftBottomPartIdx
        (pAboveLeft.deref self pic) aboveLeftPartIdx t = true := by
    intro t ht ⟨i, hi⟩
    exact hinv.2 i t (placed_before_pad _ count o1 o2 (fun j hj => (h2 j hj).2.2) h3 t ht i hi)
  have hA1 : placed .A1 → avA1 = true := fun h => hal _ (by decide) h
  have hB1 : placed .B1 → avB1 = true ∧
      mergeDiffers avA1 (pLeft.deref self pic) leftPartIdx (pAbove.deref self pic) abovePartIdx
        = true := fun h => Bool.and_eq_true_iff.mp (hal _ (by decide) h)
  have hB0 : placed .B0 → avB0 = true ∧
      mergeDiffers avB1 (pAbove.deref self pic) abovePartIdx (pAboveRight.deref self pic)
        aboveRightPartIdx = true := fun h => Bool.and_eq_true_iff.mp (hal _ (by decide) h)
  have hA0 : placed .A0 → avA0 = true ∧
      mergeDiffers avA1 (pLeft.deref self pic) leftPartIdx (pLeftBottom.deref self pic)
        leftBottomPartIdx = true := fun h => Bool.and_eq_true_iff.mp (hal _ (by decide) h)
  have hB2 : placed .B2 → (avB2 = true ∧
      mergeDiffers avA1 (pLeft.deref self pic) leftPartIdx (pAboveLeft.deref self pic)
        aboveLeftPartIdx = true) ∧
      mergeDiffers avB1 (pAbove.deref self pic) abovePartIdx (pAboveLeft.deref self pic)
        aboveLeftPartIdx = true := fun h =>
    let h2 := Bool.and_eq_true_iff.mp (hal _ (by decide) h)
    ⟨Bool.and_eq_true_iff.mp h2.1, h2.2⟩
  refine ⟨fun p q => ?_, fun p q => ?_, fun p q => ?_, fun p q => ?_, fun p q => ?_⟩
  · exact mergeDiffers_spec _ _ _ _ _ (hA1 p) (sA1 (hA1 p)) (sB1 (hB1 q).1) (hB1 q).2
  · exact mergeDiffers_spec _ _ _ _ _ (hB1 p).1 (sB1 (hB1 p).1) (sB0 (hB0 q).1) (hB0 q).2
  · exact mergeDiffers_spec _ _ _ _ _ (hA1 p) (sA1 (hA1 p)) (sA0 (hA0 q).1) (hA0 q).2
  · exact mergeDiffers_spec _ _ _ _ _ (hA1 p) (sA1 (hA1 p)) (sB2 (hB2 q).1.1) (hB2 q).1.2
  · exact mergeDiffers_spec _ _ _ _ _ (hB1 p).1 (sB1 (hB1 p).1) (sB2 (hB2 q).1.1) (hB2 q).2

/-! ## C16: the zero padding of the merge list -/

/-- C16: on a container bound to a frame and a slice with `maxNumMergeCand >= 1`
and a defined temporal lookup, let `numRefIdx` be `m_numRefIdx[0]` in a P slice
and the smaller of `m_numRefIdx[0]` and `m_numRefIdx[1]` in a B slice, and
assume `numRefIdx >= 1`. Then `getInterMergeCandidates` returns a list whose
padded slots are the slots `count, ..., maxNumMergeCand - 1` for some `count`.
The `k`-th of them holds in list 0 the zero vector with reference index `k`
when `k < numRefIdx` and 0 otherwise, so a reference index in
`[0, numRefIdx)`; its inter direction is 1 in a P slice, and in a B slice it
is 3 with the same vector and reference index in list 1. -/
theorem C16_merge_zero_padding (self : CUData) (g : Globals) (pic : Nat → CUData)
    (refPics : Nat → Nat → CUData) (absPartIdx puIdx : Nat) (o : MergeOut)
    (frame : Frame) (slice : Slice)
    (hf : self.m_frame = some frame) (hs : self.m_slice = some slice)
    (hmax : 1 ≤ slice.m_maxNumMergeCand)
    (hcol : ∀ l a p mv r, ∃ x, self.getColMVP refPics l a p mv r = some x)
    (hnum : 1 ≤ (if slice.isInterB then min (slice.m_numRefIdx 0) (slice.m_numRefIdx 1)
      else slice.m_numRefIdx 0)) :
    ∃ count o2, self.getInterMergeCandidates g pic refPics absPartIdx puIdx o
        = some (slice.m_maxNumMergeCand, o2) ∧
      count ≤ slice.m_maxNumMergeCand ∧
      (∀ i, i < count → o2.source i ≠ some .zero) ∧
      ∀ k, count + k < slice.m_maxNumMergeCand →
        let numRefIdx : Int :=
          if slice.isInterB then min (slice.m_numRefIdx 0) (slice.m_numRefIdx 1)
          else slice.m_numRefIdx 0
        let refIdx : Int := if (k : Int) < numRefIdx then (k : Int) else 0
        o2.source (count + k) = some .zero ∧
        o2.mvFieldNeighbours (count + k) 0 = ⟨⟨0, 0⟩, refIdx⟩ ∧
        0 ≤ refIdx ∧ refIdx < numRefIdx ∧
        (slice.isInterB = false → o2.interDirNeighbours (count + k) = 1) ∧
        (slice.isInterB = true → o2.interDirNeighbours (count + k) = 3 ∧
          o2.mvFieldNeighbours (count + k) 1 = ⟨⟨0, 0⟩, refIdx⟩) := by
  obtain ⟨_, _, _, _, _, _, _, _, _, _, _, avA1, avB1, avB0, avA0, avB2, -, -, -, -, -, -, -, -,
    -, -, -, count, o1, hc, hinv, hres⟩ := merge_done self g pic refPics absPartIdx puIdx o
      frame slice hf hs hmax hcol
  obtain ⟨o2, h1, h2, h3, hslots⟩ := mergeZeroPad_result slice.isInterB
    (if slice.isInterB then min (slice.m_numRefIdx 0) (slice.m_numRefIdx 1)
      else slice.m_numRefIdx 0)
    slice.m_maxNumMergeCand count o1 hc
  refine ⟨count, o2, by rw [hres, h1], hc, fun i hi hz => ?_, fun k hk => ?_⟩
  · rw [(h2 i (Or.inl hi)).2.2] at hz
    have := hinv.2 i _ hz
    exact absurd this (by simp [mergeAllowed])
  · intro numRefIdx refIdx
    obtain ⟨s1, s2, s3⟩ := hslots hnum k hk
    refine ⟨h3 _ (by omega) hk, s1, ?_, ?_, s2, s3⟩
    · show 0 ≤ (if (k : Int) < numRefIdx then (k : Int) else 0)
      split_ifs <;> omega
    · show (if (k : Int) < numRefIdx then (k : Int) else 0) < numRefIdx
      split_ifs with h
      · exact h
      · exact lt_of_lt_of_le (by decide) hnum

/-! ## C14: a single merge candidate taken from the left neighbour -/

theorem isDiffMER_iff (xN yN xP yP : Int) :
    isDiffMER xN yN xP yP = true ↔ xN / 4 ≠ xP / 4 ∨ yN / 4 ≠ yP / 4 := by
  have h : ∀ z : Int, z >>> (2 : Nat) = z / 4 := fun z => by
    rw [Int.shiftRight_eq_div_pow]; norm_num
  unfold isDiffMER
  simp only [h]
  by_cases h1 : xN / 4 = xP / 4 <;> by_cases h2 : yN / 4 = yP / 4 <;> simp [h1, h2]

theorem shiftLeft_one_ge_three (n : Nat) (hn : 3 ≤ n) : ∃ m, 1 ≤ m ∧ 1 <<< n = 8 * m := by
  refine ⟨2 ^ (n - 3), Nat.one_le_two_pow, ?_⟩
  rw [Nat.one_shiftLeft]
  have : n = 3 + (n - 3) := by omega
  conv_lhs => rw [this, pow_add]
  norm_num

/-- For a CU of size at least 8 the position left of the bottom-left corner of
a prediction unit lies in another motion-estimation region than its corner. -/
theorem isDiffMER_left (n mode puIdx : Nat) (hn : 3 ≤ n) (hmode : mode < 8) (hpu : puIdx < 4) :
    isDiffMER
      (((((partTable mode puIdx 1 >>> 4) * (1 <<< n)) >>> 2 : Nat) : Int) - 1)
      (((((partTable mode puIdx 1 &&& 0xF) * (1 <<< n)) >>> 2 : Nat) : Int)
        + ((((partTable mode puIdx 0 &&& 0xF) * (1 <<< n)) >>> 2 : Nat) : Int) - 1)
      ((((partTable mode puIdx 1 >>> 4) * (1 <<< n)) >>> 2 : Nat) : Int)
      ((((partTable mode puIdx 1 &&& 0xF) * (1 <<< n)) >>> 2 : Nat) : Int) = true := by
  obtain ⟨m, hm, hsz⟩ := shiftLeft_one_ge_three n hn
  have hand : ∀ x : Nat, x &&& 15 = x % 16 := fun x => Nat.and_pow_two_sub_one_eq_mod x 4
  rw [hsz, isDiffMER_iff]
  interval_cases mode <;> interval_cases puIdx <;>
    simp only [partTable, partTableData, List.getD_cons_zero, List.getD_cons_succ,
      Nat.shiftRight_eq_div_pow, hand, Nat.reduceMod, Nat.reduceDiv, Nat.reducePow] <;>
    omega

/-- C14: let the slice have `maxNumMergeCand = 1` and let the left neighbour A1 be
available: `getPULeft` at the bottom-left unit of the prediction unit yields a
container, its unit is not intra-coded, and the prediction unit is not the
second one of an Nx2N, nLx2N or nRx2N split. For a CU of valid size (at least
8) and partition mode, `getInterMergeCandidates` returns 1 and slot 0 holds the
inter direction of that unit and its list-0 vector and reference index, and in
a B slice also its list-1 vector and reference index. Nothing else about the
container, its other neighbours or the collocated picture is assumed. -/
theorem C14_merge_single_left (self : CUData) (g : Globals) (pic : Nat → CUData)
    (refPics : Nat → Nat → CUData) (absPartIdx puIdx : Nat) (o : MergeOut) (slice : Slice)
    (partIdxLB : Nat) (pLeft : CUPtr) (leftPartIdx : Nat) (cuLeft : CUData)
    (hs : self.m_slice = some slice) (hmax : slice.m_maxNumMergeCand = 1)
    (hsize : 3 ≤ (self.get .log2CUSize 0).val) (hmode : (self.get .partSizes 0).val < 8)
    (hpu : puIdx < 4)
    (hlb : self.deriveLeftBottomIdx g puIdx = some partIdxLB)
    (hL : self.getPULeft g partIdxLB = some (pLeft, leftPartIdx))
    (hd : pLeft.deref self pic = some cuLeft)
    (hintra : cuLeft.isIntra leftPartIdx = false)
    (hexcl : ¬ (puIdx = 1 ∧ ((self.get .partSizes absPartIdx).val = SIZE_Nx2N ∨
      (self.get .partSizes absPartIdx).val = SIZE_nLx2N ∨
      (self.get .partSizes absPartIdx).val = SIZE_nRx2N))) :
    ∃ o2, self.getInterMergeCandidates g pic refPics absPartIdx puIdx o = some (1, o2) ∧
      o2.interDirNeighbours 0 = cuLeft.get .interDir leftPartIdx ∧
      o2.mvFieldNeighbours 0 0
        = ⟨cuLeft.m_cuMvField0.getMv leftPartIdx, cuLeft.m_cuMvField0.getRefIdx leftPartIdx⟩ ∧
      (slice.isInterB = true → o2.mvFieldNeighbours 0 1
        = ⟨cuLeft.m_cuMvField1.getMv leftPartIdx, cuLeft.m_cuMvField1.getRefIdx leftPartIdx⟩) := by
  have hmer := isDiffMER_left (self.get .log2CUSize 0).val (self.get .partSizes 0).val puIdx
    hsize hmode hpu
  have hex : (puIdx == 1 && ((self.get .partSizes absPartIdx).val == SIZE_Nx2N ||
      (self.get .partSizes absPartIdx).val == SIZE_nLx2N ||
      (self.get .partSizes absPartIdx).val == SIZE_nRx2N)) = false := by
    rw [Bool.eq_false_iff]
    intro h
    apply hexcl
    simpa [or_assoc] using h
  unfold CUData.getInterMergeCandidates
  simp only [hs, hlb, hL, hd, CUData.getPartPosition, mergeAvail, hmer, hex, hintra, hmax,
    mergeStep, Bool.not_false, Bool.and_self, if_true, Nat.zero_add]
  refine ⟨_, rfl, ?_, ?_, ?_⟩
  · cases slice.isInterB <;>
      simp [mergeSpatial, MergeOut.setMvField, MergeOut.setInterDir, MergeOut.setSource]
  · cases slice.isInterB <;>
      simp [mergeSpatial, MergeOut.setMvField, MergeOut.setInterDir, MergeOut.setSource,
        getMvField, CUData.cuMvField, REF_PIC_LIST_0]
  · intro hb
    simp [hb, mergeSpatial, MergeOut.setMvField, MergeOut.setInterDir, MergeOut.setSource,
        getMvField, CUData.cuMvField, REF_PIC_LIST_1]

/-- Witness for C13: the sample CTU with four spatial neighbours returns 5 and leaves
slot 5 as it was. -/
theorem C13_merge_returns_max_witness :
    ∃ o2, sampleMergeSelf.getInterMergeCandidates sampleGlobals sampleMergePic sampleColPics
        0 0 sampleMergeOut = some (5, o2) ∧
      o2.interDirNeighbours 5 = 9 ∧ o2.mvFieldNeighbours 5 0 = ⟨⟨7, 7⟩, 7⟩ := by
  obtain ⟨o2, h1, h2⟩ := C13_merge_returns_max sampleMergeSelf sampleGlobals sampleMergePic
    sampleColPics 0 0 sampleMergeOut sampleFrame sampleMvpSlice rfl rfl (by decide)
    (fun l a p mv r => getColMVP_isSome _ _ l a p mv r sampleMvpSlice 0 rfl rfl
      (fun _ => ⟨_, rfl, fun _ _ => by show (4 : Int) ≠ 2; decide⟩))
  exact ⟨o2, h1, (h2 5 (by decide)).2, (h2 5 (by decide)).1 0⟩

/-- Witness for C14: with one candidate allowed the sample CTU returns the motion of
its left neighbour (CTU 3). -/
theorem C14_merge_single_left_witness :
    ∃ o2, sampleMergeSingle.getInterMergeCandidates sampleGlobals sampleMergePic sampleColPics
        0 0 sampleMergeOut = some (1, o2) ∧
      o2.interDirNeighbours 0 = 1 ∧ o2.mvFieldNeighbours 0 0 = ⟨⟨7, -8⟩, 0⟩ := by
  obtain ⟨o2, h1, h2, h3, -⟩ := C14_merge_single_left sampleMergeSingle sampleGlobals
    sampleMergePic sampleColPics 0 0 sampleMergeOut
    { sampleMvpSlice with m_maxNumMergeCand := 1 } 170 (.picCTU 3) 255 (sampleMergePic 3)
    rfl rfl (by decide) (by decide) (by decide) (by decide) (by decide) rfl (by decide)
    (by decide)
  exact ⟨o2, h1, h2.trans (by decide), h3.trans (by decide)⟩

/-- Witness for C15: the sample CTU places A1 in slot 0 and B1 in slot 1, and the
two neighbours differ in motion. -/
theorem C15_merge_spatial_redundancy_witness :
    ∃ (res : Nat × MergeOut) (pLeft : CUPtr) (leftPartIdx : Nat) (pAbove : CUPtr)
      (abovePartIdx : Nat) (c d : CUData),
      sampleMergeSelf.getInterMergeCandidates sampleGlobals sampleMergePic sampleColPics
        0 0 sampleMergeOut = some res ∧
      res.2.source 0 = some .A1 ∧ res.2.source 1 = some .B1 ∧
      pLeft.deref sampleMergeSelf sampleMergePic = some c ∧
      pAbove.deref sampleMergeSelf sampleMergePic = some d ∧
      c.hasEqualMotion leftPartIdx d abovePartIdx = false := by
  obtain ⟨res, _, pLeft, leftPartIdx, pAbove, abovePartIdx, _, _, _, _, _, _, hres, -, -, -, -,
    -, -, hAB, -⟩ := C15_merge_spatial_redundancy sampleMergeSelf sampleGlobals sampleMergePic
    sampleColPics 0 0 sampleMergeOut sampleFrame sampleMvpSlice rfl rfl (by decide)
    (fun l a p mv r => getColMVP_isSome _ _ l a p mv r sampleMvpSlice 0 rfl rfl
      (fun _ => ⟨_, rfl, fun _ _ => by show (4 : Int) ≠ 2; decide⟩))
  have hev : (sampleMergeSelf.getInterMergeCandidates sampleGlobals sampleMergePic
      sampleColPics 0 0 sampleMergeOut).map (fun r => (r.2.source 0, r.2.source 1))
      = some (some .A1, some .B1) := by decide
  rw [hres] at hev
  have h0 : res.2.source 0 = some .A1 := congrArg Prod.fst (Option.some.inj hev)
  have h1 : res.2.source 1 = some .B1 := congrArg Prod.snd (Option.some.inj hev)
  obtain ⟨c, d, hc, hd, hne⟩ := hAB ⟨0, h0⟩ ⟨1, h1⟩
  exact ⟨res, pLeft, leftPartIdx, pAbove, abovePartIdx, c, d, hres, h0, h1, hc, hd, hne⟩

/-- Witness for C16: the sample CTU without spatial neighbours, with two reference
indices, holds the temporal candidate in slot 0 and pads slots 1 to 4 with
reference indices 0, 1, 0, 0. -/
theorem C16_merge_zero_padding_witness :
    ∃ o2, sampleMergeLone.getInterMergeCandidates sampleGlobals sampleMergePic sampleColPics
        0 0 sampleMergeOut = some (5, o2) ∧
      o2.mvFieldNeighbours 1 0 = ⟨⟨0, 0⟩, 0⟩ ∧ o2.mvFieldNeighbours 2 0 = ⟨⟨0, 0⟩, 1⟩ ∧
      o2.mvFieldNeighbours 3 0 = ⟨⟨0, 0⟩, 0⟩ ∧ o2.mvFieldNeighbours 4 0 = ⟨⟨0, 0⟩, 0⟩ ∧
      o2.interDirNeighbours 4 = 1 := by
  obtain ⟨count, o2, hres, hc, hnz, hpad⟩ := C16_merge_zero_padding sampleMergeLone
    sampleGlobals sampleMergePic sampleColPics 0 0 sampleMergeOut sampleFrame
    { sampleMvpSlice with m_numRefIdx := fun _ => 2 } rfl rfl (by decide)
    (fun l a p mv r => getColMVP_isSome _ _ l a p mv r
      { sampleMvpSlice with m_numRefIdx := fun _ => 2 } 0 rfl rfl
      (fun _ => ⟨_, rfl, fun _ _ => by show (4 : Int) ≠ 2; decide⟩))
    (by decide)
  have hev : (sampleMergeLone.getInterMergeCandidates sampleGlobals sampleMergePic
      sampleColPics 0 0 sampleMergeOut).map (fun r => (r.2.source 0, r.2.source 1))
      = some (some .temporal, some .zero) := by decide
  rw [hres] at hev
  have h0 : o2.source 0 = some .temporal := congrArg Prod.fst (Option.some.inj hev)
  have h1 : o2.source 1 = some .zero := congrArg Prod.snd (Option.some.inj hev)
  have hcount : count = 1 := by
    have hle : count ≤ 1 := by
      by_contra hgt
      exact hnz 1 (by omega) h1
    have hne : count ≠ 0 := by
      intro h
      subst h
      have := (hpad 0 (by decide)).1
      rw [Nat.add_zero, h0] at this
      exact absurd this (by decide)
    omega
  subst hcount
  have p0 := hpad 0 (by decide)
  have p1 := hpad 1 (by decide)
  have p2 := hpad 2 (by decide)
  have p3 := hpad 3 (by decide)
  exact ⟨o2, hres, p0.2.1, p1.2.1, p2.2.1, p3.2.1, p3.2.2.2.2.1 rfl⟩

/-! ## C30: the two address tables are mutual inverses -/

theorem zscanCol_lt (d z : Nat) : zscanCol d z < 2 ^ d := by
  induction d generalizing z with
  | zero => simp [zscanCol]
  | succ d ih =>
    have := ih (z / 4)
    simp only [zscanCol, pow_succ]
    omega

theorem zscanRow_lt (d z : Nat) : zscanRow d z < 2 ^ d := by
  induction d generalizing z with
  | zero => simp [zscanRow]
  | succ d ih =>
    have := ih (z / 4)
    simp only [zscanRow, pow_succ]
    omega

theorem zscanOf_lt (d x y : Nat) : zscanOf d x y < 4 ^ d := by
  induction d generalizing x y with
  | zero => simp [zscanOf]
  | succ d ih =>
    have := ih (x / 2) (y / 2)
    simp only [zscanOf, pow_succ]
    omega

theorem zscanOf_col_row (d z : Nat) (hz : z < 4 ^ d) :
    zscanOf d (zscanCol d z) (zscanRow d z) = z := by
  induction d generalizing z with
  | zero =>
    simp only [pow_zero, Nat.lt_one_iff] at hz
    simp [zscanOf, hz]
  | succ d ih =>
    have h4 : z / 4 < 4 ^ d := by
      rw [pow_succ] at hz
      omega
    have e1 : (2 * zscanCol d (z / 4) + z % 2) / 2 = zscanCol d (z / 4) := by omega
    have e2 : (2 * zscanRow d (z / 4) + z / 2 % 2) / 2 = zscanRow d (z / 4) := by omega
    simp only [zscanOf, zscanCol, zscanRow, e1, e2, ih (z / 4) h4]
    omega

theorem zscanCol_zscanOf (d x y : Nat) (hx : x < 2 ^ d) : zscanCol d (zscanOf d x y) = x := by
  induction d generalizing x y with
  | zero =>
    simp only [pow_zero, Nat.lt_one_iff] at hx
    simp [zscanCol, hx]
  | succ d ih =>
    have h2 : x / 2 < 2 ^ d := by
      rw [pow_succ] at hx
      omega
    have e1 : (4 * zscanOf d (x / 2) (y / 2) + 2 * (y % 2) + x % 2) / 4
        = zscanOf d (x / 2) (y / 2) := by omega
    simp only [zscanOf, zscanCol, e1, ih (x / 2) (y / 2) h2]
    omega

theorem zscanRow_zscanOf (d x y : Nat) (hy : y < 2 ^ d) : zscanRow d (zscanOf d x y) = y := by
  induction d generalizing x y with
  | zero =>
    simp only [pow_zero, Nat.lt_one_iff] at hy
    simp [zscanRow, hy]
  | succ d ih =>
    have h2 : y / 2 < 2 ^ d := by
      rw [pow_succ] at hy
      omega
    have e1 : (4 * zscanOf d (x / 2) (y / 2) + 2 * (y % 2) + x % 2) / 4
        = zscanOf d (x / 2) (y / 2) := by omega
    simp only [zscanOf, zscanRow, e1, ih (x / 2) (y / 2) h2]
    omega

theorem NUM_CU_PARTITIONS_le (g : Globals) : NUM_CU_PARTITIONS g ≤ 4 ^ g.g_maxFullDepth := by
  unfold NUM_CU_PARTITIONS u32
  rw [Nat.one_shiftLeft, Nat.shiftLeft_eq, Nat.mul_comm, pow_mul]
  exact Nat.mod_le _ _

theorem g_rasterToZscan_zscanToRaster (g : Globals) (z : Nat) (hz : z < 4 ^ g.g_maxFullDepth) :
    g_rasterToZscan g (g_zscanToRaster g z) = z := by
  unfold g_rasterToZscan g_zscanToRaster
  have hc := zscanCol_lt g.g_maxFullDepth z
  have hpos : 0 < 2 ^ g.g_maxFullDepth := Nat.two_pow_pos _
  rw [Nat.mul_comm, Nat.mul_add_mod, Nat.mod_eq_of_lt hc,
    Nat.mul_add_div hpos, Nat.div_eq_of_lt hc, Nat.add_zero]
  exact zscanOf_col_row _ z hz

theorem g_zscanToRaster_rasterToZscan (g : Globals) (r : Nat) (hr : r < 4 ^ g.g_maxFullDepth) :
    g_zscanToRaster g (g_rasterToZscan g r) = r := by
  unfold g_rasterToZscan g_zscanToRaster
  have hpos : 0 < 2 ^ g.g_maxFullDepth := Nat.two_pow_pos _
  have hy : r / 2 ^ g.g_maxFullDepth < 2 ^ g.g_maxFullDepth := by
    rw [Nat.div_lt_iff_lt_mul hpos]
    have : (4 : Nat) ^ g.g_maxFullDepth = 2 ^ g.g_maxFullDepth * 2 ^ g.g_maxFullDepth := by
      rw [← Nat.mul_pow]
    omega
  rw [zscanRow_zscanOf _ _ _ hy, zscanCol_zscanOf _ _ _ (Nat.mod_lt _ hpos)]
  exact Nat.div_add_mod' r _

/-- C30: for every index `i` below `NUM_CU_PARTITIONS`, read as a z-scan index
`g_rasterToZscan[g_zscanToRaster[i]] = i`, and read as a raster index
`g_zscanToRaster[g_rasterToZscan[i]] = i`: the two address tables are mutual
inverses. -/
theorem C30_address_tables_inverse (g : Globals) (i : Nat) (hi : i < NUM_CU_PARTITIONS g) :
    g_rasterToZscan g (g_zscanToRaster g i) = i ∧
    g_zscanToRaster g (g_rasterToZscan g i) = i :=
  have h : i < 4 ^ g.g_maxFullDepth := lt_of_lt_of_le hi (NUM_CU_PARTITIONS_le g)
  ⟨g_rasterToZscan_zscanToRaster g i h, g_zscanToRaster_rasterToZscan g i h⟩

/-- Witness for C30: index 38 of a 64x64 CTU. -/
theorem C30_address_tables_inverse_witness :
    38 < NUM_CU_PARTITIONS sampleGlobals ∧ g_zscanToRaster sampleGlobals 38 = 82 ∧
    g_rasterToZscan sampleGlobals (g_zscanToRaster sampleGlobals 38) = 38 ∧
    g_zscanToRaster sampleGlobals (g_rasterToZscan sampleGlobals 38) = 38 :=
  ⟨by decide, by decide,
    (C30_address_tables_inverse sampleGlobals 38 (by decide)).1,
    (C30_address_tables_inverse sampleGlobals 38 (by decide)).2⟩

/-! ## C21: the list `getColMVP` reads the collocated vector from -/

theorem getColMVPScale_eq_map (slice colSlice : Slice) (colCU : CUData)
    (picList outRefIdx l r : Int) (absPartAddr : Nat) :
    getColMVPScale slice colSlice colCU picList outRefIdx l r absPartAddr
      = (getDistScaleFactor slice.m_poc (slice.m_refPOCList picList outRefIdx)
          colSlice.m_poc (colSlice.m_refPOCList l r)).map
        (fun scale => (true, if scale = 4096 then (colCU.cuMvField l).getMv absPartAddr
          else scaleMv ((colCU.cuMvField l).getMv absPartAddr) scale)) := by
  unfold getColMVPScale
  simp only []
  generalize getDistScaleFactor slice.m_poc (slice.m_refPOCList picList outRefIdx)
    colSlice.m_poc (colSlice.m_refPOCList l r) = sf
  cases sf <;> rfl

/-- C21, as the claim states it, fails: in a slice without the low-delay property
whose `m_colFromL0Flag` is set, a call for list 0 on a collocated unit that has
the valid reference index 0 in list 0 (vector (4, -8)) returns the vector (2, 2)
of list 1. -/
theorem C21_getColMVP_list_order_counterexample :
    ((sampleColMixedPics 0 0).cuMvField 0).getRefIdx 0 = 0 ∧
    ((sampleColMixedPics 0 0).cuMvField 0).getMv 0 = ⟨4, -8⟩ ∧
    ((sampleColMixedPics 0 0).cuMvField 1).getMv 0 = ⟨2, 2⟩ ∧
    sampleColMixedSelf.getColMVP sampleColMixedPics 0 0 0 MV.zero 0 = some (true, ⟨2, 2⟩) := by
  decide

/-- C21, amended: on a collocated unit that is set, has a partition mode and is
not intra-coded, the list `getColMVP` tries first is `picList` when the slice has
`m_bCheckLDC` set and the list numbered by `m_colFromL0Flag` otherwise. Whenever
the unit has a valid (non-negative) reference index in that first list, the
collocated vector and the reference POC are taken from it; the other list is
used only when the index in the first list is invalid and the one in the other
list is valid; with both invalid the call returns false. -/
theorem C21_getColMVP_list_order (self : CUData) (refPics : Nat → Nat → CUData)
    (picList : Int) (cuAddr partUnitIdx : Nat) (outMV : MV) (outRefIdx : Int)
    (slice colSlice : Slice) (colPic : Nat)
    (hs : self.m_slice = some slice)
    (hpic : slice.m_refPicList slice.colList slice.m_colRefIdx = some colPic)
    (hfr : (refPics colPic cuAddr).m_frame ≠ none)
    (hps : ((refPics colPic cuAddr).get .partSizes partUnitIdx).val ≠ SIZE_NONE)
    (hcs : (refPics colPic cuAddr).m_slice = some colSlice)
    (hin : (refPics colPic cuAddr).isIntra (partUnitIdx &&& TMVP_UNIT_MASK) = false) :
    let colCU := refPics colPic cuAddr
    let absPartAddr := partUnitIdx &&& TMVP_UNIT_MASK
    let first : Int :=
      if slice.m_bCheckLDC then picList else (if slice.m_colFromL0Flag then 1 else 0)
    let taken := fun (l : Int) =>
      (getDistScaleFactor slice.m_poc (slice.m_refPOCList picList outRefIdx) colSlice.m_poc
          (colSlice.m_refPOCList l ((colCU.cuMvField l).getRefIdx absPartAddr))).map
        (fun scale => (true, if scale = 4096 then (colCU.cuMvField l).getMv absPartAddr
          else scaleMv ((colCU.cuMvField l).getMv absPartAddr) scale))
    (slice.m_bCheckLDC = true → first = picList) ∧
    (0 ≤ (colCU.cuMvField first).getRefIdx absPartAddr →
      self.getColMVP refPics picList cuAddr partUnitIdx outMV outRefIdx = taken first) ∧
    ((colCU.cuMvField first).getRefIdx absPartAddr < 0 →
      0 ≤ (colCU.cuMvField (1 - first)).getRefIdx absPartAddr →
      self.getColMVP refPics picList cuAddr partUnitIdx outMV outRefIdx = taken (1 - first)) ∧
    ((colCU.cuMvField first).getRefIdx absPartAddr < 0 →
      (colCU.cuMvField (1 - first)).getRefIdx absPartAddr < 0 →
      self.getColMVP refPics picList cuAddr partUnitIdx outMV outRefIdx = some (false, outMV)) := by
  intro colCU absPartAddr first taken
  have hun : ¬ ((refPics colPic cuAddr).m_frame.isNone = true ∨
      ((refPics colPic cuAddr).get .partSizes partUnitIdx).val = SIZE_NONE) := by
    rintro (h | h)
    · exact hfr (Option.isNone_iff_eq_none.mp h)
    · exact hps h
  have hin2 : ¬ (refPics colPic cuAddr).isIntra (partUnitIdx &&& TMVP_UNIT_MASK) = true := by
    rw [hin]; exact Bool.false_ne_true
  have hgen : self.getColMVP refPics picList cuAddr partUnitIdx outMV outRefIdx =
      if (colCU.cuMvField first).getRefIdx absPartAddr < 0 then
        if (colCU.cuMvField (1 - first)).getRefIdx absPartAddr < 0 then some (false, outMV)
        else taken (1 - first)
      else taken first := by
    unfold CUData.getColMVP
    simp only [hs, hpic]
    rw [if_neg hun]
    simp only [hcs]
    rw [if_neg hin2]
    simp only [getColMVPScale_eq_map]
  refine ⟨fun h => ?_, fun h => ?_, fun h1 h2 => ?_, fun h1 h2 => ?_⟩
  · show (if slice.m_bCheckLDC then picList else _) = picList
    rw [if_pos h]
  · rw [hgen, if_neg (by omega)]
  · rw [hgen, if_pos h1, if_neg (by omega)]
  · rw [hgen, if_pos h1, if_pos h2]

/-- C21, amended, at a concrete input: in a low-delay slice a call for list 0 on
a collocated unit with vector (4, -8) in list 0 and (2, 2) in list 1 returns the
vector of list 0. -/
theorem C21_getColMVP_list_order_witness :
    sampleColLowDelaySelf.getColMVP sampleColMixedPics 0 0 0 MV.zero 0
      = some (true, ⟨4, -8⟩) := by
  have h := C21_getColMVP_list_order sampleColLowDelaySelf sampleColMixedPics 0 0 0 MV.zero 0
    { sampleColMixedSlice with m_bCheckLDC := true }
    { m_sliceType := 1, m_poc := 4, m_refPOCList := fun _ _ => 0 } 0 rfl rfl
    (by simp [sampleColMixedPics, sampleBlank]) (by decide) rfl (by decide)
  rw [h.2.1 (by decide)]
  decide

/-! ## C22: the most probable luma intra directions -/

theorem neighbourIntraDir_le (cu : Option CUData) (idx : Nat) :
    neighbourIntraDir cu idx ≤ 255 := by
  unfold neighbourIntraDir
  cases cu with
  | none => exact (by decide : DC_IDX ≤ 255)
  | some c =>
    simp only []
    split_ifs
    · have := (c.get .lumaIntraDir idx).isLt
      omega
    · exact (by decide : DC_IDX ≤ 255)

theorem update3_eval (f : Nat → Nat) (a b c : Nat) :
    Function.update (Function.update (Function.update f 0 a) 1 b) 2 c 0 = a ∧
    Function.update (Function.update (Function.update f 0 a) 1 b) 2 c 1 = b ∧
    Function.update (Function.update (Function.update f 0 a) 1 b) 2 c 2 = c ∧
    ∀ i, 3 ≤ i → Function.update (Function.update (Function.update f 0 a) 1 b) 2 c i = f i := by
  refine ⟨by simp [Function.update], by simp [Function.update], by simp [Function.update], ?_⟩
  intro i hi
  have h0 : i ≠ 0 := by omega
  have h1 : i ≠ 1 := by omega
  have h2 : i ≠ 2 := by omega
  simp [Function.update, h0, h1, h2]

theorem angular_neighbour (L k : Nat) (h2 : 2 ≤ L) (hL : L ≤ 255) :
    u32 ((u32 (sub32 L 2 + k) &&& 31) + 2) = (L - 2 + k) % 32 + 2 := by
  have hs : sub32 L 2 = L - 2 := by
    unfold sub32
    omega
  have hand : ∀ x, x &&& 31 = x % 32 := fun x => Nat.and_pow_two_sub_one_eq_mod x 5
  rw [hs, hand]
  unfold u32
  omega

/-- C22: on a container bound to a frame, let L be the luma intra direction of the
unit returned by `getPULeft` and A that of the unit returned by `getPUAbove`
with the CTU-boundary flag set, each replaced by DC when the neighbour is null
or not intra-coded. `getIntraDirLumaPredictor` is defined; if L = A it returns
1 with the list (L, ((L - 2 + 31) mod 32) + 2, ((L - 2 + 1) mod 32) + 2) when
L is at least 2 and (PLANAR, DC, VER) otherwise; if L and A differ it returns 2
with the list (L, A, T), where T is PLANAR when both are non-planar, else VER
when L + A is below 2, else DC. The entries from index 3 on are untouched. -/
theorem C22_getIntraDirLumaPredictor (self : CUData) (g : Globals) (pic : Nat → CUData)
    (absPartIdx : Nat) (intraDirPred : Nat → Nat) (frame : Frame)
    (hf : self.m_frame = some frame) :
    ∃ lCU lIdx aCU aIdx,
      self.getPULeft g (u32 (self.m_absIdxInCTU + absPartIdx)) = some (lCU, lIdx) ∧
      self.getPUAbove g lIdx (u32 (self.m_absIdxInCTU + absPartIdx)) true = some (aCU, aIdx) ∧
      ∃ n p, self.getIntraDirLumaPredictor g pic absPartIdx intraDirPred = some (n, p) ∧
        (neighbourIntraDir (lCU.deref self pic) lIdx = neighbourIntraDir (aCU.deref self pic) aIdx →
          n = 1 ∧
          (2 ≤ neighbourIntraDir (lCU.deref self pic) lIdx →
            p 0 = neighbourIntraDir (lCU.deref self pic) lIdx ∧
            p 1 = (neighbourIntraDir (lCU.deref self pic) lIdx - 2 + 31) % 32 + 2 ∧
            p 2 = (neighbourIntraDir (lCU.deref self pic) lIdx - 2 + 1) % 32 + 2) ∧
          (neighbourIntraDir (lCU.deref self pic) lIdx < 2 →
            p 0 = PLANAR_IDX ∧ p 1 = DC_IDX ∧ p 2 = VER_IDX)) ∧
        (neighbourIntraDir (lCU.deref self pic) lIdx ≠ neighbourIntraDir (aCU.deref self pic) aIdx →
          n = 2 ∧ p 0 = neighbourIntraDir (lCU.deref self pic) lIdx ∧
          p 1 = neighbourIntraDir (aCU.deref self pic) aIdx ∧
          p 2 = (if neighbourIntraDir (lCU.deref self pic) lIdx ≠ PLANAR_IDX ∧
                neighbourIntraDir (aCU.deref self pic) aIdx ≠ PLANAR_IDX then PLANAR_IDX
              else if neighbourIntraDir (lCU.deref self pic) lIdx
                + neighbourIntraDir (aCU.deref self pic) aIdx < 2 then VER_IDX
              else DC_IDX)) ∧
        ∀ i, 3 ≤ i → p i = intraDirPred i := by
  obtain ⟨⟨lCU, lIdx⟩, hl⟩ :=
    getPULeft_isSome self g (u32 (self.m_absIdxInCTU + absPartIdx)) frame hf
  obtain ⟨⟨aCU, aIdx⟩, ha⟩ :=
    getPUAbove_isSome self g lIdx (u32 (self.m_absIdxInCTU + absPartIdx)) true frame hf
  refine ⟨lCU, lIdx, aCU, aIdx, hl, ha, ?_⟩
  have hL := neighbourIntraDir_le (lCU.deref self pic) lIdx
  have hA := neighbourIntraDir_le (aCU.deref self pic) aIdx
  unfold CUData.getIntraDirLumaPredictor
  simp only [hl, ha]
  generalize neighbourIntraDir (lCU.deref self pic) lIdx = L at hL ⊢
  generalize neighbourIntraDir (aCU.deref self pic) aIdx = A at hA ⊢
  by_cases hLA : L = A
  · subst hLA
    by_cases h2 : L ≥ 2
    · rw [if_pos rfl, if_pos h2]
      obtain ⟨e0, e1, e2, e3⟩ := update3_eval intraDirPred L
        (u32 ((u32 (sub32 L 2 + 31) &&& 31) + 2)) (u32 ((u32 (sub32 L 2 + 1) &&& 31) + 2))
      refine ⟨_, _, rfl, fun _ => ⟨rfl, fun _ => ⟨e0, ?_, ?_⟩, fun h => absurd h (by omega)⟩,
        fun h => absurd rfl h, e3⟩
      · rw [e1, angular_neighbour L 31 h2 hL]
      · rw [e2, angular_neighbour L 1 h2 hL]
    · rw [if_pos rfl, if_neg h2]
      obtain ⟨e0, e1, e2, e3⟩ := update3_eval intraDirPred PLANAR_IDX DC_IDX VER_IDX
      exact ⟨_, _, rfl, fun _ => ⟨rfl, fun h => absurd h h2, fun _ => ⟨e0, e1, e2⟩⟩,
        fun h => absurd rfl h, e3⟩
  · rw [if_neg hLA]
    have hu : u32 (L + A) = L + A := by unfold u32; omega
    have hp0 : PLANAR_IDX = 0 := rfl
    by_cases hnz : L ≠ 0 ∧ A ≠ 0
    · obtain ⟨e0, e1, e2, e3⟩ := update3_eval intraDirPred L A PLANAR_IDX
      simp only [if_pos hnz, hp0]
      exact ⟨_, _, rfl, fun h => absurd h hLA, fun _ => ⟨rfl, e0, e1, e2⟩, e3⟩
    · obtain ⟨e0, e1, e2, e3⟩ := update3_eval intraDirPred L A
        (if L + A < 2 then VER_IDX else DC_IDX)
      simp only [if_neg hnz, hp0, hu]
      exact ⟨_, _, rfl, fun h => absurd h hLA, fun _ => ⟨rfl, e0, e1, e2⟩, e3⟩

/-- C22 at a concrete input: unit 3 of a CTU whose units are all intra-coded with
direction 2 has L = A = 2, so the call returns 1 with the list (2, 33, 3). -/
theorem C22_getIntraDirLumaPredictor_witness :
    ∃ p, sampleIntraCU.getIntraDirLumaPredictor sampleGlobals (fun _ => sampleIntraCU) 3
        (fun _ => 0) = some (1, p) ∧ p 0 = 2 ∧ p 1 = 33 ∧ p 2 = 3 := by
  obtain ⟨lCU, lIdx, aCU, aIdx, hl, ha, n, p, hres, heq, -, -⟩ :=
    C22_getIntraDirLumaPredictor sampleIntraCU sampleGlobals (fun _ => sampleIntraCU) 3
      (fun _ => 0) sampleFrame rfl
  have hl2 : sampleIntraCU.getPULeft sampleGlobals (u32 (sampleIntraCU.m_absIdxInCTU + 3))
      = some (.thisCU, 2) := by decide
  rw [hl2] at hl
  obtain ⟨rfl, rfl⟩ := Prod.mk.inj (Option.some.inj hl)
  have ha2 : sampleIntraCU.getPUAbove sampleGlobals 2 (u32 (sampleIntraCU.m_absIdxInCTU + 3)) true
      = some (.thisCU, 1) := by decide
  rw [ha2] at ha
  obtain ⟨rfl, rfl⟩ := Prod.mk.inj (Option.some.inj ha)
  have hLv : neighbourIntraDir (CUPtr.thisCU.deref sampleIntraCU (fun _ => sampleIntraCU)) 2 = 2 := by
    decide
  have hAv : neighbourIntraDir (CUPtr.thisCU.deref sampleIntraCU (fun _ => sampleIntraCU)) 1 = 2 := by
    decide
  rw [hLv, hAv] at heq
  obtain ⟨hn, hang, -⟩ := heq rfl
  obtain ⟨h0, h1, h2⟩ := hang (by decide)
  subst hn
  exact ⟨p, hres, h0, h1, h2⟩

/-! ## C23: the coefficient scan order -/

theorem iabs_eq_abs (v : Int) : iabs v = |v| := by
  unfold iabs
  split_ifs with h
  · exact (abs_of_neg h).symm
  · exact (abs_of_nonneg (by omega)).symm

theorem toInt32_byte (b : Byte) : toInt32 b.val = (b.val : Int) := by
  have := b.isLt
  unfold toInt32
  rw [if_pos (by omega)]
  congr 1
  omega

/-- C23: with a horizontal chroma shift of at most `MDCS_LOG2_MAX_SIZE`,
`getCoefScanIdx` returns SCAN_DIAG for every non-intra block, for every luma
transform with `log2TrSize` above `MDCS_LOG2_MAX_SIZE` and for every chroma
transform with `log2TrSize` above `MDCS_LOG2_MAX_SIZE - m_hChromaShift`.
Otherwise, with d the luma direction for luma and the resolved chroma direction
for chroma (a chroma direction `DM_CHROMA_IDX` resolves to the luma direction of
the unit, or of the first unit of its group of four outside 4:4:4, mapped
through the 4:2:2 angle table for 4:2:2), it returns SCAN_HOR iff d is within
`MDCS_ANGLE_LIMIT` of `VER_IDX`, SCAN_VER iff d is within `MDCS_ANGLE_LIMIT` of
`HOR_IDX`, and SCAN_DIAG iff neither holds; the two windows are disjoint. -/
theorem C23_getCoefScanIdx (self : CUData) (angleMap : Nat → Byte)
    (absPartIdx log2TrSize : Nat) (bIsLuma bIsIntra : Bool)
    (hshift : self.m_hChromaShift ≤ MDCS_LOG2_MAX_SIZE) :
    let luma := self.get .lumaIntraDir absPartIdx
    let chroma := self.get .chromaIntraDir absPartIdx
    let derived := self.get .lumaIntraDir
      (if self.m_chromaFormat = X265_CSP_I444 then absPartIdx else absPartIdx &&& 0xFC)
    let resolved : Byte :=
      if chroma.val = DM_CHROMA_IDX then
        (if self.m_chromaFormat = X265_CSP_I422 then angleMap derived.val else derived)
      else chroma
    let d : Int := ((if bIsLuma then luma else resolved).val : Int)
    let limit := if bIsLuma then MDCS_LOG2_MAX_SIZE else MDCS_LOG2_MAX_SIZE - self.m_hChromaShift
    let r := self.getCoefScanIdx angleMap absPartIdx log2TrSize bIsLuma bIsIntra
    (bIsIntra = false → r = .SCAN_DIAG) ∧
    (bIsIntra = true → log2TrSize > limit → r = .SCAN_DIAG) ∧
    (bIsIntra = true → log2TrSize ≤ limit →
      (r = .SCAN_HOR ↔ |d - VER_IDX| ≤ MDCS_ANGLE_LIMIT) ∧
      (r = .SCAN_VER ↔ |d - HOR_IDX| ≤ MDCS_ANGLE_LIMIT) ∧
      (r = .SCAN_DIAG ↔ ¬ |d - VER_IDX| ≤ MDCS_ANGLE_LIMIT ∧ ¬ |d - HOR_IDX| ≤ MDCS_ANGLE_LIMIT)) ∧
    ¬ (|d - VER_IDX| ≤ MDCS_ANGLE_LIMIT ∧ |d - HOR_IDX| ≤ MDCS_ANGLE_LIMIT) := by
  intro luma chroma derived resolved d limit r
  have hsub : sub32 MDCS_LOG2_MAX_SIZE self.m_hChromaShift
      = MDCS_LOG2_MAX_SIZE - self.m_hChromaShift := by
    have : MDCS_LOG2_MAX_SIZE = 3 := rfl
    rw [this] at hshift ⊢
    unfold sub32
    omega
  have hscan : ∀ b : Byte,
      let s := (if iabs (toInt32 b.val - VER_IDX) ≤ MDCS_ANGLE_LIMIT then ScanType.SCAN_HOR
        else if iabs (toInt32 b.val - HOR_IDX) ≤ MDCS_ANGLE_LIMIT then ScanType.SCAN_VER
        else ScanType.SCAN_DIAG)
      (s = .SCAN_HOR ↔ |(b.val : Int) - VER_IDX| ≤ MDCS_ANGLE_LIMIT) ∧
      (s = .SCAN_VER ↔ |(b.val : Int) - HOR_IDX| ≤ MDCS_ANGLE_LIMIT) ∧
      (s = .SCAN_DIAG ↔ ¬ |(b.val : Int) - VER_IDX| ≤ MDCS_ANGLE_LIMIT ∧
        ¬ |(b.val : Int) - HOR_IDX| ≤ MDCS_ANGLE_LIMIT) := by
    intro b s
    have hs : s = (if |(b.val : Int) - VER_IDX| ≤ MDCS_ANGLE_LIMIT then ScanType.SCAN_HOR
        else if |(b.val : Int) - HOR_IDX| ≤ MDCS_ANGLE_LIMIT then ScanType.SCAN_VER
        else ScanType.SCAN_DIAG) := by
      show (if iabs (toInt32 b.val - VER_IDX) ≤ MDCS_ANGLE_LIMIT then ScanType.SCAN_HOR
        else if iabs (toInt32 b.val - HOR_IDX) ≤ MDCS_ANGLE_LIMIT then ScanType.SCAN_VER
        else ScanType.SCAN_DIAG) = _
      rw [iabs_eq_abs, iabs_eq_abs, toInt32_byte]
    rw [hs]
    have hdis : ¬ (|(b.val : Int) - VER_IDX| ≤ MDCS_ANGLE_LIMIT ∧
        |(b.val : Int) - HOR_IDX| ≤ MDCS_ANGLE_LIMIT) := by
      show ¬ (|(b.val : Int) - ((26 : Nat) : Int)| ≤ 4 ∧ |(b.val : Int) - ((10 : Nat) : Int)| ≤ 4)
      rw [abs_le, abs_le]
      omega
    by_cases h1 : |(b.val : Int) - VER_IDX| ≤ MDCS_ANGLE_LIMIT
    · have h2 : ¬ |(b.val : Int) - HOR_IDX| ≤ MDCS_ANGLE_LIMIT := fun h => hdis ⟨h1, h⟩
      rw [if_pos h1]
      simp [h1, h2]
    · rw [if_neg h1]
      by_cases h2 : |(b.val : Int) - HOR_IDX| ≤ MDCS_ANGLE_LIMIT
      · rw [if_pos h2]
        simp [h1, h2]
      · rw [if_neg h2]
        simp [h1, h2]
  have hr : bIsIntra = true → log2TrSize ≤ limit →
      r = (if iabs (toInt32 (if bIsLuma then luma else resolved).val - VER_IDX) ≤ MDCS_ANGLE_LIMIT
          then ScanType.SCAN_HOR
        else if iabs (toInt32 (if bIsLuma then luma else resolved).val - HOR_IDX)
            ≤ MDCS_ANGLE_LIMIT then ScanType.SCAN_VER
        else ScanType.SCAN_DIAG) := by
    intro hi hlim
    show self.getCoefScanIdx angleMap absPartIdx log2TrSize bIsLuma bIsIntra = _
    unfold CUData.getCoefScanIdx
    subst hi
    simp only [Bool.not_true, Bool.false_eq_true, if_false]
    cases bIsLuma with
    | true =>
      have hl : ¬ log2TrSize > MDCS_LOG2_MAX_SIZE := by
        have : limit = MDCS_LOG2_MAX_SIZE := rfl
        omega
      simp only [if_true, if_neg hl]
    | false =>
      have hl : ¬ log2TrSize > sub32 MDCS_LOG2_MAX_SIZE self.m_hChromaShift := by
        have : limit = MDCS_LOG2_MAX_SIZE - self.m_hChromaShift := rfl
        rw [hsub]
        omega
      simp only [Bool.false_eq_true, if_false, if_neg hl]
      by_cases hdm : (self.get .chromaIntraDir absPartIdx).val = DM_CHROMA_IDX
      · have hres : resolved = (if self.m_chromaFormat = X265_CSP_I422 then angleMap derived.val
            else derived) := if_pos hdm
        rw [if_pos hdm, hres]
        by_cases h422 : self.m_chromaFormat = X265_CSP_I422
        · simp only [if_pos h422]
        · simp only [if_neg h422]
      · have hres : resolved = chroma := if_neg hdm
        rw [if_neg hdm, hres]
  refine ⟨?_, ?_, ?_, ?_⟩
  · intro hi
    show self.getCoefScanIdx angleMap absPartIdx log2TrSize bIsLuma bIsIntra = _
    unfold CUData.getCoefScanIdx
    subst hi
    rfl
  · intro hi hlim
    show self.getCoefScanIdx angleMap absPartIdx log2TrSize bIsLuma bIsIntra = _
    unfold CUData.getCoefScanIdx
    subst hi
    simp only [Bool.not_true, Bool.false_eq_true, if_false]
    cases bIsLuma with
    | true =>
      have hl : log2TrSize > MDCS_LOG2_MAX_SIZE := hlim
      simp only [if_true, if_pos hl]
    | false =>
      have hl : log2TrSize > sub32 MDCS_LOG2_MAX_SIZE self.m_hChromaShift := by
        rw [hsub]
        exact hlim
      simp only [Bool.false_eq_true, if_false, if_pos hl]
  · intro hi hlim
    rw [hr hi hlim]
    exact hscan _
  · have := (hscan (if bIsLuma then luma else resolved)).2.2
    show ¬ (|(((if bIsLuma then luma else resolved).val : Nat) : Int) - VER_IDX| ≤ MDCS_ANGLE_LIMIT ∧
      |(((if bIsLuma then luma else resolved).val : Nat) : Int) - HOR_IDX| ≤ MDCS_ANGLE_LIMIT)
    show ¬ (|(((if bIsLuma then luma else resolved).val : Nat) : Int) - ((26 : Nat) : Int)| ≤ 4 ∧
      |(((if bIsLuma then luma else resolved).val : Nat) : Int) - ((10 : Nat) : Int)| ≤ 4)
    rw [abs_le, abs_le]
    omega

/-- C23 at a concrete input: a 4x4 luma transform of an intra unit with the
vertical direction 26 is scanned horizontally. -/
theorem C23_getCoefScanIdx_witness :
    sampleVerCU.m_hChromaShift ≤ MDCS_LOG2_MAX_SIZE ∧
    sampleVerCU.getCoefScanIdx (fun _ => 0) 0 2 true true = .SCAN_HOR := by
  have h := C23_getCoefScanIdx sampleVerCU (fun _ => 0) 0 2 true true (by decide)
  exact ⟨by decide, (h.2.2.1 rfl (by decide)).1.mpr (by decide)⟩

/-! ## C26: the intra reference queries never hand out an unusable CTU -/

/-- C26: on a container bound to a frame and a slice, `getPUBelowLeftAdi` and
`getPUAboveRightAdi` are defined and return null, the container itself, the own
CTU, or a neighbouring CTU reference that is set and whose slice is set; the
above-right reference is returned only if its recorded address does not exceed
the own address. At the CTU boundary, where the neighbour reference is
consulted (column zero for below-left; row zero for above-right, the above
reference while the unit is `partUnitOffset` columns from the right edge and the
above-right reference otherwise), the result is null whenever the reference is
excluded. -/
theorem C26_adi_neighbours (self : CUData) (g : Globals) (pic : Nat → CUData)
    (blPartUnitIdx arPartUnitIdx curPartUnitIdx partUnitOffset : Nat)
    (frame : Frame) (slice : Slice)
    (hf : self.m_frame = some frame) (hs : self.m_slice = some slice) :
    let r := g_zscanToRaster g curPartUnitIdx
    let n := frame.m_numPartInCUSize
    let own := fun (p : CUPtr) => p = .null ∨ p = .thisCU ∨ p = .picCTU self.m_cuAddr
    let usable := fun (ref : Option Nat) (p : CUPtr) =>
      ∃ a, ref = some a ∧ (pic a).m_slice ≠ none ∧ p = .picCTU a
    let causal := fun (p : CUPtr) =>
      ∃ a, self.m_cuAboveRight = some a ∧ (pic a).m_slice ≠ none ∧
        (pic a).m_cuAddr ≤ self.m_cuAddr ∧ p = .picCTU a
    (∃ p i, self.getPUBelowLeftAdi g pic blPartUnitIdx curPartUnitIdx partUnitOffset
        = some (p, i) ∧
      (own p ∨ usable self.m_cuLeft p) ∧
      (isZeroCol r n = true → p = .null ∨ usable self.m_cuLeft p)) ∧
    (∃ p i, self.getPUAboveRightAdi g pic arPartUnitIdx curPartUnitIdx partUnitOffset
        = some (p, i) ∧
      (own p ∨ usable self.m_cuAbove p ∨ causal p) ∧
      (isZeroRow r n = true → lessThanCol r (sub32 n partUnitOffset) n = true →
        p = .null ∨ usable self.m_cuAbove p) ∧
      (isZeroRow r n = true → lessThanCol r (sub32 n partUnitOffset) n = false →
        p = .null ∨ causal p)) := by
  intro r n own usable causal
  constructor
  · unfold CUData.getPUBelowLeftAdi
    simp only [hf, hs]
    by_cases h1 : u32 (u32 ((pic self.m_cuAddr).m_cuPelY + g_zscanToPelY g curPartUnitIdx)
          + u32 (partUnitOffset <<< LOG2_UNIT_SIZE)) ≥ slice.picHeightInLumaSamples
    · rw [if_pos h1]
      exact ⟨_, _, rfl, Or.inl (Or.inl rfl), fun _ => Or.inl rfl⟩
    rw [if_neg h1]
    by_cases h2 : lessThanRow r (sub32 n partUnitOffset) n = true
    swap
    · rw [if_neg h2]
      exact ⟨_, _, rfl, Or.inl (Or.inl rfl), fun _ => Or.inl rfl⟩
    rw [if_pos h2]
    by_cases h3 : isZeroCol r n = true
    · have h3n : ¬ ((!isZeroCol r n) = true) := by rw [h3]; decide
      rw [if_neg h3n]
      cases hl : self.m_cuLeft with
      | none => exact ⟨_, _, rfl, Or.inl (Or.inl rfl), fun _ => Or.inl rfl⟩
      | some a =>
        simp only []
        by_cases h4 : (pic a).m_slice.isNone = true
        · rw [if_pos h4]
          exact ⟨_, _, rfl, Or.inl (Or.inl rfl), fun _ => Or.inl rfl⟩
        · rw [if_neg h4]
          have hu : usable (some a) (.picCTU a) :=
            ⟨a, rfl, fun h => h4 (by rw [h]; rfl), rfl⟩
          exact ⟨_, _, rfl, Or.inr hu, fun _ => Or.inr hu⟩
    · have h3p : (!isZeroCol r n) = true := by
        cases h : isZeroCol r n
        · rfl
        · exact absurd h h3
      rw [if_pos h3p]
      split_ifs
      · exact ⟨_, _, rfl, Or.inl (Or.inr (Or.inr rfl)), fun h => absurd h h3⟩
      · exact ⟨_, _, rfl, Or.inl (Or.inr (Or.inl rfl)), fun h => absurd h h3⟩
      · exact ⟨_, _, rfl, Or.inl (Or.inl rfl), fun h => absurd h h3⟩
  · unfold CUData.getPUAboveRightAdi
    simp only [hf, hs]
    by_cases h1 : u32 (u32 ((pic self.m_cuAddr).m_cuPelX + g_zscanToPelX g curPartUnitIdx)
          + u32 (partUnitOffset <<< LOG2_UNIT_SIZE)) ≥ slice.picWidthInLumaSamples
    · rw [if_pos h1]
      exact ⟨_, _, rfl, Or.inl (Or.inl rfl), fun _ _ => Or.inl rfl, fun _ _ => Or.inl rfl⟩
    rw [if_neg h1]
    by_cases h3 : isZeroRow r n = true
    · have h3n : ¬ ((!isZeroRow r n) = true) := by rw [h3]; decide
      by_cases h2 : lessThanCol r (sub32 n partUnitOffset) n = true
      · rw [if_pos h2, if_neg h3n]
        have h2f : ¬ lessThanCol r (sub32 n partUnitOffset) n = false := by rw [h2]; decide
        cases hl : self.m_cuAbove with
        | none =>
          exact ⟨_, _, rfl, Or.inl (Or.inl rfl), fun _ _ => Or.inl rfl, fun _ h => absurd h h2f⟩
        | some a =>
          simp only []
          by_cases h4 : (pic a).m_slice.isNone = true
          · rw [if_pos h4]
            exact ⟨_, _, rfl, Or.inl (Or.inl rfl), fun _ _ => Or.inl rfl,
              fun _ h => absurd h h2f⟩
          · rw [if_neg h4]
            have hu : usable (some a) (.picCTU a) :=
              ⟨a, rfl, fun h => h4 (by rw [h]; rfl), rfl⟩
            exact ⟨_, _, rfl, Or.inr (Or.inl hu), fun _ _ => Or.inr hu,
              fun _ h => absurd h h2f⟩
      · rw [if_neg h2, if_neg h3n]
        cases hl : self.m_cuAboveRight with
        | none =>
          exact ⟨_, _, rfl, Or.inl (Or.inl rfl), fun _ h => absurd h h2, fun _ _ => Or.inl rfl⟩
        | some a =>
          simp only []
          by_cases h4 : (pic a).m_slice.isNone = true ∨ (pic a).m_cuAddr > self.m_cuAddr
          · rw [if_pos h4]
            exact ⟨_, _, rfl, Or.inl (Or.inl rfl), fun _ h => absurd h h2,
              fun _ _ => Or.inl rfl⟩
          · rw [if_neg h4]
            have hu : causal (.picCTU a) :=
              ⟨a, hl, fun h => h4 (Or.inl (by rw [h]; rfl)),
                Nat.le_of_not_lt (fun h => h4 (Or.inr h)), rfl⟩
            exact ⟨_, _, rfl, Or.inr (Or.inr hu), fun _ h => absurd h h2, fun _ _ => Or.inr hu⟩
    · have h3p : (!isZeroRow r n) = true := by
        cases h : isZeroRow r n
        · rfl
        · exact absurd h h3
      simp only [if_pos h3p]
      split_ifs
      · exact ⟨_, _, rfl, Or.inl (Or.inr (Or.inr rfl)), fun h => absurd h h3,
          fun h => absurd h h3⟩
      · exact ⟨_, _, rfl, Or.inl (Or.inr (Or.inl rfl)), fun h => absurd h h3,
          fun h => absurd h h3⟩
      · exact ⟨_, _, rfl, Or.inl (Or.inl rfl), fun h => absurd h h3, fun h => absurd h h3⟩
      · exact ⟨_, _, rfl, Or.inl (Or.inl rfl), fun h => absurd h h3, fun h => absurd h h3⟩

/-- C26 at a concrete input: the left CTU of the sample has no slice and the
above-right CTU a larger address, so the below-left query at unit 0 and the
above-right query at unit 85 (row 0, last column) both return null. -/
theorem C26_adi_neighbours_witness :
    (∃ i, sampleAdiSelf.getPUBelowLeftAdi sampleGlobals sampleAdiPic 0 0 1 = some (.null, i)) ∧
    (∃ i, sampleAdiSelf.getPUAboveRightAdi sampleGlobals sampleAdiPic 0 85 1
      = some (.null, i)) := by
  have h := C26_adi_neighbours sampleAdiSelf sampleGlobals sampleAdiPic 0 0 0 1
    sampleFrame sampleMvpSlice rfl rfl
  have h2 := C26_adi_neighbours sampleAdiSelf sampleGlobals sampleAdiPic 0 0 85 1
    sampleFrame sampleMvpSlice rfl rfl
  constructor
  · obtain ⟨p, i, hres, -, hb⟩ := h.1
    rcases hb (by decide) with hp | ⟨a, ha, hsl, -⟩
    · subst hp
      exact ⟨i, hres⟩
    · have ha3 : a = 3 := (Option.some.inj ha).symm
      subst ha3
      exact absurd rfl hsl
  · obtain ⟨p, i, hres, -, -, hb⟩ := h2.2
    rcases hb (by decide) (by decide) with hp | ⟨a, ha, -, hle, -⟩
    · subst hp
      exact ⟨i, hres⟩
    · have ha2 : a = 2 := (Option.some.inj ha).symm
      subst ha2
      exact absurd hle (by decide)

/-! ## The quantization-parameter queries -/

theorem asChar_range (b : Byte) : -128 ≤ asChar b ∧ asChar b ≤ 127 := by
  have := b.isLt
  unfold asChar
  split_ifs <;> omega

theorem toInt32_sub32 (a b : Nat) (ha : a < 2 ^ 31) (hb : b < 2 ^ 31) :
    toInt32 (sub32 a b) = (a : Int) - b := by
  unfold toInt32 sub32
  have h1 : b % 2 ^ 32 = b := Nat.mod_eq_of_lt (by omega)
  rw [h1]
  by_cases hab : b ≤ a
  · have h2 : (a + 2 ^ 32 - b) % 2 ^ 32 = a - b := by omega
    rw [Nat.mod_mod, h2, if_pos (by omega)]
    omega
  · have h2 : (a + 2 ^ 32 - b) % 2 ^ 32 = a + 2 ^ 32 - b := by omega
    rw [Nat.mod_mod, h2, if_neg (by omega)]
    omega

theorem lastValidLoop_ends (self : CUData) (hw : self.qpScanReady) :
    ∀ (fuel : Nat) (idx : Int), idx < 2 ^ 31 → idx + 2 ≤ fuel → 1 ≤ fuel →
      ∃ v, self.lastValidLoop fuel idx = some v ∧ v ≤ idx ∧
        (0 ≤ v → (self.get .predModes v.toNat).val ≠ MODE_NONE) := by
  intro fuel
  induction fuel with
  | zero =>
    intro idx h1 h2 h3
    omega
  | succ fuel ih =>
    intro idx h1 h2 _
    unfold CUData.lastValidLoop
    by_cases hc : idx ≥ 0 ∧ (self.get .predModes idx.toNat).val = MODE_NONE
    · rw [if_pos hc]
      simp only []
      have hstep := hw.2.2.2 idx.toNat hc.2
      have hle : self.m_numPartitions >>> ((self.get .depth idx.toNat).val <<< 1)
          ≤ self.m_numPartitions := by
        rw [Nat.shiftRight_eq_div_pow]
        exact Nat.div_le_self _ _
      have hnum := hw.2.2.1
      have hconv := toInt32_sub32 idx.toNat
        (self.m_numPartitions >>> ((self.get .depth idx.toNat).val <<< 1)) (by omega) (by omega)
      rw [hconv]
      have hidx : ((idx.toNat : Nat) : Int) = idx := Int.toNat_of_nonneg hc.1
      obtain ⟨v, hv, hvle, hvm⟩ := ih
        ((idx.toNat : Int)
          - (self.m_numPartitions >>> ((self.get .depth idx.toNat).val <<< 1) : Nat))
        (by omega) (by omega) (by omega)
      exact ⟨v, hv, by omega, hvm⟩
    · rw [if_neg hc]
      refine ⟨idx, rfl, le_refl _, fun h0 hm => hc ⟨h0, hm⟩⟩

theorem lastValidLoop_uncoded (self : CUData) (hw : self.qpScanReady) :
    ∀ (fuel : Nat) (idx : Int), idx < 2 ^ 31 → idx + 2 ≤ fuel → 1 ≤ fuel →
      (∀ i : Nat, (i : Int) ≤ idx → (self.get .predModes i).val = MODE_NONE) →
      ∃ v, self.lastValidLoop fuel idx = some v ∧ v < 0 := by
  intro fuel idx h1 h2 h3 hun
  obtain ⟨v, hv, hvle, hvm⟩ := lastValidLoop_ends self hw fuel idx h1 h2 h3
  refine ⟨v, hv, ?_⟩
  by_contra hneg
  have h0 : 0 ≤ v := by omega
  apply hvm h0
  apply hun
  rw [Int.toNat_of_nonneg h0]
  exact hvle

theorem getLastCodedQP_range (g : Globals) (pic : Nat → CUData) :
    ∀ (fuel : Nat) (self : CUData) (absPartIdx : Nat) (q : Int),
      CUData.getLastCodedQP g pic fuel self absPartIdx = some q → -128 ≤ q ∧ q ≤ 127 := by
  intro fuel
  induction fuel with
  | zero =>
    intro self absPartIdx q h
    rw [CUData.getLastCodedQP] at h
    exact absurd h (by simp)
  | succ fuel ih =>
    intro self absPartIdx q h
    rw [CUData.getLastCodedQP] at h
    split at h
    · exact absurd h (by simp)
    · split at h
      · exact absurd h (by simp)
      · split_ifs at h
        · cases h
          exact asChar_range _
        · split at h
          · exact absurd h (by simp)
          · exact ih _ _ _ h
        · split at h
          · exact absurd h (by simp)
          · split at h
            · exact absurd h (by simp)
            · exact ih _ _ _ h
          · cases h
            exact asChar_range _

theorem getQpMinCuLeft_eq (self : CUData) (g : Globals) (l cur : Nat) (frame : Frame)
    (slice : Slice) (hf : self.m_frame = some frame) (hs : self.m_slice = some slice) :
    self.getQpMinCuLeft g l cur =
      if isZeroCol (g_zscanToRaster g (cur &&& quPartIdxMask g slice)) frame.m_numPartInCUSize
          = true then some (CUPtr.null, l)
      else some (CUPtr.picCTU self.m_cuAddr,
        g_rasterToZscan g (sub32 (g_zscanToRaster g (cur &&& quPartIdxMask g slice)) 1)) := by
  unfold CUData.getQpMinCuLeft
  simp only [hf, hs]

theorem getQpMinCuAbove_eq (self : CUData) (g : Globals) (a cur : Nat) (frame : Frame)
    (slice : Slice) (hf : self.m_frame = some frame) (hs : self.m_slice = some slice) :
    self.getQpMinCuAbove g a cur =
      if isZeroRow (g_zscanToRaster g (cur &&& quPartIdxMask g slice)) frame.m_numPartInCUSize
          = true then some (CUPtr.null, a)
      else some (CUPtr.picCTU self.m_cuAddr,
        g_rasterToZscan g (sub32 (g_zscanToRaster g (cur &&& quPartIdxMask g slice))
          frame.m_numPartInCUSize)) := by
  unfold CUData.getQpMinCuAbove
  simp only [hf, hs]

theorem getRefQP_eq (self : CUData) (g : Globals) (pic : Nat → CUData) (fuel : Nat)
    (curAbsIdxInCTU : Nat) (frame : Frame) (slice : Slice)
    (hf : self.m_frame = some frame) (hs : self.m_slice = some slice)
    (r n : Nat)
    (hr : r = g_zscanToRaster g
      (u32 (self.m_absIdxInCTU + curAbsIdxInCTU) &&& quPartIdxMask g slice))
    (hn : n = frame.m_numPartInCUSize) (L A : Int)
    (hleft : (if isZeroCol r n = true then
        CUData.getLastCodedQP g pic fuel self curAbsIdxInCTU
      else some (asChar ((pic self.m_cuAddr).get .qp (g_rasterToZscan g (sub32 r 1)))))
        = some L)
    (habove : (if isZeroRow r n = true then
        CUData.getLastCodedQP g pic fuel self curAbsIdxInCTU
      else some (asChar ((pic self.m_cuAddr).get .qp (g_rasterToZscan g (sub32 r n)))))
        = some A) :
    self.getRefQP g pic fuel curAbsIdxInCTU
      = some (asChar (u8i ((L + A + 1) >>> (1 : Nat)))) := by
  unfold CUData.getRefQP
  rw [getQpMinCuLeft_eq self g 0 _ frame slice hf hs,
    getQpMinCuAbove_eq self g 0 _ frame slice hf hs, ← hr, ← hn]
  by_cases hzc : isZeroCol r n = true <;> by_cases hzr : isZeroRow r n = true
  · rw [if_pos hzc] at hleft ⊢
    rw [if_pos hzr] at habove ⊢
    have hLA : L = A := Option.some.inj (hleft.symm.trans habove)
    subst hLA
    simp only [CUPtr.deref, hleft]
  · rw [if_pos hzc] at hleft ⊢
    rw [if_neg hzr] at habove ⊢
    cases habove
    simp only [CUPtr.deref, hleft]
  · rw [if_neg hzc] at hleft ⊢
    rw [if_pos hzr] at habove ⊢
    cases hleft
    simp only [CUPtr.deref, habove]
  · rw [if_neg hzc] at hleft ⊢
    rw [if_neg hzr] at habove ⊢
    cases hleft
    cases habove
    simp only [CUPtr.deref]

/-- C24: on a container bound to a frame and a slice, let r be the raster index
of the top-left unit of the quantization group of `m_absIdxInCTU + idx`. Let L
be the QP stored in the own CTU at the z-scan index of raster index r - 1 when r
is not in column zero, and `getLastCodedQP(idx)` otherwise; let A be the QP at
the z-scan index of raster index r minus the row length when r is not in row
zero, and `getLastCodedQP(idx)` otherwise. Then `getRefQP(idx)` is
`(L + A + 1) >> 1`, which lies between the smaller and the larger of L and A. -/
theorem C24_getRefQP (self : CUData) (g : Globals) (pic : Nat → CUData) (fuel : Nat)
    (curAbsIdxInCTU : Nat) (frame : Frame) (slice : Slice)
    (hf : self.m_frame = some frame) (hs : self.m_slice = some slice) :
    let r := g_zscanToRaster g (u32 (self.m_absIdxInCTU + curAbsIdxInCTU) &&& quPartIdxMask g slice)
    let n := frame.m_numPartInCUSize
    let left := if isZeroCol r n = true then CUData.getLastCodedQP g pic fuel self curAbsIdxInCTU
      else some (asChar ((pic self.m_cuAddr).get .qp (g_rasterToZscan g (sub32 r 1))))
    let above := if isZeroRow r n = true then CUData.getLastCodedQP g pic fuel self curAbsIdxInCTU
      else some (asChar ((pic self.m_cuAddr).get .qp (g_rasterToZscan g (sub32 r n))))
    ∀ L A, left = some L → above = some A →
      self.getRefQP g pic fuel curAbsIdxInCTU = some ((L + A + 1) >>> (1 : Nat)) ∧
      min L A ≤ (L + A + 1) >>> (1 : Nat) ∧ (L + A + 1) >>> (1 : Nat) ≤ max L A := by
  intro r n left above L A hL hA
  have hLr : -128 ≤ L ∧ L ≤ 127 := by
    by_cases hz : isZeroCol r n = true
    · have : CUData.getLastCodedQP g pic fuel self curAbsIdxInCTU = some L := by
        rw [← hL]; exact (if_pos hz).symm
      exact getLastCodedQP_range g pic fuel self curAbsIdxInCTU L this
    · have : some (asChar ((pic self.m_cuAddr).get .qp (g_rasterToZscan g (sub32 r 1))))
          = some L := by
        rw [← hL]; exact (if_neg hz).symm
      cases this
      exact asChar_range _
  have hAr : -128 ≤ A ∧ A ≤ 127 := by
    by_cases hz : isZeroRow r n = true
    · have : CUData.getLastCodedQP g pic fuel self curAbsIdxInCTU = some A := by
        rw [← hA]; exact (if_pos hz).symm
      exact getLastCodedQP_range g pic fuel self curAbsIdxInCTU A this
    · have : some (asChar ((pic self.m_cuAddr).get .qp (g_rasterToZscan g (sub32 r n))))
          = some A := by
        rw [← hA]; exact (if_neg hz).symm
      cases this
      exact asChar_range _
  have hdiv : (L + A + 1) >>> (1 : Nat) = (L + A + 1) / 2 := by
    rw [Int.shiftRight_eq_div_pow]
    rfl
  rw [getRefQP_eq self g pic fuel curAbsIdxInCTU frame slice hf hs r n rfl rfl L A hL hA]
  rw [asChar_u8i _ (by rw [hdiv]; omega) (by rw [hdiv]; omega), hdiv]
  refine ⟨rfl, ?_, ?_⟩
  · rcases le_total L A with h | h
    · rw [min_eq_left h]; omega
    · rw [min_eq_right h]; omega
  · rcases le_total L A with h | h
    · rw [max_eq_right h]; omega
    · rw [max_eq_left h]; omega

/-- C24 at a concrete input: with quantization groups of 8x8 pixels, unit 12 of a
CTU whose unit `i` has QP `20 + i` has its left neighbour at unit 9 and its above
neighbour at unit 6, so the reference QP is (29 + 26 + 1) >> 1 = 28. -/
theorem C24_getRefQP_witness :
    (sampleQpCoded 0).getRefQP sampleGlobals sampleQpCoded 0 12 = some 28 := by
  have h := C24_getRefQP (sampleQpCoded 0) sampleGlobals sampleQpCoded 0 12 sampleFrame
    sampleQpSlice rfl rfl 29 26 (by decide) (by decide)
  rw [h.1]
  decide

/-! ## The array written by `calcCTUGeoms` -/

theorem foldl_update_miss {α β : Type} (key : β → Nat) (val : β → α) (l : List β)
    (arr : Nat → α) (i : Nat) (h : ∀ b ∈ l, key b ≠ i) :
    l.foldl (fun arr b => Function.update arr (key b) (val b)) arr i = arr i := by
  induction l using List.reverseRecOn with
  | nil => rfl
  | append_singleton t c ih =>
    rw [List.foldl_append]
    simp only [List.foldl_cons, List.foldl_nil]
    rw [Function.update_noteq (fun e => h c (by simp) e.symm)]
    exact ih (fun b hb => h b (by simp [hb]))

theorem foldl_update_hit {α β : Type} (key : β → Nat) (val : β → α) (l : List β)
    (arr : Nat → α) (b : β) (hb : b ∈ l)
    (hinj : ∀ c ∈ l, key c = key b → val c = val b) :
    l.foldl (fun arr b => Function.update arr (key b) (val b)) arr (key b) = val b := by
  induction l using List.reverseRecOn with
  | nil => exact absurd hb (List.not_mem_nil _)
  | append_singleton t c ih =>
    rw [List.foldl_append]
    simp only [List.foldl_cons, List.foldl_nil]
    by_cases hk : key c = key b
    · rw [← hk, Function.update_same]
      exact hinj c (by simp) hk
    · rw [Function.update_noteq (Ne.symm hk)]
      have hbt : b ∈ t := by
        rcases List.mem_append.mp hb with h | h
        · exact h
        · have : b = c := by simpa using h
          exact absurd (by rw [this]) hk
      exact ih hbt (fun c' hc' => hinj c' (by simp [hc']))

theorem foldl_flatMap_eq {α β γ : Type} (l : List β) (f : β → List γ) (g : α → γ → α)
    (init : α) :
    (l.flatMap f).foldl g init = l.foldl (fun acc y => (f y).foldl g acc) init := by
  induction l generalizing init with
  | nil => rfl
  | cons a t ih =>
    rw [List.flatMap_cons, List.foldl_append, ih]
    rfl

theorem geomLevel_eq (self : CUData) (g : Globals) (W H M l r : Nat) (arr : Nat → CUGeom) :
    self.geomLevel g W H M l r arr =
      ((List.range (u32 (1 <<< sub32 (g_log2Size M) l))).flatMap (fun y =>
          (List.range (u32 (1 <<< sub32 (g_log2Size M) l))).map (fun x => (y, x)))).foldl
        (fun arr p => Function.update arr (self.geomEntry g W H M l r p.1 p.2).1
          (self.geomEntry g W H M l r p.1 p.2).2) arr := by
  unfold CUData.geomLevel
  rw [foldl_flatMap_eq]
  simp only [List.foldl_map]

theorem mem_pairs (w : Nat) (p : Nat × Nat) :
    p ∈ (List.range w).flatMap (fun y => (List.range w).map (fun x => (y, x)))
      ↔ p.1 < w ∧ p.2 < w := by
  simp only [List.mem_flatMap, List.mem_map, List.mem_range]
  constructor
  · rintro ⟨y, hy, x, hx, rfl⟩
    exact ⟨hy, hx⟩
  · rintro ⟨h1, h2⟩
    exact ⟨p.1, h1, p.2, h2, rfl⟩

theorem zscanOf_three_lt (d x y : Nat) (hd : d ≤ 3) (hx : x < 2 ^ d) (hy : y < 2 ^ d) :
    zscanOf 3 x y < 4 ^ d := by
  interval_cases d
  · interval_cases x
    interval_cases y
    decide
  · interval_cases x <;> interval_cases y <;> decide
  · interval_cases x <;> interval_cases y <;> decide
  · exact zscanOf_lt 3 x y

theorem zscanOf_three_inj (x y x2 y2 : Nat) (hx : x < 8) (hy : y < 8) (hx2 : x2 < 8)
    (hy2 : y2 < 8) (h : zscanOf 3 x y = zscanOf 3 x2 y2) : x = x2 ∧ y = y2 := by
  have h1 := zscanCol_zscanOf 3 x y hx
  have h2 := zscanRow_zscanOf 3 x y hy
  have h3 := zscanCol_zscanOf 3 x2 y2 hx2
  have h4 := zscanRow_zscanOf 3 x2 y2 hy2
  rw [h] at h1 h2
  exact ⟨h1.symm.trans h3, h2.symm.trans h4⟩

theorem geomEntry_index (self : CUData) (g : Globals) (W H M l r y x : Nat) :
    (self.geomEntry g W H M l r y x).1 = u32 (r + zscanOf 3 x y) := rfl

theorem geomLevel_hit (self : CUData) (g : Globals) (W H M l r : Nat) (arr : Nat → CUGeom)
    (d : Nat) (hw : u32 (1 <<< sub32 (g_log2Size M) l) = 2 ^ d) (hd : d ≤ 3)
    (hr : r + 64 ≤ 2 ^ 32) (x y : Nat) (hx : x < 2 ^ d) (hy : y < 2 ^ d) :
    self.geomLevel g W H M l r arr (r + zscanOf 3 x y)
      = (self.geomEntry g W H M l r y x).2 := by
  have h8 : 2 ^ d ≤ 8 := by
    calc 2 ^ d ≤ 2 ^ 3 := Nat.pow_le_pow_right (by decide) hd
      _ = 8 := rfl
  have hu : ∀ a b : Nat, a < 8 → b < 8 → u32 (r + zscanOf 3 a b) = r + zscanOf 3 a b := by
    intro a b _ _
    have := zscanOf_lt 3 a b
    unfold u32
    apply Nat.mod_eq_of_lt
    have : (4 : Nat) ^ 3 = 64 := rfl
    omega
  rw [geomLevel_eq, hw]
  have hkey : r + zscanOf 3 x y = (self.geomEntry g W H M l r (y, x).1 (y, x).2).1 := by
    rw [geomEntry_index]
    exact (hu x y (by omega) (by omega)).symm
  rw [hkey]
  apply foldl_update_hit (fun p : Nat × Nat => (self.geomEntry g W H M l r p.1 p.2).1)
    (fun p : Nat × Nat => (self.geomEntry g W H M l r p.1 p.2).2) _ arr (y, x)
  · exact (mem_pairs _ _).mpr ⟨hy, hx⟩
  · intro c hc hkc
    obtain ⟨hc1, hc2⟩ := (mem_pairs _ _).mp hc
    simp only [geomEntry_index] at hkc
    rw [hu c.2 c.1 (by omega) (by omega), hu x y (by omega) (by omega)] at hkc
    obtain ⟨e1, e2⟩ := zscanOf_three_inj c.2 c.1 x y (by omega) (by omega) (by omega)
      (by omega) (by omega)
    show (self.geomEntry g W H M l r c.1 c.2).2 = (self.geomEntry g W H M l r y x).2
    rw [e1, e2]

theorem geomLevel_miss (self : CUData) (g : Globals) (W H M l r : Nat) (arr : Nat → CUGeom)
    (d : Nat) (hw : u32 (1 <<< sub32 (g_log2Size M) l) = 2 ^ d) (hd : d ≤ 3)
    (hr : r + 64 ≤ 2 ^ 32) (i : Nat) (hi : i < r ∨ r + 4 ^ d ≤ i) :
    self.geomLevel g W H M l r arr i = arr i := by
  rw [geomLevel_eq, hw]
  apply foldl_update_miss (fun p : Nat × Nat => (self.geomEntry g W H M l r p.1 p.2).1)
    (fun p : Nat × Nat => (self.geomEntry g W H M l r p.1 p.2).2)
  intro c hc
  obtain ⟨hc1, hc2⟩ := (mem_pairs _ _).mp hc
  have hlt := zscanOf_three_lt d c.2 c.1 hd hc2 hc1
  have h64 : 4 ^ d ≤ 64 := by
    calc 4 ^ d ≤ 4 ^ 3 := Nat.pow_le_pow_right (by decide) hd
      _ = 64 := rfl
  show (self.geomEntry g W H M l r c.1 c.2).1 ≠ i
  rw [geomEntry_index]
  have : u32 (r + zscanOf 3 c.2 c.1) = r + zscanOf 3 c.2 c.1 := by
    unfold u32
    apply Nat.mod_eq_of_lt
    omega
  rw [this]
  omega

theorem geomBase_le (d : Nat) (hd : d ≤ 4) : geomBase d ≤ 85 := by
  interval_cases d <;> decide

theorem sbWidth_eq (k l : Nat) (hl : l ≤ k) (hk : k ≤ 6) :
    u32 (1 <<< sub32 k l) = 2 ^ (k - l) := by
  have hs : sub32 k l = k - l := by
    unfold sub32
    omega
  rw [hs, Nat.one_shiftLeft]
  unfold u32
  apply Nat.mod_eq_of_lt
  calc 2 ^ (k - l) ≤ 2 ^ 6 := Nat.pow_le_pow_right (by decide) (by omega)
    _ < 2 ^ 32 := by decide

/-- What the loops of `calcCTUGeoms` leave in the array, from block size `l` on:
the entries below `r` are untouched and the entry of every block of depth at
least `k - l` holds the descriptor computed for it. -/
theorem geomLoop_spec (self : CUData) (g : Globals) (W H M k : Nat)
    (hk : g_log2Size M = k) (hk6 : k ≤ 6) :
    ∀ (l r : Nat) (arr : Nat → CUGeom), l ≤ k → r = geomBase (k - l) →
      (∀ i, i < r → self.geomLoop g W H M l r arr i = arr i) ∧
      (∀ d x y, k - l ≤ d → d + 3 ≤ k → x < 2 ^ d → y < 2 ^ d →
        self.geomLoop g W H M l r arr (geomBase d + zscanOf 3 x y)
          = (self.geomEntry g W H M (k - d) (geomBase d) y x).2) := by
  intro l
  induction l with
  | zero =>
    intro r arr _ _
    exact ⟨fun i _ => rfl, fun d x y h1 h2 => by omega⟩
  | succ l ih =>
    intro r arr hl hr
    rw [CUData.geomLoop]
    by_cases h3 : l + 1 ≥ MIN_LOG2_CU_SIZE
    · rw [if_pos h3]
      have hmin : MIN_LOG2_CU_SIZE = 3 := rfl
      rw [hmin] at h3
      have hw : u32 (1 <<< sub32 (g_log2Size M) (l + 1)) = 2 ^ (k - (l + 1)) := by
        rw [hk]
        exact sbWidth_eq k (l + 1) hl hk6
      have he : k - (l + 1) ≤ 3 := by omega
      have hsq : 2 ^ (k - (l + 1)) * 2 ^ (k - (l + 1)) = 4 ^ (k - (l + 1)) := by
        rw [← Nat.mul_pow]
      have h64 : 4 ^ (k - (l + 1)) ≤ 64 := by
        calc 4 ^ (k - (l + 1)) ≤ 4 ^ 3 := Nat.pow_le_pow_right (by decide) he
          _ = 64 := rfl
      have hrb : r ≤ 85 := by
        rw [hr]
        exact geomBase_le _ (by omega)
      have hkl : k - l = (k - (l + 1)) + 1 := by omega
      have hr2 : u32 (r + u32 (u32 (1 <<< sub32 (g_log2Size M) (l + 1))
          * u32 (1 <<< sub32 (g_log2Size M) (l + 1)))) = geomBase (k - l) := by
        rw [hw, hsq, hkl, geomBase, ← hr]
        unfold u32
        omega
      rw [hr2]
      obtain ⟨ihlow, ihhit⟩ := ih (geomBase (k - l))
        (self.geomLevel g W H M (l + 1) r arr) (by omega) rfl
      have hbase : geomBase (k - l) = r + 4 ^ (k - (l + 1)) := by
        rw [hkl, geomBase, ← hr]
      constructor
      · intro i hi
        rw [ihlow i (by omega)]
        exact geomLevel_miss self g W H M (l + 1) r arr _ hw he (by omega) i (Or.inl hi)
      · intro d x y hd1 hd2 hx hy
        by_cases hdd : d = k - (l + 1)
        · subst hdd
          have hlt := zscanOf_three_lt _ x y he hx hy
          rw [ihlow _ (by rw [hbase, ← hr]; omega), ← hr]
          have hkd : k - (k - (l + 1)) = l + 1 := by omega
          rw [hkd]
          exact geomLevel_hit self g W H M (l + 1) r arr _ hw he (by omega) x y hx hy
        · exact ihhit d x y (by omega) hd2 hx hy
    · rw [if_neg h3]
      have hmin : MIN_LOG2_CU_SIZE = 3 := rfl
      rw [hmin] at h3
      exact ⟨fun i _ => rfl, fun d x y h1 h2 => by omega⟩

/-- The descriptor that `calcCTUGeoms` leaves for the block of depth `d` at
position (x, y) of the grid of that depth. -/
theorem calcCTUGeoms_entry (self : CUData) (g : Globals) (M k : Nat) (arr : Nat → CUGeom)
    (frame : Frame) (hf : self.m_frame = some frame) (hk : g_log2Size M = k) (hk6 : k ≤ 6) :
    ∃ out, self.calcCTUGeoms g M arr = some out ∧
      ∀ d x y, d + 3 ≤ k → x < 2 ^ d → y < 2 ^ d →
        out (geomBase d + g_depthScanIdx y x)
          = (self.geomEntry g frame.m_picWidth frame.m_picHeight M (k - d) (geomBase d) y x).2 := by
  unfold CUData.calcCTUGeoms
  simp only [hf]
  refine ⟨_, rfl, ?_⟩
  intro d x y hd hx hy
  rw [hk]
  exact (geomLoop_spec self g frame.m_picWidth frame.m_picHeight M k hk hk6 k 0 arr
    (le_refl _) (by rw [Nat.sub_self]; rfl)).2 d x y (by omega) hd hx hy

theorem g_log2Size_two_pow (k : Nat) : g_log2Size (2 ^ k) = k := by
  unfold g_log2Size
  exact Nat.log2_two_pow

theorem geomFlags_spec (p s lf : Nat) (hp : p = 0 ∨ p = 1) (hs : s = 0 ∨ s = 1)
    (hl : lf = 0 ∨ lf = 1) :
    (CU_SET_FLAG (CU_SET_FLAG (CU_SET_FLAG 0 CUGeom.PRESENT p)
        (CUGeom.SPLIT_MANDATORY ||| CUGeom.SPLIT) s) CUGeom.LEAF lf &&& CUGeom.PRESENT ≠ 0
      ↔ p = 1) ∧
    (CU_SET_FLAG (CU_SET_FLAG (CU_SET_FLAG 0 CUGeom.PRESENT p)
        (CUGeom.SPLIT_MANDATORY ||| CUGeom.SPLIT) s) CUGeom.LEAF lf &&& CUGeom.SPLIT_MANDATORY ≠ 0
      ↔ s = 1) ∧
    (CU_SET_FLAG (CU_SET_FLAG (CU_SET_FLAG 0 CUGeom.PRESENT p)
        (CUGeom.SPLIT_MANDATORY ||| CUGeom.SPLIT) s) CUGeom.LEAF lf &&& CUGeom.SPLIT ≠ 0
      ↔ s = 1) ∧
    (CU_SET_FLAG (CU_SET_FLAG (CU_SET_FLAG 0 CUGeom.PRESENT p)
        (CUGeom.SPLIT_MANDATORY ||| CUGeom.SPLIT) s) CUGeom.LEAF lf &&& CUGeom.LEAF ≠ 0
      ↔ lf = 1) := by
  rcases hp with rfl | rfl <;> rcases hs with rfl | rfl <;> rcases hl with rfl | rfl <;> decide

/-- The flags of a descriptor, read off the three tests of the loop body. -/
theorem geomEntry_flags (self : CUData) (g : Globals) (W H M l r y x : Nat) :
    let px := u32 (self.m_cuPelX + u32 (x * u32 (1 <<< l)))
    let py := u32 (self.m_cuPelY + u32 (y * u32 (1 <<< l)))
    let present := px < W ∧ py < H
    let crosses := u32 (px + u32 (1 <<< l)) > W ∨ u32 (py + u32 (1 <<< l)) > H
    let flags := (self.geomEntry g W H M l r y x).2.flags
    (flags &&& CUGeom.PRESENT ≠ 0 ↔ present) ∧
    (flags &&& CUGeom.SPLIT_MANDATORY ≠ 0 ↔ present ∧ l ≠ MIN_LOG2_CU_SIZE ∧ crosses) ∧
    (flags &&& CUGeom.SPLIT ≠ 0 ↔ present ∧ l ≠ MIN_LOG2_CU_SIZE ∧ crosses) ∧
    (flags &&& CUGeom.LEAF ≠ 0 ↔ l = MIN_LOG2_CU_SIZE) := by
  intro px py present crosses flags
  have hflags : flags = CU_SET_FLAG (CU_SET_FLAG (CU_SET_FLAG 0 CUGeom.PRESENT
        (if present then 1 else 0))
      (CUGeom.SPLIT_MANDATORY ||| CUGeom.SPLIT)
      (if (if present then 1 else 0) ≠ 0 ∧ (if l = MIN_LOG2_CU_SIZE then 1 else 0) = 0
        ∧ crosses then 1 else 0))
      CUGeom.LEAF (if l = MIN_LOG2_CU_SIZE then 1 else 0) := rfl
  have h01 : ∀ (c : Prop) [Decidable c], (if c then 1 else 0) = 0 ∨ (if c then 1 else 0) = 1 := by
    intro c _
    by_cases h : c
    · right; exact if_pos h
    · left; exact if_neg h
  have hiff : ∀ (c : Prop) [Decidable c], (if c then 1 else 0) = 1 ↔ c := by
    intro c _
    by_cases h : c
    · simp [h]
    · simp [h]
  have hne : ((if present then 1 else 0) ≠ 0 ∧ (if l = MIN_LOG2_CU_SIZE then 1 else 0) = 0
      ∧ crosses) ↔ present ∧ l ≠ MIN_LOG2_CU_SIZE ∧ crosses := by
    by_cases h1 : present <;> by_cases h2 : l = MIN_LOG2_CU_SIZE <;> simp [h1, h2]
  obtain ⟨f1, f2, f3, f4⟩ := geomFlags_spec (if present then 1 else 0)
    (if (if present then 1 else 0) ≠ 0 ∧ (if l = MIN_LOG2_CU_SIZE then 1 else 0) = 0
      ∧ crosses then 1 else 0)
    (if l = MIN_LOG2_CU_SIZE then 1 else 0) (h01 _) (h01 _) (h01 _)
  rw [hflags]
  exact ⟨f1.trans (hiff _), f2.trans ((hiff _).trans hne), f3.trans ((hiff _).trans hne),
    f4.trans (hiff _)⟩

theorem block_bound (k d x : Nat) (hd : d ≤ k) (hx : x < 2 ^ d) :
    x * 2 ^ (k - d) + 2 ^ (k - d) ≤ 2 ^ k := by
  have h1 : (x + 1) * 2 ^ (k - d) ≤ 2 ^ d * 2 ^ (k - d) := Nat.mul_le_mul_right _ hx
  have h2 : 2 ^ d * 2 ^ (k - d) = 2 ^ k := by
    rw [← pow_add]
    congr 1
    omega
  rw [Nat.add_mul, Nat.one_mul, h2] at h1
  exact h1

theorem blockSize_eq (l : Nat) (hl : l ≤ 6) : u32 (1 <<< l) = 2 ^ l := by
  rw [Nat.one_shiftLeft]
  unfold u32
  apply Nat.mod_eq_of_lt
  calc 2 ^ l ≤ 2 ^ 6 := Nat.pow_le_pow_right (by decide) hl
    _ < 2 ^ 32 := by decide

/-- Without 32-bit overflow the pixel tests of the loop body are the plain ones. -/
theorem geomEntry_flags_plain (self : CUData) (g : Globals) (W H M k d r y x : Nat)
    (hk6 : k ≤ 6) (hd : d ≤ k) (hx : x < 2 ^ d) (hy : y < 2 ^ d)
    (hX : self.m_cuPelX + 2 ^ k < 2 ^ 32) (hY : self.m_cuPelY + 2 ^ k < 2 ^ 32) :
    let px := self.m_cuPelX + x * 2 ^ (k - d)
    let py := self.m_cuPelY + y * 2 ^ (k - d)
    let present := px < W ∧ py < H
    let crosses := px + 2 ^ (k - d) > W ∨ py + 2 ^ (k - d) > H
    let flags := (self.geomEntry g W H M (k - d) r y x).2.flags
    (flags &&& CUGeom.PRESENT ≠ 0 ↔ present) ∧
    (flags &&& CUGeom.SPLIT_MANDATORY ≠ 0 ↔ present ∧ k - d ≠ MIN_LOG2_CU_SIZE ∧ crosses) ∧
    (flags &&& CUGeom.SPLIT ≠ 0 ↔ present ∧ k - d ≠ MIN_LOG2_CU_SIZE ∧ crosses) ∧
    (flags &&& CUGeom.LEAF ≠ 0 ↔ k - d = MIN_LOG2_CU_SIZE) := by
  have hB := blockSize_eq (k - d) (by omega)
  have hbx := block_bound k d x hd hx
  have hby := block_bound k d y hd hy
  have hu : ∀ n, n < 2 ^ 32 → u32 n = n := fun n hn => Nat.mod_eq_of_lt hn
  have h := geomEntry_flags self g W H M (k - d) r y x
  simp only [hB] at h
  rw [hu (x * 2 ^ (k - d)) (by omega), hu (y * 2 ^ (k - d)) (by omega),
    hu (self.m_cuPelX + x * 2 ^ (k - d)) (by omega),
    hu (self.m_cuPelY + y * 2 ^ (k - d)) (by omega),
    hu (self.m_cuPelX + x * 2 ^ (k - d) + 2 ^ (k - d)) (by omega),
    hu (self.m_cuPelY + y * 2 ^ (k - d) + 2 ^ (k - d)) (by omega)] at h
  exact h

theorem dvd_step (M a b : Nat) (ha : M ∣ a) (hb : M ∣ b) (h : a < b) : a + M ≤ b := by
  obtain ⟨ca, rfl⟩ := ha
  obtain ⟨cb, rfl⟩ := hb
  have hlt : ca < cb := Nat.lt_of_mul_lt_mul_left h
  have : M * (ca + 1) ≤ M * cb := Nat.mul_le_mul_left _ hlt
  rw [Nat.mul_add, Nat.mul_one] at this
  exact this

/-! ## C27: a CTU inside a picture made of whole CTUs -/

/-- C27: let the maximum CTU size be a power of two up to 64 that divides the
picture width and height, and let the CTU origin be a multiple of it inside the
picture. `calcCTUGeoms` is defined, and every descriptor it generates, that
is the one of each block of each depth down to the 8x8 blocks, has the PRESENT
flag set and the SPLIT_MANDATORY flag clear. -/
theorem C27_calcCTUGeoms_inside (self : CUData) (g : Globals) (M k : Nat)
    (arr : Nat → CUGeom) (frame : Frame)
    (hf : self.m_frame = some frame)
    (hM : M = 2 ^ k) (hhi : k ≤ 6)
    (hW : M ∣ frame.m_picWidth) (hH : M ∣ frame.m_picHeight)
    (hWb : frame.m_picWidth < 2 ^ 32) (hHb : frame.m_picHeight < 2 ^ 32)
    (hX : M ∣ self.m_cuPelX) (hY : M ∣ self.m_cuPelY)
    (hXin : self.m_cuPelX < frame.m_picWidth) (hYin : self.m_cuPelY < frame.m_picHeight) :
    ∃ out, self.calcCTUGeoms g M arr = some out ∧
      ∀ d x y, d + MIN_LOG2_CU_SIZE ≤ k → x < 2 ^ d → y < 2 ^ d →
        (out (geomBase d + g_depthScanIdx y x)).flags &&& CUGeom.PRESENT ≠ 0 ∧
        (out (geomBase d + g_depthScanIdx y x)).flags &&& CUGeom.SPLIT_MANDATORY = 0 := by
  have hmin : MIN_LOG2_CU_SIZE = 3 := rfl
  have hk : g_log2Size M = k := by rw [hM]; exact g_log2Size_two_pow k
  obtain ⟨out, hout, hentry⟩ := calcCTUGeoms_entry self g M k arr frame hf hk hhi
  refine ⟨out, hout, ?_⟩
  intro d x y hd hx hy
  rw [hmin] at hd
  rw [hentry d x y hd hx hy]
  have hsx := dvd_step M _ _ hX hW hXin
  have hsy := dvd_step M _ _ hY hH hYin
  rw [hM] at hsx hsy
  have hbx := block_bound k d x (by omega) hx
  have hby := block_bound k d y (by omega) hy
  have hpos : 0 < 2 ^ (k - d) := Nat.two_pow_pos _
  obtain ⟨f1, f2, -, -⟩ := geomEntry_flags_plain self g frame.m_picWidth frame.m_picHeight M k d
    (geomBase d) y x hhi (by omega) hx hy (by omega) (by omega)
  constructor
  · exact f1.mpr ⟨by omega, by omega⟩
  · by_contra h
    obtain ⟨-, -, hc⟩ := f2.mp h
    omega

/-- C27 at a concrete input: for the second CTU of a 128x64 picture with 64x64
CTUs, the descriptor of the top-right 32x32 block (array index 2) is present and
not split-mandatory. -/
theorem C27_calcCTUGeoms_inside_witness :
    ∃ out, sampleGeomCU.calcCTUGeoms sampleGlobals 64 sampleGeoms = some out ∧
      (out 2).flags &&& CUGeom.PRESENT ≠ 0 ∧ (out 2).flags &&& CUGeom.SPLIT_MANDATORY = 0 := by
  obtain ⟨out, hout, hall⟩ := C27_calcCTUGeoms_inside sampleGeomCU sampleGlobals 64 6 sampleGeoms
    sampleGeomFrame rfl (by decide) (by decide) (by decide) (by decide) (by decide) (by decide)
    (by decide) (by decide) (by decide) (by decide)
  exact ⟨out, hout, hall 1 1 0 (by decide) (by decide) (by decide)⟩

/-! ## C28: when a block is split-mandatory and when it is a leaf -/

/-- C28: let the maximum CTU size be a power of two up to 64, with the CTU far
enough from the 32-bit limit. For every descriptor that `calcCTUGeoms`
generates, for the block of depth d at grid position (x, y), of size `2 ^ (k - d)`
with top-left pixel (px, py): `log2CUSize` is `k - d`; PRESENT is set iff the
top-left pixel lies inside the picture; SPLIT_MANDATORY, and likewise SPLIT, is
set iff the block is present, LEAF is clear, and the block crosses the right or
the bottom picture edge; LEAF is set iff `log2CUSize` is `MIN_LOG2_CU_SIZE`. -/
theorem C28_calcCTUGeoms_flags (self : CUData) (g : Globals) (M k : Nat)
    (arr : Nat → CUGeom) (frame : Frame)
    (hf : self.m_frame = some frame)
    (hM : M = 2 ^ k) (hhi : k ≤ 6)
    (hX : self.m_cuPelX + M < 2 ^ 32) (hY : self.m_cuPelY + M < 2 ^ 32) :
    ∃ out, self.calcCTUGeoms g M arr = some out ∧
      ∀ d x y, d + MIN_LOG2_CU_SIZE ≤ k → x < 2 ^ d → y < 2 ^ d →
        let cu := out (geomBase d + g_depthScanIdx y x)
        let size := 2 ^ (k - d)
        let px := self.m_cuPelX + x * size
        let py := self.m_cuPelY + y * size
        let present := px < frame.m_picWidth ∧ py < frame.m_picHeight
        let crosses := px + size > frame.m_picWidth ∨ py + size > frame.m_picHeight
        cu.log2CUSize = k - d ∧
        (cu.flags &&& CUGeom.PRESENT ≠ 0 ↔ present) ∧
        (cu.flags &&& CUGeom.SPLIT_MANDATORY ≠ 0
          ↔ present ∧ cu.flags &&& CUGeom.LEAF = 0 ∧ crosses) ∧
        (cu.flags &&& CUGeom.SPLIT ≠ 0 ↔ present ∧ cu.flags &&& CUGeom.LEAF = 0 ∧ crosses) ∧
        (cu.flags &&& CUGeom.LEAF ≠ 0 ↔ cu.log2CUSize = MIN_LOG2_CU_SIZE) := by
  have hmin : MIN_LOG2_CU_SIZE = 3 := rfl
  have hk : g_log2Size M = k := by rw [hM]; exact g_log2Size_two_pow k
  obtain ⟨out, hout, hentry⟩ := calcCTUGeoms_entry self g M k arr frame hf hk hhi
  refine ⟨out, hout, ?_⟩
  intro d x y hd hx hy
  rw [hmin] at hd
  rw [hM] at hX hY
  obtain ⟨f1, f2, f3, f4⟩ := geomEntry_flags_plain self g frame.m_picWidth frame.m_picHeight
    M k d (geomBase d) y x hhi (by omega) hx hy hX hY
  simp only [hentry d x y hd hx hy]
  have hleaf : (self.geomEntry g frame.m_picWidth frame.m_picHeight M (k - d) (geomBase d)
      y x).2.flags &&& CUGeom.LEAF = 0 ↔ k - d ≠ MIN_LOG2_CU_SIZE := by
    constructor
    · intro h0 h3
      exact (f4.mpr h3) h0
    · intro hne
      by_contra h
      exact hne (f4.mp h)
  refine ⟨rfl, f1, ?_, ?_, f4⟩
  · rw [hleaf]
    exact f2
  · rw [hleaf]
    exact f3

/-- C28 at a concrete input: in a 100x64 picture the 64x64 block of the second CTU
starts at pixel 64 and ends beyond the right edge, so it is present and
split-mandatory and not a leaf. -/
theorem C28_calcCTUGeoms_flags_witness :
    ∃ out, sampleEdgeCU.calcCTUGeoms sampleGlobals 64 sampleGeoms = some out ∧
      (out 0).flags &&& CUGeom.PRESENT ≠ 0 ∧ (out 0).flags &&& CUGeom.SPLIT_MANDATORY ≠ 0 ∧
      (out 0).flags &&& CUGeom.LEAF = 0 := by
  obtain ⟨out, hout, hall⟩ := C28_calcCTUGeoms_flags sampleEdgeCU sampleGlobals 64 6 sampleGeoms
    sampleEdgeFrame rfl (by decide) (by decide) (by decide) (by decide)
  obtain ⟨h0, h1, h2, -, h4⟩ := hall 0 0 0 (by decide) (by decide) (by decide)
  have hp : (out 0).flags &&& CUGeom.PRESENT ≠ 0 := h1.mpr (by decide)
  have hl : (out 0).flags &&& CUGeom.LEAF = 0 := by
    by_contra h
    have := h4.mp h
    rw [h0] at this
    exact absurd this (by decide)
  exact ⟨out, hout, hp, h2.mpr ⟨by decide, hl, by decide⟩, hl⟩

/-! ## C29: the quadtree structure of the descriptors -/

theorem pow4_facts (k d : Nat) (hk6 : k ≤ 6) (hd : d + 3 ≤ k) :
    4 ^ (k - 2 - d) = 4 ^ (k - 2) >>> (2 * d) ∧ 4 ≤ 4 ^ (k - 2 - d) ∧
    4 ^ (k - 2 - d) ≤ 4 ^ (k - 2) ∧
    (d + 4 ≤ k → 4 * 4 ^ (k - 2 - (d + 1)) = 4 ^ (k - 2 - d) ∧
      4 ^ (k - 2 - (d + 1)) = 4 ^ (k - d - 3)) := by
  have hdu : d ≤ 3 := by omega
  have hkl : 3 ≤ k := by omega
  interval_cases k <;> interval_cases d <;> omega

theorem child_index (x y q : Nat) (hx : x < 4) (hy : y < 4) (hq : q < 4) :
    zscanOf 3 (2 * x + q % 2) (2 * y + q / 2) = 4 * zscanOf 3 x y + q := by
  interval_cases x <;> interval_cases y <;> interval_cases q <;> decide

theorem encodeIdx_child (l x y q : Nat) (hl : 4 ≤ l) (hl6 : l ≤ 6)
    (hx : x * 2 ^ l + 2 ^ l ≤ 64) (hy : y * 2 ^ l + 2 ^ l ≤ 64) (hq : q < 4) :
    u32 (zscanOf 3 (u32 ((2 * x + q % 2) * u32 (1 <<< (l - 1))) >>> 3)
        (u32 ((2 * y + q / 2) * u32 (1 <<< (l - 1))) >>> 3) * 4)
      = u32 (zscanOf 3 (u32 (x * u32 (1 <<< l)) >>> 3) (u32 (y * u32 (1 <<< l)) >>> 3) * 4)
        + q * 4 ^ (l - 3) := by
  interval_cases l
  · have hx3 : x ≤ 3 := by omega
    have hy3 : y ≤ 3 := by omega
    interval_cases x <;> interval_cases y <;> interval_cases q <;> decide
  · have hx3 : x ≤ 1 := by omega
    have hy3 : y ≤ 1 := by omega
    interval_cases x <;> interval_cases y <;> interval_cases q <;> decide
  · have hx3 : x = 0 := by omega
    have hy3 : y = 0 := by omega
    subst hx3
    subst hy3
    interval_cases q <;> decide

/-- The fields of a descriptor that do not depend on the picture. -/
theorem geomEntry_structure (self : CUData) (g : Globals) (W H M k d y x : Nat)
    (hk : g_log2Size M = k) (hL : g.g_maxLog2CUSize = k) (hF : g.g_maxFullDepth + 2 = k)
    (hk6 : k ≤ 6) (hd : d + 3 ≤ k) (hx : x < 2 ^ d) (hy : y < 2 ^ d) :
    (self.geomEntry g W H M (k - d) (geomBase d) y x).2.log2CUSize = k - d ∧
    (self.geomEntry g W H M (k - d) (geomBase d) y x).2.depth = d ∧
    (self.geomEntry g W H M (k - d) (geomBase d) y x).2.numPartitions = 4 ^ (k - 2 - d) ∧
    (self.geomEntry g W H M (k - d) (geomBase d) y x).2.childOffset
      = 4 ^ d + 3 * zscanOf 3 x y ∧
    (self.geomEntry g W H M (k - d) (geomBase d) y x).2.encodeIdx
      = u32 (zscanOf 3 (u32 (x * u32 (1 <<< (k - d))) >>> 3)
          (u32 (y * u32 (1 <<< (k - d))) >>> 3) * 4) ∧
    NUM_CU_PARTITIONS g = 4 ^ (k - 2) := by
  have hFv : g.g_maxFullDepth = k - 2 := by omega
  have hnum : NUM_CU_PARTITIONS g = 4 ^ (k - 2) := by
    unfold NUM_CU_PARTITIONS
    rw [hFv]
    clear hk hL hF hFv hx hy
    have hkl : 3 ≤ k := by omega
    interval_cases k <;> decide
  refine ⟨rfl, ?_, ?_, ?_, rfl, hnum⟩
  · show sub32 (g_log2Size M) (k - d) = d
    rw [hk]
    unfold sub32
    omega
  · show NUM_CU_PARTITIONS g >>> u32 (sub32 g.g_maxLog2CUSize (k - d) * 2) = 4 ^ (k - 2 - d)
    rw [hnum, hL]
    clear hk hL hF hFv hx hy hnum
    have hdu : d ≤ 3 := by omega
    have hkl : 3 ≤ k := by omega
    interval_cases k <;> interval_cases d <;> first | omega | decide
  · have hw : u32 (1 <<< sub32 (g_log2Size M) (k - d)) = 2 ^ d := by
      rw [hk, sbWidth_eq k (k - d) (by omega) hk6]
      congr 1
      omega
    have hsq : 2 ^ d * 2 ^ d = 4 ^ d := by rw [← Nat.mul_pow]
    have hz := zscanOf_three_lt d x y (by omega) hx hy
    have h64 : 4 ^ d ≤ 64 := by
      calc 4 ^ d ≤ 4 ^ 3 := Nat.pow_le_pow_right (by decide) (by omega)
        _ = 64 := rfl
    have hrb := geomBase_le d (by omega)
    show sub32 (u32 (u32 (geomBase d + u32 (u32 (1 <<< sub32 (g_log2Size M) (k - d))
        * u32 (1 <<< sub32 (g_log2Size M) (k - d)))) + u32 (zscanOf 3 x y <<< 2)))
      (u32 (geomBase d + zscanOf 3 x y)) = 4 ^ d + 3 * zscanOf 3 x y
    rw [hw, hsq, Nat.shiftLeft_eq]
    unfold sub32 u32
    omega

/-- A non-leaf descriptor and the descriptor of its quadrant `q`. -/
theorem geomEntry_parent_child (self : CUData) (g : Globals) (W H M k d y x q : Nat)
    (hk : g_log2Size M = k) (hL : g.g_maxLog2CUSize = k) (hF : g.g_maxFullDepth + 2 = k)
    (hk6 : k ≤ 6) (hd : d + 4 ≤ k) (hx : x < 2 ^ d) (hy : y < 2 ^ d) (hq : q < 4) :
    geomBase d + zscanOf 3 x y
        + (self.geomEntry g W H M (k - d) (geomBase d) y x).2.childOffset + q
      = geomBase (d + 1) + zscanOf 3 (2 * x + q % 2) (2 * y + q / 2) ∧
    (self.geomEntry g W H M (k - (d + 1)) (geomBase (d + 1)) (2 * y + q / 2)
        (2 * x + q % 2)).2.log2CUSize + 1
      = (self.geomEntry g W H M (k - d) (geomBase d) y x).2.log2CUSize ∧
    (self.geomEntry g W H M (k - (d + 1)) (geomBase (d + 1)) (2 * y + q / 2)
        (2 * x + q % 2)).2.depth
      = (self.geomEntry g W H M (k - d) (geomBase d) y x).2.depth + 1 ∧
    4 * (self.geomEntry g W H M (k - (d + 1)) (geomBase (d + 1)) (2 * y + q / 2)
        (2 * x + q % 2)).2.numPartitions
      = (self.geomEntry g W H M (k - d) (geomBase d) y x).2.numPartitions ∧
    (self.geomEntry g W H M (k - (d + 1)) (geomBase (d + 1)) (2 * y + q / 2)
        (2 * x + q % 2)).2.encodeIdx
      = (self.geomEntry g W H M (k - d) (geomBase d) y x).2.encodeIdx
        + q * (self.geomEntry g W H M (k - (d + 1)) (geomBase (d + 1)) (2 * y + q / 2)
            (2 * x + q % 2)).2.numPartitions := by
  have hp2 : 2 ^ (d + 1) = 2 * 2 ^ d := by rw [pow_succ, Nat.mul_comm]
  have h4 : 2 ^ d ≤ 4 := by
    calc 2 ^ d ≤ 2 ^ 2 := Nat.pow_le_pow_right (by decide) (by omega)
      _ = 4 := rfl
  have hxc : 2 * x + q % 2 < 2 ^ (d + 1) := by omega
  have hyc : 2 * y + q / 2 < 2 ^ (d + 1) := by omega
  obtain ⟨p1, p2, p3, p4, p5, -⟩ :=
    geomEntry_structure self g W H M k d y x hk hL hF hk6 (by omega) hx hy
  obtain ⟨c1, c2, c3, -, c5, -⟩ :=
    geomEntry_structure self g W H M k (d + 1) (2 * y + q / 2) (2 * x + q % 2) hk hL hF hk6
      (by omega) hxc hyc
  obtain ⟨-, -, -, hpw⟩ := pow4_facts k d hk6 (by omega)
  obtain ⟨hpw1, hpw2⟩ := hpw hd
  rw [p1, p2, p3, p4, p5, c1, c2, c3, c5]
  refine ⟨?_, by omega, rfl, hpw1, ?_⟩
  · rw [child_index x y q (by omega) (by omega) hq]
    show geomBase d + zscanOf 3 x y + (4 ^ d + 3 * zscanOf 3 x y) + q
      = geomBase d + 4 ^ d + (4 * zscanOf 3 x y + q)
    omega
  · have hbx := block_bound k d x (by omega) hx
    have hby := block_bound k d y (by omega) hy
    have hk64 : 2 ^ k ≤ 64 := by
      calc 2 ^ k ≤ 2 ^ 6 := Nat.pow_le_pow_right (by decide) hk6
        _ = 64 := rfl
    have hkd : k - (d + 1) = k - d - 1 := by omega
    rw [hkd, encodeIdx_child (k - d) x y q (by omega) (by omega) (by omega) (by omega) hq,
      hpw2]

/-- C29: let the maximum CTU size be `2 ^ g_maxLog2CUSize`, at most 64, with
`g_maxFullDepth = g_maxLog2CUSize - 2` (partitions of 4x4 pixels). Every
descriptor that `calcCTUGeoms` generates, for the block of depth d at grid
position (x, y), has that depth and `numPartitions = NUM_CU_PARTITIONS >> 2 * depth`,
a power of 4 between 4 and `NUM_CU_PARTITIONS`. If it is not a leaf, the entries
at its index plus `childOffset` plus q, for q from 0 to 3, are the descriptors
of its four quadrants in z-order, the blocks of depth d + 1 at (2x + q mod 2,
2y + q div 2): each is one size smaller and one level deeper, has a quarter of
the parent's `numPartitions`, so that the four sum to the parent's count, and
has `encodeIdx = parent.encodeIdx + q * child.numPartitions`. -/
theorem C29_calcCTUGeoms_quadtree (self : CUData) (g : Globals) (M : Nat)
    (arr : Nat → CUGeom) (frame : Frame)
    (hf : self.m_frame = some frame)
    (hM : M = 2 ^ g.g_maxLog2CUSize) (hhi : g.g_maxLog2CUSize ≤ 6)
    (hF : g.g_maxFullDepth + LOG2_UNIT_SIZE = g.g_maxLog2CUSize) :
    ∃ out, self.calcCTUGeoms g M arr = some out ∧
      ∀ d x y, d + MIN_LOG2_CU_SIZE ≤ g.g_maxLog2CUSize → x < 2 ^ d → y < 2 ^ d →
        let c := geomBase d + g_depthScanIdx y x
        (out c).depth = d ∧
        (out c).numPartitions = NUM_CU_PARTITIONS g >>> (2 * (out c).depth) ∧
        (∃ j, 1 ≤ j ∧ (out c).numPartitions = 4 ^ j) ∧
        4 ≤ (out c).numPartitions ∧ (out c).numPartitions ≤ NUM_CU_PARTITIONS g ∧
        ((out c).flags &&& CUGeom.LEAF = 0 →
          (∀ q, q < 4 →
            c + (out c).childOffset + q
              = geomBase (d + 1) + g_depthScanIdx (2 * y + q / 2) (2 * x + q % 2) ∧
            (out (c + (out c).childOffset + q)).log2CUSize + 1 = (out c).log2CUSize ∧
            (out (c + (out c).childOffset + q)).depth = (out c).depth + 1 ∧
            4 * (out (c + (out c).childOffset + q)).numPartitions = (out c).numPartitions ∧
            (out (c + (out c).childOffset + q)).encodeIdx
              = (out c).encodeIdx + q * (out (c + (out c).childOffset + q)).numPartitions) ∧
          (out (c + (out c).childOffset)).numPartitions
            + (out (c + (out c).childOffset + 1)).numPartitions
            + (out (c + (out c).childOffset + 2)).numPartitions
            + (out (c + (out c).childOffset + 3)).numPartitions = (out c).numPartitions) := by
  have hmin : MIN_LOG2_CU_SIZE = 3 := rfl
  have hunit : LOG2_UNIT_SIZE = 2 := rfl
  rw [hunit] at hF
  have hk : g_log2Size M = g.g_maxLog2CUSize := by rw [hM]; exact g_log2Size_two_pow _
  obtain ⟨out, hout, hentry⟩ := calcCTUGeoms_entry self g M g.g_maxLog2CUSize arr frame hf hk hhi
  refine ⟨out, hout, ?_⟩
  intro d x y hd hx hy c
  rw [hmin] at hd
  have hc : out c = (self.geomEntry g frame.m_picWidth frame.m_picHeight M
      (g.g_maxLog2CUSize - d) (geomBase d) y x).2 := hentry d x y hd hx hy
  obtain ⟨p1, p2, p3, -, -, hnum⟩ := geomEntry_structure self g frame.m_picWidth
    frame.m_picHeight M g.g_maxLog2CUSize d y x hk rfl hF hhi hd hx hy
  obtain ⟨w1, w2, w3, -⟩ := pow4_facts g.g_maxLog2CUSize d hhi hd
  have hchild : (out c).flags &&& CUGeom.LEAF = 0 → ∀ q, q < 4 →
      c + (out c).childOffset + q
        = geomBase (d + 1) + g_depthScanIdx (2 * y + q / 2) (2 * x + q % 2) ∧
      (out (c + (out c).childOffset + q)).log2CUSize + 1 = (out c).log2CUSize ∧
      (out (c + (out c).childOffset + q)).depth = (out c).depth + 1 ∧
      4 * (out (c + (out c).childOffset + q)).numPartitions = (out c).numPartitions ∧
      (out (c + (out c).childOffset + q)).encodeIdx
        = (out c).encodeIdx + q * (out (c + (out c).childOffset + q)).numPartitions := by
    intro hleaf q hq
    have hl3 : g.g_maxLog2CUSize - d ≠ MIN_LOG2_CU_SIZE := by
      intro h3
      have := (geomEntry_flags self g frame.m_picWidth frame.m_picHeight M
        (g.g_maxLog2CUSize - d) (geomBase d) y x).2.2.2.mpr h3
      rw [hc] at hleaf
      exact this hleaf
    rw [hmin] at hl3
    have hd4 : d + 4 ≤ g.g_maxLog2CUSize := by omega
    obtain ⟨q1, q2, q3, q4, q5⟩ := geomEntry_parent_child self g frame.m_picWidth
      frame.m_picHeight M g.g_maxLog2CUSize d y x q hk rfl hF hhi hd4 hx hy hq
    have hp2 : 2 ^ (d + 1) = 2 * 2 ^ d := by rw [pow_succ, Nat.mul_comm]
    have hidx : c + (out c).childOffset + q
        = geomBase (d + 1) + g_depthScanIdx (2 * y + q / 2) (2 * x + q % 2) := by
      rw [hc]
      exact q1
    have hcc : out (c + (out c).childOffset + q)
        = (self.geomEntry g frame.m_picWidth frame.m_picHeight M
          (g.g_maxLog2CUSize - (d + 1)) (geomBase (d + 1)) (2 * y + q / 2)
          (2 * x + q % 2)).2 := by
      rw [hidx]
      exact hentry (d + 1) (2 * x + q % 2) (2 * y + q / 2) (by omega) (by omega) (by omega)
    refine ⟨hidx, ?_, ?_, ?_, ?_⟩
    · rw [hcc, hc]; exact q2
    · rw [hcc, hc]; exact q3
    · rw [hcc, hc]; exact q4
    · rw [hcc, hc]; exact q5
  refine ⟨?_, ?_, ⟨g.g_maxLog2CUSize - 2 - d, by omega, ?_⟩, ?_, ?_, ?_⟩
  · rw [hc]; exact p2
  · rw [hc, p3, p2, hnum]; exact w1
  · rw [hc]; exact p3
  · rw [hc, p3]; exact w2
  · rw [hc, p3, hnum]; exact w3
  · intro hleaf
    refine ⟨hchild hleaf, ?_⟩
    have h0 := (hchild hleaf 0 (by decide)).2.2.2.1
    have h1 := (hchild hleaf 1 (by decide)).2.2.2.1
    have h2 := (hchild hleaf 2 (by decide)).2.2.2.1
    have h3 := (hchild hleaf 3 (by decide)).2.2.2.1
    rw [Nat.add_zero] at h0
    omega

/-- C29 at a concrete input: for a 64x64 CTU with 256 partitions, the root
descriptor has 256 partitions, and its quadrant 1, at array index 2, has 64
partitions and `encodeIdx` 64. -/
theorem C29_calcCTUGeoms_quadtree_witness :
    ∃ out, sampleGeomCU.calcCTUGeoms sampleGlobals 64 sampleGeoms = some out ∧
      (out 0).numPartitions = 256 ∧ (out 0).childOffset = 1 ∧
      (out 2).numPartitions = 64 ∧ (out 2).encodeIdx = (out 0).encodeIdx + 64 := by
  obtain ⟨out, hout, hall⟩ := C29_calcCTUGeoms_quadtree sampleGeomCU sampleGlobals 64 sampleGeoms
    sampleGeomFrame rfl (by decide) (by decide) (by decide)
  obtain ⟨h1, h2, -, -, -, h6⟩ := hall 0 0 0 (by decide) (by decide) (by decide)
  have h1b : (out 0).depth = 0 := h1
  have h2b : (out 0).numPartitions = NUM_CU_PARTITIONS sampleGlobals >>> (2 * (out 0).depth) := h2
  have hnp : (out 0).numPartitions = 256 := by
    rw [h2b, h1b]
    decide
  have hleaf : (out 0).flags &&& CUGeom.LEAF = 0 := by
    obtain ⟨out2, hout2, hall2⟩ := calcCTUGeoms_entry sampleGeomCU sampleGlobals 64 6 sampleGeoms
      sampleGeomFrame rfl (g_log2Size_two_pow 6) (by decide)
    rw [hout] at hout2
    cases hout2
    have he : out 0 = (sampleGeomCU.geomEntry sampleGlobals sampleGeomFrame.m_picWidth
        sampleGeomFrame.m_picHeight 64 (6 - 0) (geomBase 0) 0 0).2 :=
      hall2 0 0 0 (by decide) (by decide) (by decide)
    rw [he]
    decide
  obtain ⟨hq, -⟩ := h6 hleaf
  obtain ⟨i1, -, -, i4, i5⟩ := hq 1 (by decide)
  have i1b : 0 + (out 0).childOffset + 1 = 2 := i1
  have hoff : (out 0).childOffset = 1 := by omega
  have i4b : 4 * (out (0 + (out 0).childOffset + 1)).numPartitions = (out 0).numPartitions := i4
  have i5b : (out (0 + (out 0).childOffset + 1)).encodeIdx
      = (out 0).encodeIdx + 1 * (out (0 + (out 0).childOffset + 1)).numPartitions := i5
  rw [i1b] at i4b i5b
  have hnp2 : (out 2).numPartitions = 64 := by omega
  refine ⟨out, hout, hnp, hoff, hnp2, ?_⟩
  rw [i5b, hnp2]

/-! ## C39: `getDistScaleFactor` does not divide by zero on distinct collocated POCs -/

/-- C39: for every input with `colPOC` different from `colRefPOC` the divisor
`tdd = Clip3(-128, 127, colPOC - colRefPOC)` is not zero, and `getDistScaleFactor`
returns a value. -/
theorem C39_getDistScaleFactor_total (curPOC curRefPOC colPOC colRefPOC : Int)
    (hcol : colPOC ≠ colRefPOC) :
    Clip3 (-128) 127 (colPOC - colRefPOC) ≠ 0 ∧
    ∃ s, getDistScaleFactor curPOC curRefPOC colPOC colRefPOC = some s := by
  refine ⟨?_, getDistScaleFactor_isSome curPOC curRefPOC colPOC colRefPOC hcol⟩
  intro h0
  have := (Clip3_eq_zero_iff _).mp h0
  exact hcol (by omega)

/-- C39 at a concrete input: current distance 2, collocated distance 1. -/
theorem C39_getDistScaleFactor_total_witness :
    (1 : Int) ≠ 0 ∧ Clip3 (-128) 127 (1 - 0) ≠ 0 ∧
    (getDistScaleFactor 2 0 1 0).isSome = true := by
  have h := C39_getDistScaleFactor_total 2 0 1 0 (by decide)
  obtain ⟨s, hs⟩ := h.2
  exact ⟨by decide, h.1, by rw [hs]; rfl⟩

/-! ## C40: the reference-POC lookups of `addMVPCand` -/

/-- C40 fails on the code: for the sample CTU, whose above neighbour exists and
has reference index 0 in list 0 and `NOT_VALID` in list 1, the call of
`addMVPCand` for list 1 towards `MD_ABOVE` reads the neighbour's
`m_refPOCList[1][-1]` (the second read), before the sign of the index is tested;
the read for the other list uses the index 0. -/
theorem C40_addMVPCand_lookups :
    sampleMvpSelf.mvpNeighbour sampleGlobals sampleMvpPic 0 .MD_ABOVE = some (.picCTU 1, 170) ∧
    ((sampleMvpPic 1).cuMvField 1).getRefIdx 170 = NOT_VALID ∧
    sampleMvpSelf.addMVPCandLookups sampleGlobals sampleMvpPic 1 0 0 .MD_ABOVE
      = some [(true, 1, 0), (false, 1, -1), (true, 1, 0), (false, 0, 0)] := by
  decide

/-! ## C34: the three most probable modes are distinct -/

/-- The list written by `getIntraDirLumaPredictor`, in closed form. -/
theorem getIntraDirLumaPredictor_list (self : CUData) (g : Globals) (pic : Nat → CUData)
    (absPartIdx : Nat) (intraDirPred : Nat → Nat) (frame : Frame)
    (hf : self.m_frame = some frame) :
    ∃ lCU lIdx aCU aIdx n p,
      self.getPULeft g (u32 (self.m_absIdxInCTU + absPartIdx)) = some (lCU, lIdx) ∧
      self.getPUAbove g lIdx (u32 (self.m_absIdxInCTU + absPartIdx)) true = some (aCU, aIdx) ∧
      self.getIntraDirLumaPredictor g pic absPartIdx intraDirPred = some (n, p) ∧
      (p 0, p 1, p 2) =
        (if neighbourIntraDir (lCU.deref self pic) lIdx = neighbourIntraDir (aCU.deref self pic) aIdx
          then
            (if 2 ≤ neighbourIntraDir (lCU.deref self pic) lIdx then
              (neighbourIntraDir (lCU.deref self pic) lIdx,
                (neighbourIntraDir (lCU.deref self pic) lIdx - 2 + 31) % 32 + 2,
                (neighbourIntraDir (lCU.deref self pic) lIdx - 2 + 1) % 32 + 2)
            else (PLANAR_IDX, DC_IDX, VER_IDX))
          else
            (neighbourIntraDir (lCU.deref self pic) lIdx,
              neighbourIntraDir (aCU.deref self pic) aIdx,
              if neighbourIntraDir (lCU.deref self pic) lIdx ≠ 0 ∧
                  neighbourIntraDir (aCU.deref self pic) aIdx ≠ 0 then PLANAR_IDX
              else if neighbourIntraDir (lCU.deref self pic) lIdx
                  + neighbourIntraDir (aCU.deref self pic) aIdx < 2 then VER_IDX
              else DC_IDX)) := by
  obtain ⟨⟨lCU, lIdx⟩, hl⟩ :=
    getPULeft_isSome self g (u32 (self.m_absIdxInCTU + absPartIdx)) frame hf
  obtain ⟨⟨aCU, aIdx⟩, ha⟩ :=
    getPUAbove_isSome self g lIdx (u32 (self.m_absIdxInCTU + absPartIdx)) true frame hf
  have hL := neighbourIntraDir_le (lCU.deref self pic) lIdx
  have hA := neighbourIntraDir_le (aCU.deref self pic) aIdx
  have hres : ∃ n p, self.getIntraDirLumaPredictor g pic absPartIdx intraDirPred = some (n, p) ∧
      (p 0, p 1, p 2) =
        (if neighbourIntraDir (lCU.deref self pic) lIdx = neighbourIntraDir (aCU.deref self pic) aIdx
          then
            (if 2 ≤ neighbourIntraDir (lCU.deref self pic) lIdx then
              (neighbourIntraDir (lCU.deref self pic) lIdx,
                (neighbourIntraDir (lCU.deref self pic) lIdx - 2 + 31) % 32 + 2,
                (neighbourIntraDir (lCU.deref self pic) lIdx - 2 + 1) % 32 + 2)
            else (PLANAR_IDX, DC_IDX, VER_IDX))
          else
            (neighbourIntraDir (lCU.deref self pic) lIdx,
              neighbourIntraDir (aCU.deref self pic) aIdx,
              if neighbourIntraDir (lCU.deref self pic) lIdx ≠ 0 ∧
                  neighbourIntraDir (aCU.deref self pic) aIdx ≠ 0 then PLANAR_IDX
              else if neighbourIntraDir (lCU.deref self pic) lIdx
                  + neighbourIntraDir (aCU.deref self pic) aIdx < 2 then VER_IDX
              else DC_IDX)) := by
    unfold CUData.getIntraDirLumaPredictor
    simp only [hl, ha]
    generalize neighbourIntraDir (lCU.deref self pic) lIdx = L at hL ⊢
    generalize neighbourIntraDir (aCU.deref self pic) aIdx = A at hA ⊢
    by_cases hLA : L = A
    · subst hLA
      by_cases h2 : L ≥ 2
      · rw [if_pos rfl, if_pos h2, if_pos rfl, if_pos h2]
        obtain ⟨e0, e1, e2, -⟩ := update3_eval intraDirPred L
          (u32 ((u32 (sub32 L 2 + 31) &&& 31) + 2)) (u32 ((u32 (sub32 L 2 + 1) &&& 31) + 2))
        refine ⟨_, _, rfl, ?_⟩
        rw [e0, e1, e2, angular_neighbour L 31 h2 hL, angular_neighbour L 1 h2 hL]
      · rw [if_pos rfl, if_neg h2, if_pos rfl, if_neg h2]
        obtain ⟨e0, e1, e2, -⟩ := update3_eval intraDirPred PLANAR_IDX DC_IDX VER_IDX
        refine ⟨_, _, rfl, ?_⟩
        rw [e0, e1, e2]
    · rw [if_neg hLA, if_neg hLA]
      have hu : u32 (L + A) = L + A := by unfold u32; omega
      by_cases hnz : L ≠ 0 ∧ A ≠ 0
      · obtain ⟨e0, e1, e2, -⟩ := update3_eval intraDirPred L A PLANAR_IDX
        simp only [if_pos hnz]
        refine ⟨_, _, rfl, ?_⟩
        rw [e0, e1, e2]
      · obtain ⟨e0, e1, e2, -⟩ := update3_eval intraDirPred L A
          (if L + A < 2 then VER_IDX else DC_IDX)
        simp only [if_neg hnz, hu]
        refine ⟨_, _, rfl, ?_⟩
        rw [e0, e1, e2]
  obtain ⟨n, p, h1, h2⟩ := hres
  exact ⟨lCU, lIdx, aCU, aIdx, n, p, hl, ha, h1, h2⟩

/-- C34: on a container bound to a frame, let L and A be the luma directions that
`getIntraDirLumaPredictor` takes from the left and the above neighbour (DC when a
neighbour is null or not intra-coded). If both lie in 0..34, the three modes
written to `intraDirPred[0..2]` are pairwise distinct and each lies in 0..34. -/
theorem C34_intraDirPred_distinct (self : CUData) (g : Globals) (pic : Nat → CUData)
    (absPartIdx : Nat) (intraDirPred : Nat → Nat) (frame : Frame)
    (hf : self.m_frame = some frame) :
    ∃ lCU lIdx aCU aIdx,
      self.getPULeft g (u32 (self.m_absIdxInCTU + absPartIdx)) = some (lCU, lIdx) ∧
      self.getPUAbove g lIdx (u32 (self.m_absIdxInCTU + absPartIdx)) true = some (aCU, aIdx) ∧
      (neighbourIntraDir (lCU.deref self pic) lIdx ≤ 34 →
        neighbourIntraDir (aCU.deref self pic) aIdx ≤ 34 →
        ∃ n p, self.getIntraDirLumaPredictor g pic absPartIdx intraDirPred = some (n, p) ∧
          p 0 ≠ p 1 ∧ p 0 ≠ p 2 ∧ p 1 ≠ p 2 ∧ p 0 ≤ 34 ∧ p 1 ≤ 34 ∧ p 2 ≤ 34) := by
  obtain ⟨lCU, lIdx, aCU, aIdx, n, p, hl, ha, hres, hlist⟩ :=
    getIntraDirLumaPredictor_list self g pic absPartIdx intraDirPred frame hf
  refine ⟨lCU, lIdx, aCU, aIdx, hl, ha, fun hL hA => ⟨n, p, hres, ?_⟩⟩
  generalize neighbourIntraDir (lCU.deref self pic) lIdx = L at hL hlist
  generalize neighbourIntraDir (aCU.deref self pic) aIdx = A at hA hlist
  have hp : PLANAR_IDX = 0 := rfl
  have hd : DC_IDX = 1 := rfl
  have hv : VER_IDX = 26 := rfl
  rw [hp, hd, hv] at hlist
  by_cases hLA : L = A
  · rw [if_pos hLA] at hlist
    by_cases h2 : 2 ≤ L
    · rw [if_pos h2] at hlist
      obtain ⟨e0, e1, e2⟩ : p 0 = L ∧ p 1 = (L - 2 + 31) % 32 + 2 ∧ p 2 = (L - 2 + 1) % 32 + 2 := by
        simpa [Prod.ext_iff] using hlist
      rw [e0, e1, e2]
      omega
    · rw [if_neg h2] at hlist
      obtain ⟨e0, e1, e2⟩ : p 0 = 0 ∧ p 1 = 1 ∧ p 2 = 26 := by
        simpa [Prod.ext_iff] using hlist
      rw [e0, e1, e2]
      omega
  · rw [if_neg hLA] at hlist
    by_cases hnz : L ≠ 0 ∧ A ≠ 0
    · rw [if_pos hnz] at hlist
      obtain ⟨e0, e1, e2⟩ : p 0 = L ∧ p 1 = A ∧ p 2 = 0 := by
        simpa [Prod.ext_iff] using hlist
      rw [e0, e1, e2]
      omega
    · rw [if_neg hnz] at hlist
      by_cases hs : L + A < 2
      · rw [if_pos hs] at hlist
        obtain ⟨e0, e1, e2⟩ : p 0 = L ∧ p 1 = A ∧ p 2 = 26 := by
          simpa [Prod.ext_iff] using hlist
        rw [e0, e1, e2]
        omega
      · rw [if_neg hs] at hlist
        obtain ⟨e0, e1, e2⟩ : p 0 = L ∧ p 1 = A ∧ p 2 = 1 := by
          simpa [Prod.ext_iff] using hlist
        rw [e0, e1, e2]
        omega

/-- C34 at a concrete input: unit 3 of a CTU whose units are all intra-coded with
direction 2, the wrap-around case L = A = 2, gets three distinct modes. -/
theorem C34_intraDirPred_distinct_witness :
    ∃ n p, sampleIntraCU.getIntraDirLumaPredictor sampleGlobals (fun _ => sampleIntraCU) 3
        (fun _ => 0) = some (n, p) ∧
      p 0 ≠ p 1 ∧ p 0 ≠ p 2 ∧ p 1 ≠ p 2 ∧ p 0 ≤ 34 ∧ p 1 ≤ 34 ∧ p 2 ≤ 34 := by
  obtain ⟨lCU, lIdx, aCU, aIdx, hl, ha, h⟩ :=
    C34_intraDirPred_distinct sampleIntraCU sampleGlobals (fun _ => sampleIntraCU) 3
      (fun _ => 0) sampleFrame rfl
  have hl2 : sampleIntraCU.getPULeft sampleGlobals (u32 (sampleIntraCU.m_absIdxInCTU + 3))
      = some (.thisCU, 2) := by decide
  rw [hl2] at hl
  obtain ⟨rfl, rfl⟩ := Prod.mk.inj (Option.some.inj hl)
  have ha2 : sampleIntraCU.getPUAbove sampleGlobals 2 (u32 (sampleIntraCU.m_absIdxInCTU + 3)) true
      = some (.thisCU, 1) := by decide
  rw [ha2] at ha
  obtain ⟨rfl, rfl⟩ := Prod.mk.inj (Option.some.inj ha)
  exact h (by decide) (by decide)

/-! ## The scan of `getLastValidPartIdx` -/

theorem lastValidLoop_stop (self : CUData) (fuel : Nat) (idx : Int)
    (h : ¬ (idx ≥ 0 ∧ (self.get .predModes idx.toNat).val = MODE_NONE)) :
    self.lastValidLoop (fuel + 1) idx = some idx := by
  rw [CUData.lastValidLoop, if_neg h]

theorem lastValidLoop_step (self : CUData) (hnum : self.m_numPartitions < 2 ^ 31)
    (fuel : Nat) (idx : Int) (h0 : 0 ≤ idx) (h1 : idx < 2 ^ 31)
    (hm : (self.get .predModes idx.toNat).val = MODE_NONE) :
    self.lastValidLoop (fuel + 1) idx = self.lastValidLoop fuel
      (idx - ((self.m_numPartitions >>> ((self.get .depth idx.toNat).val <<< 1) : Nat) : Int)) := by
  rw [CUData.lastValidLoop, if_pos ⟨h0, hm⟩]
  have hle : self.m_numPartitions >>> ((self.get .depth idx.toNat).val <<< 1)
      ≤ self.m_numPartitions := by
    rw [Nat.shiftRight_eq_div_pow]
    exact Nat.div_le_self _ _
  have hconv := toInt32_sub32 idx.toNat
    (self.m_numPartitions >>> ((self.get .depth idx.toNat).val <<< 1)) (by omega) (by omega)
  have hidx : ((idx.toNat : Nat) : Int) = idx := Int.toNat_of_nonneg h0
  simp only []
  rw [hconv, hidx]

/-- The scan from `idx` over a set `ends` of indices that is closed under the steps
of the loop and on which the blocks of uncoded units are uniform. -/
theorem lastValidLoop_greatest (self : CUData) (hnum : self.m_numPartitions < 2 ^ 31)
    (ends : Nat → Prop)
    (huni : ∀ i, ends i → (self.get .predModes i).val = MODE_NONE →
      1 ≤ self.m_numPartitions >>> ((self.get .depth i).val <<< 1) ∧
      (∀ j, j ≤ i → i < j + self.m_numPartitions >>> ((self.get .depth i).val <<< 1) →
        (self.get .predModes j).val = MODE_NONE) ∧
      (self.m_numPartitions >>> ((self.get .depth i).val <<< 1) ≤ i →
        ends (i - self.m_numPartitions >>> ((self.get .depth i).val <<< 1)))) :
    ∀ (fuel : Nat) (idx : Int), idx < 2 ^ 31 → idx + 2 ≤ fuel → 1 ≤ fuel →
      (0 ≤ idx → ends idx.toNat) →
      ∃ v, self.lastValidLoop fuel idx = some v ∧ v ≤ idx ∧
        (0 ≤ v → (self.get .predModes v.toNat).val ≠ MODE_NONE) ∧
        (∀ j : Nat, v < j → (j : Int) ≤ idx → (self.get .predModes j).val = MODE_NONE) := by
  intro fuel
  induction fuel with
  | zero =>
    intro idx _ _ h3
    omega
  | succ fuel ih =>
    intro idx h1 h2 _ hend
    by_cases hc : idx ≥ 0 ∧ (self.get .predModes idx.toNat).val = MODE_NONE
    · rw [lastValidLoop_step self hnum fuel idx hc.1 h1 hc.2]
      obtain ⟨hs1, hs2, hs3⟩ := huni idx.toNat (hend hc.1) hc.2
      have hidx : ((idx.toNat : Nat) : Int) = idx := Int.toNat_of_nonneg hc.1
      obtain ⟨v, hv, hvle, hvm, hvj⟩ := ih
        (idx - ((self.m_numPartitions >>> ((self.get .depth idx.toNat).val <<< 1) : Nat) : Int))
        (by omega) (by omega) (by omega) (by
          intro hn
          have hle : self.m_numPartitions >>> ((self.get .depth idx.toNat).val <<< 1)
              ≤ idx.toNat := by omega
          have hto : (idx - ((self.m_numPartitions >>>
              ((self.get .depth idx.toNat).val <<< 1) : Nat) : Int)).toNat
              = idx.toNat - self.m_numPartitions >>> ((self.get .depth idx.toNat).val <<< 1) := by
            omega
          rw [hto]
          exact hs3 hle)
      refine ⟨v, hv, by omega, hvm, ?_⟩
      intro j hj1 hj2
      by_cases hjn : (j : Int) ≤ idx
          - ((self.m_numPartitions >>> ((self.get .depth idx.toNat).val <<< 1) : Nat) : Int)
      · exact hvj j hj1 hjn
      · exact hs2 j (by omega) (by omega)
    · rw [lastValidLoop_stop self fuel idx hc]
      refine ⟨idx, rfl, le_refl _, fun h0 hm => hc ⟨h0, hm⟩, ?_⟩
      intro j hj1 hj2
      omega

/-- C32: let the partition count be below `2 ^ 31` and let `ends` be a set of unit
indices that holds `absPartIdx - 1` and on which the state is block-uniform:
whenever a unit of `ends` has no prediction mode and stored depth d, the block
of `m_numPartitions >> 2d` partitions ending at it is not empty and has no
prediction mode anywhere, and the unit before the block is in `ends` again. Then
`getLastValidPartIdx(absPartIdx)` returns the greatest index below `absPartIdx`
whose prediction mode is assigned, or a negative value when there is none. With
`ends` the set of all indices, the premise asks of every unit without a mode that
the block ending at it has none. -/
theorem C32_getLastValidPartIdx_greatest (self : CUData) (absPartIdx : Int)
    (ends : Nat → Prop)
    (hnum : self.m_numPartitions < 2 ^ 31) (habs : absPartIdx < 2 ^ 31)
    (hstart : 0 < absPartIdx → ends (absPartIdx - 1).toNat)
    (huni : ∀ i, ends i → (self.get .predModes i).val = MODE_NONE →
      1 ≤ self.m_numPartitions >>> ((self.get .depth i).val <<< 1) ∧
      (∀ j, j ≤ i → i < j + self.m_numPartitions >>> ((self.get .depth i).val <<< 1) →
        (self.get .predModes j).val = MODE_NONE) ∧
      (self.m_numPartitions >>> ((self.get .depth i).val <<< 1) ≤ i →
        ends (i - self.m_numPartitions >>> ((self.get .depth i).val <<< 1)))) :
    ∃ v, self.getLastValidPartIdx absPartIdx = some v ∧ v < absPartIdx ∧
      (0 ≤ v → (self.get .predModes v.toNat).val ≠ MODE_NONE) ∧
      (∀ j : Nat, v < j → (j : Int) < absPartIdx → (self.get .predModes j).val = MODE_NONE) ∧
      (v < 0 → ∀ j : Nat, (j : Int) < absPartIdx → (self.get .predModes j).val = MODE_NONE) := by
  obtain ⟨v, hv, hvle, hvm, hvj⟩ := lastValidLoop_greatest self hnum ends huni
    (absPartIdx.toNat + 1) (absPartIdx - 1) (by omega) (by omega) (by omega)
    (fun h => hstart (by omega))
  refine ⟨v, hv, by omega, hvm, fun j h1 h2 => hvj j h1 (by omega), fun hneg j hj => ?_⟩
  exact hvj j (by omega) (by omega)

/-- C32 at a concrete input: in the sample container the blocks of 4 partitions
are uniform (units 0..3 coded, units 4..15 not); the scan from index 16 visits
the block ends 15, 11, 7 and returns unit 3, the last coded one. -/
theorem C32_getLastValidPartIdx_greatest_witness :
    sampleScanCU.getLastValidPartIdx 16 = some 3 ∧
    (sampleScanCU.get .predModes 3).val ≠ MODE_NONE ∧
    ∀ j : Nat, 3 < j → j < 16 → (sampleScanCU.get .predModes j).val = MODE_NONE := by
  have hd : ∀ i, (sampleScanCU.get .depth i).val = 1 := by
    intro i
    show (if 256 + i < 4 then (1 : Byte) else if 256 ≤ 256 + i then 1 else 0).val = 1
    rw [if_neg (by omega), if_pos (by omega)]
    rfl
  have hm : ∀ i, (sampleScanCU.get .predModes i).val = MODE_NONE → 4 ≤ i := by
    intro i h
    by_contra hlt
    have h4 : i < 4 := by omega
    have : (sampleScanCU.get .predModes i).val = 1 := by
      show (if 0 + i < 4 then (1 : Byte) else if 256 ≤ 0 + i then 1 else 0).val = 1
      rw [if_pos (by omega)]
      rfl
    rw [this] at h
    exact absurd h (by decide)
  have hn : ∀ j, 4 ≤ j → j < 256 → (sampleScanCU.get .predModes j).val = MODE_NONE := by
    intro j h1 h2
    show (if 0 + j < 4 then (1 : Byte) else if 256 ≤ 0 + j then 1 else 0).val = MODE_NONE
    rw [if_neg (by omega), if_neg (by omega)]
    rfl
  obtain ⟨v, hv, -, hvm, hvj, -⟩ := C32_getLastValidPartIdx_greatest sampleScanCU 16
    (fun i => (i + 1) % 4 = 0 ∧ i < 16) (by decide) (by decide) (fun _ => by decide)
    (by
      intro i hi hmode
      have hs : sampleScanCU.m_numPartitions >>> ((sampleScanCU.get .depth i).val <<< 1) = 4 := by
        rw [hd i]
        decide
      rw [hs]
      have h4 := hm i hmode
      refine ⟨by decide, fun j hj1 hj2 => hn j ?_ (by omega), fun _ => ⟨by omega, by omega⟩⟩
      have := hi.1
      omega)
  have h3 : sampleScanCU.getLastValidPartIdx 16 = some 3 := by decide
  rw [h3] at hv
  cases hv
  exact ⟨rfl, hvm (by decide), fun j h1 h2 => hvj j (by omega) (by omega)⟩

/-! ## C33: the priority order of the combined candidates -/

theorem mergeCombinedWrite_slot (i j count : Nat) (o : MergeOut) (hj : j ≠ count) :
    (mergeCombinedWrite i j count o).mvFieldNeighbours count 0
      = ⟨(o.mvFieldNeighbours i 0).mv, (o.mvFieldNeighbours i 0).refIdx⟩ ∧
    (mergeCombinedWrite i j count o).mvFieldNeighbours count 1
      = ⟨(o.mvFieldNeighbours j 1).mv, (o.mvFieldNeighbours j 1).refIdx⟩ ∧
    (mergeCombinedWrite i j count o).interDirNeighbours count = 3 := by
  refine ⟨?_, ?_, ?_⟩
  · simp [mergeCombinedWrite, MergeOut.setMvField, MergeOut.setInterDir, MergeOut.setSource]
  · simp [mergeCombinedWrite, MergeOut.setMvField, MergeOut.setInterDir, MergeOut.setSource, hj]
  · simp [mergeCombinedWrite, MergeOut.setMvField, MergeOut.setInterDir, MergeOut.setSource]

theorem mergeCombinedWrite_agree (i j count : Nat) (o1 o2 : MergeOut) (hi : i < count)
    (hj : j < count) (h : o1.agreeBelow o2 count) :
    (mergeCombinedWrite i j count o1).agreeBelow (mergeCombinedWrite i j count o2)
      (count + 1) := by
  intro s hs
  by_cases hsc : s = count
  · subst hsc
    obtain ⟨a0, a1, a2⟩ := mergeCombinedWrite_slot i j s o1 (by omega)
    obtain ⟨b0, b1, b2⟩ := mergeCombinedWrite_slot i j s o2 (by omega)
    refine ⟨fun l hl => ?_, by rw [a2, b2]⟩
    have hl01 : l = 0 ∨ l = 1 := by omega
    rcases hl01 with rfl | rfl
    · rw [a0, b0, (h i hi).1 0 (by decide)]
    · rw [a1, b1, (h j hj).1 1 (by decide)]
  · obtain ⟨a, -⟩ := mergeCombinedWrite_local i j count o1
    obtain ⟨b, -⟩ := mergeCombinedWrite_local i j count o2
    obtain ⟨a1, a2, -⟩ := a s hsc
    obtain ⟨b1, b2, -⟩ := b s hsc
    have hlt : s < count := by omega
    refine ⟨fun l hl => ?_, ?_⟩
    · rw [a1 l, b1 l]
      exact (h s hlt).1 l hl
    · rw [a2, b2]
      exact (h s hlt).2

/-- A run of the combination loop whose index pairs all lie below `c` gives the same
count and the same candidates for two arrays that agree below the running count. -/
theorem mergeCombine_agree (slice : Slice) (maxNumMergeCand c : Nat) :
    ∀ (n p0 p1 count : Nat) (o1 o2 : MergeOut),
      (∀ p ∈ combinePairs n p0 p1, p.1 < c ∧ p.2 < c) → c ≤ count →
      o1.agreeBelow o2 count →
      ∃ m r1 r2,
        mergeCombine slice maxNumMergeCand n p0 p1 count o1 (fun k o => some (k, o))
          = some (m, r1) ∧
        mergeCombine slice maxNumMergeCand n p0 p1 count o2 (fun k o => some (k, o))
          = some (m, r2) ∧
        count ≤ m ∧ r1.agreeBelow r2 m := by
  intro n
  induction n with
  | zero =>
    intro p0 p1 count o1 o2 _ _ h
    exact ⟨count, o1, o2, rfl, rfl, le_refl _, h⟩
  | succ n ih =>
    intro p0 p1 count o1 o2 hp hc h
    have hij := hp (p0 &&& 3, p1 &&& 3) (by simp [combinePairs])
    have hrest : ∀ p ∈ combinePairs n (p0 >>> 2) (p1 >>> 2), p.1 < c ∧ p.2 < c :=
      fun p hmem => hp p (by simp [combinePairs, hmem])
    have hi : p0 &&& 3 < count := by omega
    have hj : p1 &&& 3 < count := by omega
    rw [mergeCombine, mergeCombine]
    rw [(h _ hi).2, (h _ hj).2, (h _ hi).1 0 (by decide), (h _ hj).1 1 (by decide)]
    unfold mergeStep
    dsimp only []
    split_ifs with hcond hmax
    · exact ⟨maxNumMergeCand, _, _, rfl, rfl, by omega,
        by rw [← hmax]; exact mergeCombinedWrite_agree _ _ count o1 o2 hi hj h⟩
    · obtain ⟨m, r1, r2, e1, e2, hm, hr⟩ := ih (p0 >>> 2) (p1 >>> 2) (count + 1)
        (mergeCombinedWrite (p0 &&& 3) (p1 &&& 3) count o1)
        (mergeCombinedWrite (p0 &&& 3) (p1 &&& 3) count o2) hrest (by omega)
        (mergeCombinedWrite_agree _ _ count o1 o2 hi hj h)
      exact ⟨m, r1, r2, e1, e2, by omega, hr⟩
    · obtain ⟨m, r1, r2, e1, e2, hm, hr⟩ := ih (p0 >>> 2) (p1 >>> 2) count o1 o2 hrest hc h
      exact ⟨m, r1, r2, e1, e2, hm, hr⟩

/-- C33: read two bits at a time from the least-significant end, as the rounds of
the combination loop do, the constants 0xEDC984 and 0xB73621 give the twelve
index pairs (0,1),(1,0),(0,2),(2,0),(1,2),(2,1),(0,3),(3,0),(1,3),(3,1),(2,3),(3,2).
For every candidate count c from 0 to 4 the number of rounds `c * (c - 1)`,
computed in 32 bits, is the plain product, and the pairs of these rounds are, without
repetition, exactly the ordered pairs of distinct indices below c. So the loop
reads only slots below c: run from count c on two arrays that hold the same
candidates below c, it ends with the same count and the same candidates. -/
theorem C33_combined_priority_order :
    combinePairs 12 0xEDC984 0xB73621
      = [(0, 1), (1, 0), (0, 2), (2, 0), (1, 2), (2, 1),
         (0, 3), (3, 0), (1, 3), (3, 1), (2, 3), (3, 2)] ∧
    ∀ c, c ≤ 4 →
      u32 (c * sub32 c 1) = c * (c - 1) ∧
      (combinePairs (u32 (c * sub32 c 1)) 0xEDC984 0xB73621).Nodup ∧
      (∀ i j, (i, j) ∈ combinePairs (u32 (c * sub32 c 1)) 0xEDC984 0xB73621
        ↔ i < c ∧ j < c ∧ i ≠ j) ∧
      ∀ (slice : Slice) (maxNumMergeCand : Nat) (o1 o2 : MergeOut), o1.agreeBelow o2 c →
        ∃ m r1 r2,
          mergeCombine slice maxNumMergeCand (u32 (c * sub32 c 1)) 0xEDC984 0xB73621 c o1
            (fun k o => some (k, o)) = some (m, r1) ∧
          mergeCombine slice maxNumMergeCand (u32 (c * sub32 c 1)) 0xEDC984 0xB73621 c o2
            (fun k o => some (k, o)) = some (m, r2) ∧
          r1.agreeBelow r2 m := by
  refine ⟨by decide, ?_⟩
  intro c hc
  have hin : ∀ c, c ≤ 4 → ∀ p ∈ combinePairs (u32 (c * sub32 c 1)) 0xEDC984 0xB73621,
      p.1 < c ∧ p.2 < c ∧ p.1 ≠ p.2 := by decide
  have hall : ∀ c ∈ List.range 5, ∀ i ∈ List.range c, ∀ j ∈ List.range c,
      i = j ∨ (i, j) ∈ combinePairs (u32 (c * sub32 c 1)) 0xEDC984 0xB73621 := by decide
  have hmem : ∀ i j, (i, j) ∈ combinePairs (u32 (c * sub32 c 1)) 0xEDC984 0xB73621
      ↔ i < c ∧ j < c ∧ i ≠ j :=
    fun i j => ⟨fun h => hin c hc (i, j) h, fun h => (hall c (List.mem_range.mpr (by omega)) i (List.mem_range.mpr h.1) j
      (List.mem_range.mpr h.2.1)).resolve_left h.2.2⟩
  refine ⟨?_, ?_, hmem, ?_⟩
  · exact (by decide : ∀ c, c ≤ 4 → u32 (c * sub32 c 1) = c * (c - 1)) c hc
  · exact (by decide : ∀ c, c ≤ 4 →
      (combinePairs (u32 (c * sub32 c 1)) 0xEDC984 0xB73621).Nodup) c hc
  · intro slice maxNumMergeCand o1 o2 h
    obtain ⟨m, r1, r2, e1, e2, -, hr⟩ := mergeCombine_agree slice maxNumMergeCand c
      (u32 (c * sub32 c 1)) 0xEDC984 0xB73621 c o1 o2
      (fun p hp => by
        obtain ⟨h1, h2, -⟩ := (hmem p.1 p.2).mp hp
        exact ⟨h1, h2⟩) (le_refl _) h
    exact ⟨m, r1, r2, e1, e2, hr⟩

theorem C33_combined_priority_order_witness :
    (2 : Nat) ≤ 4 ∧ sampleMergeOut.agreeBelow sampleMergeOut 2 ∧
    u32 (2 * sub32 2 1) = 2 * (2 - 1) ∧
    ((0, 1) ∈ combinePairs (u32 (2 * sub32 2 1)) 0xEDC984 0xB73621 ↔
      0 < 2 ∧ 1 < 2 ∧ (0 : Nat) ≠ 1) ∧
    ∃ m r1 r2,
      mergeCombine sampleMvpSlice 5 (u32 (2 * sub32 2 1)) 0xEDC984 0xB73621 2 sampleMergeOut
        (fun k o => some (k, o)) = some (m, r1) ∧
      mergeCombine sampleMvpSlice 5 (u32 (2 * sub32 2 1)) 0xEDC984 0xB73621 2 sampleMergeOut
        (fun k o => some (k, o)) = some (m, r2) ∧
      r1.agreeBelow r2 m :=
  ⟨by decide, fun _ _ => ⟨fun _ _ => rfl, rfl⟩,
    (C33_combined_priority_order.2 2 (by decide)).1,
    (C33_combined_priority_order.2 2 (by decide)).2.2.1 0 1,
    (C33_combined_priority_order.2 2 (by decide)).2.2.2 sampleMvpSlice 5 sampleMergeOut
      sampleMergeOut (fun _ _ => ⟨fun _ _ => rfl, rfl⟩)⟩

/-! ## C37: the partition table tiles the CU -/

theorem shl_quarter (q L : Nat) (hL : 2 ≤ L) : (q * (1 <<< L)) >>> 2 = q * 2 ^ (L - 2) := by
  obtain ⟨k, rfl⟩ : ∃ k, L = k + 2 := ⟨L - 2, by omega⟩
  rw [Nat.one_shiftLeft, Nat.shiftRight_eq_div_pow, Nat.add_sub_cancel, pow_succ, pow_succ]
  have : q * (2 ^ k * 2 * 2) = (q * 2 ^ k) * 2 ^ 2 := by ring
  rw [this, Nat.mul_div_cancel _ (by decide)]

/-- The rectangle of a prediction unit in quarters of the CU side. -/
theorem getPartPosition_eq (self : CUData) (L m partIdx : Nat)
    (hL : (self.get .log2CUSize 0).val = L) (h2 : 2 ≤ L)
    (hm : (self.get .partSizes 0).val = m) :
    self.getPartPosition partIdx
      = ((partTable m partIdx 1 / 16) * 2 ^ (L - 2),
         (partTable m partIdx 1 % 16) * 2 ^ (L - 2),
         (partTable m partIdx 0 / 16) * 2 ^ (L - 2),
         (partTable m partIdx 0 % 16) * 2 ^ (L - 2)) := by
  have hand : ∀ x : Nat, x &&& 0xF = x % 16 := fun x => Nat.and_pow_two_sub_one_eq_mod x 4
  have hshr : ∀ x : Nat, x >>> 4 = x / 16 := fun x => Nat.shiftRight_eq_div_pow x 4
  unfold CUData.getPartPosition
  simp only [hL, hm, shl_quarter _ L h2, hand, hshr]

theorem puCount_each :
    puCount 0 = 1 ∧ puCount 1 = 2 ∧ puCount 2 = 2 ∧ puCount 3 = 4 ∧ puCount 4 = 2 ∧
    puCount 5 = 2 ∧ puCount 6 = 2 ∧ puCount 7 = 2 := by decide

theorem puCount_values : (List.range 8).map puCount = [1, 2, 2, 4, 2, 2, 2, 2] := by decide

theorem partTable_quarters :
    ∀ m ∈ List.range 8, ∀ i ∈ List.range 4, i < puCount m →
      0 < partTable m i 0 / 16 ∧ 0 < partTable m i 0 % 16 ∧
      partTable m i 1 / 16 + partTable m i 0 / 16 ≤ 4 ∧
      partTable m i 1 % 16 + partTable m i 0 % 16 ≤ 4 := by
  decide

theorem partTable_apart :
    ∀ m ∈ List.range 8, ∀ i ∈ List.range 4, ∀ j ∈ List.range 4,
      i < puCount m → j < puCount m → i ≠ j →
      partTable m i 1 / 16 + partTable m i 0 / 16 ≤ partTable m j 1 / 16 ∨
      partTable m j 1 / 16 + partTable m j 0 / 16 ≤ partTable m i 1 / 16 ∨
      partTable m i 1 % 16 + partTable m i 0 % 16 ≤ partTable m j 1 % 16 ∨
      partTable m j 1 % 16 + partTable m j 0 % 16 ≤ partTable m i 1 % 16 := by
  decide

theorem partTable_sixteen :
    ∀ m ∈ List.range 8,
      ((List.range (puCount m)).map
        (fun i => (partTable m i 0 / 16) * (partTable m i 0 % 16))).sum = 16 := by
  decide

theorem puCount_le (m : Nat) : puCount m ≤ 4 := by
  unfold puCount
  refine le_trans (List.length_filter_le _ _) ?_
  by_cases h : m < 8
  · interval_cases m <;> decide
  · have : partTableData.getD m [] = [] := by
      unfold List.getD
      rw [List.get?_eq_none.mpr (by simp [partTableData]; omega)]
      rfl
    rw [this]
    decide

theorem partTable_inside (m i c : Nat) (hm8 : m < 8) (hi : i < puCount m) (hc : 0 < c) :
    0 < (partTable m i 0 / 16) * c ∧ 0 < (partTable m i 0 % 16) * c ∧
    (partTable m i 1 / 16) * c + (partTable m i 0 / 16) * c ≤ 4 * c ∧
    (partTable m i 1 % 16) * c + (partTable m i 0 % 16) * c ≤ 4 * c := by
  obtain ⟨h1, h2, h3, h4⟩ := partTable_quarters m (List.mem_range.mpr hm8) i
    (List.mem_range.mpr (lt_of_lt_of_le hi (puCount_le m))) hi
  refine ⟨Nat.mul_pos h1 hc, Nat.mul_pos h2 hc, ?_, ?_⟩
  · rw [← Nat.add_mul]
    exact Nat.mul_le_mul_right c h3
  · rw [← Nat.add_mul]
    exact Nat.mul_le_mul_right c h4

theorem partTable_disjoint (m i j c x y : Nat) (hm8 : m < 8) (hi : i < puCount m)
    (hj : j < puCount m) (hij : i ≠ j) :
    ¬ (inPU ((partTable m i 1 / 16) * c, (partTable m i 1 % 16) * c,
          (partTable m i 0 / 16) * c, (partTable m i 0 % 16) * c) x y ∧
       inPU ((partTable m j 1 / 16) * c, (partTable m j 1 % 16) * c,
          (partTable m j 0 / 16) * c, (partTable m j 0 % 16) * c) x y) := by
  have h := partTable_apart m (List.mem_range.mpr hm8) i
    (List.mem_range.mpr (lt_of_lt_of_le hi (puCount_le m))) j
    (List.mem_range.mpr (lt_of_lt_of_le hj (puCount_le m))) hi hj hij
  unfold inPU
  dsimp only
  rintro ⟨⟨a1, a2, a3, a4⟩, b1, b2, b3, b4⟩
  rcases h with h | h | h | h
  · have := Nat.mul_le_mul_right c h
    rw [Nat.add_mul] at this
    omega
  · have := Nat.mul_le_mul_right c h
    rw [Nat.add_mul] at this
    omega
  · have := Nat.mul_le_mul_right c h
    rw [Nat.add_mul] at this
    omega
  · have := Nat.mul_le_mul_right c h
    rw [Nat.add_mul] at this
    omega

theorem partTable_area (m c : Nat) (hm8 : m < 8) :
    ((List.range (puCount m)).map
        (fun i => ((partTable m i 0 / 16) * c) * ((partTable m i 0 % 16) * c))).sum
      = 4 * c * (4 * c) := by
  have h := partTable_sixteen m (List.mem_range.mpr hm8)
  have e : ∀ i, ((partTable m i 0 / 16) * c) * ((partTable m i 0 % 16) * c)
      = ((partTable m i 0 / 16) * (partTable m i 0 % 16)) * (c * c) := fun i => by ring
  simp only [e]
  rw [List.sum_map_mul_right, h]
  ring

/-- C37: the eight partition modes have 1, 2, 2, 4, 2, 2, 2, 2 prediction units,
and for a CU whose side is a power of two not below 8 the rectangles that
`getPartPosition` returns for the units of the CU's mode are not empty, lie
inside the CU, have no pixel in common, and their areas add up to the area of
the CU. -/
theorem C37_partTable_tiling (self : CUData) (L m : Nat)
    (hL : (self.get .log2CUSize 0).val = L) (h3 : 3 ≤ L)
    (hm : (self.get .partSizes 0).val = m) (hm8 : m < 8) :
    (List.range 8).map puCount = [1, 2, 2, 4, 2, 2, 2, 2] ∧
    (∀ i, i < puCount m →
      0 < (self.getPartPosition i).2.2.1 ∧ 0 < (self.getPartPosition i).2.2.2 ∧
      (self.getPartPosition i).1 + (self.getPartPosition i).2.2.1 ≤ 2 ^ L ∧
      (self.getPartPosition i).2.1 + (self.getPartPosition i).2.2.2 ≤ 2 ^ L) ∧
    (∀ i j, i < puCount m → j < puCount m → i ≠ j →
      ∀ x y, ¬ (inPU (self.getPartPosition i) x y ∧ inPU (self.getPartPosition j) x y)) ∧
    ((List.range (puCount m)).map
        (fun i => (self.getPartPosition i).2.2.1 * (self.getPartPosition i).2.2.2)).sum
      = 2 ^ L * 2 ^ L := by
  obtain ⟨k, rfl⟩ : ∃ k, L = k + 2 := ⟨L - 2, by omega⟩
  have hc : 0 < 2 ^ k := Nat.two_pow_pos k
  have hp : (2 : Nat) ^ (k + 2) = 4 * 2 ^ k := by rw [pow_succ, pow_succ]; ring
  have hpos := fun i => getPartPosition_eq self (k + 2) m i hL (by omega) hm
  simp only [Nat.add_sub_cancel] at hpos
  refine ⟨puCount_values, ?_, ?_, ?_⟩
  · intro i hi
    rw [hpos i, hp]
    exact partTable_inside m i _ hm8 hi hc
  · intro i j hi hj hij x y
    rw [hpos i, hpos j]
    exact partTable_disjoint m i j _ x y hm8 hi hj hij
  · simp only [hpos, hp]
    exact partTable_area m _ hm8

theorem C37_partTable_tiling_witness :
    (sampleAmpCU.get .log2CUSize 0).val = 6 ∧ (sampleAmpCU.get .partSizes 0).val = 4 ∧
    sampleAmpCU.getPartPosition 0 = (0, 0, 64, 16) ∧
    sampleAmpCU.getPartPosition 1 = (0, 16, 64, 48) ∧
    ((List.range (puCount 4)).map
        (fun i => (sampleAmpCU.getPartPosition i).2.2.1 *
          (sampleAmpCU.getPartPosition i).2.2.2)).sum = 2 ^ 6 * 2 ^ 6 :=
  ⟨by decide, by decide, by decide, by decide,
    (C37_partTable_tiling sampleAmpCU 6 4 (by decide) (by decide) (by decide)
      (by decide)).2.2.2⟩

/-! ## The z-scan order inside an aligned square block -/

theorem zscanOf_split (d j x y : Nat) :
    zscanOf (d + j) x y
      = 4 ^ j * zscanOf d (x / 2 ^ j) (y / 2 ^ j) + zscanOf j (x % 2 ^ j) (y % 2 ^ j) := by
  induction j generalizing x y with
  | zero => simp [zscanOf]
  | succ j ih =>
    have e1 : ∀ t : Nat, t / 2 / 2 ^ j = t / 2 ^ (j + 1) := fun t => by
      rw [Nat.div_div_eq_div_mul, pow_succ, Nat.mul_comm]
    have e2 : ∀ t : Nat, t % 2 ^ (j + 1) / 2 = t / 2 % 2 ^ j := fun t => by
      rw [pow_succ, Nat.mul_comm, Nat.mod_mul_right_div_self]
    have e3 : ∀ t : Nat, t % 2 ^ (j + 1) % 2 = t % 2 := fun t =>
      Nat.mod_mod_of_dvd t ⟨2 ^ j, by rw [pow_succ, Nat.mul_comm]⟩
    show zscanOf ((d + j) + 1) x y = _
    rw [zscanOf, ih, zscanOf, e1, e1, e2, e2, e3, e3, pow_succ]
    ring

theorem zscanCol_split (d j z : Nat) :
    zscanCol (d + j) z = 2 ^ j * zscanCol d (z / 4 ^ j) + zscanCol j (z % 4 ^ j) := by
  induction j generalizing z with
  | zero => simp [zscanCol]
  | succ j ih =>
    have e1 : z / 4 / 4 ^ j = z / 4 ^ (j + 1) := by
      rw [Nat.div_div_eq_div_mul, pow_succ, Nat.mul_comm]
    have e2 : z % 4 ^ (j + 1) / 4 = z / 4 % 4 ^ j := by
      rw [pow_succ, Nat.mul_comm, Nat.mod_mul_right_div_self]
    have e3 : z % 4 ^ (j + 1) % 2 = z % 2 :=
      Nat.mod_mod_of_dvd z ⟨2 * 4 ^ j, by rw [pow_succ]; ring⟩
    show zscanCol ((d + j) + 1) z = _
    rw [zscanCol, ih, zscanCol, e1, e2, e3, pow_succ]
    ring

theorem zscanRow_split (d j z : Nat) :
    zscanRow (d + j) z = 2 ^ j * zscanRow d (z / 4 ^ j) + zscanRow j (z % 4 ^ j) := by
  induction j generalizing z with
  | zero => simp [zscanRow]
  | succ j ih =>
    have e1 : z / 4 / 4 ^ j = z / 4 ^ (j + 1) := by
      rw [Nat.div_div_eq_div_mul, pow_succ, Nat.mul_comm]
    have e2 : z % 4 ^ (j + 1) / 4 = z / 4 % 4 ^ j := by
      rw [pow_succ, Nat.mul_comm, Nat.mod_mul_right_div_self]
    have e3 : z % 4 ^ (j + 1) / 2 % 2 = z / 2 % 2 := by
      have h4 : z % 4 ^ (j + 1) % 4 = z % 4 :=
        Nat.mod_mod_of_dvd z ⟨4 ^ j, by rw [pow_succ, Nat.mul_comm]⟩
      omega
    show zscanRow ((d + j) + 1) z = _
    rw [zscanRow, ih, zscanRow, e1, e2, e3, pow_succ]
    ring

/-- Column and row of an index `a + r` of the aligned block of `4 ^ j` partitions at
`a`: those of `a` plus those of `r` inside the block. -/
theorem zscan_block_pos (F j a r : Nat) (hj : j ≤ F) (ha : 4 ^ j ∣ a) (hr : r < 4 ^ j) :
    zscanCol F (a + r) = zscanCol F a + zscanCol j r ∧
    zscanRow F (a + r) = zscanRow F a + zscanRow j r ∧
    zscanCol F a % 2 ^ j = 0 ∧ zscanRow F a % 2 ^ j = 0 ∧
    zscanCol F a + 2 ^ j ≤ 2 ^ F ∧ zscanRow F a + 2 ^ j ≤ 2 ^ F := by
  obtain ⟨d, rfl⟩ : ∃ d, F = d + j := ⟨F - j, by omega⟩
  obtain ⟨q, rfl⟩ := ha
  have h4 : 0 < 4 ^ j := Nat.pos_pow_of_pos j (by decide)
  have hz : ∀ t, zscanCol t 0 = 0 ∧ zscanRow t 0 = 0 := fun t => by
    induction t with
    | zero => exact ⟨rfl, rfl⟩
    | succ t ih => simp [zscanCol, zscanRow, ih.1, ih.2]
  have d1 : (4 ^ j * q + r) / 4 ^ j = q := by
    rw [Nat.mul_add_div h4, Nat.div_eq_of_lt hr, Nat.add_zero]
  have m1 : (4 ^ j * q + r) % 4 ^ j = r := by
    rw [Nat.mul_add_mod, Nat.mod_eq_of_lt hr]
  have d0 : (4 ^ j * q) / 4 ^ j = q := Nat.mul_div_cancel_left q h4
  have m0 : (4 ^ j * q) % 4 ^ j = 0 := Nat.mul_mod_right _ _
  have hc := zscanCol_lt d q
  have hr2 := zscanRow_lt d q
  have hp : (2 : Nat) ^ (d + j) = 2 ^ j * 2 ^ d := by rw [pow_add, Nat.mul_comm]
  rw [zscanCol_split d j (4 ^ j * q + r), zscanRow_split d j (4 ^ j * q + r),
    zscanCol_split d j (4 ^ j * q), zscanRow_split d j (4 ^ j * q), d1, m1, d0, m0,
    (hz j).1, (hz j).2, hp]
  refine ⟨rfl, rfl, by simp, by simp, ?_, ?_⟩
  · calc 2 ^ j * zscanCol d q + 0 + 2 ^ j = 2 ^ j * (zscanCol d q + 1) := by ring
      _ ≤ 2 ^ j * 2 ^ d := Nat.mul_le_mul_left _ hc
  · calc 2 ^ j * zscanRow d q + 0 + 2 ^ j = 2 ^ j * (zscanRow d q + 1) := by ring
      _ ≤ 2 ^ j * 2 ^ d := Nat.mul_le_mul_left _ hr2

/-- The unit at column `x` and row `y` of the aligned block of `4 ^ j` partitions at
`a` has the z-scan index `a + zscanOf j x y`. -/
theorem zscanOf_block (F j a x y : Nat) (hj : j ≤ F) (ha : 4 ^ j ∣ a) (haF : a < 4 ^ F)
    (hx : x < 2 ^ j) (hy : y < 2 ^ j) :
    zscanOf F (zscanCol F a + x) (zscanRow F a + y) = a + zscanOf j x y := by
  obtain ⟨h1, h2, -, -⟩ := zscan_block_pos F j a (zscanOf j x y) hj ha (zscanOf_lt j x y)
  rw [zscanCol_zscanOf j x y hx] at h1
  rw [zscanRow_zscanOf j x y hy] at h2
  rw [← h1, ← h2]
  apply zscanOf_col_row
  obtain ⟨d, rfl⟩ : ∃ d, F = d + j := ⟨F - j, by omega⟩
  obtain ⟨q, rfl⟩ := ha
  have := zscanOf_lt j x y
  have hq : q < 4 ^ d := by
    rw [pow_add, Nat.mul_comm] at haF
    exact Nat.lt_of_mul_lt_mul_right haF
  calc 4 ^ j * q + zscanOf j x y < 4 ^ j * q + 4 ^ j := by omega
    _ = 4 ^ j * (q + 1) := by ring
    _ ≤ 4 ^ j * 4 ^ d := Nat.mul_le_mul_left _ hq
    _ = 4 ^ (d + j) := by rw [pow_add, Nat.mul_comm]

/-- The table reads of the source for the unit `x` columns right of and `y` rows
below the first unit of an aligned block. -/
theorem raster_step_block (g : Globals) (j a x y : Nat) (hj : j ≤ g.g_maxFullDepth)
    (ha : 4 ^ j ∣ a) (haF : a < 4 ^ g.g_maxFullDepth) (hx : x < 2 ^ j) (hy : y < 2 ^ j) :
    g_rasterToZscan g (g_zscanToRaster g a + y * 2 ^ g.g_maxFullDepth + x)
      = a + zscanOf j x y := by
  obtain ⟨-, -, -, -, hc, -⟩ := zscan_block_pos g.g_maxFullDepth j a 0 hj ha
    (Nat.pos_pow_of_pos j (by decide))
  rw [← zscanOf_block g.g_maxFullDepth j a x y hj ha haF hx hy]
  unfold g_rasterToZscan g_zscanToRaster
  have hpos : 0 < 2 ^ g.g_maxFullDepth := Nat.two_pow_pos _
  have hlt : zscanCol g.g_maxFullDepth a + x < 2 ^ g.g_maxFullDepth := by omega
  have e : zscanRow g.g_maxFullDepth a * 2 ^ g.g_maxFullDepth + zscanCol g.g_maxFullDepth a
      + y * 2 ^ g.g_maxFullDepth + x
      = 2 ^ g.g_maxFullDepth * (zscanRow g.g_maxFullDepth a + y)
        + (zscanCol g.g_maxFullDepth a + x) := by ring
  rw [e, Nat.mul_add_mod, Nat.mod_eq_of_lt hlt, Nat.mul_add_div hpos, Nat.div_eq_of_lt hlt,
    Nat.add_zero]

/-! ## C36: the corner units of a prediction unit -/

theorem unitOfPixel_block (g : Globals) (N k a px py : Nat) (hN : N = 2 ^ g.g_maxFullDepth)
    (hk : k ≤ g.g_maxFullDepth) (ha : 4 ^ k ∣ a) (haF : a < 4 ^ g.g_maxFullDepth)
    (hx : px / 4 < 2 ^ k) (hy : py / 4 < 2 ^ k) :
    unitOfPixel g N a px py = a + zscanOf k (px / 4) (py / 4) := by
  unfold unitOfPixel LOG2_UNIT_SIZE
  rw [Nat.shiftRight_eq_div_pow, Nat.shiftRight_eq_div_pow, hN]
  exact raster_step_block g k a (px / 4) (py / 4) hk ha haF hx hy

theorem zscanOf_grid (d j gx gy rx ry : Nat) (hrx : rx < 2 ^ j) (hry : ry < 2 ^ j) :
    zscanOf (d + j) (gx * 2 ^ j + rx) (gy * 2 ^ j + ry)
      = 4 ^ j * zscanOf d gx gy + zscanOf j rx ry := by
  have hS : 0 < 2 ^ j := Nat.two_pow_pos j
  rw [zscanOf_split]
  have e : ∀ t r, r < 2 ^ j → (t * 2 ^ j + r) / 2 ^ j = t ∧ (t * 2 ^ j + r) % 2 ^ j = r :=
    fun t r hr => by
      rw [Nat.mul_comm, Nat.mul_add_div hS, Nat.div_eq_of_lt hr, Nat.mul_add_mod,
        Nat.mod_eq_of_lt hr]
      exact ⟨rfl, rfl⟩
  rw [(e gx rx hrx).1, (e gx rx hrx).2, (e gy ry hry).1, (e gy ry hry).2]

/-- The four corner units of a rectangle given in cells of the `2 ^ d` by `2 ^ d`
grid over a CU of `4 ^ (d + j)` partitions; a cell is `2 ^ j` units wide. -/
theorem pu_corner_units (g : Globals) (N d j a gx gy gw gh : Nat)
    (hN : N = 2 ^ g.g_maxFullDepth) (hk : d + j ≤ g.g_maxFullDepth)
    (ha : 4 ^ (d + j) ∣ a) (haF : a < 4 ^ g.g_maxFullDepth)
    (hw : 1 ≤ gw) (hx : gx + gw ≤ 2 ^ d) (hh : 1 ≤ gh) (hy : gy + gh ≤ 2 ^ d) :
    unitOfPixel g N a (gx * (4 * 2 ^ j)) (gy * (4 * 2 ^ j))
      = a + 4 ^ j * zscanOf d gx gy ∧
    unitOfPixel g N a (gx * (4 * 2 ^ j) + gw * (4 * 2 ^ j) - 1) (gy * (4 * 2 ^ j))
      = a + 4 ^ j * zscanOf d (gx + gw - 1) gy + zscanOf j (2 ^ j - 1) 0 ∧
    unitOfPixel g N a (gx * (4 * 2 ^ j)) (gy * (4 * 2 ^ j) + gh * (4 * 2 ^ j) - 1)
      = a + 4 ^ j * zscanOf d gx (gy + gh - 1) + zscanOf j 0 (2 ^ j - 1) ∧
    unitOfPixel g N a (gx * (4 * 2 ^ j) + gw * (4 * 2 ^ j) - 1)
        (gy * (4 * 2 ^ j) + gh * (4 * 2 ^ j) - 1)
      = a + 4 ^ j * zscanOf d (gx + gw - 1) (gy + gh - 1)
        + zscanOf j (2 ^ j - 1) (2 ^ j - 1) := by
  have hS : 0 < 2 ^ j := Nat.two_pow_pos j
  have hp : (2 : Nat) ^ (d + j) = 2 ^ d * 2 ^ j := pow_add 2 d j
  have hz : ∀ t, zscanOf t 0 0 = 0 := fun t => by
    induction t with
    | zero => rfl
    | succ t ih => simp [zscanOf, ih]
  -- the unit coordinates of the near and the far side of a span of cells
  have near : ∀ t, (t * (4 * 2 ^ j)) / 4 = t * 2 ^ j + 0 := fun t => by
    have : t * (4 * 2 ^ j) = 4 * (t * 2 ^ j) := by ring
    omega
  have far : ∀ t w, 1 ≤ w →
      (t * (4 * 2 ^ j) + w * (4 * 2 ^ j) - 1) / 4 = (t + w - 1) * 2 ^ j + (2 ^ j - 1) :=
    fun t w h1 => by
      obtain ⟨v, rfl⟩ : ∃ v, w = v + 1 := ⟨w - 1, by omega⟩
      have e1 : t * (4 * 2 ^ j) + (v + 1) * (4 * 2 ^ j) = 4 * ((t + v) * 2 ^ j + 2 ^ j) := by
        ring
      have e2 : t + (v + 1) - 1 = t + v := by omega
      rw [e1, e2]
      omega
  have lim : ∀ t r, t < 2 ^ d → r < 2 ^ j → t * 2 ^ j + r < 2 ^ (d + j) := fun t r ht hr => by
    rw [hp]
    calc t * 2 ^ j + r < t * 2 ^ j + 2 ^ j := by omega
      _ = (t + 1) * 2 ^ j := by ring
      _ ≤ 2 ^ d * 2 ^ j := Nat.mul_le_mul_right _ ht
  have h0 : (0 : Nat) < 2 ^ j := hS
  have h1 : 2 ^ j - 1 < 2 ^ j := by omega
  refine ⟨?_, ?_, ?_, ?_⟩
  · rw [unitOfPixel_block g N (d + j) a _ _ hN hk ha haF (by rw [near]; exact lim _ _ (by omega) h0)
      (by rw [near]; exact lim _ _ (by omega) h0), near, near, zscanOf_grid d j _ _ 0 0 h0 h0, hz]
    rfl
  · rw [unitOfPixel_block g N (d + j) a _ _ hN hk ha haF
      (by rw [far _ _ hw]; exact lim _ _ (by omega) h1)
      (by rw [near]; exact lim _ _ (by omega) h0), far _ _ hw, near,
      zscanOf_grid d j _ _ _ 0 h1 h0, Nat.add_assoc]
  · rw [unitOfPixel_block g N (d + j) a _ _ hN hk ha haF
      (by rw [near]; exact lim _ _ (by omega) h0)
      (by rw [far _ _ hh]; exact lim _ _ (by omega) h1), near, far _ _ hh,
      zscanOf_grid d j _ _ 0 _ h0 h1, Nat.add_assoc]
  · rw [unitOfPixel_block g N (d + j) a _ _ hN hk ha haF
      (by rw [far _ _ hw]; exact lim _ _ (by omega) h1)
      (by rw [far _ _ hh]; exact lim _ _ (by omega) h1), far _ _ hw, far _ _ hh,
      zscanOf_grid d j _ _ _ _ h1 h1, Nat.add_assoc]

theorem block_end_le (F k a : Nat) (hk : k ≤ F) (hF : F ≤ 15) (ha : 4 ^ k ∣ a)
    (haF : a < 4 ^ F) : a + 4 ^ k ≤ 2 ^ 30 := by
  obtain ⟨d, rfl⟩ : ∃ d, F = d + k := ⟨F - k, by omega⟩
  obtain ⟨q, rfl⟩ := ha
  have hq : q < 4 ^ d := by
    rw [pow_add, Nat.mul_comm] at haF
    exact Nat.lt_of_mul_lt_mul_right haF
  calc 4 ^ k * q + 4 ^ k = 4 ^ k * (q + 1) := by ring
    _ ≤ 4 ^ k * 4 ^ d := Nat.mul_le_mul_left _ hq
    _ = 4 ^ (d + k) := by rw [pow_add, Nat.mul_comm]
    _ ≤ 4 ^ 15 := Nat.pow_le_pow_right (by decide) hF
    _ = 2 ^ 30 := by norm_num

/-- The three table reads with which the corner derivations start, for a CU of
`4 ^ k` partitions aligned at `a`. -/
theorem derive_bases (self : CUData) (g : Globals) (N k : Nat)
    (hN : N = 2 ^ g.g_maxFullDepth) (hF : g.g_maxFullDepth ≤ 15)
    (hk : (self.get .log2CUSize 0).val = k + 2) (hk1 : 1 ≤ k) (hkF : k ≤ g.g_maxFullDepth)
    (ha : 4 ^ k ∣ self.m_absIdxInCTU) (haF : self.m_absIdxInCTU < 4 ^ g.g_maxFullDepth) :
    g_rasterToZscan g (sub32 (u32 (g_zscanToRaster g self.m_absIdxInCTU
        + (1 <<< ((self.get .log2CUSize 0).val - LOG2_UNIT_SIZE)))) 1)
      = self.m_absIdxInCTU + zscanOf k (2 ^ k - 1) 0 ∧
    g_rasterToZscan g (u32 (g_zscanToRaster g self.m_absIdxInCTU
        + u32 (((1 <<< ((self.get .log2CUSize 0).val - LOG2_UNIT_SIZE - 1)) - 1) * N)))
      = self.m_absIdxInCTU + zscanOf k 0 (2 ^ (k - 1) - 1) ∧
    g_rasterToZscan g (sub32 (u32 (u32 (g_zscanToRaster g self.m_absIdxInCTU
        + u32 (((1 <<< ((self.get .log2CUSize 0).val - LOG2_UNIT_SIZE - 1)) - 1) * N))
        + (1 <<< ((self.get .log2CUSize 0).val - LOG2_UNIT_SIZE)))) 1)
      = self.m_absIdxInCTU + zscanOf k (2 ^ k - 1) (2 ^ (k - 1) - 1) := by
  generalize self.m_absIdxInCTU = a at ha haF
  obtain ⟨-, -, -, -, hc, hr⟩ := zscan_block_pos g.g_maxFullDepth k a 0 hkF ha
    (Nat.pos_pow_of_pos k (by decide))
  have hK : 0 < 2 ^ k := Nat.two_pow_pos k
  have hH : 2 ^ (k - 1) + 2 ^ (k - 1) = 2 ^ k := by
    obtain ⟨t, rfl⟩ : ∃ t, k = t + 1 := ⟨k - 1, by omega⟩
    rw [Nat.add_sub_cancel, pow_succ]
    omega
  have hH0 : 0 < 2 ^ (k - 1) := Nat.two_pow_pos _
  have hFpos : 0 < 2 ^ g.g_maxFullDepth := Nat.two_pow_pos _
  have hF2 : 2 ^ g.g_maxFullDepth ≤ 2 ^ 15 := Nat.pow_le_pow_right (by decide) hF
  have hra : g_zscanToRaster g a
      = zscanRow g.g_maxFullDepth a * 2 ^ g.g_maxFullDepth + zscanCol g.g_maxFullDepth a := rfl
  -- every raster address in the CU is below 2 ^ 30
  have hlim : ∀ x y, x < 2 ^ k → y < 2 ^ k →
      g_zscanToRaster g a + y * 2 ^ g.g_maxFullDepth + x < 2 ^ 30 := fun x y hx hy => by
    rw [hra]
    calc zscanRow g.g_maxFullDepth a * 2 ^ g.g_maxFullDepth + zscanCol g.g_maxFullDepth a
          + y * 2 ^ g.g_maxFullDepth + x
        = (zscanRow g.g_maxFullDepth a + y) * 2 ^ g.g_maxFullDepth
          + (zscanCol g.g_maxFullDepth a + x) := by ring
      _ < (zscanRow g.g_maxFullDepth a + y) * 2 ^ g.g_maxFullDepth + 2 ^ g.g_maxFullDepth := by
          omega
      _ = (zscanRow g.g_maxFullDepth a + y + 1) * 2 ^ g.g_maxFullDepth := by ring
      _ ≤ 2 ^ g.g_maxFullDepth * 2 ^ g.g_maxFullDepth :=
          Nat.mul_le_mul_right _ (by omega)
      _ ≤ 2 ^ 15 * 2 ^ 15 := Nat.mul_le_mul hF2 hF2
      _ = 2 ^ 30 := by norm_num
  have s1 : (1 : Nat) <<< ((self.get .log2CUSize 0).val - LOG2_UNIT_SIZE) = 2 ^ k := by
    rw [hk, Nat.one_shiftLeft]
    rfl
  have s2 : (1 : Nat) <<< ((self.get .log2CUSize 0).val - LOG2_UNIT_SIZE - 1) = 2 ^ (k - 1) := by
    rw [hk, Nat.one_shiftLeft]
    rfl
  rw [s1, s2, hN]
  have b1 := raster_step_block g k a (2 ^ k - 1) 0 hkF ha haF (by omega) hK
  have b2 := raster_step_block g k a 0 (2 ^ (k - 1) - 1) hkF ha haF hK (by omega)
  have b3 := raster_step_block g k a (2 ^ k - 1) (2 ^ (k - 1) - 1) hkF ha haF (by omega)
    (by omega)
  have l1 := hlim (2 ^ k - 1) 0 (by omega) hK
  have l2 := hlim 0 (2 ^ (k - 1) - 1) hK (by omega)
  have l3 := hlim (2 ^ k - 1) (2 ^ (k - 1) - 1) (by omega) (by omega)
  generalize g_zscanToRaster g a = ra at b1 b2 b3 l1 l2 l3
  generalize (2 ^ (k - 1) - 1) * 2 ^ g.g_maxFullDepth = off at b2 b3 l2 l3
  simp only [Nat.zero_mul, Nat.add_zero] at b1 b2 l1 l2
  have e1 : sub32 (u32 (ra + 2 ^ k)) 1 = ra + (2 ^ k - 1) := by
    unfold sub32 u32
    omega
  have e2 : u32 (ra + u32 off) = ra + off := by
    unfold u32
    omega
  have e3 : sub32 (u32 (u32 (ra + u32 off) + 2 ^ k)) 1 = ra + off + (2 ^ k - 1) := by
    unfold sub32 u32
    omega
  rw [e3, e1, e2]
  exact ⟨b1, b2, b3⟩

theorem u32_small (x : Nat) (h : x < 2 ^ 32) : u32 x = x := Nat.mod_eq_of_lt h

theorem sub32_small (x y : Nat) (h : y ≤ x) (hx : x < 2 ^ 32) : sub32 x y = x - y := by
  unfold sub32
  omega

theorem u32_add_neg (b s : Nat) (hs : 0 < s) (hsb : s ≤ b) (hb : b < 2 ^ 32) :
    u32 (b + sub32 0 s) = b - s := by
  unfold u32 sub32
  omega

theorem u32_add_mul_neg (b c : Nat) (hc : 0 < c) (hcb : c ≤ b) (hb : b < 2 ^ 32) :
    u32 (b + u32 (c * sub32 0 1)) = b - c := by
  have e : sub32 0 1 = 2 ^ 32 - 1 := by decide
  have e2 : c * (2 ^ 32 - 1) = (c - 1) * 2 ^ 32 + (2 ^ 32 - c) := by
    obtain ⟨v, rfl⟩ : ∃ v, c = v + 1 := ⟨c - 1, by omega⟩
    rw [Nat.add_sub_cancel]
    have : v + 1 ≤ 2 ^ 32 := by omega
    zify [this]
    ring
  have h1 : u32 (c * (2 ^ 32 - 1)) = 2 ^ 32 - c := by
    unfold u32
    rw [e2, Nat.add_comm, Nat.add_mul_mod_self_right]
    exact Nat.mod_eq_of_lt (by omega)
  rw [e, h1]
  unfold u32
  omega

set_option maxHeartbeats 1000000 in
/-- The corner derivations for the asymmetric modes, on a CU of at least 16
partitions. -/
theorem pu_corners_grid2 (self : CUData) (g : Globals) (frame : Frame) (j m partIdx : Nat)
    (xP yP nPSW nPSH : Nat)
    (hframe : self.m_frame = some frame)
    (hN : frame.m_numPartInCUSize = 2 ^ g.g_maxFullDepth) (hF : g.g_maxFullDepth ≤ 15)
    (hk : (self.get .log2CUSize 0).val = (2 + j) + 2) (hkF : 2 + j ≤ g.g_maxFullDepth)
    (hn : self.m_numPartitions = 4 ^ (2 + j))
    (ha : 4 ^ (2 + j) ∣ self.m_absIdxInCTU)
    (haF : self.m_absIdxInCTU < 4 ^ g.g_maxFullDepth)
    (hm : (self.get .partSizes 0).val = m) (hm4 : 4 ≤ m) (hm8 : m < 8)
    (hpu : partIdx < puCount m)
    (hpos : self.getPartPosition partIdx = (xP, yP, nPSW, nPSH)) :
    self.deriveLeftRightTopIdx g partIdx
      = (unitOfPixel g frame.m_numPartInCUSize self.m_absIdxInCTU xP yP,
         unitOfPixel g frame.m_numPartInCUSize self.m_absIdxInCTU (xP + nPSW - 1) yP) ∧
    self.deriveLeftBottomIdx g partIdx
      = some (unitOfPixel g frame.m_numPartInCUSize self.m_absIdxInCTU xP (yP + nPSH - 1)) ∧
    self.deriveRightBottomIdx g partIdx
      = some (unitOfPixel g frame.m_numPartInCUSize self.m_absIdxInCTU (xP + nPSW - 1)
          (yP + nPSH - 1)) := by
  obtain ⟨bRT, bLB, bRB⟩ := derive_bases self g frame.m_numPartInCUSize (2 + j) hN hF hk
    (by omega) hkF ha haF
  rw [getPartPosition_eq self _ m partIdx hk (by omega) hm] at hpos
  obtain ⟨i1, i2, i3, i4⟩ := partTable_inside m partIdx 1 hm8 hpu (by decide)
  simp only [Nat.mul_one] at i1 i2 i3 i4
  obtain ⟨cTL, cTR, cBL, cBR⟩ := pu_corner_units g frame.m_numPartInCUSize 2 j
    self.m_absIdxInCTU
    (partTable m partIdx 1 / 16) (partTable m partIdx 1 % 16)
    (partTable m partIdx 0 / 16) (partTable m partIdx 0 % 16) hN hkF ha haF i1 i3 i2 i4
  have hpx : (2 : Nat) ^ ((2 + j) + 2 - 2) = 4 * 2 ^ j := by
    rw [Nat.add_sub_cancel, pow_add]
    rfl
  rw [hpx] at hpos
  simp only [Prod.mk.injEq] at hpos
  obtain ⟨rfl, rfl, rfl, rfl⟩ := hpos
  rw [cTL, cTR, cBL, cBR]
  have hS : 0 < 2 ^ j := Nat.two_pow_pos j
  have e3 : 3 * 2 ^ j + (2 ^ j - 1) = 2 ^ (2 + j) - 1 := by
    rw [pow_add]
    omega
  have e1 : 1 * 2 ^ j + (2 ^ j - 1) = 2 ^ (2 + j - 1) - 1 := by
    have : 2 + j - 1 = 1 + j := by omega
    rw [this, pow_add]
    omega
  have g10 := zscanOf_grid 2 j 3 0 (2 ^ j - 1) 0 (by omega) hS
  have g01 := zscanOf_grid 2 j 0 1 0 (2 ^ j - 1) hS (by omega)
  have g11 := zscanOf_grid 2 j 3 1 (2 ^ j - 1) (2 ^ j - 1) (by omega) (by omega)
  rw [e3, Nat.zero_mul, Nat.add_zero] at g10
  rw [e1, Nat.zero_mul, Nat.zero_add] at g01
  rw [e3, e1] at g11
  rw [g10] at bRT
  rw [g01] at bLB
  rw [g11] at bRB
  have hT10 := zscanOf_lt j (2 ^ j - 1) 0
  have hT01 := zscanOf_lt j 0 (2 ^ j - 1)
  have hT11 := zscanOf_lt j (2 ^ j - 1) (2 ^ j - 1)
  have hn16 : (4 : Nat) ^ (2 + j) = 16 * 4 ^ j := by rw [pow_add]; rfl
  have hlimit : self.m_absIdxInCTU + 16 * 4 ^ j ≤ 2 ^ 30 := by
    rw [← hn16]
    exact block_end_le _ _ _ hkF hF ha haF
  unfold CUData.deriveLeftRightTopIdx CUData.deriveLeftBottomIdx CUData.deriveRightBottomIdx
  simp only [hframe, bRT, bLB, bRB, hm, hn, hn16]
  generalize self.m_absIdxInCTU = a at *
  generalize zscanOf j (2 ^ j - 1) 0 = T10 at *
  generalize zscanOf j 0 (2 ^ j - 1) = T01 at *
  generalize zscanOf j (2 ^ j - 1) (2 ^ j - 1) = T11 at *
  generalize (4 : Nat) ^ j = Nn at *
  have hs1 : (16 * Nn) >>> 1 = 8 * Nn := by rw [Nat.shiftRight_eq_div_pow]; omega
  have hs2 : (16 * Nn) >>> 2 = 4 * Nn := by rw [Nat.shiftRight_eq_div_pow]; omega
  have hs3 : (16 * Nn) >>> 3 = 2 * Nn := by rw [Nat.shiftRight_eq_div_pow]; omega
  have hs4 : (16 * Nn) >>> 4 = Nn := by rw [Nat.shiftRight_eq_div_pow]; omega
  clear cTL cTR cBL cBR i1 i2 i3 i4 e1 e3 hpx hn16 hn hk hkF ha haF hN hF hframe hm hS
    bRT bLB bRB g10 g01 g11
  interval_cases m <;>
    (have hi2 : partIdx < 2 := lt_of_lt_of_le hpu (by decide)
     clear hpu
     interval_cases partIdx <;>
      (simp only [partTable, partTableData, List.getD_cons_zero, List.getD_cons_succ,
         SIZE_2Nx2N, SIZE_2NxN, SIZE_Nx2N, SIZE_NxN, SIZE_2NxnU, SIZE_2NxnD, SIZE_nLx2N,
         SIZE_nRx2N, hs1, hs2, hs3, hs4]
       clear hs1 hs2 hs3 hs4 hi2
       simp [zscanOf]
       simp (disch := omega) only [u32_small, sub32_small, u32_add_neg, u32_add_mul_neg,
         true_and, and_true]
       first | done | omega))

theorem partTable_halves :
    ∀ m, m < 4 → ∀ i, i < 4 → i < puCount m →
      partTable m i 1 / 16 = 2 * (partTable m i 1 / 16 / 2) ∧
      partTable m i 1 % 16 = 2 * (partTable m i 1 % 16 / 2) ∧
      partTable m i 0 / 16 = 2 * (partTable m i 0 / 16 / 2) ∧
      partTable m i 0 % 16 = 2 * (partTable m i 0 % 16 / 2) := by
  decide

set_option maxHeartbeats 1000000 in
/-- The corner derivations for the modes that split the CU in halves, on a CU of
at least 4 partitions. -/
theorem pu_corners_grid1 (self : CUData) (g : Globals) (frame : Frame) (j m partIdx : Nat)
    (xP yP nPSW nPSH : Nat)
    (hframe : self.m_frame = some frame)
    (hN : frame.m_numPartInCUSize = 2 ^ g.g_maxFullDepth) (hF : g.g_maxFullDepth ≤ 15)
    (hk : (self.get .log2CUSize 0).val = (1 + j) + 2) (hkF : 1 + j ≤ g.g_maxFullDepth)
    (hn : self.m_numPartitions = 4 ^ (1 + j))
    (ha : 4 ^ (1 + j) ∣ self.m_absIdxInCTU)
    (haF : self.m_absIdxInCTU < 4 ^ g.g_maxFullDepth)
    (hm : (self.get .partSizes 0).val = m) (hm4 : m < 4) (hpu : partIdx < puCount m)
    (hpos : self.getPartPosition partIdx = (xP, yP, nPSW, nPSH)) :
    self.deriveLeftRightTopIdx g partIdx
      = (unitOfPixel g frame.m_numPartInCUSize self.m_absIdxInCTU xP yP,
         unitOfPixel g frame.m_numPartInCUSize self.m_absIdxInCTU (xP + nPSW - 1) yP) ∧
    self.deriveLeftBottomIdx g partIdx
      = some (unitOfPixel g frame.m_numPartInCUSize self.m_absIdxInCTU xP (yP + nPSH - 1)) ∧
    self.deriveRightBottomIdx g partIdx
      = some (unitOfPixel g frame.m_numPartInCUSize self.m_absIdxInCTU (xP + nPSW - 1)
          (yP + nPSH - 1)) := by
  obtain ⟨bRT, bLB, bRB⟩ := derive_bases self g frame.m_numPartInCUSize (1 + j) hN hF hk
    (by omega) hkF ha haF
  rw [getPartPosition_eq self _ m partIdx hk (by omega) hm] at hpos
  have hi4 : partIdx < 4 := lt_of_lt_of_le hpu (by interval_cases m <;> decide)
  obtain ⟨i1, i2, i3, i4⟩ := partTable_inside m partIdx 1 (by omega) hpu (by decide)
  obtain ⟨v1, v2, v3, v4⟩ := partTable_halves m hm4 partIdx hi4 hpu
  simp only [Nat.mul_one] at i1 i2 i3 i4
  obtain ⟨cTL, cTR, cBL, cBR⟩ := pu_corner_units g frame.m_numPartInCUSize 1 j
    self.m_absIdxInCTU
    (partTable m partIdx 1 / 16 / 2) (partTable m partIdx 1 % 16 / 2)
    (partTable m partIdx 0 / 16 / 2) (partTable m partIdx 0 % 16 / 2) hN hkF ha haF
    (by omega) (by norm_num; omega) (by omega) (by norm_num; omega)
  have hpx : ∀ q h : Nat, q = 2 * h → q * 2 ^ ((1 + j) + 2 - 2) = h * (4 * 2 ^ j) :=
    fun q h e => by
      rw [e, Nat.add_sub_cancel, pow_add]
      ring
  rw [hpx _ _ v1, hpx _ _ v2, hpx _ _ v3, hpx _ _ v4] at hpos
  simp only [Prod.mk.injEq] at hpos
  obtain ⟨rfl, rfl, rfl, rfl⟩ := hpos
  rw [cTL, cTR, cBL, cBR]
  have hS : 0 < 2 ^ j := Nat.two_pow_pos j
  have e3 : 1 * 2 ^ j + (2 ^ j - 1) = 2 ^ (1 + j) - 1 := by
    rw [pow_add]
    omega
  have e1 : 0 * 2 ^ j + (2 ^ j - 1) = 2 ^ (1 + j - 1) - 1 := by
    rw [Nat.add_sub_cancel_left]
    omega
  have g10 := zscanOf_grid 1 j 1 0 (2 ^ j - 1) 0 (by omega) hS
  have g01 := zscanOf_grid 1 j 0 0 0 (2 ^ j - 1) hS (by omega)
  have g11 := zscanOf_grid 1 j 1 0 (2 ^ j - 1) (2 ^ j - 1) (by omega) (by omega)
  rw [e3, Nat.zero_mul, Nat.add_zero] at g10
  rw [e1, Nat.zero_mul, Nat.zero_add] at g01
  rw [e3, e1] at g11
  rw [g10] at bRT
  rw [g01] at bLB
  rw [g11] at bRB
  have hT10 := zscanOf_lt j (2 ^ j - 1) 0
  have hT01 := zscanOf_lt j 0 (2 ^ j - 1)
  have hT11 := zscanOf_lt j (2 ^ j - 1) (2 ^ j - 1)
  have hn4 : (4 : Nat) ^ (1 + j) = 4 * 4 ^ j := by rw [pow_add]; rfl
  have hlimit : self.m_absIdxInCTU + 4 * 4 ^ j ≤ 2 ^ 30 := by
    rw [← hn4]
    exact block_end_le _ _ _ hkF hF ha haF
  unfold CUData.deriveLeftRightTopIdx CUData.deriveLeftBottomIdx CUData.deriveRightBottomIdx
  simp only [hframe, bRT, bLB, bRB, hm, hn, hn4]
  generalize self.m_absIdxInCTU = a at *
  generalize zscanOf j (2 ^ j - 1) 0 = T10 at *
  generalize zscanOf j 0 (2 ^ j - 1) = T01 at *
  generalize zscanOf j (2 ^ j - 1) (2 ^ j - 1) = T11 at *
  generalize (4 : Nat) ^ j = Nn at *
  have hs1 : (4 * Nn) >>> 1 = 2 * Nn := by rw [Nat.shiftRight_eq_div_pow]; omega
  have hs2 : (4 * Nn) >>> 2 = Nn := by rw [Nat.shiftRight_eq_div_pow]; omega
  clear cTL cTR cBL cBR i1 i2 i3 i4 v1 v2 v3 v4 e1 e3 hpx hn4 hn hk hkF ha haF hN hF hframe hm
    hS bRT bLB bRB g10 g01 g11
  interval_cases m <;>
    (interval_cases partIdx <;> first
      | exact absurd hpu (by decide)
      | (clear hpu hi4
         simp only [partTable, partTableData, List.getD_cons_zero, List.getD_cons_succ,
           SIZE_2Nx2N, SIZE_2NxN, SIZE_Nx2N, SIZE_NxN, SIZE_2NxnU, SIZE_2NxnD, SIZE_nLx2N,
           SIZE_nRx2N, hs1, hs2]
         clear hs1 hs2
         simp [zscanOf]
         simp (disch := omega) only [u32_small, sub32_small, u32_add_neg, u32_add_mul_neg,
           true_and, and_true]
         first | done | omega))

/-- C36: on a CU of `4 ^ k` partitions (`k ≥ 1`, and `k ≥ 2` for the asymmetric
modes) that starts at the aligned CTU-relative index `m_absIdxInCTU`, for every
prediction unit of the CU's mode, `deriveLeftRightTopIdx` returns the z-scan
indices of the 4x4 units that hold the top-left and the top-right pixel of the
rectangle `getPartPosition` gives for the unit, `deriveLeftBottomIdx` the index of
the unit that holds its bottom-left pixel and `deriveRightBottomIdx` the index of
the unit that holds its bottom-right pixel. The 32-bit additions and subtractions
of the source wrap in between and end on these exact indices. -/
theorem C36_pu_corner_units (self : CUData) (g : Globals) (frame : Frame) (k m partIdx : Nat)
    (xP yP nPSW nPSH : Nat)
    (hframe : self.m_frame = some frame)
    (hN : frame.m_numPartInCUSize = 2 ^ g.g_maxFullDepth) (hF : g.g_maxFullDepth ≤ 15)
    (hk : (self.get .log2CUSize 0).val = k + 2) (hk1 : 1 ≤ k) (hkF : k ≤ g.g_maxFullDepth)
    (hn : self.m_numPartitions = 4 ^ k)
    (ha : 4 ^ k ∣ self.m_absIdxInCTU)
    (haF : self.m_absIdxInCTU < 4 ^ g.g_maxFullDepth)
    (hm : (self.get .partSizes 0).val = m) (hm8 : m < 8) (hamp : 4 ≤ m → 2 ≤ k)
    (hpu : partIdx < puCount m)
    (hpos : self.getPartPosition partIdx = (xP, yP, nPSW, nPSH)) :
    self.deriveLeftRightTopIdx g partIdx
      = (unitOfPixel g frame.m_numPartInCUSize self.m_absIdxInCTU xP yP,
         unitOfPixel g frame.m_numPartInCUSize self.m_absIdxInCTU (xP + nPSW - 1) yP) ∧
    self.deriveLeftBottomIdx g partIdx
      = some (unitOfPixel g frame.m_numPartInCUSize self.m_absIdxInCTU xP (yP + nPSH - 1)) ∧
    self.deriveRightBottomIdx g partIdx
      = some (unitOfPixel g frame.m_numPartInCUSize self.m_absIdxInCTU (xP + nPSW - 1)
          (yP + nPSH - 1)) := by
  by_cases h4 : 4 ≤ m
  · obtain ⟨j, rfl⟩ : ∃ j, k = 2 + j := ⟨k - 2, by have := hamp h4; omega⟩
    exact pu_corners_grid2 self g frame j m partIdx xP yP nPSW nPSH hframe hN hF hk hkF hn ha
      haF hm h4 hm8 hpu hpos
  · obtain ⟨j, rfl⟩ : ∃ j, k = 1 + j := ⟨k - 1, by omega⟩
    exact pu_corners_grid1 self g frame j m partIdx xP yP nPSW nPSH hframe hN hF hk hkF hn ha
      haF hm (by omega) hpu hpos

theorem C36_pu_corner_units_witness :
    sampleAmpCU.getPartPosition 1 = (0, 16, 64, 48) ∧
    sampleAmpCU.deriveLeftRightTopIdx sampleGlobals 1
      = (unitOfPixel sampleGlobals 16 0 0 16, unitOfPixel sampleGlobals 16 0 63 16) ∧
    sampleAmpCU.deriveLeftBottomIdx sampleGlobals 1
      = some (unitOfPixel sampleGlobals 16 0 0 63) ∧
    sampleAmpCU.deriveRightBottomIdx sampleGlobals 1
      = some (unitOfPixel sampleGlobals 16 0 63 63) ∧
    unitOfPixel sampleGlobals 16 0 0 16 = 32 ∧ unitOfPixel sampleGlobals 16 0 63 16 = 117 ∧
    unitOfPixel sampleGlobals 16 0 0 63 = 170 ∧ unitOfPixel sampleGlobals 16 0 63 63 = 255 :=
  have h := C36_pu_corner_units sampleAmpCU sampleGlobals sampleFrame 4 4 1 0 16 64 48 rfl
    (by decide) (by decide) (by decide) (by decide) (by decide) (by decide) (by decide)
    (by decide) (by decide) (by decide) (by decide) (by decide) (by decide)
  ⟨by decide, h.1, h.2.1, h.2.2, by decide, by decide, by decide, by decide⟩

/-! ## C31: the left neighbour inside the CTU -/

theorem xor_mod_two_pow (x y n : Nat) : (x ^^^ y) % 2 ^ n = (x % 2 ^ n) ^^^ (y % 2 ^ n) := by
  apply Nat.eq_of_testBit_eq
  intro i
  simp only [Nat.testBit_mod_two_pow, Nat.testBit_xor]
  cases decide (i < n) <;> simp

theorem isZeroCol_eq (x F : Nat) (hF : F ≤ 31) :
    isZeroCol x (2 ^ F) = decide (x % 2 ^ F = 0) := by
  have h1 : 0 < 2 ^ F := Nat.two_pow_pos F
  have h2 : 2 ^ F ≤ 2 ^ 31 := Nat.pow_le_pow_right (by decide) hF
  unfold isZeroCol
  rw [sub32_one _ h1 (by omega), Nat.and_pow_two_sub_one_eq_mod]
  by_cases h : x % 2 ^ F = 0 <;> simp [h]

theorem isEqualCol_eq (x y F : Nat) (hF : F ≤ 31) :
    isEqualCol x y (2 ^ F) = decide (x % 2 ^ F = y % 2 ^ F) := by
  have h1 : 0 < 2 ^ F := Nat.two_pow_pos F
  have h2 : 2 ^ F ≤ 2 ^ 31 := Nat.pow_le_pow_right (by decide) hF
  unfold isEqualCol
  rw [sub32_one _ h1 (by omega), Nat.and_pow_two_sub_one_eq_mod, xor_mod_two_pow]
  by_cases h : x % 2 ^ F = y % 2 ^ F
  · simp [h]
  · have : ¬ ((x % 2 ^ F) ^^^ (y % 2 ^ F) = 0) := fun e => h (Nat.xor_eq_zero.mp e)
    simp [h, this]

/-- Column and row of the raster address of a z-scan index. -/
theorem g_zscanToRaster_mod_div (g : Globals) (z : Nat) :
    g_zscanToRaster g z % 2 ^ g.g_maxFullDepth = zscanCol g.g_maxFullDepth z ∧
    g_zscanToRaster g z / 2 ^ g.g_maxFullDepth = zscanRow g.g_maxFullDepth z := by
  unfold g_zscanToRaster
  have hc := zscanCol_lt g.g_maxFullDepth z
  have hpos : 0 < 2 ^ g.g_maxFullDepth := Nat.two_pow_pos _
  rw [Nat.mul_comm, Nat.mul_add_mod, Nat.mod_eq_of_lt hc, Nat.mul_add_div hpos,
    Nat.div_eq_of_lt hc, Nat.add_zero]
  exact ⟨rfl, rfl⟩

/-- C31: for a container that covers the aligned square node of `4 ^ k`
partitions at the CTU-relative index `m_absIdxInCTU`, and a partition index `p`
of the node whose raster address is not in column zero of the CTU: when `p` lies
in the leftmost column of the node, `getPULeft` returns the CTU-resident
container of this CTU with the index `g_rasterToZscan[raster(p) - 1]`; otherwise
it returns the container itself with the node-local index
`g_rasterToZscan[raster(p) - 1] - m_absIdxInCTU`, the subtraction does not
wrap, and the local index is below the partition count of the node. -/
theorem C31_getPULeft_in_node (self : CUData) (g : Globals) (frame : Frame) (k p : Nat)
    (hframe : self.m_frame = some frame)
    (hN : frame.m_numPartInCUSize = 2 ^ g.g_maxFullDepth) (hF : g.g_maxFullDepth ≤ 15)
    (hkF : k ≤ g.g_maxFullDepth) (hn : self.m_numPartitions = 4 ^ k)
    (ha : 4 ^ k ∣ self.m_absIdxInCTU) (haF : self.m_absIdxInCTU < 4 ^ g.g_maxFullDepth)
    (hpa : self.m_absIdxInCTU ≤ p) (hpn : p < self.m_absIdxInCTU + self.m_numPartitions)
    (hcol : g_zscanToRaster g p % frame.m_numPartInCUSize ≠ 0) :
    (g_zscanToRaster g p % frame.m_numPartInCUSize
        = g_zscanToRaster g self.m_absIdxInCTU % frame.m_numPartInCUSize →
      self.getPULeft g p
        = some (.picCTU self.m_cuAddr, g_rasterToZscan g (g_zscanToRaster g p - 1))) ∧
    (g_zscanToRaster g p % frame.m_numPartInCUSize
        ≠ g_zscanToRaster g self.m_absIdxInCTU % frame.m_numPartInCUSize →
      self.getPULeft g p
        = some (.thisCU, g_rasterToZscan g (g_zscanToRaster g p - 1) - self.m_absIdxInCTU) ∧
      self.m_absIdxInCTU ≤ g_rasterToZscan g (g_zscanToRaster g p - 1) ∧
      g_rasterToZscan g (g_zscanToRaster g p - 1) - self.m_absIdxInCTU
        < self.m_numPartitions) := by
  rw [hn] at hpn ⊢
  rw [hN] at hcol ⊢
  obtain ⟨a, haeq⟩ : ∃ a, self.m_absIdxInCTU = a := ⟨_, rfl⟩
  rw [haeq] at ha haF hpa hpn ⊢
  obtain ⟨r, rfl⟩ : ∃ r, p = a + r := ⟨p - a, by omega⟩
  have hr : r < 4 ^ k := by omega
  obtain ⟨hc, hw, -, -, hce, -⟩ := zscan_block_pos g.g_maxFullDepth k a r hkF ha hr
  obtain ⟨mp, dp⟩ := g_zscanToRaster_mod_div g (a + r)
  obtain ⟨ma, -⟩ := g_zscanToRaster_mod_div g a
  have hlim := block_end_le g.g_maxFullDepth k a hkF hF ha haF
  have hFpos : 0 < 2 ^ g.g_maxFullDepth := Nat.two_pow_pos _
  have hF2 : 2 ^ g.g_maxFullDepth ≤ 2 ^ 15 := Nat.pow_le_pow_right (by decide) hF
  have hcl := zscanCol_lt k r
  have hrl := zscanRow_lt g.g_maxFullDepth (a + r)
  rw [mp] at hcol
  -- the raster address is positive and below 2 ^ 30
  have hra : g_zscanToRaster g (a + r)
      = zscanRow g.g_maxFullDepth (a + r) * 2 ^ g.g_maxFullDepth
        + zscanCol g.g_maxFullDepth (a + r) := rfl
  have hpos : 0 < g_zscanToRaster g (a + r) := by
    rw [hra]
    omega
  have hlt : g_zscanToRaster g (a + r) < 2 ^ 30 := by
    have hcl2 := zscanCol_lt g.g_maxFullDepth (a + r)
    rw [hra]
    calc zscanRow g.g_maxFullDepth (a + r) * 2 ^ g.g_maxFullDepth
          + zscanCol g.g_maxFullDepth (a + r)
        < zscanRow g.g_maxFullDepth (a + r) * 2 ^ g.g_maxFullDepth + 2 ^ g.g_maxFullDepth := by
          omega
      _ = (zscanRow g.g_maxFullDepth (a + r) + 1) * 2 ^ g.g_maxFullDepth := by ring
      _ ≤ 2 ^ g.g_maxFullDepth * 2 ^ g.g_maxFullDepth := Nat.mul_le_mul_right _ hrl
      _ ≤ 2 ^ 15 * 2 ^ 15 := Nat.mul_le_mul hF2 hF2
      _ = 2 ^ 30 := by norm_num
  have hsub : sub32 (g_zscanToRaster g (a + r)) 1 = g_zscanToRaster g (a + r) - 1 :=
    sub32_one _ hpos (by omega)
  have hz : isZeroCol (g_zscanToRaster g (a + r)) (2 ^ g.g_maxFullDepth) = false := by
    rw [isZeroCol_eq _ _ (by omega), mp]
    exact decide_eq_false hcol
  have he : isEqualCol (g_zscanToRaster g (a + r)) (g_zscanToRaster g a)
      (2 ^ g.g_maxFullDepth)
      = decide (g_zscanToRaster g (a + r) % 2 ^ g.g_maxFullDepth
          = g_zscanToRaster g a % 2 ^ g.g_maxFullDepth) := isEqualCol_eq _ _ _ (by omega)
  have hget : self.getPULeft g (a + r)
      = if isEqualCol (g_zscanToRaster g (a + r)) (g_zscanToRaster g a)
          (2 ^ g.g_maxFullDepth)
        then some (.picCTU self.m_cuAddr, g_rasterToZscan g (g_zscanToRaster g (a + r) - 1))
        else some (.thisCU,
          sub32 (g_rasterToZscan g (g_zscanToRaster g (a + r) - 1)) a) := by
    unfold CUData.getPULeft
    simp only [hframe, hN, hz, hsub, haeq, Bool.not_false, if_true]
  rw [hget, he]
  refine ⟨fun h => by rw [decide_eq_true h, if_pos rfl], fun h => ?_⟩
  rw [decide_eq_false h, if_neg (by decide)]
  rw [mp, ma, hc] at h
  have hck : 0 < zscanCol k r := by omega
  have hstep := raster_step_block g k a (zscanCol k r - 1) (zscanRow k r) hkF ha haF
    (by omega) (zscanRow_lt k r)
  have hraa : g_zscanToRaster g a
      = zscanRow g.g_maxFullDepth a * 2 ^ g.g_maxFullDepth + zscanCol g.g_maxFullDepth a := rfl
  have hprev : g_zscanToRaster g (a + r) - 1
      = g_zscanToRaster g a + zscanRow k r * 2 ^ g.g_maxFullDepth + (zscanCol k r - 1) := by
    rw [hra, hraa, hc, hw, Nat.add_mul]
    omega
  rw [hprev, hstep]
  have ht := zscanOf_lt k (zscanCol k r - 1) (zscanRow k r)
  rw [sub32_small _ _ (by omega) (by omega), Nat.add_sub_cancel_left]
  exact ⟨rfl, by omega, ht⟩

theorem C31_getPULeft_in_node_witness :
    sampleNodeCU.getPULeft sampleGlobals 16 = some (.picCTU 3, 5) ∧
    sampleNodeCU.getPULeft sampleGlobals 17 = some (.thisCU, 0) ∧
    g_rasterToZscan sampleGlobals (g_zscanToRaster sampleGlobals 17 - 1) - 16 < 16 :=
  have h16 := C31_getPULeft_in_node sampleNodeCU sampleGlobals sampleFrame 2 16 rfl
    (by decide) (by decide) (by decide) (by decide) (by decide) (by decide) (by decide)
    (by decide) (by decide)
  have h17 := C31_getPULeft_in_node sampleNodeCU sampleGlobals sampleFrame 2 17 rfl
    (by decide) (by decide) (by decide) (by decide) (by decide) (by decide) (by decide)
    (by decide) (by decide)
  ⟨(h16.1 (by decide)).trans (by decide), ((h17.2 (by decide)).1).trans (by decide),
    (h17.2 (by decide)).2.2⟩

/-! ## C35: `setInterDirSubParts` covers the prediction unit -/

/-- A run of `memset` calls with one value: an address inside one of the ranges
holds the value afterwards, every other address keeps its byte. -/
theorem foldl_memset_apply {α : Type} (v : α) (b x : Nat) (L : List (Nat × Nat)) :
    ∀ mem : Nat → α,
      ((∃ r ∈ L, b + r.1 ≤ x ∧ x < b + r.1 + r.2) →
        (L.foldl (fun m r => memset m (b + r.1) v r.2) mem) x = v) ∧
      ((∀ r ∈ L, ¬ (b + r.1 ≤ x ∧ x < b + r.1 + r.2)) →
        (L.foldl (fun m r => memset m (b + r.1) v r.2) mem) x = mem x) := by
  induction L with
  | nil =>
    intro mem
    exact ⟨fun ⟨r, hr, _⟩ => absurd hr (List.not_mem_nil r), fun _ => rfl⟩
  | cons r0 L ih =>
    intro mem
    obtain ⟨ih1, ih2⟩ := ih (memset mem (b + r0.1) v r0.2)
    rw [List.foldl_cons]
    constructor
    · rintro ⟨r, hr, hx⟩
      by_cases hL : ∃ r ∈ L, b + r.1 ≤ x ∧ x < b + r.1 + r.2
      · exact ih1 hL
      · have hnone : ∀ r ∈ L, ¬ (b + r.1 ≤ x ∧ x < b + r.1 + r.2) :=
          fun r hr hx => hL ⟨r, hr, hx⟩
        rw [ih2 hnone]
        rcases List.mem_cons.mp hr with rfl | hr2
        · exact memset_in _ _ _ _ _ hx.1 hx.2
        · exact absurd hx (hnone r hr2)
    · intro hnone
      rw [ih2 (fun r hr => hnone r (List.mem_cons_of_mem _ hr))]
      have h0 := hnone r0 (List.mem_cons_self _ _)
      exact memset_out _ _ _ _ _ (by omega)

/-- An index lies in a range of whole cells of `N` partitions exactly when its cell does. -/
theorem cell_range (N A B z : Nat) (hN : 0 < N) :
    (A * N ≤ z ∧ z < B * N) ↔ (A ≤ z / N ∧ z / N < B) := by
  rw [Nat.le_div_iff_mul_le hN, Nat.div_lt_iff_lt_mul hN]

/-- The position, in pixels from the first unit of the aligned block at `base`, of
the unit of a partition of the block. -/
theorem pel_in_block (g : Globals) (k base z : Nat) (hk : k ≤ g.g_maxFullDepth)
    (hb : 4 ^ k ∣ base) (hz : z < 4 ^ k) :
    g_zscanToPelX g (base + z) - g_zscanToPelX g base = 4 * zscanCol k z ∧
    g_zscanToPelY g (base + z) - g_zscanToPelY g base = 4 * zscanRow k z := by
  obtain ⟨hc, hr, -⟩ := zscan_block_pos g.g_maxFullDepth k base z hk hb hz
  unfold g_zscanToPelX g_zscanToPelY LOG2_UNIT_SIZE
  simp only [Nat.shiftLeft_eq]
  rw [hc, hr]
  omega

/-- A span of whole grid cells, in pixels, holds the unit `S * c + t` (`t < S`) of a
row or column exactly when it holds the cell `c`. -/
theorem cell_span (S gx gw c t : Nat) (ht : t < S) :
    (gx * (4 * S) ≤ 4 * (S * c + t) ∧ 4 * (S * c + t) < gx * (4 * S) + gw * (4 * S))
      ↔ (gx ≤ c ∧ c < gx + gw) := by
  have hS : 0 < S := by omega
  have e1 : gx * (4 * S) = 4 * (gx * S) := by ring
  have e2 : gx * (4 * S) + gw * (4 * S) = 4 * ((gx + gw) * S) := by ring
  have hdiv : (S * c + t) / S = c := by
    rw [Nat.mul_add_div hS, Nat.div_eq_of_lt ht, Nat.add_zero]
  have h := cell_range S gx (gx + gw) (S * c + t) hS
  rw [hdiv] at h
  rw [e2, e1, ← h]
  constructor
  · rintro ⟨h1, h2⟩
    exact ⟨by omega, by omega⟩
  · rintro ⟨h1, h2⟩
    exact ⟨by omega, by omega⟩

/-- Ranges of whole cells written over an aligned block of `4 ^ (d + j)` partitions,
compared cell by cell with a rectangle of cells of the `2 ^ d` by `2 ^ d` grid. -/
theorem cover_grid {α : Type} (g : Globals) (d j base addr gx gy gw gh ptr : Nat)
    (Lc : List (Nat × Nat)) (v : α) (mem : Nat → α)
    (hk : d + j ≤ g.g_maxFullDepth) (hb : 4 ^ (d + j) ∣ base)
    (hin : ∀ r ∈ Lc, addr + r.1 + r.2 ≤ 4 ^ d)
    (hcell : ∀ s, s < 4 ^ d →
      ((∃ r ∈ Lc, addr + r.1 ≤ s ∧ s < addr + r.1 + r.2) ↔
        (gx ≤ zscanCol d s ∧ zscanCol d s < gx + gw ∧
          gy ≤ zscanRow d s ∧ zscanRow d s < gy + gh)))
    (p : Nat) :
    ((base ≤ p ∧ p < base + 4 ^ (d + j) ∧
        inPU (gx * (4 * 2 ^ j), gy * (4 * 2 ^ j), gw * (4 * 2 ^ j), gh * (4 * 2 ^ j))
          (g_zscanToPelX g p - g_zscanToPelX g base)
          (g_zscanToPelY g p - g_zscanToPelY g base)) →
      ((Lc.map (fun r => (r.1 * 4 ^ j, r.2 * 4 ^ j))).foldl
        (fun m r => memset m (ptr + (base + addr * 4 ^ j) + r.1) v r.2) mem) (ptr + p) = v) ∧
    (¬ (base ≤ p ∧ p < base + 4 ^ (d + j) ∧
        inPU (gx * (4 * 2 ^ j), gy * (4 * 2 ^ j), gw * (4 * 2 ^ j), gh * (4 * 2 ^ j))
          (g_zscanToPelX g p - g_zscanToPelX g base)
          (g_zscanToPelY g p - g_zscanToPelY g base)) →
      ((Lc.map (fun r => (r.1 * 4 ^ j, r.2 * 4 ^ j))).foldl
        (fun m r => memset m (ptr + (base + addr * 4 ^ j) + r.1) v r.2) mem) (ptr + p)
        = mem (ptr + p)) := by
  have hN : 0 < 4 ^ j := Nat.pos_pow_of_pos j (by decide)
  have hS : 0 < 2 ^ j := Nat.two_pow_pos j
  have hp4 : (4 : Nat) ^ (d + j) = 4 ^ d * 4 ^ j := pow_add 4 d j
  -- the covering condition, cell by cell
  have hcov : (∃ r ∈ Lc.map (fun r => (r.1 * 4 ^ j, r.2 * 4 ^ j)),
        ptr + (base + addr * 4 ^ j) + r.1 ≤ ptr + p ∧
        ptr + p < ptr + (base + addr * 4 ^ j) + r.1 + r.2) ↔
      (base ≤ p ∧ ∃ r ∈ Lc, addr + r.1 ≤ (p - base) / 4 ^ j ∧
        (p - base) / 4 ^ j < addr + r.1 + r.2) := by
    constructor
    · rintro ⟨r, hr, h1, h2⟩
      obtain ⟨rc, hrc, rfl⟩ := List.mem_map.mp hr
      dsimp only at h1 h2
      have hbp : base ≤ p := by omega
      refine ⟨hbp, rc, hrc, ?_⟩
      rw [← cell_range (4 ^ j) (addr + rc.1) (addr + rc.1 + rc.2) (p - base) hN]
      rw [Nat.add_mul, Nat.add_mul, Nat.add_mul]
      omega
    · rintro ⟨hbp, rc, hrc, h⟩
      rw [← cell_range (4 ^ j) (addr + rc.1) (addr + rc.1 + rc.2) (p - base) hN] at h
      rw [Nat.add_mul, Nat.add_mul, Nat.add_mul] at h
      refine ⟨(rc.1 * 4 ^ j, rc.2 * 4 ^ j), List.mem_map.mpr ⟨rc, hrc, rfl⟩, ?_⟩
      dsimp only
      omega
  -- the rectangle condition, cell by cell
  have hrect : (base ≤ p ∧ p < base + 4 ^ (d + j) ∧
        inPU (gx * (4 * 2 ^ j), gy * (4 * 2 ^ j), gw * (4 * 2 ^ j), gh * (4 * 2 ^ j))
          (g_zscanToPelX g p - g_zscanToPelX g base)
          (g_zscanToPelY g p - g_zscanToPelY g base)) ↔
      (base ≤ p ∧ ∃ r ∈ Lc, addr + r.1 ≤ (p - base) / 4 ^ j ∧
        (p - base) / 4 ^ j < addr + r.1 + r.2) := by
    by_cases hbp : base ≤ p
    swap
    · exact ⟨fun h => absurd h.1 hbp, fun h => absurd h.1 hbp⟩
    obtain ⟨z, rfl⟩ : ∃ z, p = base + z := ⟨p - base, by omega⟩
    rw [Nat.add_sub_cancel_left]
    by_cases hz : z < 4 ^ (d + j)
    swap
    · refine ⟨fun h => absurd h.2.1 (by omega), ?_⟩
      rintro ⟨-, r, hr, h1, h2⟩
      have := hin r hr
      have hzd : 4 ^ d ≤ z / 4 ^ j := by
        rw [Nat.le_div_iff_mul_le hN, ← hp4]
        omega
      omega
    have hs : z / 4 ^ j < 4 ^ d := by
      rw [Nat.div_lt_iff_lt_mul hN, ← hp4]
      exact hz
    obtain ⟨px, py⟩ := pel_in_block g (d + j) base z hk hb hz
    rw [px, py, zscanCol_split d j z, zscanRow_split d j z]
    unfold inPU
    dsimp only
    have hx := cell_span (2 ^ j) gx gw (zscanCol d (z / 4 ^ j)) (zscanCol j (z % 4 ^ j))
      (zscanCol_lt j _)
    have hy := cell_span (2 ^ j) gy gh (zscanRow d (z / 4 ^ j)) (zscanRow j (z % 4 ^ j))
      (zscanRow_lt j _)
    constructor
    · rintro ⟨-, -, c1, c2, c3, c4⟩
      obtain ⟨h1, h2⟩ := hx.mp ⟨c1, c2⟩
      obtain ⟨h3, h4⟩ := hy.mp ⟨c3, c4⟩
      exact ⟨hbp, (hcell _ hs).mpr ⟨h1, h2, h3, h4⟩⟩
    · rintro ⟨-, hex⟩
      obtain ⟨h1, h2, h3, h4⟩ := (hcell _ hs).mp hex
      obtain ⟨c1, c2⟩ := hx.mpr ⟨h1, h2⟩
      obtain ⟨c3, c4⟩ := hy.mpr ⟨h3, h4⟩
      exact ⟨hbp, by omega, c1, c2, c3, c4⟩
  obtain ⟨f1, f2⟩ := foldl_memset_apply v (ptr + (base + addr * 4 ^ j)) (ptr + p)
    (Lc.map (fun r => (r.1 * 4 ^ j, r.2 * 4 ^ j))) mem
  refine ⟨fun h => f1 (hcov.mpr (hrect.mp h)), fun h => f2 ?_⟩
  intro r hr hx
  exact h (hrect.mpr (hcov.mp ⟨r, hr, hx⟩))

theorem interDirRuns_scale4 (m puIdx N : Nat) (hm8 : m < 8) (hN : 16 * N ≤ 2 ^ 30) :
    interDirRuns m puIdx (4 * N)
      = (interDirRuns m puIdx 4).map (fun r => (r.1 * N, r.2 * N)) := by
  have hs1 : (4 * N) >>> 1 = 2 * N := by rw [Nat.shiftRight_eq_div_pow]; omega
  have hs2 : (4 * N) >>> 2 = N := by rw [Nat.shiftRight_eq_div_pow]; omega
  have hl1 : (4 * N) <<< 1 = 8 * N := by rw [Nat.shiftLeft_eq]; omega
  have c1 : (4 : Nat) >>> 1 = 2 := by decide
  have c2 : (4 : Nat) >>> 2 = 1 := by decide
  have c3 : (4 : Nat) <<< 1 = 8 := by decide
  by_cases hp : puIdx = 0 <;>
  interval_cases m <;>
    (simp only [interDirRuns, SIZE_2Nx2N, SIZE_2NxN, SIZE_Nx2N, SIZE_NxN, SIZE_2NxnU,
       SIZE_2NxnD, SIZE_nLx2N, SIZE_nRx2N, hs1, hs2, hl1, c1, c2, c3, hp]
     simp (disch := omega) [u32_small] <;> omega)

theorem interDirRuns_scale1 (m puIdx N : Nat) (hm4 : m < 4) (hN : 4 * N ≤ 2 ^ 30) :
    interDirRuns m puIdx N
      = (interDirRuns m puIdx 1).map (fun r => (r.1 * N, r.2 * N)) := by
  interval_cases m <;>
    (simp only [interDirRuns, SIZE_2Nx2N, SIZE_2NxN, SIZE_Nx2N, SIZE_NxN, SIZE_2NxnU,
       SIZE_2NxnD, SIZE_nLx2N, SIZE_nRx2N]
     simp (disch := omega) [u32_small])

theorem interDirRuns_cells4 :
    ∀ m ∈ List.range 8, ∀ pu ∈ List.range 4, pu < puCount m →
      (∀ r ∈ interDirRuns m pu 4, partAddrTable m pu + r.1 + r.2 ≤ 4 ^ 2) ∧
      ∀ s ∈ List.range 16,
        ((∃ r ∈ interDirRuns m pu 4,
            partAddrTable m pu + r.1 ≤ s ∧ s < partAddrTable m pu + r.1 + r.2) ↔
          (partTable m pu 1 / 16 ≤ zscanCol 2 s ∧
            zscanCol 2 s < partTable m pu 1 / 16 + partTable m pu 0 / 16 ∧
            partTable m pu 1 % 16 ≤ zscanRow 2 s ∧
            zscanRow 2 s < partTable m pu 1 % 16 + partTable m pu 0 % 16)) := by
  decide

theorem interDirRuns_cells1 :
    ∀ m ∈ List.range 4, ∀ pu ∈ List.range 4, pu < puCount m →
      partAddrTable m pu = 4 * (partAddrTable m pu / 4) ∧
      (∀ r ∈ interDirRuns m pu 1, partAddrTable m pu / 4 + r.1 + r.2 ≤ 4 ^ 1) ∧
      ∀ s ∈ List.range 4,
        ((∃ r ∈ interDirRuns m pu 1,
            partAddrTable m pu / 4 + r.1 ≤ s ∧ s < partAddrTable m pu / 4 + r.1 + r.2) ↔
          (partTable m pu 1 / 16 / 2 ≤ zscanCol 1 s ∧
            zscanCol 1 s < partTable m pu 1 / 16 / 2 + partTable m pu 0 / 16 / 2 ∧
            partTable m pu 1 % 16 / 2 ≤ zscanRow 1 s ∧
            zscanRow 1 s < partTable m pu 1 % 16 / 2 + partTable m pu 0 % 16 / 2)) := by
  decide

theorem partAddrTable_le : ∀ m ∈ List.range 8, ∀ pu ∈ List.range 4, partAddrTable m pu ≤ 12 := by
  decide

theorem curPartNumQ_eq (g : Globals) (depth k : Nat) (hF : g.g_maxFullDepth ≤ 14)
    (hd : depth + k = g.g_maxFullDepth) (hk1 : 1 ≤ k) :
    (NUM_CU_PARTITIONS g >>> u32 (2 * depth)) >>> 2 = 4 ^ (k - 1) := by
  obtain ⟨t, rfl⟩ : ∃ t, k = t + 1 := ⟨k - 1, by omega⟩
  have h2 : (2 : Nat) ^ (g.g_maxFullDepth * 2) ≤ 2 ^ 28 :=
    Nat.pow_le_pow_right (by decide) (by omega)
  have hu : u32 (2 * depth) = 2 * depth := u32_small _ (by omega)
  unfold NUM_CU_PARTITIONS
  rw [Nat.one_shiftLeft, Nat.shiftLeft_eq, pow_one, u32_small _ (by omega), hu,
    Nat.shiftRight_eq_div_pow, Nat.shiftRight_eq_div_pow, Nat.div_div_eq_div_mul, ← pow_add,
    Nat.pow_div (by omega) (by decide), Nat.add_sub_cancel]
  have e : g.g_maxFullDepth * 2 - (2 * depth + 2) = 2 * t := by omega
  rw [e, pow_mul]
  rfl

theorem setInterDirSubParts_get (self : CUData) (g : Globals) (dir absPartIdx puIdx depth : Nat)
    (m q p : Nat) (hm : (self.get .partSizes absPartIdx).val = m)
    (hq : (NUM_CU_PARTITIONS g >>> u32 (2 * depth)) >>> 2 = q) :
    (self.setInterDirSubParts g dir absPartIdx puIdx depth).get .interDir p
      = ((interDirRuns m puIdx q).foldl
          (fun mem r => memset mem (self.m_interDir + absPartIdx + r.1) (u8 dir) r.2)
          self.charMemBlock) (self.m_interDir + p) := by
  unfold CUData.setInterDirSubParts
  simp only [hm, hq]
  rfl

/-- C35: for a CU of `4 ^ k` partitions at the aligned index `base` (`k ≥ 1`, and
`k ≥ 2` for the asymmetric modes), whose mode `m` is stored at `absPartIdx`, and a
prediction unit `puIdx` of that mode with `absPartIdx` equal to `base` plus the
unit address of `getPartIndexAndSize`: after `setInterDirSubParts` the entry
`m_interDir[p]` holds `dir` for every partition `p` of the CU whose 4x4 unit
lies inside the rectangle `getPartPosition` gives for the unit, and every other
entry of `m_interDir` is unchanged. The container `cu` is the one that covers
the CU (entry 0 holds its mode and size); it may be `self`. -/
theorem C35_setInterDirSubParts_covers (self cu : CUData) (g : Globals)
    (k m dir absPartIdx puIdx depth base p : Nat)
    (hF : g.g_maxFullDepth ≤ 14) (hd : depth + k = g.g_maxFullDepth) (hk1 : 1 ≤ k)
    (hb : 4 ^ k ∣ base)
    (hm : (self.get .partSizes absPartIdx).val = m) (hm8 : m < 8) (hamp : 4 ≤ m → 2 ≤ k)
    (hpu : puIdx < puCount m)
    (hcuL : (cu.get .log2CUSize 0).val = k + 2) (hcuM : (cu.get .partSizes 0).val = m)
    (hcuN : cu.m_numPartitions = 4 ^ k)
    (habs : absPartIdx = base + (cu.getPartIndexAndSize puIdx).1) :
    ((base ≤ p ∧ p < base + 4 ^ k ∧
        inPU (cu.getPartPosition puIdx) (g_zscanToPelX g p - g_zscanToPelX g base)
          (g_zscanToPelY g p - g_zscanToPelY g base)) →
      (self.setInterDirSubParts g dir absPartIdx puIdx depth).get .interDir p = u8 dir) ∧
    (¬ (base ≤ p ∧ p < base + 4 ^ k ∧
        inPU (cu.getPartPosition puIdx) (g_zscanToPelX g p - g_zscanToPelX g base)
          (g_zscanToPelY g p - g_zscanToPelY g base)) →
      (self.setInterDirSubParts g dir absPartIdx puIdx depth).get .interDir p
        = self.get .interDir p) := by
  have hq := curPartNumQ_eq g depth k hF hd hk1
  have hpu4 : puIdx < 4 := lt_of_lt_of_le hpu (puCount_le m)
  have hA := partAddrTable_le m (List.mem_range.mpr hm8) puIdx (List.mem_range.mpr hpu4)
  have hk4 : (4 : Nat) ^ k ≤ 4 ^ 14 := Nat.pow_le_pow_right (by decide) (by omega)
  have haddr : (cu.getPartIndexAndSize puIdx).1 = (partAddrTable m puIdx * 4 ^ k) / 16 := by
    unfold CUData.getPartIndexAndSize
    simp only [hcuM, hcuN]
    have hlt : partAddrTable m puIdx * 4 ^ k < 2 ^ 32 :=
      calc partAddrTable m puIdx * 4 ^ k ≤ 12 * 4 ^ 14 := Nat.mul_le_mul hA hk4
        _ < 2 ^ 32 := by norm_num
    rw [u32_small _ hlt, Nat.shiftRight_eq_div_pow]
  rw [getPartPosition_eq cu _ m puIdx hcuL (by omega) hcuM, Nat.add_sub_cancel,
    setInterDirSubParts_get self g dir absPartIdx puIdx depth m _ p hm hq, habs, haddr]
  by_cases h4 : 4 ≤ m
  · obtain ⟨j, rfl⟩ : ∃ j, k = 2 + j := ⟨k - 2, by have := hamp h4; omega⟩
    obtain ⟨hin, hcell⟩ := interDirRuns_cells4 m (List.mem_range.mpr hm8) puIdx
      (List.mem_range.mpr hpu4) hpu
    have hN : 16 * 4 ^ j ≤ 2 ^ 30 := by
      have : (4 : Nat) ^ (2 + j) = 16 * 4 ^ j := by rw [pow_add]; rfl
      omega
    have e1 : (4 : Nat) ^ (2 + j - 1) = 4 * 4 ^ j := by
      have : 2 + j - 1 = 1 + j := by omega
      rw [this, pow_add]
      rfl
    have e2 : partAddrTable m puIdx * 4 ^ (2 + j) / 16 = partAddrTable m puIdx * 4 ^ j := by
      have : partAddrTable m puIdx * 4 ^ (2 + j) = 16 * (partAddrTable m puIdx * 4 ^ j) := by
        rw [pow_add]
        ring
      omega
    have e3 : (2 : Nat) ^ (2 + j) = 4 * 2 ^ j := by rw [pow_add]; rfl
    rw [e1, e2, e3, interDirRuns_scale4 m puIdx _ hm8 hN]
    exact cover_grid g 2 j base (partAddrTable m puIdx) _ _ _ _ self.m_interDir _ (u8 dir)
      self.charMemBlock (by omega) hb hin
      (fun s hs => hcell s (List.mem_range.mpr hs)) p
  · have hm4 : m < 4 := by omega
    obtain ⟨j, rfl⟩ : ∃ j, k = 1 + j := ⟨k - 1, by omega⟩
    obtain ⟨hA4, hin, hcell⟩ := interDirRuns_cells1 m (List.mem_range.mpr hm4) puIdx
      (List.mem_range.mpr hpu4) hpu
    obtain ⟨v1, v2, v3, v4⟩ := partTable_halves m hm4 puIdx hpu4 hpu
    have hN : 4 * 4 ^ j ≤ 2 ^ 30 := by
      have : (4 : Nat) ^ (1 + j) = 4 * 4 ^ j := by rw [pow_add]; rfl
      omega
    have e1 : (4 : Nat) ^ (1 + j - 1) = 4 ^ j := by rw [Nat.add_sub_cancel_left]
    have e2 : partAddrTable m puIdx * 4 ^ (1 + j) / 16
        = (partAddrTable m puIdx / 4) * 4 ^ j := by
      have : partAddrTable m puIdx * 4 ^ (1 + j)
          = 16 * ((partAddrTable m puIdx / 4) * 4 ^ j) := by
        rw [pow_add]
        nth_rewrite 1 [hA4]
        ring
      omega
    have e3 : ∀ q h : Nat, q = 2 * h → q * 2 ^ (1 + j) = h * (4 * 2 ^ j) := fun q h e => by
      rw [e, pow_add]
      ring
    rw [e1, e2, e3 _ _ v1, e3 _ _ v2, e3 _ _ v3, e3 _ _ v4,
      interDirRuns_scale1 m puIdx _ hm4 hN]
    exact cover_grid g 1 j base (partAddrTable m puIdx / 4) _ _ _ _ self.m_interDir _ (u8 dir)
      self.charMemBlock (by omega) hb hin
      (fun s hs => hcell s (List.mem_range.mpr hs)) p

theorem C35_setInterDirSubParts_covers_witness :
    sampleInterCU.getPartPosition 1 = (16, 0, 48, 64) ∧
    (sampleInterCU.getPartIndexAndSize 1).1 = 16 ∧
    (sampleInterCU.setInterDirSubParts sampleGlobals 1 16 1 0).get .interDir 16 = u8 1 ∧
    (sampleInterCU.setInterDirSubParts sampleGlobals 1 16 1 0).get .interDir 0
      = sampleInterCU.get .interDir 0 :=
  ⟨by decide, by decide,
    (C35_setInterDirSubParts_covers sampleInterCU sampleInterCU sampleGlobals 4 6 1 16 1 0 0 16
      (by decide) (by decide) (by decide) (by decide) (by decide) (by decide) (by decide)
      (by decide) (by decide) (by decide) (by decide) (by decide)).1
      ⟨by decide, by decide, by decide, by decide, by decide, by decide⟩,
    (C35_setInterDirSubParts_covers sampleInterCU sampleInterCU sampleGlobals 4 6 1 16 1 0 0 0
      (by decide) (by decide) (by decide) (by decide) (by decide) (by decide) (by decide)
      (by decide) (by decide) (by decide) (by decide) (by decide)).2
      (fun h => absurd h.2.2.1 (by decide))⟩

end X265
